import Mathlib

/-!
# Buddy allocator: shallow embedding of `src.cpp`

The allocator of `src.cpp` is embedded as pure functions over an explicit
`State` (the globals of the program plus the byte memory).

Conventions of the embedding:

* C `int`, `uint32_t` and pointers are `Int`; a byte is a `Nat` read modulo 256.
  The general theorems below are stated for pools of at most `2 ^ 30` bytes, where
  no `int` computation of the program overflows. For larger sizes only the shift
  `1 << 31` is modelled: it gives `-2147483648`, the value with the sign bit set.
* `a / b` and `a % b` are only ever evaluated by the program on a non-negative
  dividend and a positive divisor, where C's truncating operators and Lean's
  `/`, `%` on `Int` agree; `num >>= 1` is floor division by two.
* An operation returns `none` when the C program has no defined result there:
  a shift by a negative count, an index outside `g_freeBlocks[0 .. 31]`, or a
  loop that does not stop within its step budget.
* `Block` is laid out as on an LP64 target: `size` is the little-endian 32-bit
  word at offset 0 and `next` the little-endian 64-bit word at offset 8.
-/

namespace Buddy

/-! ## Constants and state -/

/-- Max number of buddy levels. -/
def MAX_LEVELS : Int := 32
/-- Min size of one buddy system block (in bytes). -/
def MIN_SIZE : Int := 16
/-- The value log2(MIN_SIZE). -/
def MIN_SIZE_LOG : Int := 4

/-- Byte-addressed memory; the byte at `a` is `m a % 256`. -/
abbrev Mem := Int → Nat

/-- The globals of the allocator together with the memory. -/
structure State where
  g_freeBlocks : Int → Int
  g_levelsNum : Int
  g_memStart : Int
  g_end : Int
  g_buddyStart : Int
  g_metaStart : Int
  g_metaSplitStart : Int
  g_memSize : Int
  g_buddySize : Int
  g_metaSize : Int
  g_blocksPending : Int
  mem : Mem

/-! ## Memory access -/

def readU8 (m : Mem) (a : Int) : Nat := m a % 256

def writeU8 (m : Mem) (a : Int) (v : Nat) : Mem :=
  fun x => if x = a then v % 256 else m x

def readU32 (m : Mem) (a : Int) : Nat :=
  readU8 m a + 256 * readU8 m (a + 1) + 65536 * readU8 m (a + 2) + 16777216 * readU8 m (a + 3)

def writeU32 (m : Mem) (a : Int) (v : Nat) : Mem :=
  fun x => if a ≤ x ∧ x < a + 4 then (v / 256 ^ (x - a).toNat) % 256 else m x

def readU64 (m : Mem) (a : Int) : Nat :=
  readU32 m a + 4294967296 * readU32 m (a + 4)

def writeU64 (m : Mem) (a : Int) (v : Nat) : Mem :=
  fun x => if a ≤ x ∧ x < a + 8 then (v / 256 ^ (x - a).toNat) % 256 else m x

/-- The call `memset(a, fill, n)`. -/
def memset (m : Mem) (a : Int) (fill : Nat) (n : Int) : Mem :=
  fun x => if a ≤ x ∧ x < a + n then fill % 256 else m x

/-- Field `block->size`. -/
def blockSize (m : Mem) (block : Int) : Int := (readU32 m block : Int)

/-- Assignment `block->size = v` (a `uint32_t`). -/
def setBlockSize (m : Mem) (block : Int) (v : Int) : Mem :=
  writeU32 m block (v % 4294967296).toNat

/-- Field `block->next`. -/
def blockNext (m : Mem) (block : Int) : Int := (readU64 m (block + 8) : Int)

/-- Assignment `block->next = p`. -/
def setBlockNext (m : Mem) (block : Int) (p : Int) : Mem :=
  writeU64 m (block + 8) (p % 18446744073709551616).toNat

/-! ## MathBuddy -/

/-- The loop `while (num >>= 1) { res++; perfect = ...; }` of `Log2Int`. -/
def Log2IntLoop : Nat → Int → Int → Bool → Option Int
  | 0, _, _, _ => none
  | fuel + 1, num, res, perfect =>
    let num1 := num / 2
    if num1 = 0 then some (if perfect then res else res + 1)
    else Log2IntLoop fuel num1 (res + 1) (perfect && (num1 % 2 == 0 || num1 == 1))

/-- Counts log2 of an integer, rounds to the ceiling. -/
def Log2Int (num : Int) : Option Int :=
  Log2IntLoop 32 num 0 (num % 2 == 0 || num == 1)

/-- Simple power of 2 function for integers: `1 << num` on the 32-bit `int`. The
shift `1 << 31` sets the sign bit and gives `-2147483648`; a count outside `0 .. 31`
has no defined result. -/
def Pow2Int (num : Int) : Option Int :=
  if 0 ≤ num ∧ num < 31 then some (2 ^ num.toNat)
  else if num = 31 then some (-2147483648)
  else none

/-- The loop of `MaxBlockSizeByAddr`. -/
def MaxBlockSizeByAddrLoop : Nat → Int → Int → Option Int
  | 0, _, _ => none
  | fuel + 1, num, div =>
    if num % 2 = 0 then MaxBlockSizeByAddrLoop fuel (num / 2) (div * 2) else some div

/-- Returns max size of a block (in bytes) which can begin on specified address. -/
def MaxBlockSizeByAddr (num : Int) : Option Int :=
  MaxBlockSizeByAddrLoop 32 num 1

def ExpToLevel (exp : Int) : Int := MAX_LEVELS + MIN_SIZE_LOG - exp - 1

/-- Gets index of a left child in the buddy tree. -/
def ChildIndex (index : Int) : Int := ((index + 1) * 2) - 1

/-- Counts number of levels the buddy allocator will use. -/
def LevelsNeeded (size : Int) : Option Int :=
  match Log2Int (size / MIN_SIZE) with
  | none => none
  | some l => some (l + 1)

/-- Count size of one block (in bytes) on specified buddy level. -/
def LevelToSize (level : Int) : Option Int :=
  Pow2Int (MAX_LEVELS + MIN_SIZE_LOG - level - 1)

/-- Counts level of a block based on its size. -/
def SizeToLevel (size : Int) : Option Int :=
  match Log2Int size with
  | none => none
  | some l => some (MAX_LEVELS + MIN_SIZE_LOG - l - 1)

/-- Counts index of a first (theoretical) block on specified level. -/
def IndexOfLevel (σ : State) (level : Int) : Option Int :=
  match Pow2Int (level - MAX_LEVELS + σ.g_levelsNum) with
  | none => none
  | some p => some (p - 1)

/-- The default argument `level = -1`: the actual level of the block is used. -/
def levelOrActual (σ : State) (block level : Int) : Option Int :=
  if level = -1 then SizeToLevel (blockSize σ.mem block) else some level

/-- Counts index of a block within specified level. -/
def IndexWithinLevel (σ : State) (block : Int) (level : Int) : Option Int :=
  match levelOrActual σ block level with
  | none => none
  | some level =>
    let offset := block - σ.g_buddyStart
    match LevelToSize level with
    | none => none
    | some sz => some (offset / sz)

/-- Counts unique identifier of a block on specified level. -/
def IndexGlobal (σ : State) (block : Int) (level : Int) : Option Int :=
  match levelOrActual σ block level with
  | none => none
  | some level =>
    match IndexOfLevel σ level with
    | none => none
    | some a =>
      match IndexWithinLevel σ block level with
      | none => none
      | some b => some (a + b)

/-- Floor of the binary logarithm, by repeated halving. -/
def floorLog2 : Nat → Nat → Nat
  | 0, _ => 0
  | fuel + 1, n => if n < 2 then 0 else floorLog2 fuel (n / 2) + 1

/-- Returns level of a block with specified global index; `(int)log2(index + 1)` of
the source is the floor of the binary logarithm. -/
def IndexGlobalToLevel (σ : State) (index : Int) : Int :=
  let lg : Int := (floorLog2 64 (index + 1).toNat : Nat)
  MAX_LEVELS - σ.g_levelsNum + lg

/-- Finds block's buddy, returns nullptr (0) when the buddy is off the bounds. -/
def FindBuddy (σ : State) (block : Int) (level : Int) : Option Int :=
  match levelOrActual σ block level with
  | none => none
  | some level =>
    match IndexWithinLevel σ block level with
    | none => none
    | some index =>
      if index % 2 = 0 then
        let addr := block + blockSize σ.mem block
        if addr + blockSize σ.mem block > σ.g_end then some 0 else some addr
      else
        let addr := block - blockSize σ.mem block
        if addr < σ.g_memStart then some 0 else some addr

/-! ## Free lists -/

/-- Gets allocator ready for the next run. -/
def ResetAllocator (σ : State) : State :=
  { g_freeBlocks := fun _ => 0, g_levelsNum := 0, g_memStart := 0, g_end := 0,
    g_buddyStart := 0, g_metaStart := 0, g_metaSplitStart := 0, g_memSize := 0,
    g_buddySize := 0, g_metaSize := 0, g_blocksPending := 0, mem := σ.mem }

/-- Read of `g_freeBlocks[level]`. -/
def getFree (σ : State) (level : Int) : Option Int :=
  if 0 ≤ level ∧ level < MAX_LEVELS then some (σ.g_freeBlocks level) else none

/-- Assignment `g_freeBlocks[level] = block`. -/
def setFree (σ : State) (level : Int) (block : Int) : Option State :=
  if 0 ≤ level ∧ level < MAX_LEVELS then
    some { σ with g_freeBlocks := fun l => if l = level then block else σ.g_freeBlocks l }
  else none

/-- Adds free memory block to corresponding linked list (based on the level). -/
def AddFree (σ : State) (block : Int) (level : Int) : Option State :=
  if block = 0 then some σ
  else
    match getFree σ level with
    | none => none
    | some former =>
      match setFree σ level block with
      | none => none
      | some σ1 => some { σ1 with mem := setBlockNext σ1.mem block former }

/-- The loop `while (tmp)` of `RemoveFree`. -/
def RemoveFreeLoop : Nat → State → Int → Int → Option (State × Bool)
  | 0, _, _, _ => none
  | fuel + 1, σ, block, tmp =>
    if tmp = 0 then some (σ, false)
    else if block = blockNext σ.mem tmp then
      some ({ σ with mem := setBlockNext σ.mem tmp (blockNext σ.mem block) }, true)
    else RemoveFreeLoop fuel σ block (blockNext σ.mem tmp)

/-- Tries to remove a block from a corresponding linked list; returns success. -/
def RemoveFree (σ : State) (block : Int) (level : Int) : Option (State × Bool) :=
  match getFree σ level with
  | none => none
  | some tmp =>
    if tmp = 0 then some (σ, false)
    else if tmp = block then
      match setFree σ level (blockNext σ.mem tmp) with
      | none => none
      | some σ1 => some (σ1, true)
    else RemoveFreeLoop ((σ.g_buddySize / MIN_SIZE).toNat + 1) σ block tmp

/-! ## Bitmaps -/

/-- Returns a number with last `n` bits set to 1, rest to 0 (`0 ≤ n ≤ 8`). -/
def GetOnes (n : Int) : Nat := (255 >>> (8 - n).toNat) % 256

/-- Returns a number with last `n` bits set to 0, rest to 1 (`0 ≤ n ≤ 8`). -/
def GetZeros (n : Int) : Nat := (255 <<< n.toNat) % 256

/-- Generates a mask with all 0 bits and one 1 bit at the `n`th bit (`0 ≤ n ≤ 7`). -/
def GetOneAt (n : Int) : Nat := (1 <<< (7 - n).toNat) % 256

/-- Generates a mask with all 1 bits and one 0 bit at the `n`th bit. -/
def GetZeroAt (n : Int) : Nat := 255 - GetOneAt n

/-- Marks `numBits` bits as either ones or zeros, starting with the `startBit`th.
In the multi-byte branch `currentByte` is advanced once, before the `memset`, and
not again: the last mask is applied to the byte at `currentByte`, as in the source. -/
def MarkBits (m : Mem) (container : Int) (startBit numBits : Int) (asOnes : Bool) : Mem :=
  let firstByte := startBit / 8
  let firstBit := startBit % 8
  let currentByte := container + firstByte
  if firstBit + numBits < 8 then
    let mask := (GetOnes numBits <<< (8 - (firstBit + numBits)).toNat) % 256
    if !asOnes then writeU8 m currentByte (readU8 m currentByte &&& (255 - mask))
    else writeU8 m currentByte (readU8 m currentByte ||| mask)
  else
    let m1 :=
      if asOnes then writeU8 m currentByte (readU8 m currentByte ||| GetOnes (8 - firstBit))
      else writeU8 m currentByte (readU8 m currentByte &&& GetZeros (8 - firstBit))
    let numBits1 := numBits - (8 - firstBit)
    let currentByte1 := currentByte + 1
    let fill : Nat := if asOnes then 255 else 0
    let m2 := memset m1 currentByte1 fill (numBits1 / 8)
    let numBits2 := numBits1 % 8
    let mask := (GetOnes numBits2 <<< (8 - numBits2).toNat) % 256
    if !asOnes then writeU8 m2 currentByte1 (readU8 m2 currentByte1 &&& (255 - mask))
    else writeU8 m2 currentByte1 (readU8 m2 currentByte1 ||| mask)

/-- Marks `numLeafs` leafs as taken, starting with the `startLeaf`th. -/
def MarkTaken (σ : State) (startLeaf numLeafs : Int) : State :=
  { σ with mem := MarkBits σ.mem σ.g_metaStart startLeaf numLeafs true }

/-- Marks `numLeafs` leafs as free, starting with the `startLeaf`th. -/
def MarkFree (σ : State) (startLeaf numLeafs : Int) : State :=
  { σ with mem := MarkBits σ.mem σ.g_metaStart startLeaf numLeafs false }

/-- Marks block of specified global index as split. -/
def MarkSplit (σ : State) (index : Int) : State :=
  if σ.g_metaSplitStart = 0 then σ
  else
    let byte := σ.g_metaSplitStart + index / 8
    { σ with mem := writeU8 σ.mem byte (readU8 σ.mem byte ||| GetOneAt (index % 8)) }

/-- Marks block of specified global index as merged. -/
def MarkMerged (σ : State) (index : Int) : State :=
  if σ.g_metaSplitStart = 0 then σ
  else
    let byte := σ.g_metaSplitStart + index / 8
    { σ with mem := writeU8 σ.mem byte (readU8 σ.mem byte &&& GetZeroAt (index % 8)) }

/-- Returns whether a block of specified global index is split or not. -/
def IsSplit (σ : State) (index : Int) : Bool :=
  if index ≥ σ.g_buddySize / MIN_SIZE - 1 ∨ σ.g_metaSplitStart = 0 then false
  else
    let byte := σ.g_metaSplitStart + index / 8
    (readU8 σ.mem byte &&& GetOneAt (index % 8)) != 0

/-- Returns whether the leaf of specified index is taken or not. -/
def IsLeafTaken (σ : State) (leafIndex : Int) : Bool :=
  if σ.g_metaStart = 0 then false
  else
    let byte := σ.g_metaStart + leafIndex / 8
    (readU8 σ.mem byte &&& GetOneAt (leafIndex % 8)) != 0

/-- The loop `while (level < MAX_LEVELS - 1) { level++; index = ChildIndex(index); }`,
which runs `MAX_LEVELS - 1 - level` times. -/
def leftmostLeaf : Nat → Int → Int
  | 0, index => index
  | n + 1, index => leftmostLeaf n (ChildIndex index)

/-- Returns whether a block of specified global index is being used or not. -/
def IsTaken (σ : State) (index : Int) : Option Bool :=
  let level := IndexGlobalToLevel σ index
  let index1 := leftmostLeaf (MAX_LEVELS - 1 - level).toNat index
  match IndexOfLevel σ (MAX_LEVELS - 1) with
  | none => none
  | some base => some (IsLeafTaken σ (index1 - base))

/-- Marks specified block as taken. -/
def MarkAlloc (σ : State) (block : Int) (_level : Int) : State :=
  if σ.g_metaStart ≠ 0 then
    let offset := block - σ.g_buddyStart
    MarkTaken σ (offset / MIN_SIZE) (blockSize σ.mem block / MIN_SIZE)
  else σ

/-! ## Initialisation -/

/-- The loop `while (blockSize >= MIN_SIZE)` of `InitBuddySystem`. -/
def InitBuddySystemLoop : Nat → State → Int → Int → Int → Option State
  | 0, _, _, _, _ => none
  | fuel + 1, σ, blockSz, memLeft, level =>
    if blockSz ≥ MIN_SIZE then
      if blockSz ≤ memLeft then
        let block := σ.g_memStart + (memLeft - blockSz)
        match setFree σ level block with
        | none => none
        | some σ1 =>
          let σ2 := { σ1 with mem := setBlockSize σ1.mem block blockSz }
          let σ3 := { σ2 with mem := setBlockNext σ2.mem block 0 }
          InitBuddySystemLoop fuel σ3 (blockSz / 2) (memLeft - blockSz) (level + 1)
      else InitBuddySystemLoop fuel σ (blockSz / 2) memLeft (level + 1)
    else some σ

/-- Initializes buddy system, fills given memory block with empty blocks. -/
def InitBuddySystem (σ : State) : Option State :=
  let exp := σ.g_levelsNum + MIN_SIZE_LOG - 1
  match Pow2Int exp with
  | none => none
  | some bs =>
    let σ1 := { σ with g_buddySize := bs }
    let σ2 := { σ1 with g_buddyStart := σ1.g_end - σ1.g_buddySize }
    InitBuddySystemLoop 40 σ2 σ2.g_buddySize σ2.g_memSize (ExpToLevel exp)

/-- The value `(float)n` for `0 ≤ n`: round to nearest, ties to even, on 24
significant bits. -/
def floatOfInt (n : Int) : Int :=
  let k := n.toNat
  if k < 16777216 then n
  else
    let e := floorLog2 64 k - 23
    let q := k / 2 ^ e
    let r := k % 2 ^ e
    let half := 2 ^ (e - 1)
    if r > half ∨ (r = half ∧ q % 2 = 1) then (((q + 1) * 2 ^ e : Nat) : Int)
    else ((q * 2 ^ e : Nat) : Int)

/-- The `for` loop of `InitMeta`; `ratio` is kept as the exact fraction
`ratioNum / leafsTotal` (division by, and doubling of, a power of two are exact in
`float`), and `(int)ceil(ratio)` is the ceiling of that fraction. -/
def InitMetaLoop : Nat → Mem → Int → Int → Int → Int → Int → Int → Mem
  | 0, m, _, _, _, _, _, _ => m
  | n + 1, m, start, leafsTotal, ratioNum, bitsSet, numBlocksInLevel, i =>
    let numSplit := (ratioNum + leafsTotal - 1) / leafsTotal
    let m1 := MarkBits m start bitsSet numSplit true
    let numMerged := numBlocksInLevel - numSplit
    let m2 := MarkBits m1 start (bitsSet + numSplit) numMerged false
    InitMetaLoop n m2 start leafsTotal (ratioNum * 2) (bitsSet + numBlocksInLevel)
      (numBlocksInLevel * 2) (i + 1)

/-- Initializes metadata. -/
def InitMeta (σ : State) : State :=
  let leafsTaken := (σ.g_memStart - σ.g_buddyStart) / MIN_SIZE
  let leafsTotal := σ.g_buddySize / MIN_SIZE
  let σ1 :=
    if leafsTaken > 0 then
      let leafsFree := leafsTotal - leafsTaken
      MarkTaken (MarkFree σ leafsTaken leafsFree) 0 leafsTaken
    else MarkFree σ 0 leafsTotal
  let startLeaf := (σ1.g_metaStart - σ1.g_buddyStart) / (MIN_SIZE * 8)
  let σ2 := MarkTaken σ1 startLeaf (σ1.g_metaSize / MIN_SIZE)
  let start := σ2.g_metaStart + σ2.g_metaSize / 2
  let m := InitMetaLoop (σ2.g_levelsNum - 1).toNat σ2.mem start leafsTotal
    (floatOfInt leafsTaken) 0 1 0
  { σ2 with mem := m }

/-! ## Buddy engine -/

/-- Tries to allocate buddy block of given level; when there is none, tries to
split blocks of higher levels to create one. Returns the block, or 0 for nullptr. -/
def AllocOnLevelAux : Nat → State → Int → Option (State × Int)
  | 0, _, _ => none
  | fuel + 1, σ, level =>
    if level < MAX_LEVELS - σ.g_levelsNum then some (σ, 0)
    else
      match getFree σ level with
      | none => none
      | some block =>
        if block ≠ 0 then
          match setFree σ level (blockNext σ.mem block) with
          | none => none
          | some σ1 => some (σ1, block)
        else
          match AllocOnLevelAux fuel σ (level - 1) with
          | none => none
          | some (σ1, first) =>
            if first = 0 then some (σ1, 0)
            else
              match IndexGlobal σ1 first (level - 1) with
              | none => none
              | some index =>
                let σ2 := MarkSplit σ1 index
                let size := blockSize σ2.mem first / 2
                let σ3 := { σ2 with mem := setBlockSize σ2.mem first size }
                let second := first + size
                let σ4 := { σ3 with mem := setBlockSize σ3.mem second size }
                match AddFree σ4 second level with
                | none => none
                | some σ5 => some (σ5, first)

/-- The recursion of `AllocOnLevel` descends one level per call and stops below
level `MAX_LEVELS - g_levelsNum`. -/
def AllocOnLevel (σ : State) (level : Int) : Option (State × Int) :=
  AllocOnLevelAux ((level - (MAX_LEVELS - σ.g_levelsNum)).toNat + 2) σ level

/-- Allocates block of given level; returns nullptr (0) when there is not enough space. -/
def BuddyAlloc (σ : State) (level : Int) : Option (State × Int) :=
  match AllocOnLevel σ level with
  | none => none
  | some (σ1, block) =>
    if block ≠ 0 then some (MarkAlloc σ1 block level, block) else some (σ1, block)

/-- The loop `while (IsSplit(index)) { index = ChildIndex(index); size /= 2; }`. -/
def splitDescent : Nat → State → Int → Int → Option (Int × Int)
  | 0, _, _, _ => none
  | fuel + 1, σ, index, size =>
    if IsSplit σ index then splitDescent fuel σ (ChildIndex index) (size / 2)
    else some (index, size)

/-- Tries to free a block on specified address; returns success. -/
def TryFreeBlock (σ : State) (addr : Int) : Option (State × Bool) :=
  let offset := addr - σ.g_buddyStart
  if offset % MIN_SIZE ≠ 0 then some (σ, false)
  else
    match MaxBlockSizeByAddr offset with
    | none => none
    | some size0 =>
      match SizeToLevel size0 with
      | none => none
      | some level0 =>
        match IndexGlobal σ addr level0 with
        | none => none
        | some index0 =>
          match splitDescent 64 σ index0 size0 with
          | none => none
          | some (index, size) =>
            match IsTaken σ index with
            | none => none
            | some taken =>
              if !taken then some (σ, false)
              else
                let block := addr
                let σ1 := { σ with mem := setBlockSize σ.mem block size }
                match IndexWithinLevel σ1 block (MAX_LEVELS - 1) with
                | none => none
                | some leafIndex => some (MarkFree σ1 leafIndex (size / MIN_SIZE), true)

/-- Merges a block with its buddy using recursion; returns the resulting block. -/
def MergeAux : Nat → State → Int → Option (State × Int)
  | 0, _, _ => none
  | fuel + 1, σ, block =>
    match FindBuddy σ block (-1) with
    | none => none
    | some buddy =>
      if buddy = 0 then some (σ, block)
      else
        match SizeToLevel (blockSize σ.mem block) with
        | none => none
        | some level =>
          match RemoveFree σ buddy level with
          | none => none
          | some (σ1, removed) =>
            if removed then
              let merged := if block < buddy then block else buddy
              let σ2 :=
                { σ1 with mem := setBlockSize σ1.mem merged (blockSize σ1.mem merged * 2) }
              match IndexGlobal σ2 merged (level - 1) with
              | none => none
              | some index => MergeAux fuel (MarkMerged σ2 index) merged
            else some (σ1, block)

def Merge (σ : State) (block : Int) : Option (State × Int) := MergeAux 64 σ block

/-! ## API -/

/-- Initializes the heap with a memory block of given size. -/
def HeapInit (σ : State) (memPool : Int) (memSize : Int) : Option State :=
  let σ0 := ResetAllocator σ
  let σ1 := { σ0 with g_memSize := (memSize / 16) * 16 }
  let σ2 := { σ1 with g_memStart := memPool }
  let σ3 := { σ2 with g_end := σ2.g_memStart + σ2.g_memSize }
  match LevelsNeeded memSize with
  | none => none
  | some ln =>
    let σ4 := { σ3 with g_levelsNum := ln }
    match InitBuddySystem σ4 with
    | none => none
    | some σ5 =>
      match Pow2Int (σ5.g_levelsNum - 3) with
      | none => none
      | some ms =>
        let σ6 := { σ5 with g_metaSize := ms }
        match SizeToLevel σ6.g_metaSize with
        | none => none
        | some index =>
          match BuddyAlloc σ6 index with
          | none => none
          | some (σ7, block) =>
            let σ8 := { σ7 with g_metaStart := block }
            let σ9 := { σ8 with g_metaSplitStart := σ8.g_metaStart + σ8.g_metaSize / 2 }
            some (InitMeta σ9)

/-- Allocates memory block of `size` bytes on the heap; returns pointer to the
block (0 for nullptr). -/
def HeapAlloc (σ : State) (size : Int) : Option (State × Int) :=
  match SizeToLevel size with
  | none => none
  | some index =>
    match BuddyAlloc σ index with
    | none => none
    | some (σ1, block) =>
      if block = 0 then some (σ1, 0)
      else some ({ σ1 with g_blocksPending := σ1.g_blocksPending + 1 }, block)

/-- Tries to free a memory block; returns success. -/
def HeapFree (σ : State) (blk : Int) : Option (State × Bool) :=
  if blk < σ.g_memStart ∨ blk ≥ σ.g_end then some (σ, false)
  else if blk = σ.g_metaStart then some (σ, false)
  else
    match TryFreeBlock σ blk with
    | none => none
    | some (σ1, ok) =>
      if !ok then some (σ1, false)
      else
        match Merge σ1 blk with
        | none => none
        | some (σ2, merged) =>
          match SizeToLevel (blockSize σ2.mem merged) with
          | none => none
          | some level =>
            match AddFree σ2 merged level with
            | none => none
            | some σ3 => some ({ σ3 with g_blocksPending := σ3.g_blocksPending - 1 }, true)

/-- Returns number of blocks allocated in the memory (the value written to
`*pendingBlk`); the state is not changed. -/
def HeapDone (σ : State) : State × Int := (σ, σ.g_blocksPending)

/-! ## Auxiliary definitions for the proofs -/

/-- Two states agree on every global except the free-list heads and the memory. -/
structure SameGlobals (σ σ' : State) : Prop where
  levelsNum : σ'.g_levelsNum = σ.g_levelsNum
  memStart : σ'.g_memStart = σ.g_memStart
  gend : σ'.g_end = σ.g_end
  buddyStart : σ'.g_buddyStart = σ.g_buddyStart
  metaStart : σ'.g_metaStart = σ.g_metaStart
  metaSplitStart : σ'.g_metaSplitStart = σ.g_metaSplitStart
  memSize : σ'.g_memSize = σ.g_memSize
  buddySize : σ'.g_buddySize = σ.g_buddySize
  metaSize : σ'.g_metaSize = σ.g_metaSize
  blocksPending : σ'.g_blocksPending = σ.g_blocksPending

/-- Size in bytes of a block of level `L`: `2 ^ (35 - L)`. -/
def bsize (L : Int) : Int := 2 ^ (35 - L).toNat

/-- Global index of the first node of level `L`. -/
def lvlBase (σ : State) (L : Int) : Int := 2 ^ (L - 32 + σ.g_levelsNum).toNat - 1

/-- Global index of the node of level `L` that starts at `b`. -/
def gidx (σ : State) (b L : Int) : Int := lvlBase σ L + (b - σ.g_buddyStart) / bsize L

/-- Bit `i` (most significant bit first) of the bitmap that starts at `base`. -/
def getBit (m : Mem) (base i : Int) : Bool :=
  (readU8 m (base + i / 8) &&& GetOneAt (i % 8)) != 0

/-- The free list that starts at head `h` in memory `m` is exactly the list `l`. -/
def Chain (m : Mem) : Int → List Int → Prop
  | h, [] => h = 0
  | h, b :: bs => h = b ∧ b ≠ 0 ∧ Chain m (blockNext m b) bs

/-- Any two different addresses of the list are at least 16 bytes apart. -/
def Sep16 (l : List Int) : Prop :=
  ∀ a ∈ l, ∀ b ∈ l, a ≠ b → a + 16 ≤ b ∨ b + 16 ≤ a

/-- A block, as a pair of its address and its level. -/
abbrev Blk := Int × Int

/-- The addresses of the blocks of level `L` of a list of blocks, in order. -/
def lvl (L : Int) (free : List Blk) : List Int :=
  (free.filter (fun x => decide (x.2 = L))).map Prod.fst

/-- Removes the first occurrence of a block from a list of blocks. -/
def rmBlk (x : Blk) : List Blk → List Blk
  | [] => []
  | y :: ys => if y = x then ys else y :: rmBlk x ys

/-- Two blocks do not overlap. -/
def Disj (x y : Blk) : Prop := x.1 + bsize x.2 ≤ y.1 ∨ y.1 + bsize y.2 ≤ x.1

/-- The block is a node of the buddy tree that lies inside the usable region. -/
structure ValidNode (σ : State) (x : Blk) : Prop where
  lo : MAX_LEVELS - σ.g_levelsNum ≤ x.2
  hi : x.2 ≤ 31
  al : bsize x.2 ∣ x.1 - σ.g_buddyStart
  ge : σ.g_memStart ≤ x.1
  le : x.1 + bsize x.2 ≤ σ.g_end

/-- Geometry of an initialised buddy system. -/
structure Geom (σ : State) : Prop where
  n_lo : 1 ≤ σ.g_levelsNum
  n_hi : σ.g_levelsNum ≤ 27
  bs : σ.g_buddySize = 2 ^ (σ.g_levelsNum + 3).toNat
  be : σ.g_end = σ.g_buddyStart + σ.g_buddySize
  ms_le : σ.g_buddyStart ≤ σ.g_memStart
  ms_al : (16 : Int) ∣ σ.g_memStart - σ.g_buddyStart
  m_pos : 0 < σ.g_memStart
  e_lt : σ.g_end < 18446744073709551616

/-- The block that holds the two bitmaps. -/
def metaBlk (σ : State) : Blk := (σ.g_metaStart, 38 - σ.g_levelsNum)

/-- Geometry of the metadata once it has been allocated. -/
structure MetaGeom (σ : State) : Prop where
  n7 : 7 ≤ σ.g_levelsNum
  msz : σ.g_metaSize = 2 ^ (σ.g_levelsNum - 3).toNat
  split : σ.g_metaSplitStart = σ.g_metaStart + σ.g_metaSize / 2
  origin : σ.g_buddyStart < σ.g_memStart ∨ σ.g_metaStart = σ.g_buddyStart

/-- Either the bitmaps do not exist yet, or they lie in a reserved block. -/
def MetaOK (σ : State) (res : List Blk) : Prop :=
  (σ.g_metaStart = 0 ∧ σ.g_metaSplitStart = 0) ∨ (MetaGeom σ ∧ metaBlk σ ∈ res)

/-- Structural invariant: `free` are the blocks on the free lists, `fly` are blocks
that carry a header but are on no list, `res` are reserved blocks (the metadata and
the live allocations). -/
structure Struct (σ : State) (res fly free : List Blk) : Prop where
  geom : Geom σ
  metaOK : MetaOK σ res
  chain : ∀ L, 0 ≤ L → L < 32 → Chain σ.mem (σ.g_freeBlocks L) (lvl L free)
  hdr : ∀ x ∈ fly ++ free, blockSize σ.mem x.1 = bsize x.2
  valid : ∀ x ∈ res ++ (fly ++ free), ValidNode σ x
  pw : (res ++ (fly ++ free)).Pairwise Disj

/-- No ancestor of the block starts at the address of the block. -/
def OddAligned (σ : State) (x : Blk) : Prop :=
  ∀ L, MAX_LEVELS - σ.g_levelsNum ≤ L → L < x.2 → ¬ bsize L ∣ x.1 - σ.g_buddyStart

/-- Every ancestor of the block that starts at the address of the block is marked split. -/
def SplitChain (σ : State) (x : Blk) : Prop :=
  ∀ L, MAX_LEVELS - σ.g_levelsNum ≤ L → L < x.2 → bsize L ∣ x.1 - σ.g_buddyStart →
    IsSplit σ (gidx σ x.1 L) = true

/-- The invariant of an initialised heap with live allocations `live`. -/
structure Inv (σ : State) (live free : List Blk) : Prop where
  struct : Struct σ (metaBlk σ :: live) [] free
  mgeom : MetaGeom σ
  taken : ∀ x ∈ live, IsLeafTaken σ ((x.1 - σ.g_buddyStart) / 16) = true
  split : ∀ x ∈ live ++ free, SplitChain σ x

/-- Address `a` lies inside block `x`. -/
def InBlk (x : Blk) (a : Int) : Prop := x.1 ≤ a ∧ a < x.1 + bsize x.2

/-- Address `a` is a byte of the split bitmap. -/
def SplitByte (σ : State) (a : Int) : Prop :=
  σ.g_metaSplitStart ≠ 0 ∧ σ.g_metaSplitStart ≤ a ∧ a < σ.g_metaSplitStart + σ.g_metaSize / 2

/-- Address `a` is a byte of the leaf bitmap. -/
def LeafByte (σ : State) (a : Int) : Prop :=
  σ.g_metaStart ≠ 0 ∧ σ.g_metaStart ≤ a ∧ a < σ.g_metaStart + σ.g_metaSize / 2

/-- The part of `AllocOnLevel` that splits the block `first` of level `level - 1`. -/
def splitStep (σ1 : State) (first level index : Int) : Option (State × Int) :=
  let σ2 := MarkSplit σ1 index
  let size := blockSize σ2.mem first / 2
  let σ3 := { σ2 with mem := setBlockSize σ2.mem first size }
  let second := first + size
  let σ4 := { σ3 with mem := setBlockSize σ3.mem second size }
  match AddFree σ4 second level with
  | none => none
  | some σ5 => some (σ5, first)

/-- The part of `Merge` that joins `block` with its free buddy. -/
def mergeStep (σ1 : State) (block buddy level : Int) : Option (State × Int) :=
  let merged := if block < buddy then block else buddy
  let σ2 := { σ1 with mem := setBlockSize σ1.mem merged (blockSize σ1.mem merged * 2) }
  match IndexGlobal σ2 merged (level - 1) with
  | none => none
  | some index => some (MarkMerged σ2 index, merged)

/-- No node that lies inside the block is marked split. -/
def ClearIn (σ : State) (x : Blk) : Prop :=
  ∀ q L', x.2 ≤ L' → L' ≤ 30 → bsize L' ∣ q - σ.g_buddyStart → x.1 ≤ q →
    q + bsize L' ≤ x.1 + bsize x.2 → IsSplit σ (gidx σ q L') = false

/-- Loop invariant of `InitBuddySystem`: `memLeft` bytes above `g_memStart` are not
yet covered, the block size of the current iteration is `bsize level`. -/
structure SeedInv (σ : State) (free : List Blk) (memLeft level : Int) : Prop where
  struct : Struct σ [] [] free
  meta0 : σ.g_metaStart = 0 ∧ σ.g_metaSplitStart = 0
  lvl_lo : MAX_LEVELS - σ.g_levelsNum ≤ level
  lvl_hi : level ≤ 32
  ml0 : 0 ≤ memLeft
  mlE : σ.g_memStart + memLeft ≤ σ.g_end
  al : bsize level ∣ σ.g_memStart + memLeft - σ.g_buddyStart
  al2 : level = MAX_LEVELS - σ.g_levelsNum ∨
    bsize (level - 1) ∣ σ.g_memStart + memLeft - σ.g_buddyStart
  odd : ∀ x ∈ free, OddAligned σ x
  below : ∀ x ∈ free, x.2 < level ∧ σ.g_memStart + memLeft ≤ x.1
  big : bsize (33 - σ.g_levelsNum) < σ.g_end - σ.g_memStart
  wit : (level ≤ 33 - σ.g_levelsNum ∧ memLeft = σ.g_end - σ.g_memStart) ∨
    ∃ x ∈ free, x.2 ≤ 33 - σ.g_levelsNum
  pow2 : σ.g_memStart = σ.g_buddyStart →
    (level = MAX_LEVELS - σ.g_levelsNum ∧ free = [] ∧ memLeft = σ.g_end - σ.g_memStart) ∨
    (memLeft = 0 ∧ ∀ x ∈ free, x.1 = σ.g_buddyStart)

/-- The body of the loop of `InitBuddySystem` that creates a new free block. -/
def seedPlace (σ : State) (level block blockSz : Int) : Option State :=
  match setFree σ level block with
  | none => none
  | some σ1 =>
    let σ2 := { σ1 with mem := setBlockSize σ1.mem block blockSz }
    some { σ2 with mem := setBlockNext σ2.mem block 0 }

/-- The invariant of a heap while the block `b` is being returned to the free lists:
`b` carries a header and is neither live nor on a list. -/
structure MInv (σ : State) (live : List Blk) (b : Blk) (free : List Blk) : Prop where
  struct : Struct σ (metaBlk σ :: live) [b] free
  mgeom : MetaGeom σ
  taken : ∀ x ∈ live, IsLeafTaken σ ((x.1 - σ.g_buddyStart) / 16) = true
  split : ∀ x ∈ live ++ b :: free, SplitChain σ x

/-! ## Reachable states and call sequences -/

/-- States reachable from `HeapInit` (on a pool of 528 to `2 ^ 30` bytes) by `HeapAlloc`
calls with `16 ≤ size`, by `HeapFree` calls on live pointers, and by writes of the
client into its live blocks. The list holds the live allocations, each as the returned
pointer together with the level `SizeToLevel size` of its request. -/
inductive Reachable : State → List Blk → Prop
  | init (σ0 σ : State) (pool memSize : Int) : 528 ≤ memSize → memSize ≤ 1073741824 →
      0 < pool → pool + memSize < 18446744073709551616 →
      HeapInit σ0 pool memSize = some σ → Reachable σ []
  | alloc (σ σ' : State) (live : List Blk) (size p L : Int) : Reachable σ live →
      16 ≤ size → size < 2147483648 → HeapAlloc σ size = some (σ', p) → p ≠ 0 →
      SizeToLevel size = some L → Reachable σ' ((p, L) :: live)
  | allocNull (σ σ' : State) (live : List Blk) (size : Int) : Reachable σ live →
      16 ≤ size → size < 2147483648 → HeapAlloc σ size = some (σ', 0) → Reachable σ' live
  | free (σ σ' : State) (live : List Blk) (p L : Int) : Reachable σ live →
      (p, L) ∈ live → HeapFree σ p = some (σ', true) → Reachable σ' (rmBlk (p, L) live)
  | write (σ : State) (live : List Blk) (p L sz a : Int) (v : Nat) : Reachable σ live →
      (p, L) ∈ live → LevelToSize L = some sz → p ≤ a → a < p + sz →
      Reachable { σ with mem := writeU8 σ.mem a v } live

/-- A call of the allocation interface. -/
inductive Call where
  | alloc (size : Int)
  | free (ptr : Int)

/-- Runs a sequence of calls. Besides the final state it returns the number of
`HeapAlloc` calls that returned a non-null pointer and the number of `HeapFree`
calls that returned true. -/
def runCalls : State → List Call → Option (State × Int × Int)
  | σ, [] => some (σ, 0, 0)
  | σ, Call.alloc size :: cs =>
    match HeapAlloc σ size with
    | none => none
    | some (σ1, p) =>
      match runCalls σ1 cs with
      | none => none
      | some (σ2, na, nf) => some (σ2, (if p ≠ 0 then na + 1 else na), nf)
  | σ, Call.free ptr :: cs =>
    match HeapFree σ ptr with
    | none => none
    | some (σ1, ok) =>
      match runCalls σ1 cs with
      | none => none
      | some (σ2, na, nf) => some (σ2, na, (if ok then nf + 1 else nf))

/-- The backing blocks `[p, p + LevelToSize(level))` of two allocations do not overlap. -/
def apart (x y : Blk) : Bool :=
  match LevelToSize x.2, LevelToSize y.2 with
  | some sx, some sy => decide (x.1 + sx ≤ y.1 ∨ y.1 + sy ≤ x.1)
  | _, _ => false

/-- The backing block of an allocation does not intersect the metadata block
`[g_metaStart, g_metaStart + g_metaSize)`. -/
def offMeta (σ : State) (x : Blk) : Bool :=
  match LevelToSize x.2 with
  | some sx => decide (x.1 + sx ≤ σ.g_metaStart ∨ σ.g_metaStart + σ.g_metaSize ≤ x.1)
  | none => false

/-! ## Concrete runs -/

/-- A state before any `HeapInit`: every global is zero, the memory is `m`. -/
def blankState (m : Mem) : State :=
  { g_freeBlocks := fun _ => 0, g_levelsNum := 0, g_memStart := 0, g_end := 0,
    g_buddyStart := 0, g_metaStart := 0, g_metaSplitStart := 0, g_memSize := 0,
    g_buddySize := 0, g_metaSize := 0, g_blocksPending := 0, mem := m }

/-- A memory whose bytes are all zero. -/
def zeroMem : Mem := fun _ => 0

/-- A memory that holds `0xFF` at address `4096 + 19` and zero elsewhere. -/
def dirtyMem : Mem := fun a => if a = 4115 then 255 else 0

/-- The last scenario of `TestRef` with the pointer `p0 + k` in place of `p0 + 1000`:
`HeapInit(memPool, 2359296)`, `p0 = HeapAlloc(1000000)`, `memset(p0, 0, 1000000)`,
`HeapFree(p0 + k)`, `HeapDone(&pendingBlk)`. Returns `p0`, the result of `HeapFree`
and `pendingBlk`; the pool is at address 16777216. -/
def testRef4 (k : Int) : Option (Int × Bool × Int) :=
  match HeapInit (blankState zeroMem) 16777216 2359296 with
  | none => none
  | some σ1 =>
    match HeapAlloc σ1 1000000 with
    | none => none
    | some (σ2, p0) =>
      match HeapFree { σ2 with mem := memset σ2.mem p0 0 1000000 } (p0 + k) with
      | none => none
      | some (σ3, ok) => some (p0, ok, (HeapDone σ3).2)

/-- The calls `HeapInit(pool, memSize)` on the pool at address 4096 and then
`HeapFree(p)`. Returns `g_metaStart`, `g_metaSize` and the head `g_freeBlocks[31]`
after `HeapInit`, then the result of `HeapFree`, the pending count and the head
`g_freeBlocks[31]` after it. -/
def freeAfterInit (m : Mem) (memSize p : Int) : Option (Int × Int × Int × Bool × Int × Int) :=
  match HeapInit (blankState m) 4096 memSize with
  | none => none
  | some σ1 =>
    match HeapFree σ1 p with
    | none => none
    | some (σ2, ok) =>
      some (σ1.g_metaStart, σ1.g_metaSize, σ1.g_freeBlocks 31, ok, (HeapDone σ2).2,
        σ2.g_freeBlocks 31)

/-- Sum of the `size` fields of the blocks of the free list that starts at `b`
(at most `fuel` blocks are visited). -/
def chainBytes (m : Mem) : Nat → Int → Int
  | 0, _ => 0
  | fuel + 1, b => if b = 0 then 0 else blockSize m b + chainBytes m fuel (blockNext m b)

/-- Sum of the sizes of all blocks on the free lists of levels `L, L + 1, ...`
(`k` levels). -/
def freeBytesFrom (σ : State) : Nat → Int → Int
  | 0, _ => 0
  | k + 1, L => chainBytes σ.mem 64 (σ.g_freeBlocks L) + freeBytesFrom σ k (L + 1)

/-- Sum of the sizes of all blocks on all free lists. -/
def freeBytes (σ : State) : Int := freeBytesFrom σ 32 0

/-- Calls `HeapAlloc` for each size of the list, in order; returns the pointers. -/
def allocAll : State → List Int → Option (State × List Int)
  | σ, [] => some (σ, [])
  | σ, size :: rest =>
    match HeapAlloc σ size with
    | none => none
    | some (σ1, p) =>
      match allocAll σ1 rest with
      | none => none
      | some (σ2, ps) => some (σ2, p :: ps)

/-- Calls `HeapFree` for each pointer of the list, in order; returns the results. -/
def freeAll : State → List Int → Option (State × List Bool)
  | σ, [] => some (σ, [])
  | σ, p :: rest =>
    match HeapFree σ p with
    | none => none
    | some (σ1, ok) =>
      match freeAll σ1 rest with
      | none => none
      | some (σ2, oks) => some (σ2, ok :: oks)

/-- On the pool of 2048 bytes at address 4096 with previous contents `m`:
`HeapInit`, five `HeapAlloc` calls (512, 256, 128, 128, 128 bytes), then `HeapFree`
of the five pointers in reverse order, then `HeapAlloc(1024)`. Returns the pointers,
the results of `HeapFree`, the free bytes right after `HeapInit` and after the last
`HeapFree`, and the pointer of the last `HeapAlloc`. -/
def roundTrip (m : Mem) : Option (List Int × List Bool × Int × Int × Int) :=
  match HeapInit (blankState m) 4096 2048 with
  | none => none
  | some σ1 =>
    match allocAll σ1 [512, 256, 128, 128, 128] with
    | none => none
    | some (σ2, ps) =>
      match freeAll σ2 ps.reverse with
      | none => none
      | some (σ3, oks) =>
        match HeapAlloc σ3 1024 with
        | none => none
        | some (_, p) => some (ps, oks, freeBytes σ1, freeBytes σ3, p)

/-- The value of the split bit of node `g` right after `HeapInit(pool, 2048)` on the
pool at address 4096 with previous contents `m`. -/
def splitBitAfterInit (m : Mem) (g : Int) : Option Bool :=
  match HeapInit (blankState m) 4096 2048 with
  | none => none
  | some σ => some (IsSplit σ g)

/-- The heap right after `HeapInit(pool, 2048)` on a zeroed pool at address 4096. -/
def heap0 : State := (HeapInit (blankState zeroMem) 4096 2048).getD (blankState zeroMem)

/-- The state and the pointer after `HeapAlloc(512)` on `heap0`. -/
def heap1 : State × Int := (HeapAlloc heap0 512).getD (heap0, 0)

/-- The state and the pointer after `HeapAlloc(256)` on the state of `heap1`. -/
def heap2 : State × Int := (HeapAlloc heap1.1 256).getD (heap1.1, 0)

/-- The state and the pointer after `HeapAlloc(128)` on the state of `heap2`. -/
def heap3 : State × Int := (HeapAlloc heap2.1 128).getD (heap2.1, 0)

/-- A sequence of calls on `heap0`: two allocations that succeed, one that is too
large, the release of the first block, a release of an unaligned pointer and a
second release of the first block. -/
def demoCalls : List Call :=
  [Call.alloc 512, Call.alloc 256, Call.alloc 4096, Call.free 4608, Call.free 4609,
    Call.free 4608]

/-- The state after `demoCalls` on `heap0`. -/
def demoFinal : State := ((runCalls heap0 demoCalls).getD (heap0, 0, 0)).1

/-! ## Free lists as lists, and further concrete runs -/

/-- The blocks of the free list that starts at `b`, in order, following `next` as the
loop `tmp = tmp->next` of `RemoveFree` does; `none` when the list does not end within
`fuel` blocks. -/
def listBlocks (m : Mem) : Nat → Int → Option (List Int)
  | 0, b => if b = 0 then some [] else none
  | fuel + 1, b =>
    if b = 0 then some []
    else
      match listBlocks m fuel (blockNext m b) with
      | none => none
      | some l => some (b :: l)

/-- The blocks on the free list of level `L`. -/
def freeList (σ : State) (L : Int) : Option (List Int) :=
  listBlocks σ.mem ((σ.g_buddySize / MIN_SIZE).toNat + 1) (σ.g_freeBlocks L)

/-- The geometry after `HeapInit(pool, memSize)` on the pool at address 4096 with
previous contents `m`: `g_buddyStart`, `g_buddySize`, `g_memStart`, `g_metaStart`,
`g_metaSize`, followed by the leaf-taken bits of the leaves `leaves`. -/
def leafBitsAfterInit (m : Mem) (memSize : Int) (leaves : List Int) :
    Option (List Int × List Bool) :=
  match HeapInit (blankState m) 4096 memSize with
  | none => none
  | some σ =>
    some ([σ.g_buddyStart, σ.g_buddySize, σ.g_memStart, σ.g_metaStart, σ.g_metaSize],
      leaves.map (IsLeafTaken σ))

/-- The geometry after `HeapInit(pool, memSize)` on the pool at address 4096 with
previous contents `m`: `g_buddyStart`, `g_buddySize`, `g_metaStart`, `g_metaSize`,
followed by the split bits of the nodes `nodes`. -/
def splitBitsAfterInit (m : Mem) (memSize : Int) (nodes : List Int) :
    Option (List Int × List Bool) :=
  match HeapInit (blankState m) 4096 memSize with
  | none => none
  | some σ =>
    some ([σ.g_buddyStart, σ.g_buddySize, σ.g_metaStart, σ.g_metaSize], nodes.map (IsSplit σ))

/-! ## The seeding of the free lists -/

/-- The first part of `HeapInit`, up to and including the call of `InitBuddySystem`:
the state in which the metadata is allocated afterwards. -/
def seedHeap (σ : State) (memPool memSize : Int) : Option State :=
  let σ0 := ResetAllocator σ
  let σ1 := { σ0 with g_memSize := (memSize / 16) * 16 }
  let σ2 := { σ1 with g_memStart := memPool }
  let σ3 := { σ2 with g_end := σ2.g_memStart + σ2.g_memSize }
  match LevelsNeeded memSize with
  | none => none
  | some ln =>
    let σ4 := { σ3 with g_levelsNum := ln }
    InitBuddySystem σ4

/-- The sum of the sizes of the blocks of a list. -/
def totalSize (l : List Blk) : Int := (l.map (fun x => bsize x.2)).sum

/-- Further loop invariant of `InitBuddySystem`: the blocks placed so far make up the
bytes of the pool above `memLeft`, with one block for each bit of the usable size
that is set, from the most significant bit down to the level before `level`. -/
structure SeedSum (σ : State) (free : List Blk) (memLeft level : Int) : Prop where
  total : totalSize free = σ.g_end - σ.g_memStart - memLeft
  rest : memLeft = (σ.g_end - σ.g_memStart) % (2 * bsize level)
  bits : ∀ L, L < level → ((∃ b, (b, L) ∈ free) ↔
    (MAX_LEVELS - σ.g_levelsNum ≤ L ∧ (σ.g_end - σ.g_memStart) / bsize L % 2 = 1))
  one : ∀ b b' L, (b, L) ∈ free → (b', L) ∈ free → b = b'

/-- States reachable as in `Reachable`, when the pool handed to `HeapInit` is filled with
zero bytes. -/
inductive ZeroReachable : State → List Blk → Prop
  | init (σ0 σ : State) (pool memSize : Int) : 528 ≤ memSize → memSize ≤ 1073741824 →
      0 < pool → pool + memSize < 18446744073709551616 →
      (∀ a, pool ≤ a → a < pool + memSize → readU8 σ0.mem a = 0) →
      HeapInit σ0 pool memSize = some σ → ZeroReachable σ []
  | alloc (σ σ' : State) (live : List Blk) (size p L : Int) : ZeroReachable σ live →
      16 ≤ size → size < 2147483648 → HeapAlloc σ size = some (σ', p) → p ≠ 0 →
      SizeToLevel size = some L → ZeroReachable σ' ((p, L) :: live)
  | allocNull (σ σ' : State) (live : List Blk) (size : Int) : ZeroReachable σ live →
      16 ≤ size → size < 2147483648 → HeapAlloc σ size = some (σ', 0) → ZeroReachable σ' live
  | free (σ σ' : State) (live : List Blk) (p L : Int) : ZeroReachable σ live →
      (p, L) ∈ live → HeapFree σ p = some (σ', true) → ZeroReachable σ' (rmBlk (p, L) live)
  | write (σ : State) (live : List Blk) (p L sz a : Int) (v : Nat) : ZeroReachable σ live →
      (p, L) ∈ live → LevelToSize L = some sz → p ≤ a → a < p + sz →
      ZeroReachable { σ with mem := writeU8 σ.mem a v } live

/-! ## Two call sequences on which `HeapFree` has no result -/

/-- The heap after `HeapInit(pool, 258048)` on a zero-filled pool at address 4096. -/
def heapWide : State := (HeapInit (blankState zeroMem) 4096 258048).getD (blankState zeroMem)

/-- The heap after `HeapInit(pool, 2032)` on a zero-filled pool at address 4096. -/
def heapOdd : State := (HeapInit (blankState zeroMem) 4096 2032).getD (blankState zeroMem)

/-- The state after `HeapFree(pool)` on `heapOdd`. -/
def heapOdd1 : State := ((HeapFree heapOdd 4096).map Prod.fst).getD heapOdd

/-- The state and the pointer after `HeapAlloc(64)` on `heapOdd1`. -/
def heapOdd2 : State × Int := (HeapAlloc heapOdd1 64).getD (heapOdd1, 0)

/-- The state after `TryFreeBlock(p + 16)` on the state of `heapOdd2`, `p` its pointer. -/
def heapOdd3 : State :=
  ((TryFreeBlock heapOdd2.1 (heapOdd2.2 + 16)).map Prod.fst).getD heapOdd2.1

/-! ## Globals are preserved -/

theorem SameGlobals.refl (σ : State) : SameGlobals σ σ := by constructor <;> rfl

theorem SameGlobals.trans {a b c : State} (h1 : SameGlobals a b) (h2 : SameGlobals b c) :
    SameGlobals a c := by
  constructor
  · rw [h2.levelsNum, h1.levelsNum]
  · rw [h2.memStart, h1.memStart]
  · rw [h2.gend, h1.gend]
  · rw [h2.buddyStart, h1.buddyStart]
  · rw [h2.metaStart, h1.metaStart]
  · rw [h2.metaSplitStart, h1.metaSplitStart]
  · rw [h2.memSize, h1.memSize]
  · rw [h2.buddySize, h1.buddySize]
  · rw [h2.metaSize, h1.metaSize]
  · rw [h2.blocksPending, h1.blocksPending]

theorem SameGlobals.withMem (σ : State) (m : Mem) : SameGlobals σ { σ with mem := m } := by
  constructor <;> rfl

theorem setFree_same {σ σ' : State} {l b : Int} (h : setFree σ l b = some σ') :
    SameGlobals σ σ' := by
  unfold setFree at h
  split at h
  · simp at h; subst h; constructor <;> rfl
  · simp at h

theorem setFree_mem {σ σ' : State} {l b : Int} (h : setFree σ l b = some σ') :
    σ'.mem = σ.mem := by
  unfold setFree at h
  split at h
  · simp at h; subst h; rfl
  · simp at h

theorem AddFree_same {σ σ' : State} {b l : Int} (h : AddFree σ b l = some σ') :
    SameGlobals σ σ' := by
  unfold AddFree at h
  split at h
  · simp at h; subst h; exact SameGlobals.refl _
  · split at h
    · simp at h
    · split at h
      · simp at h
      · rename_i σ1 h1
        simp at h; subst h
        exact (setFree_same h1).trans (SameGlobals.withMem _ _)

theorem RemoveFreeLoop_same (fuel : Nat) : ∀ {σ σ' : State} {b t : Int} {r : Bool},
    RemoveFreeLoop fuel σ b t = some (σ', r) → SameGlobals σ σ' := by
  induction fuel with
  | zero => intro σ σ' b t r h; simp [RemoveFreeLoop] at h
  | succ n ih =>
    intro σ σ' b t r h
    unfold RemoveFreeLoop at h
    split at h
    · simp at h; rw [← h.1]; exact SameGlobals.refl _
    · split at h
      · simp at h; rw [← h.1]; exact SameGlobals.withMem _ _
      · exact ih h

theorem RemoveFree_same {σ σ' : State} {b l : Int} {r : Bool}
    (h : RemoveFree σ b l = some (σ', r)) : SameGlobals σ σ' := by
  unfold RemoveFree at h
  split at h
  · simp at h
  · split at h
    · simp at h; rw [← h.1]; exact SameGlobals.refl _
    · split at h
      · split at h
        · simp at h
        · rename_i σ1 h1
          simp at h; rw [← h.1]; exact setFree_same h1
      · exact RemoveFreeLoop_same _ h

theorem MarkSplit_same (σ : State) (i : Int) : SameGlobals σ (MarkSplit σ i) := by
  unfold MarkSplit
  split
  · exact SameGlobals.refl _
  · exact SameGlobals.withMem _ _

theorem MarkMerged_same (σ : State) (i : Int) : SameGlobals σ (MarkMerged σ i) := by
  unfold MarkMerged
  split
  · exact SameGlobals.refl _
  · exact SameGlobals.withMem _ _

theorem MarkTaken_same (σ : State) (a b : Int) : SameGlobals σ (MarkTaken σ a b) :=
  SameGlobals.withMem _ _

theorem MarkFree_same (σ : State) (a b : Int) : SameGlobals σ (MarkFree σ a b) :=
  SameGlobals.withMem _ _

theorem MarkAlloc_same (σ : State) (b l : Int) : SameGlobals σ (MarkAlloc σ b l) := by
  unfold MarkAlloc
  split
  · exact MarkTaken_same _ _ _
  · exact SameGlobals.refl _

theorem AllocOnLevelAux_same (fuel : Nat) : ∀ {σ σ' : State} {level p : Int},
    AllocOnLevelAux fuel σ level = some (σ', p) → SameGlobals σ σ' := by
  induction fuel with
  | zero => intro σ σ' level p h; simp [AllocOnLevelAux] at h
  | succ n ih =>
    intro σ σ' level p h
    unfold AllocOnLevelAux at h
    split at h
    · simp at h; rw [← h.1]; exact SameGlobals.refl _
    · split at h
      · simp at h
      · split at h
        · split at h
          · simp at h
          · rename_i σ1 h1
            simp at h; rw [← h.1]; exact setFree_same h1
        · split at h
          · simp at h
          · rename_i σ1 first hr
            have h1 := ih hr
            split at h
            · simp at h; rw [← h.1]; exact h1
            · split at h
              · simp at h
              · simp only at h
                split at h
                · simp at h
                · rename_i σ5 h5
                  simp at h; rw [← h.1]
                  refine h1.trans (SameGlobals.trans ?_ (AddFree_same h5))
                  exact (MarkSplit_same _ _).trans
                    ((SameGlobals.withMem _ _).trans (SameGlobals.withMem _ _))

theorem BuddyAlloc_same {σ σ' : State} {level p : Int}
    (h : BuddyAlloc σ level = some (σ', p)) : SameGlobals σ σ' := by
  unfold BuddyAlloc at h
  split at h
  · simp at h
  · rename_i σ1 b h1
    have := AllocOnLevelAux_same _ h1
    split at h
    · simp at h; rw [← h.1]; exact this.trans (MarkAlloc_same _ _ _)
    · simp at h; rw [← h.1]; exact this

theorem TryFreeBlock_same {σ σ' : State} {p : Int} {r : Bool}
    (h : TryFreeBlock σ p = some (σ', r)) : SameGlobals σ σ' := by
  unfold TryFreeBlock at h
  simp only at h
  split at h
  · simp at h; rw [← h.1]; exact SameGlobals.refl _
  · split at h
    · simp at h
    · split at h
      · simp at h
      · split at h
        · simp at h
        · split at h
          · simp at h
          · split at h
            · simp at h
            · split at h
              · simp at h; rw [← h.1]; exact SameGlobals.refl _
              · split at h
                · simp at h
                · simp at h; rw [← h.1]
                  exact (SameGlobals.withMem _ _).trans (MarkFree_same _ _ _)

theorem MergeAux_same (fuel : Nat) : ∀ {σ σ' : State} {b p : Int},
    MergeAux fuel σ b = some (σ', p) → SameGlobals σ σ' := by
  induction fuel with
  | zero => intro σ σ' b p h; simp [MergeAux] at h
  | succ n ih =>
    intro σ σ' b p h
    unfold MergeAux at h
    split at h
    · simp at h
    · split at h
      · simp at h; rw [← h.1]; exact SameGlobals.refl _
      · split at h
        · simp at h
        · split at h
          · simp at h
          · rename_i σ1 removed hr
            have h1 := RemoveFree_same hr
            split at h
            · simp only at h
              split at h
              · simp at h
              · exact h1.trans (((SameGlobals.withMem _ _).trans (MarkMerged_same _ _)).trans (ih h))
            · simp at h; rw [← h.1]; exact h1

theorem HeapAlloc_pending {σ σ' : State} {size p : Int}
    (h : HeapAlloc σ size = some (σ', p)) :
    σ'.g_blocksPending = σ.g_blocksPending + (if p ≠ 0 then 1 else 0) := by
  unfold HeapAlloc at h
  split at h
  · simp at h
  · split at h
    · simp at h
    · rename_i σ1 block hb
      have h1 := (BuddyAlloc_same hb).blocksPending
      split at h
      · simp at h; rw [← h.1, ← h.2]; simp [h1]
      · rename_i hne
        simp at h; rw [← h.1, ← h.2]; simp [h1, hne]

theorem HeapFree_pending {σ σ' : State} {p : Int} {r : Bool}
    (h : HeapFree σ p = some (σ', r)) :
    σ'.g_blocksPending = σ.g_blocksPending - (if r then 1 else 0) := by
  unfold HeapFree at h
  split at h
  · simp at h; obtain ⟨rfl, rfl⟩ := h; simp
  · split at h
    · simp at h; obtain ⟨rfl, rfl⟩ := h; simp
    · split at h
      · simp at h
      · rename_i σ1 ok ht
        have h1 := (TryFreeBlock_same ht).blocksPending
        split at h
        · simp at h; obtain ⟨rfl, rfl⟩ := h; simp [h1]
        · split at h
          · simp at h
          · rename_i σ2 merged hm
            have h2 := (MergeAux_same _ hm).blocksPending
            split at h
            · simp at h
            · split at h
              · simp at h
              · rename_i σ3 h3
                have h4 := (AddFree_same h3).blocksPending
                simp at h; obtain ⟨rfl, rfl⟩ := h; simp [h1, h2, h4]

/-! ## Failing calls change nothing -/

theorem AllocOnLevelAux_null (fuel : Nat) : ∀ (σ : State) (level : Int) (σ' : State),
    AllocOnLevelAux fuel σ level = some (σ', 0) → σ' = σ := by
  induction fuel with
  | zero => intro σ level σ' h; simp [AllocOnLevelAux] at h
  | succ n ih =>
    intro σ level σ' h
    unfold AllocOnLevelAux at h
    split at h
    · simp at h; exact h.symm
    · split at h
      · simp at h
      · split at h
        · split at h
          · simp at h
          · simp at h; omega
        · split at h
          · simp at h
          · rename_i σ1 first hr
            split at h
            · rename_i hf
              subst hf
              simp at h
              rw [← h]
              exact ih _ _ _ hr
            · split at h
              · simp at h
              · simp only at h
                split at h
                · simp at h
                · simp at h
                  omega

theorem BuddyAlloc_null (σ σ' : State) (level : Int) (h : BuddyAlloc σ level = some (σ', 0)) :
    σ' = σ := by
  unfold BuddyAlloc at h
  split at h
  · simp at h
  · rename_i σ2 b2 h2
    split at h
    · simp at h; omega
    · simp at h
      obtain ⟨h3, h4⟩ := h
      subst h3; subst h4
      exact AllocOnLevelAux_null _ _ _ _ h2

theorem HeapAlloc_null (σ σ' : State) (size : Int) (h : HeapAlloc σ size = some (σ', 0)) :
    σ' = σ := by
  unfold HeapAlloc at h
  split at h
  · simp at h
  · split at h
    · simp at h
    · rename_i σ1 block hb
      split at h
      · rename_i hz
        subst hz
        simp at h
        subst h
        exact BuddyAlloc_null _ _ _ hb
      · simp at h; omega

theorem TryFreeBlock_false (σ σ' : State) (p : Int) (h : TryFreeBlock σ p = some (σ', false)) :
    σ' = σ := by
  unfold TryFreeBlock at h
  simp only at h
  split at h
  · simp at h; exact h.symm
  · split at h
    · simp at h
    · split at h
      · simp at h
      · split at h
        · simp at h
        · split at h
          · simp at h
          · split at h
            · simp at h
            · split at h
              · simp at h; exact h.symm
              · split at h <;> simp at h

theorem HeapFree_false (σ σ' : State) (p : Int) (h : HeapFree σ p = some (σ', false)) :
    σ' = σ := by
  unfold HeapFree at h
  split at h
  · simp at h; exact h.symm
  · split at h
    · simp at h; exact h.symm
    · split at h
      · simp at h
      · rename_i σ1 ok ht
        split at h
        · simp at h
          rename_i hok
          simp at hok
          subst hok
          rw [← h]
          exact TryFreeBlock_false _ _ _ ht
        · split at h
          · simp at h
          · split at h
            · simp at h
            · split at h <;> simp at h

/-! ## Arithmetic of sizes and levels -/

theorem bsize_pos (L : Int) : 0 < bsize L := by
  unfold bsize; positivity

theorem bsize_pred (L : Int) (h : L ≤ 35) : bsize (L - 1) = 2 * bsize L := by
  unfold bsize
  have : (35 - (L - 1)).toNat = (35 - L).toNat + 1 := by omega
  rw [this, pow_succ]; ring

theorem bsize_31 : bsize 31 = 16 := by decide

theorem bsize_mono {L1 L2 : Int} (h : L1 ≤ L2) : bsize L2 ≤ bsize L1 := by
  unfold bsize
  apply pow_le_pow_right₀ (by norm_num)
  omega

theorem bsize_dvd {L1 L2 : Int} (h : L1 ≤ L2) (_h2 : L2 ≤ 35) : bsize L2 ∣ bsize L1 := by
  unfold bsize
  apply pow_dvd_pow
  omega

theorem bsize_ge16 {L : Int} (h : L ≤ 31) : 16 ≤ bsize L := by
  have := bsize_mono h
  rw [bsize_31] at this; exact this

theorem Pow2Int_eq {k : Int} (h0 : 0 ≤ k) (h1 : k < 31) : Pow2Int k = some (2 ^ k.toNat) := by
  unfold Pow2Int; simp [h0, h1]

theorem LevelToSize_eq {L : Int} (h0 : 4 < L) (h1 : L ≤ 35) : LevelToSize L = some (bsize L) := by
  unfold LevelToSize MAX_LEVELS MIN_SIZE_LOG
  rw [Pow2Int_eq (by omega) (by omega)]
  unfold bsize
  congr 3
  omega

theorem ediv_eq_of_bounds {a q d : Int} (hd : 0 < d) (h1 : q * d ≤ a) (h2 : a < (q + 1) * d) :
    a / d = q := by
  apply le_antisymm
  · have := Int.ediv_lt_of_lt_mul hd h2
    omega
  · exact Int.le_ediv_of_mul_le hd h1

theorem Log2IntLoop_spec (fuel : Nat) : ∀ (num : Int) (res : Nat) (perfect : Bool) (N : Int),
    1 ≤ num → num < 2 ^ fuel → num = N / 2 ^ res → 1 ≤ N →
    (perfect = true ↔ (N = num * 2 ^ res ∧ (num % 2 = 0 ∨ num = 1))) →
    ∃ k : Nat, Log2IntLoop fuel num res perfect = some (k : Int) ∧ N ≤ 2 ^ k ∧
      (k = 0 ∨ 2 ^ (k - 1) < N) ∧ res ≤ k ∧ k ≤ res + fuel := by
  induction fuel with
  | zero => intro num res perfect N h1 h2; simp at h2; omega
  | succ f ih =>
    intro num res perfect N h1 h2 h3 hN hp
    unfold Log2IntLoop
    simp only
    have hpw : (0:Int) < 2 ^ res := by positivity
    have hlow : num * 2 ^ res ≤ N := by
      rw [h3]; exact Int.ediv_mul_le N (ne_of_gt hpw)
    have hhigh : N < (num + 1) * 2 ^ res := by
      rw [h3]
      have := Int.lt_ediv_add_one_mul_self N hpw
      linarith
    by_cases hz : num / 2 = 0
    · have hone : num = 1 := by omega
      subst hone
      simp only [hz, if_true]
      by_cases hperf : perfect = true
      · refine ⟨res, ?_, ?_, ?_, le_refl _, by omega⟩
        · simp [hperf]
        · have := (hp.mp hperf).1; rw [this]; simp
        · rcases Nat.eq_zero_or_pos res with h0 | h0
          · left; exact h0
          · right
            have := (hp.mp hperf).1
            rw [this]; simp
            apply pow_lt_pow_right₀ (by norm_num); omega
      · refine ⟨res + 1, ?_, ?_, ?_, by omega, by omega⟩
        · simp [hperf]
        · have : N < 2 * 2 ^ res := by linarith
          rw [pow_succ]; linarith
        · right
          simp
          have hne : N ≠ 1 * 2 ^ res := by
            intro h; apply hperf; apply hp.mpr; exact ⟨h, Or.inr rfl⟩
          have : 1 * 2 ^ res ≤ N := hlow
          omega
    · simp only [hz, if_false]
      have hnum1 : 1 ≤ num / 2 := by omega
      have hlt : num / 2 < 2 ^ f := by
        have : num < 2 * 2 ^ f := by rw [pow_succ] at h2; linarith
        omega
      have hdiv : num / 2 = N / 2 ^ (res + 1) := by
        symm
        apply ediv_eq_of_bounds (by positivity)
        · rw [pow_succ]
          have h6 : num / 2 * 2 ≤ num := by omega
          have := mul_le_mul_of_nonneg_right h6 (le_of_lt hpw)
          linarith
        · rw [pow_succ]
          have h6 : num + 1 ≤ (num / 2 + 1) * 2 := by omega
          have := mul_le_mul_of_nonneg_right h6 (le_of_lt hpw)
          linarith
      obtain ⟨k, hk1, hk2, hk3, hk4, hk5⟩ := ih (num / 2) (res + 1)
        (perfect && (num / 2 % 2 == 0 || num / 2 == 1)) N hnum1 hlt hdiv hN (by
          constructor
          · intro h
            simp only [Bool.and_eq_true, Bool.or_eq_true, beq_iff_eq] at h
            obtain ⟨hpf, hev⟩ := h
            obtain ⟨hN1, hpar⟩ := hp.mp hpf
            have heven : num % 2 = 0 := by omega
            refine ⟨?_, hev⟩
            rw [hN1, pow_succ]
            have : num = num / 2 * 2 := by omega
            nth_rewrite 1 [this]; ring
          · intro ⟨hN1, hev⟩
            simp only [Bool.and_eq_true, Bool.or_eq_true, beq_iff_eq]
            refine ⟨hp.mpr ⟨?_, ?_⟩, hev⟩
            · rw [pow_succ] at hN1
              have h5 : N = (num / 2 * 2) * 2 ^ res := by rw [hN1]; ring
              have h6 : num / 2 * 2 ≤ num := by omega
              have h7 : num * 2 ^ res ≤ N := hlow
              rw [h5] at h7
              have h8 : num ≤ num / 2 * 2 := le_of_mul_le_mul_right h7 hpw
              have h9 : num = num / 2 * 2 := by omega
              rw [h5, ← h9]
            · left
              rw [pow_succ] at hN1
              have h5 : N = (num / 2 * 2) * 2 ^ res := by rw [hN1]; ring
              have h7 : num * 2 ^ res ≤ N := hlow
              rw [h5] at h7
              have h8 : num ≤ num / 2 * 2 := le_of_mul_le_mul_right h7 hpw
              omega)
      refine ⟨k, ?_, hk2, hk3, by omega, by omega⟩
      rw [← hk1]
      simp

theorem Log2Int_spec {N : Int} (h1 : 1 ≤ N) (h2 : N < 2 ^ 31) :
    ∃ k : Nat, Log2Int N = some (k : Int) ∧ N ≤ 2 ^ k ∧ (k = 0 ∨ 2 ^ (k - 1) < N) ∧ k ≤ 31 := by
  obtain ⟨k, hk1, hk2, hk3, _, hk5⟩ := Log2IntLoop_spec 32 N 0 (N % 2 == 0 || N == 1) N h1
    (by norm_num at h2 ⊢; omega) (by simp) h1 (by simp)
  refine ⟨k, hk1, hk2, hk3, ?_⟩
  by_contra hc
  have hk : 32 ≤ k := by omega
  rcases hk3 with h | h
  · omega
  · have : (2:Int) ^ 31 ≤ 2 ^ (k - 1) := pow_le_pow_right₀ (by norm_num) (by omega)
    omega

theorem Log2Int_pow2 {j : Nat} (hj : j ≤ 30) : Log2Int (2 ^ j) = some (j : Int) := by
  have h1 : (1:Int) ≤ 2 ^ j := one_le_pow₀ (by norm_num)
  have h2 : (2:Int) ^ j < 2 ^ 31 := pow_lt_pow_right₀ (by norm_num) (by omega)
  obtain ⟨k, hk1, hk2, hk3, _⟩ := Log2Int_spec h1 h2
  have hjk : j ≤ k := by
    by_contra hc
    have : (2:Int) ^ k < 2 ^ j := pow_lt_pow_right₀ (by norm_num) (by omega)
    omega
  have hkj : k ≤ j := by
    rcases hk3 with h | h
    · omega
    · by_contra hc
      have : (2:Int) ^ j ≤ 2 ^ (k - 1) := pow_le_pow_right₀ (by norm_num) (by omega)
      omega
  have : k = j := by omega
  rw [hk1, this]

theorem SizeToLevel_bsize {L : Int} (h0 : 5 ≤ L) (h1 : L ≤ 35) : SizeToLevel (bsize L) = some L := by
  unfold SizeToLevel bsize
  rw [Log2Int_pow2 (by omega)]
  simp only [MAX_LEVELS, MIN_SIZE_LOG]
  congr 1
  omega

theorem MaxBlockSizeByAddrLoop_spec (fuel : Nat) : ∀ (num div : Int),
    num ≠ 0 → |num| < 2 ^ fuel →
    ∃ j : Nat, MaxBlockSizeByAddrLoop fuel num div = some (div * 2 ^ j) ∧
      (2:Int) ^ j ∣ num ∧ (num / 2 ^ j) % 2 = 1 ∧ j < fuel := by
  induction fuel with
  | zero =>
    intro num div h1 h2
    simp at h2
    have := abs_nonneg num
    have : |num| = 0 := by omega
    simp at this; contradiction
  | succ f ih =>
    intro num div h1 h2
    unfold MaxBlockSizeByAddrLoop
    by_cases hev : num % 2 = 0
    · simp only [hev, if_true]
      have hne : num / 2 ≠ 0 := by omega
      have hlt : |num / 2| < 2 ^ f := by
        rw [pow_succ] at h2
        rw [abs_lt] at h2 ⊢
        omega
      obtain ⟨j, hj1, hj2, hj3, hj4⟩ := ih (num / 2) (div * 2) hne hlt
      obtain ⟨c, hc⟩ := hj2
      have hpos : (2:Int) ^ j ≠ 0 := by positivity
      have hpos1 : (2:Int) ^ (j + 1) ≠ 0 := by positivity
      have hnum : num = 2 ^ (j + 1) * c := by
        have : num = 2 * (num / 2) := by omega
        rw [this, hc, pow_succ]; ring
      rw [hc, Int.mul_ediv_cancel_left _ hpos] at hj3
      refine ⟨j + 1, ?_, ⟨c, hnum⟩, ?_, by omega⟩
      · rw [hj1, pow_succ]; congr 1; ring
      · rw [hnum, Int.mul_ediv_cancel_left _ hpos1]; exact hj3
    · simp only [hev, if_false]
      refine ⟨0, by simp, by simp, ?_, by omega⟩
      simp; omega

/-! ## Memory reads over writes -/

theorem readU8_lt (m : Mem) (a : Int) : readU8 m a < 256 := by
  unfold readU8; omega

theorem readU8_writeU8 (m : Mem) (a x : Int) (v : Nat) :
    readU8 (writeU8 m a v) x = if x = a then v % 256 else readU8 m x := by
  unfold readU8 writeU8
  split <;> simp

theorem readU8_writeU32 (m : Mem) (a x : Int) (v : Nat) :
    readU8 (writeU32 m a v) x =
      if a ≤ x ∧ x < a + 4 then (v / 256 ^ (x - a).toNat) % 256 else readU8 m x := by
  unfold readU8 writeU32
  split <;> simp

theorem readU8_writeU64 (m : Mem) (a x : Int) (v : Nat) :
    readU8 (writeU64 m a v) x =
      if a ≤ x ∧ x < a + 8 then (v / 256 ^ (x - a).toNat) % 256 else readU8 m x := by
  unfold readU8 writeU64
  split <;> simp

theorem readU8_memset (m : Mem) (a x : Int) (fill : Nat) (n : Int) :
    readU8 (memset m a fill n) x = if a ≤ x ∧ x < a + n then fill % 256 else readU8 m x := by
  unfold readU8 memset
  split <;> simp

theorem readU32_congr {m m' : Mem} {a : Int}
    (h : ∀ x, a ≤ x → x < a + 4 → readU8 m' x = readU8 m x) : readU32 m' a = readU32 m a := by
  unfold readU32
  rw [h a (by omega) (by omega), h (a + 1) (by omega) (by omega),
    h (a + 2) (by omega) (by omega), h (a + 3) (by omega) (by omega)]

theorem readU64_congr {m m' : Mem} {a : Int}
    (h : ∀ x, a ≤ x → x < a + 8 → readU8 m' x = readU8 m x) : readU64 m' a = readU64 m a := by
  unfold readU64
  rw [readU32_congr (a := a) (fun x h1 h2 => h x h1 (by omega)),
    readU32_congr (a := a + 4) (fun x h1 h2 => h x (by omega) (by omega))]

theorem readU32_writeU32 (m : Mem) (a : Int) (v : Nat) :
    readU32 (writeU32 m a v) a = v % 4294967296 := by
  unfold readU32
  simp only [readU8_writeU32]
  have e1 : (a + 1 - a).toNat = 1 := by omega
  have e2 : (a + 2 - a).toNat = 2 := by omega
  have e3 : (a + 3 - a).toNat = 3 := by omega
  have e0 : (a - a).toNat = 0 := by omega
  have c0 : a ≤ a ∧ a < a + 4 := by omega
  have c1 : a ≤ a + 1 ∧ a + 1 < a + 4 := by omega
  have c2 : a ≤ a + 2 ∧ a + 2 < a + 4 := by omega
  have c3 : a ≤ a + 3 ∧ a + 3 < a + 4 := by omega
  simp only [c0, c1, c2, c3, e0, e1, e2, e3, and_self, if_true]
  norm_num
  omega

theorem readU32_writeU64_lo (m : Mem) (a : Int) (v : Nat) :
    readU32 (writeU64 m a v) a = v % 4294967296 := by
  unfold readU32
  simp only [readU8_writeU64]
  have e1 : (a + 1 - a).toNat = 1 := by omega
  have e2 : (a + 2 - a).toNat = 2 := by omega
  have e3 : (a + 3 - a).toNat = 3 := by omega
  have e0 : (a - a).toNat = 0 := by omega
  have c0 : a ≤ a ∧ a < a + 8 := by omega
  have c1 : a ≤ a + 1 ∧ a + 1 < a + 8 := by omega
  have c2 : a ≤ a + 2 ∧ a + 2 < a + 8 := by omega
  have c3 : a ≤ a + 3 ∧ a + 3 < a + 8 := by omega
  simp only [c0, c1, c2, c3, e0, e1, e2, e3, and_self, if_true]
  norm_num
  omega

theorem readU32_writeU64_hi (m : Mem) (a : Int) (v : Nat) :
    readU32 (writeU64 m a v) (a + 4) = v / 4294967296 % 4294967296 := by
  unfold readU32
  simp only [readU8_writeU64]
  have e1 : (a + 4 + 1 - a).toNat = 5 := by omega
  have e2 : (a + 4 + 2 - a).toNat = 6 := by omega
  have e3 : (a + 4 + 3 - a).toNat = 7 := by omega
  have e0 : (a + 4 - a).toNat = 4 := by omega
  have c0 : a ≤ a + 4 ∧ a + 4 < a + 8 := by omega
  have c1 : a ≤ a + 4 + 1 ∧ a + 4 + 1 < a + 8 := by omega
  have c2 : a ≤ a + 4 + 2 ∧ a + 4 + 2 < a + 8 := by omega
  have c3 : a ≤ a + 4 + 3 ∧ a + 4 + 3 < a + 8 := by omega
  simp only [c0, c1, c2, c3, e0, e1, e2, e3, and_self, if_true]
  norm_num
  omega

theorem readU64_writeU64 (m : Mem) (a : Int) (v : Nat) :
    readU64 (writeU64 m a v) a = v % 18446744073709551616 := by
  unfold readU64
  rw [readU32_writeU64_lo, readU32_writeU64_hi]
  omega

theorem blockSize_setBlockSize (m : Mem) (b v : Int) (h0 : 0 ≤ v) (h1 : v < 4294967296) :
    blockSize (setBlockSize m b v) b = v := by
  unfold blockSize setBlockSize
  rw [readU32_writeU32]
  omega

theorem blockNext_setBlockNext (m : Mem) (b p : Int) (h0 : 0 ≤ p)
    (h1 : p < 18446744073709551616) : blockNext (setBlockNext m b p) b = p := by
  unfold blockNext setBlockNext
  rw [readU64_writeU64]
  omega

theorem readU8_setBlockSize (m : Mem) (b v x : Int) (h : x < b ∨ b + 4 ≤ x) :
    readU8 (setBlockSize m b v) x = readU8 m x := by
  unfold setBlockSize
  rw [readU8_writeU32]
  split
  · omega
  · rfl

theorem readU8_setBlockNext (m : Mem) (b p x : Int) (h : x < b + 8 ∨ b + 16 ≤ x) :
    readU8 (setBlockNext m b p) x = readU8 m x := by
  unfold setBlockNext
  rw [readU8_writeU64]
  split
  · omega
  · rfl

theorem blockSize_congr {m m' : Mem} {b : Int}
    (h : ∀ x, b ≤ x → x < b + 4 → readU8 m' x = readU8 m x) : blockSize m' b = blockSize m b := by
  unfold blockSize
  rw [readU32_congr h]

theorem blockNext_congr {m m' : Mem} {b : Int}
    (h : ∀ x, b + 8 ≤ x → x < b + 16 → readU8 m' x = readU8 m x) :
    blockNext m' b = blockNext m b := by
  unfold blockNext
  rw [readU64_congr (fun x h1 h2 => h x h1 (by omega))]

/-! ## Bits of the bitmaps -/

theorem byte_or_bit : ∀ v, v < 256 → ∀ k, k < 8 → ∀ j, j < 8 →
    ((((v ||| GetOneAt (k : Nat)) % 256) &&& GetOneAt (j : Nat)) != 0) =
      (j == k || ((v &&& GetOneAt (j : Nat)) != 0)) := by
  decide!

theorem byte_and_bit : ∀ v, v < 256 → ∀ k, k < 8 → ∀ j, j < 8 →
    ((((v &&& GetZeroAt (k : Nat)) % 256) &&& GetOneAt (j : Nat)) != 0) =
      (j != k && ((v &&& GetOneAt (j : Nat)) != 0)) := by
  decide!

theorem byte_ones1 : ∀ v, v < 256 → ∀ fb, fb < 8 → ∀ n, n < 8 → fb + n < 8 → ∀ j, j < 8 →
    ((((v ||| (GetOnes (n : Nat) <<< (8 - ((fb : Nat) + (n : Nat) : Int)).toNat) % 256) % 256) &&&
        GetOneAt (j : Nat)) != 0) =
      (decide (fb ≤ j ∧ j < fb + n) || ((v &&& GetOneAt (j : Nat)) != 0)) := by
  decide!

theorem byte_zeros1 : ∀ v, v < 256 → ∀ fb, fb < 8 → ∀ n, n < 8 → fb + n < 8 → ∀ j, j < 8 →
    ((((v &&& (255 - (GetOnes (n : Nat) <<< (8 - ((fb : Nat) + (n : Nat) : Int)).toNat) % 256)) %
        256) &&& GetOneAt (j : Nat)) != 0) =
      (!decide (fb ≤ j ∧ j < fb + n) && ((v &&& GetOneAt (j : Nat)) != 0)) := by
  decide!

theorem byte_ones2 : ∀ v, v < 256 → ∀ fb, fb < 8 → ∀ j, j < 8 →
    ((((v ||| GetOnes (8 - (fb : Nat))) % 256) &&& GetOneAt (j : Nat)) != 0) =
      (decide (fb ≤ j) || ((v &&& GetOneAt (j : Nat)) != 0)) := by
  decide!

theorem byte_zeros2 : ∀ v, v < 256 → ∀ fb, fb < 8 → ∀ j, j < 8 →
    ((((v &&& GetZeros (8 - (fb : Nat))) % 256) &&& GetOneAt (j : Nat)) != 0) =
      (!decide (fb ≤ j) && ((v &&& GetOneAt (j : Nat)) != 0)) := by
  decide!

theorem byte_and_255 : ∀ v, v < 256 → v &&& 255 = v := by decide!

theorem byte_full : ∀ j, j < 8 → ((255 &&& GetOneAt (j : Nat)) != 0) = true := by decide!

/-! ## Bitmap updates -/

theorem getBit_congr {m m' : Mem} {base j : Int}
    (h : readU8 m' (base + j / 8) = readU8 m (base + j / 8)) :
    getBit m' base j = getBit m base j := by
  unfold getBit; rw [h]

theorem getBit_setBit (m : Mem) (base i j : Int) :
    getBit (writeU8 m (base + i / 8) (readU8 m (base + i / 8) ||| GetOneAt (i % 8))) base j =
      (decide (j = i) || getBit m base j) := by
  unfold getBit
  rw [readU8_writeU8]
  by_cases hb : j / 8 = i / 8
  · have e : base + j / 8 = base + i / 8 := by omega
    simp only [e, if_true]
    obtain ⟨k, hk⟩ : ∃ k : Nat, i % 8 = k := ⟨(i % 8).toNat, by omega⟩
    obtain ⟨l, hl⟩ : ∃ l : Nat, j % 8 = l := ⟨(j % 8).toNat, by omega⟩
    rw [hk, hl, byte_or_bit _ (readU8_lt _ _) k (by omega) l (by omega)]
    congr 1
    by_cases hji : j = i
    · subst hji
      have : l = k := by omega
      simp [this]
    · have : l ≠ k := by omega
      simp [hji, this]
  · have e : base + j / 8 ≠ base + i / 8 := by omega
    simp only [e, if_false]
    have : j ≠ i := by intro h; apply hb; rw [h]
    simp [this]

theorem getBit_clearBit (m : Mem) (base i j : Int) :
    getBit (writeU8 m (base + i / 8) (readU8 m (base + i / 8) &&& GetZeroAt (i % 8))) base j =
      (!decide (j = i) && getBit m base j) := by
  unfold getBit
  rw [readU8_writeU8]
  by_cases hb : j / 8 = i / 8
  · have e : base + j / 8 = base + i / 8 := by omega
    simp only [e, if_true]
    obtain ⟨k, hk⟩ : ∃ k : Nat, i % 8 = k := ⟨(i % 8).toNat, by omega⟩
    obtain ⟨l, hl⟩ : ∃ l : Nat, j % 8 = l := ⟨(j % 8).toNat, by omega⟩
    rw [hk, hl, byte_and_bit _ (readU8_lt _ _) k (by omega) l (by omega)]
    congr 1
    by_cases hji : j = i
    · subst hji
      have : l = k := by omega
      simp [this]
    · have : l ≠ k := by omega
      simp [hji, this]
  · have e : base + j / 8 ≠ base + i / 8 := by omega
    simp only [e, if_false]
    have : j ≠ i := by intro h; apply hb; rw [h]
    simp [this]

theorem MarkBits_single (m : Mem) (base start n : Int) (v : Bool) (h : start % 8 + n < 8) :
    MarkBits m base start n v =
      if v then writeU8 m (base + start / 8) (readU8 m (base + start / 8) |||
          (GetOnes n <<< (8 - (start % 8 + n)).toNat) % 256)
      else writeU8 m (base + start / 8) (readU8 m (base + start / 8) &&&
          (255 - (GetOnes n <<< (8 - (start % 8 + n)).toNat) % 256)) := by
  unfold MarkBits
  cases v <;> simp [h]

theorem readU8_MarkBits_multi (m : Mem) (base start n x : Int) (v : Bool)
    (h : ¬ start % 8 + n < 8) :
    readU8 (MarkBits m base start n v) x =
      if x = base + start / 8 + 1 ∧ ¬ (0 < (n - (8 - start % 8)) / 8) then
        (if v then
          (readU8 m x ||| (GetOnes ((n - (8 - start % 8)) % 8) <<<
            (8 - (n - (8 - start % 8)) % 8).toNat) % 256) % 256
        else
          (readU8 m x &&& (255 - (GetOnes ((n - (8 - start % 8)) % 8) <<<
            (8 - (n - (8 - start % 8)) % 8).toNat) % 256)) % 256)
      else if base + start / 8 + 1 ≤ x ∧ x < base + start / 8 + 1 + (n - (8 - start % 8)) / 8 then
        (if v then 255 else 0)
      else if x = base + start / 8 then
        (if v then (readU8 m x ||| GetOnes (8 - start % 8)) % 256
         else (readU8 m x &&& GetZeros (8 - start % 8)) % 256)
      else readU8 m x := by
  unfold MarkBits
  simp only [h, if_false]
  have hne : base + start / 8 + 1 ≠ base + start / 8 := by omega
  by_cases hmid : 0 < (n - (8 - start % 8)) / 8
  · -- the last mask lands on a byte already filled by memset
    have hin : base + start / 8 + 1 ≤ base + start / 8 + 1 ∧
        base + start / 8 + 1 < base + start / 8 + 1 + (n - (8 - start % 8)) / 8 := by omega
    cases v
    · simp only [Bool.not_false, if_true, Bool.false_eq_true, if_false, readU8_writeU8,
        readU8_memset, hin, Nat.zero_mod, Nat.zero_and, hmid, not_true, and_false]
      by_cases hx1 : x = base + start / 8 + 1
      · subst hx1; simp [hin]
      · simp only [hx1, if_false]
        by_cases hx0 : x = base + start / 8
        · subst hx0; simp
        · simp [hx0]
    · simp only [Bool.not_true, if_true, Bool.false_eq_true, if_false, readU8_writeU8,
        readU8_memset, hin, hmid, not_true, and_false]
      by_cases hx1 : x = base + start / 8 + 1
      · subst hx1
        have : ∀ k, k < 256 → (255 ||| k) % 256 = 255 := by decide!
        simp [hin, this _ (Nat.mod_lt _ (by norm_num))]
      · simp only [hx1, if_false]
        by_cases hx0 : x = base + start / 8
        · subst hx0; simp
        · simp [hx0]
  · have hout : ¬ (base + start / 8 + 1 ≤ base + start / 8 + 1 ∧
        base + start / 8 + 1 < base + start / 8 + 1 + (n - (8 - start % 8)) / 8) := by omega
    cases v
    · simp only [Bool.not_false, if_true, Bool.false_eq_true, if_false, readU8_writeU8,
        readU8_memset, hout, hmid, not_false_eq_true, and_true, hne]
      by_cases hx1 : x = base + start / 8 + 1
      · subst hx1; simp
      · have : ¬ (base + start / 8 + 1 ≤ x ∧ x < base + start / 8 + 1 + (n - (8 - start % 8)) / 8) := by
          omega
        simp only [hx1, if_false, this]
        by_cases hx0 : x = base + start / 8
        · subst hx0; simp
        · simp [hx0]
    · simp only [Bool.not_true, if_true, Bool.false_eq_true, if_false, readU8_writeU8,
        readU8_memset, hout, hmid, not_false_eq_true, and_true, hne]
      by_cases hx1 : x = base + start / 8 + 1
      · subst hx1; simp
      · have : ¬ (base + start / 8 + 1 ≤ x ∧ x < base + start / 8 + 1 + (n - (8 - start % 8)) / 8) := by
          omega
        simp only [hx1, if_false, this]
        by_cases hx0 : x = base + start / 8
        · subst hx0; simp
        · simp [hx0]

theorem getBit_MarkBits_small (m : Mem) (base start n j : Int) (v : Bool)
    (hn : n = 1 ∨ n = 2 ∨ n = 4) (hal : start % n = 0) :
    getBit (MarkBits m base start n v) base j =
      if start ≤ j ∧ j < start + n then v else getBit m base j := by
  obtain ⟨fb, hfb⟩ : ∃ k : Nat, start % 8 = k := ⟨(start % 8).toNat, by omega⟩
  obtain ⟨nn, hnn⟩ : ∃ k : Nat, n = k := ⟨n.toNat, by omega⟩
  obtain ⟨l, hl⟩ : ∃ l : Nat, j % 8 = l := ⟨(j % 8).toNat, by omega⟩
  have hfbn : fb + nn ≤ 8 := by
    rcases hn with h | h | h <;> subst h <;> omega
  unfold getBit
  by_cases hlt : start % 8 + n < 8
  · rw [MarkBits_single _ _ _ _ _ hlt]
    by_cases hb : j / 8 = start / 8
    · have e : base + j / 8 = base + start / 8 := by omega
      have hiff : (start ≤ j ∧ j < start + n) ↔ (fb ≤ l ∧ l < fb + nn) := by omega
      rw [e, hl]
      cases v
      · simp only [Bool.false_eq_true, if_false, readU8_writeU8, if_true]
        rw [hfb, hnn, byte_zeros1 _ (readU8_lt _ _) fb (by omega) nn (by omega) (by omega) l
          (by omega)]
        rw [hnn] at hiff
        by_cases hc : fb ≤ l ∧ l < fb + nn
        · simp [hc, hiff.mpr hc]
        · have hc2 : ¬ (start ≤ j ∧ j < start + (nn : Int)) := fun h => hc (hiff.mp h)
          simp [hc, hc2]
      · simp only [if_true, readU8_writeU8]
        rw [hfb, hnn, byte_ones1 _ (readU8_lt _ _) fb (by omega) nn (by omega) (by omega) l
          (by omega)]
        rw [hnn] at hiff
        by_cases hc : fb ≤ l ∧ l < fb + nn
        · simp [hc, hiff.mpr hc]
        · have hc2 : ¬ (start ≤ j ∧ j < start + (nn : Int)) := fun h => hc (hiff.mp h)
          simp [hc, hc2]
    · have e : base + j / 8 ≠ base + start / 8 := by omega
      have hc2 : ¬ (start ≤ j ∧ j < start + n) := by omega
      cases v <;> simp [readU8_writeU8, e, hc2]
  · rw [readU8_MarkBits_multi _ _ _ _ _ _ hlt]
    have hz : n - (8 - start % 8) = 0 := by omega
    have hmask : (GetOnes 0 <<< (8 - (0:Int)).toNat) % 256 = 0 := by decide
    simp only [hz, Int.zero_ediv, Int.zero_emod, hmask, Nat.or_zero, Nat.sub_zero, lt_irrefl,
      not_false_eq_true, and_true]
    have hrange : ¬ (base + start / 8 + 1 ≤ base + j / 8 ∧ base + j / 8 < base + start / 8 + 1 + 0) := by
      omega
    simp only [hrange, if_false]
    by_cases hb : j / 8 = start / 8
    · have e : base + j / 8 = base + start / 8 := by omega
      have e1 : base + start / 8 ≠ base + start / 8 + 1 := by omega
      have hiff : (start ≤ j ∧ j < start + n) ↔ (fb ≤ l) := by omega
      have h8 : (8 : Int) - start % 8 = 8 - (fb : Nat) := by omega
      rw [e, hl, h8]
      simp only [e1, if_false, if_true]
      cases v
      · simp only [Bool.false_eq_true, if_false]
        rw [byte_zeros2 _ (readU8_lt _ _) fb (by omega) l (by omega)]
        by_cases hc : fb ≤ l
        · simp [hc, hiff.mpr hc]
        · have hc2 : ¬ (start ≤ j ∧ j < start + n) := fun h => hc (hiff.mp h)
          simp [hc, hc2]
      · simp only [if_true]
        rw [byte_ones2 _ (readU8_lt _ _) fb (by omega) l (by omega)]
        by_cases hc : fb ≤ l
        · simp [hc, hiff.mpr hc]
        · have hc2 : ¬ (start ≤ j ∧ j < start + n) := fun h => hc (hiff.mp h)
          simp [hc, hc2]
    · have e : base + j / 8 ≠ base + start / 8 := by omega
      have hc2 : ¬ (start ≤ j ∧ j < start + n) := by omega
      simp only [e, if_false, hc2]
      split
      · cases v
        · simp only [Bool.false_eq_true, if_false]
          rw [byte_and_255 _ (readU8_lt _ _), Nat.mod_eq_of_lt (readU8_lt _ _)]
        · simp only [if_true]
          rw [Nat.mod_eq_of_lt (readU8_lt _ _)]
      · rfl

theorem getBit_MarkBits_big (m : Mem) (base start n j : Int) (v : Bool)
    (hn : 0 < n) (hn8 : n % 8 = 0) (hal : start % 8 = 0) :
    getBit (MarkBits m base start n v) base j =
      if start ≤ j ∧ j < start + n then v else getBit m base j := by
  obtain ⟨l, hl⟩ : ∃ l : Nat, j % 8 = l := ⟨(j % 8).toNat, by omega⟩
  unfold getBit
  have hlt : ¬ start % 8 + n < 8 := by omega
  rw [readU8_MarkBits_multi _ _ _ _ _ _ hlt]
  have hz : (n - (8 - start % 8)) % 8 = 0 := by omega
  have hmask : (GetOnes 0 <<< (8 - (0:Int)).toNat) % 256 = 0 := by decide
  have hg1 : GetOnes (8 - start % 8) = 255 := by rw [hal]; decide
  have hg2 : GetZeros (8 - start % 8) = 0 := by rw [hal]; decide
  simp only [hz, hmask, Nat.or_zero, Nat.sub_zero, hg1, hg2, Nat.and_zero, Nat.zero_mod]
  have h255 : ∀ k, k < 256 → (k ||| 255) % 256 = 255 := by decide!
  rw [hl]
  by_cases hin : start ≤ j ∧ j < start + n
  · simp only [hin, and_self, if_true]
    by_cases h1 : base + j / 8 = base + start / 8 + 1 ∧ ¬ 0 < (n - (8 - start % 8)) / 8
    · omega
    · simp only [h1, if_false]
      by_cases h2 : base + start / 8 + 1 ≤ base + j / 8 ∧
          base + j / 8 < base + start / 8 + 1 + (n - (8 - start % 8)) / 8
      · simp only [h2, and_self, if_true]
        cases v
        · simp
        · simp only [if_true]
          exact byte_full l (by omega)
      · have h3 : base + j / 8 = base + start / 8 := by omega
        simp only [h2, if_false, h3, if_true]
        cases v
        · simp
        · simp only [if_true, h255 _ (readU8_lt _ _)]
          have hbf := byte_full l (by omega)
          split <;> exact hbf
  · simp only [hin, if_false]
    by_cases h1 : base + j / 8 = base + start / 8 + 1 ∧ ¬ 0 < (n - (8 - start % 8)) / 8
    · simp only [h1, not_false_eq_true, and_self, if_true]
      cases v
      · simp only [Bool.false_eq_true, if_false]
        rw [byte_and_255 _ (readU8_lt _ _), Nat.mod_eq_of_lt (readU8_lt _ _)]
      · simp only [if_true]
        rw [Nat.mod_eq_of_lt (readU8_lt _ _)]
    · simp only [h1, if_false]
      have h2 : ¬ (base + start / 8 + 1 ≤ base + j / 8 ∧
          base + j / 8 < base + start / 8 + 1 + (n - (8 - start % 8)) / 8) := by omega
      have h3 : base + j / 8 ≠ base + start / 8 := by omega
      simp only [h2, h3, if_false]

theorem readU8_MarkBits_frame (m : Mem) (base start n x : Int) (v : Bool) (hn : 0 ≤ n)
    (hx : x < base + start / 8 ∨ base + (start + n + 7) / 8 ≤ x) :
    readU8 (MarkBits m base start n v) x = readU8 m x := by
  by_cases hlt : start % 8 + n < 8
  · rw [MarkBits_single _ _ _ _ _ hlt]
    by_cases hn0 : n = 0
    · subst hn0
      have hmask : ∀ k : Nat, (GetOnes 0 <<< k) % 256 = 0 := by
        intro k; simp [GetOnes]
      cases v
      · simp only [Bool.false_eq_true, if_false, readU8_writeU8, hmask, Nat.sub_zero]
        split
        · rename_i h; subst h
          rw [byte_and_255 _ (readU8_lt _ _), Nat.mod_eq_of_lt (readU8_lt _ _)]
        · rfl
      · simp only [if_true, readU8_writeU8, hmask, Nat.or_zero]
        split
        · rename_i h; subst h
          rw [Nat.mod_eq_of_lt (readU8_lt _ _)]
        · rfl
    · have hne : x ≠ base + start / 8 := by omega
      cases v <;> simp [readU8_writeU8, hne]
  · rw [readU8_MarkBits_multi _ _ _ _ _ _ hlt]
    by_cases h1 : x = base + start / 8 + 1 ∧ ¬ 0 < (n - (8 - start % 8)) / 8
    · have hz : (n - (8 - start % 8)) % 8 = 0 := by omega
      have hmask : (GetOnes 0 <<< (8 - (0:Int)).toNat) % 256 = 0 := by decide
      simp only [h1, not_false_eq_true, and_self, if_true, hz, hmask, Nat.or_zero, Nat.sub_zero]
      cases v
      · simp only [Bool.false_eq_true, if_false]
        rw [byte_and_255 _ (readU8_lt _ _), Nat.mod_eq_of_lt (readU8_lt _ _)]
      · simp only [if_true]
        rw [Nat.mod_eq_of_lt (readU8_lt _ _)]
    · have h2 : ¬ (base + start / 8 + 1 ≤ x ∧
          x < base + start / 8 + 1 + (n - (8 - start % 8)) / 8) := by omega
      have h3 : x ≠ base + start / 8 := by omega
      simp only [h1, h2, h3, if_false]

/-! ## Free lists in memory -/

theorem Chain_congr {m m' : Mem} : ∀ {l : List Int} {h : Int},
    (∀ b ∈ l, blockNext m' b = blockNext m b) → Chain m h l → Chain m' h l := by
  intro l
  induction l with
  | nil => intro h _ hc; exact hc
  | cons b bs ih =>
    intro h hn hc
    obtain ⟨h1, h2, h3⟩ := hc
    refine ⟨h1, h2, ?_⟩
    rw [hn b (List.mem_cons_self _ _)]
    exact ih (fun x hx => hn x (List.mem_cons_of_mem _ hx)) h3

theorem Chain_ne_zero {m : Mem} : ∀ {l : List Int} {h : Int}, Chain m h l → ∀ b ∈ l, b ≠ 0 := by
  intro l
  induction l with
  | nil => intro h _ b hb; simp at hb
  | cons a as ih =>
    intro h hc b hb
    obtain ⟨_, h2, h3⟩ := hc
    rcases List.mem_cons.mp hb with rfl | hb'
    · exact h2
    · exact ih h3 b hb'

theorem blockNext_nonneg (m : Mem) (b : Int) : 0 ≤ blockNext m b := by
  unfold blockNext; exact Int.ofNat_nonneg _

theorem readU32_lt (m : Mem) (a : Int) : readU32 m a < 4294967296 := by
  unfold readU32
  have h0 := readU8_lt m a
  have h1 := readU8_lt m (a + 1)
  have h2 := readU8_lt m (a + 2)
  have h3 := readU8_lt m (a + 3)
  omega

theorem blockNext_lt (m : Mem) (b : Int) : blockNext m b < 18446744073709551616 := by
  unfold blockNext readU64
  have h0 := readU32_lt m (b + 8)
  have h1 := readU32_lt m (b + 8 + 4)
  omega

theorem blockSize_nonneg (m : Mem) (b : Int) : 0 ≤ blockSize m b := by
  unfold blockSize; exact Int.ofNat_nonneg _

theorem blockSize_lt (m : Mem) (b : Int) : blockSize m b < 4294967296 := by
  unfold blockSize
  have h0 := readU32_lt m b
  omega

theorem blockNext_setBlockNext_ne (m : Mem) (a b p : Int) (h : a + 16 ≤ b ∨ b + 16 ≤ a) :
    blockNext (setBlockNext m a p) b = blockNext m b := by
  apply blockNext_congr
  intro x h1 h2
  exact readU8_setBlockNext _ _ _ _ (by omega)

theorem RemoveFreeLoop_spec : ∀ (rest : List Int) (fuel : Nat) (σ : State) (block t : Int),
    Chain σ.mem t (t :: rest) → block ≠ 0 → block ≠ t → (t :: rest).Nodup → Sep16 (t :: rest) →
    rest.length + 2 ≤ fuel →
    (block ∈ rest → ∃ pred, pred ∈ (t :: rest) ∧ pred ≠ block ∧
      RemoveFreeLoop fuel σ block t =
        some ({ σ with mem := setBlockNext σ.mem pred (blockNext σ.mem block) }, true) ∧
      Chain (setBlockNext σ.mem pred (blockNext σ.mem block)) t (t :: rest.erase block)) ∧
    (block ∉ rest → RemoveFreeLoop fuel σ block t = some (σ, false)) := by
  intro rest
  induction rest with
  | nil =>
    intro fuel σ block t hc hb0 hbt _ _ hf
    obtain ⟨_, ht0, hnext⟩ := hc
    simp only [Chain] at hnext
    refine ⟨fun h => by simp at h, fun _ => ?_⟩
    obtain ⟨f, rfl⟩ : ∃ f, fuel = f + 2 := ⟨fuel - 2, by simp at hf; omega⟩
    unfold RemoveFreeLoop
    simp only [ht0, if_false, hnext]
    rw [if_neg hb0]
    unfold RemoveFreeLoop
    simp
  | cons r rs ih =>
    intro fuel σ block t hc hb0 hbt hnd hsep hf
    obtain ⟨_, ht0, hnext⟩ := hc
    have hrc : Chain σ.mem r (r :: rs) := by
      obtain ⟨h1, h2, h3⟩ := hnext
      exact ⟨rfl, h2, h3⟩
    have hnr : blockNext σ.mem t = r := hnext.1
    obtain ⟨f, rfl⟩ : ∃ f, fuel = f + 1 := ⟨fuel - 1, by simp at hf; omega⟩
    have hnd' : (r :: rs).Nodup := (List.nodup_cons.mp hnd).2
    have htn : t ∉ r :: rs := (List.nodup_cons.mp hnd).1
    have hsep' : Sep16 (r :: rs) := fun a ha b hb =>
      hsep a (List.mem_cons_of_mem _ ha) b (List.mem_cons_of_mem _ hb)
    unfold RemoveFreeLoop
    simp only [ht0, if_false, hnr]
    by_cases hbr : block = r
    · subst hbr
      simp only [if_true]
      refine ⟨fun _ => ⟨t, List.mem_cons_self _ _, fun h => hbt h.symm, rfl, ?_⟩,
        fun h => absurd (List.mem_cons_self _ _) h⟩
      rw [List.erase_cons_head]
      refine ⟨rfl, ht0, ?_⟩
      rw [blockNext_setBlockNext _ _ _ (blockNext_nonneg _ _) (blockNext_lt _ _)]
      apply Chain_congr _ hnext.2.2
      intro b hb
      apply blockNext_setBlockNext_ne
      have hbt' : t ≠ b := fun h => htn (h ▸ List.mem_cons_of_mem _ hb)
      exact hsep t (List.mem_cons_self _ _) b
        (List.mem_cons_of_mem _ (List.mem_cons_of_mem _ hb)) hbt'
    · simp only [hbr, if_false]
      obtain ⟨ih1, ih2⟩ := ih f σ block r hrc hb0 hbr hnd' hsep' (by simp at hf ⊢; omega)
      constructor
      · intro hmem
        have hmem' : block ∈ rs := by
          rcases List.mem_cons.mp hmem with h | h
          · exact absurd h hbr
          · exact h
        obtain ⟨pred, hp1, hp2, hp3, hp4⟩ := ih1 hmem'
        refine ⟨pred, List.mem_cons_of_mem _ hp1, hp2, hp3, ?_⟩
        have her : (r :: rs).erase block = r :: rs.erase block := by
          rw [List.erase_cons_tail]
          simp; exact fun h => hbr h.symm
        rw [her]
        refine ⟨rfl, ht0, ?_⟩
        have hpt : pred ≠ t := fun h => htn (h ▸ hp1)
        rw [blockNext_setBlockNext_ne _ _ _ _
          (hsep pred (List.mem_cons_of_mem _ hp1) t (List.mem_cons_self _ _) hpt), hnr]
        exact hp4
      · intro hmem
        apply ih2
        intro h
        exact hmem (List.mem_cons_of_mem _ h)

/-! ## Levels, indices and lists of blocks -/

theorem mem_lvl {L : Int} {free : List Blk} {b : Int} : b ∈ lvl L free ↔ (b, L) ∈ free := by
  unfold lvl
  simp only [List.mem_map, List.mem_filter, decide_eq_true_eq]
  constructor
  · rintro ⟨x, ⟨hx, hL⟩, rfl⟩
    obtain ⟨a, l⟩ := x
    simp only at hL
    subst hL
    exact hx
  · intro h
    exact ⟨(b, L), ⟨h, rfl⟩, rfl⟩

theorem lvl_cons_same (L : Int) (b : Int) (free : List Blk) :
    lvl L ((b, L) :: free) = b :: lvl L free := by
  unfold lvl; simp

theorem lvl_cons_ne {L L' : Int} (b : Int) (free : List Blk) (h : L' ≠ L) :
    lvl L ((b, L') :: free) = lvl L free := by
  unfold lvl; simp [h]

theorem rmBlk_cons_same (x : Blk) (l : List Blk) : rmBlk x (x :: l) = l := by
  simp [rmBlk]

theorem rmBlk_cons_ne {x y : Blk} (l : List Blk) (h : y ≠ x) :
    rmBlk x (y :: l) = y :: rmBlk x l := by
  simp [rmBlk, h]

theorem rmBlk_perm {x : Blk} : ∀ {l : List Blk}, x ∈ l → List.Perm l (x :: rmBlk x l) := by
  intro l
  induction l with
  | nil => intro h; simp at h
  | cons y ys ih =>
    intro h
    by_cases hyx : y = x
    · subst hyx; rw [rmBlk_cons_same]
    · rw [rmBlk_cons_ne _ hyx]
      have hx : x ∈ ys := by
        rcases List.mem_cons.mp h with h | h
        · exact absurd h.symm hyx
        · exact h
      exact (List.Perm.cons y (ih hx)).trans (List.Perm.swap x y _)

theorem mem_of_mem_rmBlk {x y : Blk} : ∀ {l : List Blk}, y ∈ rmBlk x l → y ∈ l := by
  intro l
  induction l with
  | nil => intro h; simp [rmBlk] at h
  | cons z zs ih =>
    intro h
    by_cases hzx : z = x
    · subst hzx; rw [rmBlk_cons_same] at h; exact List.mem_cons_of_mem _ h
    · rw [rmBlk_cons_ne _ hzx] at h
      rcases List.mem_cons.mp h with h | h
      · rw [h]; exact List.mem_cons_self _ _
      · exact List.mem_cons_of_mem _ (ih h)

theorem lvl_rmBlk (L : Int) (b : Int) : ∀ free : List Blk,
    lvl L (rmBlk (b, L) free) = (lvl L free).erase b := by
  intro free
  induction free with
  | nil => simp [lvl, rmBlk]
  | cons x xs ih =>
    obtain ⟨a, La⟩ := x
    by_cases h : (a, La) = (b, L)
    · obtain ⟨rfl, rfl⟩ := Prod.mk.inj h
      rw [rmBlk_cons_same, lvl_cons_same, List.erase_cons_head]
    · rw [rmBlk_cons_ne _ h]
      by_cases hL : La = L
      · subst hL
        have hab : a ≠ b := fun e => h (by rw [e])
        rw [lvl_cons_same, lvl_cons_same, List.erase_cons_tail (by simpa using hab), ih]
      · rw [lvl_cons_ne _ _ hL, lvl_cons_ne _ _ hL, ih]

theorem lvl_rmBlk_ne {L L' : Int} (b : Int) (h : L' ≠ L) : ∀ free : List Blk,
    lvl L (rmBlk (b, L') free) = lvl L free := by
  intro free
  induction free with
  | nil => simp [lvl, rmBlk]
  | cons x xs ih =>
    obtain ⟨a, La⟩ := x
    by_cases h2 : (a, La) = (b, L')
    · obtain ⟨rfl, rfl⟩ := Prod.mk.inj h2
      rw [rmBlk_cons_same, lvl_cons_ne _ _ h]
    · rw [rmBlk_cons_ne _ h2]
      by_cases hL : La = L
      · subst hL
        rw [lvl_cons_same, lvl_cons_same, ih]
      · rw [lvl_cons_ne _ _ hL, lvl_cons_ne _ _ hL, ih]

theorem lvl_nodup (L : Int) : ∀ {free : List Blk}, free.Nodup → (lvl L free).Nodup := by
  intro free
  induction free with
  | nil => intro _; simp [lvl]
  | cons x xs ih =>
    intro h
    obtain ⟨a, La⟩ := x
    obtain ⟨h1, h2⟩ := List.nodup_cons.mp h
    by_cases hL : La = L
    · subst hL
      rw [lvl_cons_same]
      exact List.nodup_cons.mpr ⟨fun hm => h1 (mem_lvl.mp hm), ih h2⟩
    · rw [lvl_cons_ne _ _ hL]
      exact ih h2

theorem getFree_eq (σ : State) {L : Int} (h0 : 0 ≤ L) (h1 : L < 32) :
    getFree σ L = some (σ.g_freeBlocks L) := by
  unfold getFree MAX_LEVELS; simp [h0, h1]

theorem setFree_eq (σ : State) {L : Int} (b : Int) (h0 : 0 ≤ L) (h1 : L < 32) :
    setFree σ L b =
      some { σ with g_freeBlocks := fun l => if l = L then b else σ.g_freeBlocks l } := by
  unfold setFree MAX_LEVELS; simp [h0, h1]

theorem IndexOfLevel_eq (σ : State) {L : Int} (h0 : MAX_LEVELS - σ.g_levelsNum ≤ L)
    (h1 : L - MAX_LEVELS + σ.g_levelsNum < 31) : IndexOfLevel σ L = some (lvlBase σ L) := by
  unfold IndexOfLevel
  unfold MAX_LEVELS at *
  rw [Pow2Int_eq (by omega) h1]
  rfl

theorem IndexWithinLevel_eq (σ : State) (b : Int) {L : Int} (h0 : 4 < L) (h1 : L ≤ 35) :
    IndexWithinLevel σ b L = some ((b - σ.g_buddyStart) / bsize L) := by
  unfold IndexWithinLevel levelOrActual
  have : L ≠ -1 := by omega
  simp only [this, if_false]
  rw [LevelToSize_eq h0 h1]

theorem IndexGlobal_eq (σ : State) (b : Int) {L : Int} (hg : Geom σ)
    (h0 : MAX_LEVELS - σ.g_levelsNum ≤ L) (h1 : L ≤ 31) :
    IndexGlobal σ b L = some (gidx σ b L) := by
  have hn1 := hg.n_lo
  have hn2 := hg.n_hi
  unfold MAX_LEVELS at h0
  unfold IndexGlobal levelOrActual
  have : L ≠ -1 := by omega
  simp only [this, if_false]
  rw [IndexOfLevel_eq σ (by unfold MAX_LEVELS; omega) (by unfold MAX_LEVELS; omega),
    IndexWithinLevel_eq σ b (by omega) (by omega)]
  rfl

theorem ValidNode.lvl_ge {σ : State} {x : Blk} (hg : Geom σ) (hv : ValidNode σ x) : 5 ≤ x.2 := by
  have := hv.lo; have := hg.n_hi; unfold MAX_LEVELS at *; omega

theorem ValidNode.size_ge {σ : State} {x : Blk} (hv : ValidNode σ x) : 16 ≤ bsize x.2 :=
  bsize_ge16 hv.hi

theorem ValidNode.pos {σ : State} {x : Blk} (hg : Geom σ) (hv : ValidNode σ x) : 0 < x.1 :=
  lt_of_lt_of_le hg.m_pos hv.ge

theorem ValidNode.lt {σ : State} {x : Blk} (hg : Geom σ) (hv : ValidNode σ x) :
    x.1 < 18446744073709551616 := by
  have := hv.le; have := hv.size_ge; have := hg.e_lt; omega

theorem bsize_le_2_30 {L : Int} (h : 5 ≤ L) : bsize L ≤ 1073741824 := by
  have := bsize_mono h
  have e : bsize 5 = 1073741824 := by decide
  omega

theorem Disj.symm {x y : Blk} (h : Disj x y) : Disj y x := Or.symm h

theorem buddySize_eq {σ : State} (hg : Geom σ) {L : Int} (h0 : MAX_LEVELS - σ.g_levelsNum ≤ L)
    (h1 : L ≤ 35) : σ.g_buddySize = bsize L * 2 ^ (L - 32 + σ.g_levelsNum).toNat := by
  rw [hg.bs]
  unfold bsize
  rw [← pow_add]
  congr 1
  have := hg.n_lo
  unfold MAX_LEVELS at h0
  omega

/-! ## Unfolding equations and the frame rule -/

theorem AllocOnLevelAux_succ (fuel : Nat) (σ : State) (level : Int) :
    AllocOnLevelAux (fuel + 1) σ level =
      if level < MAX_LEVELS - σ.g_levelsNum then some (σ, 0)
      else
        match getFree σ level with
        | none => none
        | some block =>
          if block ≠ 0 then
            match setFree σ level (blockNext σ.mem block) with
            | none => none
            | some σ1 => some (σ1, block)
          else
            match AllocOnLevelAux fuel σ (level - 1) with
            | none => none
            | some (σ1, first) =>
              if first = 0 then some (σ1, 0)
              else
                match IndexGlobal σ1 first (level - 1) with
                | none => none
                | some index => splitStep σ1 first level index := by
  rfl

theorem MergeAux_succ (fuel : Nat) (σ : State) (block : Int) :
    MergeAux (fuel + 1) σ block =
      match FindBuddy σ block (-1) with
      | none => none
      | some buddy =>
        if buddy = 0 then some (σ, block)
        else
          match SizeToLevel (blockSize σ.mem block) with
          | none => none
          | some level =>
            match RemoveFree σ buddy level with
            | none => none
            | some (σ1, removed) =>
              if removed then
                match mergeStep σ1 block buddy level with
                | none => none
                | some (σ3, merged) => MergeAux fuel σ3 merged
              else some (σ1, block) := by
  rw [MergeAux]
  unfold mergeStep
  cases FindBuddy σ block (-1) with
  | none => rfl
  | some buddy =>
    simp only
    split
    · rfl
    · cases SizeToLevel (blockSize σ.mem block) with
      | none => rfl
      | some level =>
        simp only
        cases RemoveFree σ buddy level with
        | none => rfl
        | some r =>
          obtain ⟨σ1, removed⟩ := r
          simp only
          split
          · generalize IndexGlobal _ _ _ = r
            cases r <;> rfl
          · rfl

theorem Geom.geomSame {σ σ' : State} (h : SameGlobals σ σ') (hg : Geom σ) : Geom σ' := by
  constructor
  · rw [h.levelsNum]; exact hg.n_lo
  · rw [h.levelsNum]; exact hg.n_hi
  · rw [h.levelsNum, h.buddySize]; exact hg.bs
  · rw [h.gend, h.buddyStart, h.buddySize]; exact hg.be
  · rw [h.memStart, h.buddyStart]; exact hg.ms_le
  · rw [h.memStart, h.buddyStart]; exact hg.ms_al
  · rw [h.memStart]; exact hg.m_pos
  · rw [h.gend]; exact hg.e_lt

theorem ValidNode.nodeSame {σ σ' : State} {x : Blk} (h : SameGlobals σ σ') (hv : ValidNode σ x) :
    ValidNode σ' x := by
  constructor
  · rw [h.levelsNum]; exact hv.lo
  · exact hv.hi
  · rw [h.buddyStart]; exact hv.al
  · rw [h.memStart]; exact hv.ge
  · rw [h.gend]; exact hv.le

theorem MetaGeom.metaSame {σ σ' : State} (h : SameGlobals σ σ') (hm : MetaGeom σ) :
    MetaGeom σ' := by
  constructor
  · rw [h.levelsNum]; exact hm.n7
  · rw [h.levelsNum, h.metaSize]; exact hm.msz
  · rw [h.metaStart, h.metaSplitStart, h.metaSize]; exact hm.split
  · rw [h.memStart, h.buddyStart, h.metaStart]; exact hm.origin

theorem metaBlk_of_same {σ σ' : State} (h : SameGlobals σ σ') : metaBlk σ' = metaBlk σ := by
  unfold metaBlk; rw [h.metaStart, h.levelsNum]

theorem MetaOK.okSame {σ σ' : State} {res : List Blk} (h : SameGlobals σ σ')
    (hm : MetaOK σ res) : MetaOK σ' res := by
  rcases hm with ⟨h1, h2⟩ | ⟨h1, h2⟩
  · left; rw [h.metaStart, h.metaSplitStart]; exact ⟨h1, h2⟩
  · right; rw [metaBlk_of_same h]; exact ⟨h1.metaSame h, h2⟩

theorem gidx_of_same {σ σ' : State} (h : SameGlobals σ σ') (b L : Int) :
    gidx σ' b L = gidx σ b L := by
  unfold gidx lvlBase; rw [h.levelsNum, h.buddyStart]

theorem OddAligned.oddSame {σ σ' : State} {x : Blk} (h : SameGlobals σ σ')
    (ho : OddAligned σ x) : OddAligned σ' x := by
  intro L h1 h2
  rw [h.buddyStart]
  rw [h.levelsNum] at h1
  exact ho L h1 h2

/-- Changing memory outside the headers of the listed blocks keeps the structure. -/
theorem Struct.frame {σ σ' : State} {res fly free : List Blk} (hS : Struct σ res fly free)
    (hsg : SameGlobals σ σ') (hfb : σ'.g_freeBlocks = σ.g_freeBlocks)
    (hmem : ∀ x ∈ fly ++ free, ∀ a, x.1 ≤ a → a < x.1 + 16 →
      readU8 σ'.mem a = readU8 σ.mem a) : Struct σ' res fly free := by
  refine ⟨hS.geom.geomSame hsg, hS.metaOK.okSame hsg, ?_, ?_, ?_, hS.pw⟩
  · intro L h0 h1
    rw [hfb]
    apply Chain_congr _ (hS.chain L h0 h1)
    intro b hb
    have hb' : (b, L) ∈ fly ++ free := List.mem_append_right _ (mem_lvl.mp hb)
    apply blockNext_congr
    intro a h2 h3
    exact hmem _ hb' a (by simp only; omega) (by simp only; omega)
  · intro x hx
    rw [← hS.hdr x hx]
    apply blockSize_congr
    intro a h2 h3
    exact hmem x hx a h2 (by omega)
  · intro x hx
    exact (hS.valid x hx).nodeSame hsg

theorem Disj.irrefl (x : Blk) : ¬ Disj x x := by
  intro h
  have := bsize_pos x.2
  rcases h with h | h <;> omega

theorem pw_perm {l1 l2 : List Blk} (h : List.Perm l1 l2) (hp : l1.Pairwise Disj) :
    l2.Pairwise Disj :=
  (List.Perm.pairwise_iff (fun {_ _} h => Disj.symm h) h).mp hp

theorem pw_nodup {l : List Blk} (hp : l.Pairwise Disj) : l.Nodup := by
  unfold List.Nodup
  apply List.Pairwise.imp _ hp
  intro a b h e
  subst e
  exact Disj.irrefl a h

theorem pw_disj {l : List Blk} (hp : l.Pairwise Disj) {x y : Blk} (hx : x ∈ l) (hy : y ∈ l)
    (hne : x ≠ y) : Disj x y := by
  induction l with
  | nil => simp at hx
  | cons a as ih =>
    obtain ⟨h1, h2⟩ := List.pairwise_cons.mp hp
    rcases List.mem_cons.mp hx with rfl | hx'
    · rcases List.mem_cons.mp hy with rfl | hy'
      · exact absurd rfl hne
      · exact h1 y hy'
    · rcases List.mem_cons.mp hy with rfl | hy'
      · exact (h1 x hx').symm
      · exact ih h2 hx' hy'

theorem Struct.free_nodup {σ : State} {res fly free : List Blk} (hS : Struct σ res fly free) :
    free.Nodup := by
  have h1 := pw_nodup hS.pw
  have h2 := (List.nodup_append.mp h1).2.1
  exact (List.nodup_append.mp h2).2.1

/-! ## The bitmaps as part of the state -/

theorem IsSplit_eq_getBit (σ : State) (g : Int) :
    IsSplit σ g = (decide (g < σ.g_buddySize / MIN_SIZE - 1) && decide (σ.g_metaSplitStart ≠ 0) &&
      getBit σ.mem σ.g_metaSplitStart g) := by
  unfold IsSplit getBit
  by_cases h1 : g ≥ σ.g_buddySize / MIN_SIZE - 1
  · have : ¬ g < σ.g_buddySize / MIN_SIZE - 1 := by omega
    simp [h1, this]
  · have h1' : g < σ.g_buddySize / MIN_SIZE - 1 := by omega
    by_cases h2 : σ.g_metaSplitStart = 0
    · simp [h2]
    · simp [h1, h1', h2]

theorem IsLeafTaken_eq_getBit (σ : State) (i : Int) :
    IsLeafTaken σ i = (decide (σ.g_metaStart ≠ 0) && getBit σ.mem σ.g_metaStart i) := by
  unfold IsLeafTaken getBit
  by_cases h2 : σ.g_metaStart = 0
  · simp [h2]
  · simp [h2]

theorem IsSplit_congr {σ σ' : State} (hsg : SameGlobals σ σ') (g : Int)
    (hm : readU8 σ'.mem (σ.g_metaSplitStart + g / 8) = readU8 σ.mem (σ.g_metaSplitStart + g / 8)) :
    IsSplit σ' g = IsSplit σ g := by
  rw [IsSplit_eq_getBit, IsSplit_eq_getBit, hsg.buddySize, hsg.metaSplitStart, getBit_congr hm]

theorem IsLeafTaken_congr {σ σ' : State} (hsg : SameGlobals σ σ') (i : Int)
    (hm : readU8 σ'.mem (σ.g_metaStart + i / 8) = readU8 σ.mem (σ.g_metaStart + i / 8)) :
    IsLeafTaken σ' i = IsLeafTaken σ i := by
  rw [IsLeafTaken_eq_getBit, IsLeafTaken_eq_getBit, hsg.metaStart, getBit_congr hm]

theorem IsSplit_MarkSplit (σ : State) (g j : Int) :
    IsSplit (MarkSplit σ g) j = (IsSplit σ j ||
      (decide (j = g) && decide (j < σ.g_buddySize / MIN_SIZE - 1) &&
        decide (σ.g_metaSplitStart ≠ 0))) := by
  rw [IsSplit_eq_getBit, IsSplit_eq_getBit, (MarkSplit_same σ g).buddySize,
    (MarkSplit_same σ g).metaSplitStart]
  unfold MarkSplit
  by_cases h : σ.g_metaSplitStart = 0
  · simp [h]
  · simp only [h, if_false, getBit_setBit]
    by_cases h2 : j = g
    · subst h2
      by_cases h1 : j < σ.g_buddySize / MIN_SIZE - 1 <;> simp [h1, h]
    · by_cases h1 : j < σ.g_buddySize / MIN_SIZE - 1 <;> simp [h1, h2, h]

theorem IsSplit_MarkMerged (σ : State) (g j : Int) :
    IsSplit (MarkMerged σ g) j = (IsSplit σ j && !decide (j = g)) := by
  rw [IsSplit_eq_getBit, IsSplit_eq_getBit, (MarkMerged_same σ g).buddySize,
    (MarkMerged_same σ g).metaSplitStart]
  unfold MarkMerged
  by_cases h : σ.g_metaSplitStart = 0
  · simp [h]
  · simp only [h, if_false, getBit_clearBit]
    by_cases h1 : j < σ.g_buddySize / MIN_SIZE - 1 <;> by_cases h2 : j = g <;> simp [h1, h2, h]

theorem readU8_MarkSplit (σ : State) (g a : Int)
    (h : σ.g_metaSplitStart = 0 ∨ a ≠ σ.g_metaSplitStart + g / 8) :
    readU8 (MarkSplit σ g).mem a = readU8 σ.mem a := by
  unfold MarkSplit
  by_cases h0 : σ.g_metaSplitStart = 0
  · simp [h0]
  · simp only [h0, if_false, readU8_writeU8]
    rcases h with h | h
    · exact absurd h h0
    · simp [h]

theorem readU8_MarkMerged (σ : State) (g a : Int)
    (h : σ.g_metaSplitStart = 0 ∨ a ≠ σ.g_metaSplitStart + g / 8) :
    readU8 (MarkMerged σ g).mem a = readU8 σ.mem a := by
  unfold MarkMerged
  by_cases h0 : σ.g_metaSplitStart = 0
  · simp [h0]
  · simp only [h0, if_false, readU8_writeU8]
    rcases h with h | h
    · exact absurd h h0
    · simp [h]

theorem MarkSplit_freeBlocks (σ : State) (g : Int) :
    (MarkSplit σ g).g_freeBlocks = σ.g_freeBlocks := by
  unfold MarkSplit; split <;> rfl

theorem MarkMerged_freeBlocks (σ : State) (g : Int) :
    (MarkMerged σ g).g_freeBlocks = σ.g_freeBlocks := by
  unfold MarkMerged; split <;> rfl

theorem pow_n_pos (k : Nat) : (0 : Int) < 2 ^ k := by positivity

theorem gidx_bounds {σ : State} {x : Blk} (hg : Geom σ) (hv : ValidNode σ x) :
    lvlBase σ x.2 ≤ gidx σ x.1 x.2 ∧
      gidx σ x.1 x.2 < lvlBase σ x.2 + 2 ^ (x.2 - 32 + σ.g_levelsNum).toNat := by
  unfold gidx
  have hpos := bsize_pos x.2
  have h1 : 0 ≤ (x.1 - σ.g_buddyStart) / bsize x.2 := by
    apply Int.ediv_nonneg _ (le_of_lt hpos)
    have := hv.ge; have := hg.ms_le; omega
  have h2 : (x.1 - σ.g_buddyStart) / bsize x.2 < 2 ^ (x.2 - 32 + σ.g_levelsNum).toNat := by
    apply Int.ediv_lt_of_lt_mul hpos
    have e := buddySize_eq hg hv.lo (by have := hv.hi; omega)
    have := hv.le
    have := hg.be
    rw [mul_comm, ← e]
    omega
  omega

theorem lvlBase_succ {σ : State} {L : Int} (h : MAX_LEVELS - σ.g_levelsNum ≤ L) :
    lvlBase σ (L + 1) = 2 * lvlBase σ L + 1 := by
  unfold lvlBase
  unfold MAX_LEVELS at h
  have : (L + 1 - 32 + σ.g_levelsNum).toNat = (L - 32 + σ.g_levelsNum).toNat + 1 := by omega
  rw [this, pow_succ]; ring

theorem lvlBase_31 {σ : State} (hg : Geom σ) : lvlBase σ 31 = σ.g_buddySize / MIN_SIZE - 1 := by
  unfold lvlBase MIN_SIZE
  rw [hg.bs]
  have hn := hg.n_lo
  have : (σ.g_levelsNum + 3).toNat = (31 - 32 + σ.g_levelsNum).toNat + 4 := by omega
  rw [this, pow_add]
  have : (2:Int) ^ 4 = 16 := by norm_num
  rw [this, Int.mul_ediv_cancel _ (by norm_num)]

theorem lvlBase_mono {σ : State} {L1 L2 : Int} (h : L1 ≤ L2) : lvlBase σ L1 ≤ lvlBase σ L2 := by
  unfold lvlBase
  have : (2:Int) ^ (L1 - 32 + σ.g_levelsNum).toNat ≤ 2 ^ (L2 - 32 + σ.g_levelsNum).toNat :=
    pow_le_pow_right₀ (by norm_num) (by omega)
  omega

/-- The global index of a node above the leaves is a valid bit of the split bitmap. -/
theorem gidx_lt_leaf {σ : State} {x : Blk} (hg : Geom σ) (hv : ValidNode σ x) (h30 : x.2 ≤ 30) :
    0 ≤ gidx σ x.1 x.2 ∧ gidx σ x.1 x.2 < σ.g_buddySize / MIN_SIZE - 1 := by
  obtain ⟨h1, h2⟩ := gidx_bounds hg hv
  have h3 : lvlBase σ (x.2 + 1) ≤ lvlBase σ 31 := lvlBase_mono (by omega)
  rw [lvlBase_succ hv.lo] at h3
  rw [← lvlBase_31 hg]
  have h4 : (0:Int) < 2 ^ (x.2 - 32 + σ.g_levelsNum).toNat := pow_n_pos _
  have h5 : lvlBase σ x.2 = 2 ^ (x.2 - 32 + σ.g_levelsNum).toNat - 1 := rfl
  omega

theorem gidx_level {σ : State} (hg : Geom σ) {a L : Int} (ha : σ.g_buddyStart ≤ a)
    (ha2 : a < σ.g_end) (hL : MAX_LEVELS - σ.g_levelsNum ≤ L) (hL31 : L ≤ 31) :
    lvlBase σ L ≤ gidx σ a L ∧ gidx σ a L < lvlBase σ (L + 1) := by
  rw [lvlBase_succ hL]
  unfold gidx
  have hpos := bsize_pos L
  have h1 : 0 ≤ (a - σ.g_buddyStart) / bsize L :=
    Int.ediv_nonneg (by omega) (le_of_lt hpos)
  have h2 : (a - σ.g_buddyStart) / bsize L < 2 ^ (L - 32 + σ.g_levelsNum).toNat := by
    apply Int.ediv_lt_of_lt_mul hpos
    have e := buddySize_eq hg hL (by omega)
    have := hg.be
    rw [mul_comm, ← e]
    omega
  have h3 : lvlBase σ L = 2 ^ (L - 32 + σ.g_levelsNum).toNat - 1 := rfl
  omega

theorem gidx_inj {σ : State} (hg : Geom σ) {a a' L L' : Int}
    (ha : σ.g_buddyStart ≤ a) (ha2 : a < σ.g_end)
    (ha' : σ.g_buddyStart ≤ a') (ha2' : a' < σ.g_end)
    (hL : MAX_LEVELS - σ.g_levelsNum ≤ L) (hL31 : L ≤ 31)
    (hL' : MAX_LEVELS - σ.g_levelsNum ≤ L') (hL31' : L' ≤ 31)
    (hd : bsize L ∣ a - σ.g_buddyStart) (hd' : bsize L' ∣ a' - σ.g_buddyStart)
    (h : gidx σ a L = gidx σ a' L') : L = L' ∧ a = a' := by
  obtain ⟨b1, b2⟩ := gidx_level hg ha ha2 hL hL31
  obtain ⟨b1', b2'⟩ := gidx_level hg ha' ha2' hL' hL31'
  have hLL : L = L' := by
    by_contra hne
    rcases lt_or_gt_of_ne hne with h1 | h1
    · have := @lvlBase_mono σ (L + 1) L' (by omega)
      omega
    · have := @lvlBase_mono σ (L' + 1) L (by omega)
      omega
  subst hLL
  refine ⟨rfl, ?_⟩
  unfold gidx at h
  obtain ⟨c, hc⟩ := hd
  obtain ⟨c', hc'⟩ := hd'
  have hpos := bsize_pos L
  rw [hc, hc', Int.mul_ediv_cancel_left _ (ne_of_gt hpos),
    Int.mul_ediv_cancel_left _ (ne_of_gt hpos)] at h
  have : c = c' := by omega
  subst this
  omega

/-! ## Allocation keeps the structure -/

theorem meta_nums {σ : State} (hg : Geom σ) (hm : MetaGeom σ) :
    σ.g_metaSize = bsize (38 - σ.g_levelsNum) ∧ σ.g_buddySize / MIN_SIZE = 8 * (σ.g_metaSize / 2) ∧
      σ.g_metaSize / 2 * 2 = σ.g_metaSize ∧ 8 ≤ σ.g_metaSize / 2 := by
  have hn := hm.n7
  have e1 : σ.g_metaSize = 2 ^ (σ.g_levelsNum - 7).toNat * 16 := by
    rw [hm.msz]
    have : (σ.g_levelsNum - 3).toNat = (σ.g_levelsNum - 7).toNat + 4 := by omega
    rw [this, pow_add]; norm_num
  have e2 : σ.g_buddySize = 2 ^ (σ.g_levelsNum - 7).toNat * 1024 := by
    rw [hg.bs]
    have : (σ.g_levelsNum + 3).toNat = (σ.g_levelsNum - 7).toNat + 10 := by omega
    rw [this, pow_add]; norm_num
  have hp : (1 : Int) ≤ 2 ^ (σ.g_levelsNum - 7).toNat := one_le_pow₀ (by norm_num)
  refine ⟨?_, ?_, ?_, ?_⟩
  · rw [hm.msz]; unfold bsize; congr 1; omega
  · unfold MIN_SIZE; omega
  · omega
  · omega

theorem Struct.meta_disj {σ : State} {res fly free : List Blk} (hS : Struct σ res fly free)
    {x : Blk} (hx : x ∈ fly ++ free) (hr : metaBlk σ ∈ res) : Disj (metaBlk σ) x :=
  (List.pairwise_append.mp hS.pw).2.2 _ hr _ hx

theorem Struct.not_meta {σ : State} {res fly free : List Blk} (hS : Struct σ res fly free)
    {x : Blk} (hx : x ∈ fly ++ free) {a : Int} (ha : InBlk x a) :
    ¬ SplitByte σ a ∧ ¬ LeafByte σ a := by
  rcases hS.metaOK with ⟨h1, h2⟩ | ⟨hm, hr⟩
  · exact ⟨fun h => h.1 h2, fun h => h.1 h1⟩
  · have hd := hS.meta_disj hx hr
    obtain ⟨e1, e2, e3, e4⟩ := meta_nums hS.geom hm
    have hsp := hm.split
    unfold Disj metaBlk at hd
    simp only at hd
    rw [← e1] at hd
    unfold InBlk at ha
    constructor
    · rintro ⟨_, h3, h4⟩; omega
    · rintro ⟨_, h3, h4⟩; omega

theorem splitByte_of_gidx {σ : State} {res : List Blk} (hg : Geom σ) (hm : MetaOK σ res)
    {g : Int} (h0 : 0 ≤ g) (h1 : g < σ.g_buddySize / MIN_SIZE - 1)
    (hne : σ.g_metaSplitStart ≠ 0) : SplitByte σ (σ.g_metaSplitStart + g / 8) := by
  rcases hm with ⟨_, h2⟩ | ⟨hm, _⟩
  · exact absurd h2 hne
  · obtain ⟨e1, e2, e3, e4⟩ := meta_nums hg hm
    refine ⟨hne, by omega, by omega⟩

theorem Chain_zero {m : Mem} {l : List Int} (h : Chain m 0 l) : l = [] := by
  cases l with
  | nil => rfl
  | cons b bs => obtain ⟨h1, h2, _⟩ := h; exact absurd h1.symm h2

theorem Chain_head {m : Mem} {l : List Int} {h : Int} (hc : Chain m h l) (hne : h ≠ 0) :
    ∃ rest, l = h :: rest ∧ Chain m (blockNext m h) rest := by
  cases l with
  | nil => exact absurd hc hne
  | cons b bs =>
    obtain ⟨h1, _, h3⟩ := hc
    subst h1
    exact ⟨bs, rfl, h3⟩

theorem pop_step {σ : State} {res fly free : List Blk} (hS : Struct σ res fly free) {L b : Int}
    (h0 : 0 ≤ L) (h1 : L < 32) (hhead : σ.g_freeBlocks L = b) (hb : b ≠ 0) :
    ∃ σ1, setFree σ L (blockNext σ.mem b) = some σ1 ∧ σ1.mem = σ.mem ∧ SameGlobals σ σ1 ∧
      (b, L) ∈ free ∧ Struct σ1 res ((b, L) :: fly) (rmBlk (b, L) free) := by
  have hc := hS.chain L h0 h1
  rw [hhead] at hc
  obtain ⟨rest, hl, hrest⟩ := Chain_head hc hb
  have hmem : (b, L) ∈ free := mem_lvl.mp (by rw [hl]; exact List.mem_cons_self _ _)
  have hsg : SameGlobals σ { σ with g_freeBlocks := fun l => if l = L then blockNext σ.mem b else σ.g_freeBlocks l } := by
    constructor <;> rfl
  refine ⟨_, setFree_eq σ _ h0 h1, rfl, hsg, hmem, ?_⟩
  have hperm : List.Perm (res ++ (((b, L) :: fly) ++ rmBlk (b, L) free)) (res ++ (fly ++ free)) := by
    apply List.Perm.append_left
    have h2 : List.Perm (((b, L) :: fly) ++ rmBlk (b, L) free) (fly ++ ((b, L) :: rmBlk (b, L) free)) := by
      apply List.perm_iff_count.mpr
      intro a
      simp only [List.count_append, List.count_cons]
      omega
    exact h2.trans (List.Perm.append_left _ (rmBlk_perm hmem).symm)
  have hsub : ∀ x, x ∈ ((b, L) :: fly) ++ rmBlk (b, L) free → x ∈ fly ++ free := by
    intro x hx
    have : x ∈ res ++ (((b, L) :: fly) ++ rmBlk (b, L) free) := List.mem_append_right _ hx
    rcases List.mem_append.mp hx with h | h
    · rcases List.mem_cons.mp h with rfl | h
      · exact List.mem_append_right _ hmem
      · exact List.mem_append_left _ h
    · exact List.mem_append_right _ (mem_of_mem_rmBlk h)
  refine ⟨hS.geom.geomSame hsg, hS.metaOK.okSame hsg, ?_, ?_, ?_, pw_perm hperm.symm hS.pw⟩
  · intro L' h0' h1'
    by_cases hL : L' = L
    · subst hL
      simp only [if_true]
      rw [lvl_rmBlk, hl, List.erase_cons_head]
      exact hrest
    · simp only [hL, if_false]
      rw [lvl_rmBlk_ne _ (fun h => hL h.symm)]
      exact hS.chain L' h0' h1'
  · intro x hx
    exact hS.hdr x (hsub x hx)
  · intro x hx
    exact (hS.valid x (hperm.mem_iff.mp hx)).nodeSame hsg

theorem split_mem (m2 : Mem) (p s : Int) (h16 : 16 ≤ s) (hs : s < 4294967296) :
    (∀ a, (a < p ∨ p + 2 * s ≤ a) →
      readU8 (setBlockNext (setBlockSize (setBlockSize m2 p s) (p + s) s) (p + s) 0) a =
        readU8 m2 a) ∧
    blockSize (setBlockNext (setBlockSize (setBlockSize m2 p s) (p + s) s) (p + s) 0) p = s ∧
    blockSize (setBlockNext (setBlockSize (setBlockSize m2 p s) (p + s) s) (p + s) 0) (p + s) = s ∧
    blockNext (setBlockNext (setBlockSize (setBlockSize m2 p s) (p + s) s) (p + s) 0) (p + s) = 0 := by
  refine ⟨?_, ?_, ?_, ?_⟩
  · intro a ha
    rw [readU8_setBlockNext _ _ _ _ (by omega), readU8_setBlockSize _ _ _ _ (by omega),
      readU8_setBlockSize _ _ _ _ (by omega)]
  · have : blockSize (setBlockNext (setBlockSize (setBlockSize m2 p s) (p + s) s) (p + s) 0) p =
        blockSize (setBlockSize m2 p s) p := by
      apply blockSize_congr
      intro x h1 h2
      rw [readU8_setBlockNext _ _ _ _ (by omega), readU8_setBlockSize _ _ _ _ (by omega)]
    rw [this, blockSize_setBlockSize _ _ _ (by omega) hs]
  · have : blockSize (setBlockNext (setBlockSize (setBlockSize m2 p s) (p + s) s) (p + s) 0) (p + s) =
        blockSize (setBlockSize (setBlockSize m2 p s) (p + s) s) (p + s) := by
      apply blockSize_congr
      intro x h1 h2
      rw [readU8_setBlockNext _ _ _ _ (by omega)]
    rw [this, blockSize_setBlockSize _ _ _ (by omega) hs]
  · exact blockNext_setBlockNext _ _ _ (le_refl _) (by norm_num)

theorem splitStep_spec {σ1 : State} {res fly0 free : List Blk} {p L : Int}
    (hS : Struct σ1 res ((p, L - 1) :: fly0) free) (hL : L ≤ 31)
    (hempty : σ1.g_freeBlocks L = 0) :
    ∃ σ5, splitStep σ1 p L (gidx σ1 p (L - 1)) = some (σ5, p) ∧ SameGlobals σ1 σ5 ∧
      Struct σ5 res ((p, L) :: fly0) ((p + bsize L, L) :: free) ∧
      (∀ a, ¬ InBlk (p, L - 1) a → ¬ SplitByte σ1 a → readU8 σ5.mem a = readU8 σ1.mem a) ∧
      (∀ g, 0 ≤ g → IsSplit σ1 g = true → IsSplit σ5 g = true) ∧
      (σ1.g_metaSplitStart ≠ 0 → IsSplit σ5 (gidx σ1 p (L - 1)) = true) ∧
      (∀ a, p + 4 ≤ a → a < p + bsize L → readU8 σ5.mem a = readU8 σ1.mem a) ∧
      (∀ g, 0 ≤ g → IsSplit σ5 g = true → IsSplit σ1 g = true ∨ g = gidx σ1 p (L - 1)) := by
  have hg := hS.geom
  have hmemP : (p, L - 1) ∈ ((p, L - 1) :: fly0) ++ free := by simp
  have hv : ValidNode σ1 (p, L - 1) := hS.valid _ (List.mem_append_right _ hmemP)
  have hLlo : MAX_LEVELS - σ1.g_levelsNum ≤ L - 1 := hv.lo
  have hn2 := hg.n_hi
  have hs : bsize (L - 1) = 2 * bsize L := bsize_pred L (by omega)
  have hs16 : 16 ≤ bsize L := bsize_ge16 hL
  have hs30 : bsize (L - 1) ≤ 1073741824 := bsize_le_2_30 (by unfold MAX_LEVELS at hLlo; omega)
  have hppos : 0 < p := hv.pos hg
  have hidx := gidx_lt_leaf hg hv (by simp only; omega)
  simp only at hidx
  have hfr2 : ∀ a, ¬ SplitByte σ1 a →
      readU8 (MarkSplit σ1 (gidx σ1 p (L - 1))).mem a = readU8 σ1.mem a := by
    intro a ha
    apply readU8_MarkSplit
    by_cases h0 : σ1.g_metaSplitStart = 0
    · left; exact h0
    · right
      intro e
      apply ha
      rw [e]
      exact splitByte_of_gidx hg hS.metaOK hidx.1 hidx.2 h0
  have hinP : ∀ a, p ≤ a → a < p + 16 → InBlk (p, L - 1) a := by
    intro a h1 h2; unfold InBlk; simp only; omega
  have hsz2 : blockSize (MarkSplit σ1 (gidx σ1 p (L - 1))).mem p = bsize (L - 1) := by
    rw [← hS.hdr (p, L - 1) hmemP]
    apply blockSize_congr
    intro x hx1 hx2
    exact hfr2 x (hS.not_meta hmemP (hinP x hx1 (by omega))).1
  have hhalf : bsize (L - 1) / 2 = bsize L := by omega
  obtain ⟨hm1, hm2, hm3, hm4⟩ := split_mem (MarkSplit σ1 (gidx σ1 p (L - 1))).mem p (bsize L) hs16
    (by omega)
  have hsg2 := MarkSplit_same σ1 (gidx σ1 p (L - 1))
  have hne : p + bsize L ≠ 0 := by omega
  have hL0 : 0 ≤ L := by unfold MAX_LEVELS at hLlo; omega
  -- decomposition of the disjointness
  have hperm1 : List.Perm (res ++ (((p, L - 1) :: fly0) ++ free))
      ((p, L - 1) :: (res ++ (fly0 ++ free))) := by
    apply List.perm_iff_count.mpr
    intro a
    simp only [List.count_append, List.count_cons]
    omega
  obtain ⟨hdP, hrest⟩ := List.pairwise_cons.mp (pw_perm hperm1 hS.pw)
  have hvalid : ∀ x ∈ res ++ (fly0 ++ free), ValidNode σ1 x := by
    intro x hx
    apply hS.valid
    exact hperm1.mem_iff.mpr (List.mem_cons_of_mem _ hx)
  have hother : ∀ x ∈ fly0 ++ free, ∀ a, x.1 ≤ a → a < x.1 + 16 →
      readU8 (setBlockNext (setBlockSize (setBlockSize (MarkSplit σ1 (gidx σ1 p (L - 1))).mem p
        (bsize L)) (p + bsize L) (bsize L)) (p + bsize L) 0) a = readU8 σ1.mem a := by
    intro x hx a h1 h2
    have hx' : x ∈ ((p, L - 1) :: fly0) ++ free := by
      rw [List.cons_append]; exact List.mem_cons_of_mem _ hx
    have hd := hdP x (List.mem_append_right _ hx)
    have hvx := hvalid x (List.mem_append_right _ hx)
    have := hvx.size_ge
    rw [hm1 a (by unfold Disj at hd; simp only at hd; omega)]
    exact hfr2 a (hS.not_meta hx' (by unfold InBlk; omega)).1
  obtain ⟨σ5, hσ5, hmem5, hfb5, hsg5⟩ : ∃ σ5, splitStep σ1 p L (gidx σ1 p (L - 1)) = some (σ5, p) ∧
      σ5.mem = setBlockNext (setBlockSize (setBlockSize (MarkSplit σ1 (gidx σ1 p (L - 1))).mem p
        (bsize L)) (p + bsize L) (bsize L)) (p + bsize L) 0 ∧
      σ5.g_freeBlocks = (fun l => if l = L then p + bsize L else σ1.g_freeBlocks l) ∧
      SameGlobals σ1 σ5 := by
    unfold splitStep
    simp only [hsz2, hhalf]
    unfold AddFree
    simp only [hne, if_false]
    rw [getFree_eq _ hL0 (by omega), setFree_eq _ _ hL0 (by omega)]
    simp only [MarkSplit_freeBlocks, hempty]
    exact ⟨_, rfl, rfl, rfl, ⟨hsg2.levelsNum, hsg2.memStart, hsg2.gend, hsg2.buddyStart,
      hsg2.metaStart, hsg2.metaSplitStart, hsg2.memSize, hsg2.buddySize, hsg2.metaSize,
      hsg2.blocksPending⟩⟩
  rw [← hmem5] at hm1 hm2 hm3 hm4 hother
  have hbits : ∀ g, 0 ≤ g → IsSplit σ5 g = IsSplit (MarkSplit σ1 (gidx σ1 p (L - 1))) g := by
    intro g hg0
    rw [IsSplit_eq_getBit, IsSplit_eq_getBit, hsg5.buddySize, hsg5.metaSplitStart,
      hsg2.buddySize, hsg2.metaSplitStart]
    by_cases h1 : g < σ1.g_buddySize / MIN_SIZE - 1
    · by_cases h0 : σ1.g_metaSplitStart = 0
      · simp [h0]
      · have hsb := splitByte_of_gidx hg hS.metaOK hg0 h1 h0
        congr 1
        apply getBit_congr
        apply hm1
        by_contra hc
        exact (hS.not_meta hmemP (a := σ1.g_metaSplitStart + g / 8)
          (by unfold InBlk; simp only; omega)).1 hsb
    · simp [h1]
  refine ⟨σ5, hσ5, hsg5, ?_, ?_, ?_, ?_, ?_, ?_⟩
  · refine ⟨hg.geomSame hsg5, hS.metaOK.okSame hsg5, ?_, ?_, ?_, ?_⟩
    · intro L' h0' h1'
      by_cases hLL : L' = L
      · subst hLL
        have hnil : lvl L' free = [] := by
          have := hS.chain L' h0' h1'
          rw [hempty] at this
          exact Chain_zero this
        rw [lvl_cons_same, hnil, hfb5]
        simp only [if_true]
        exact ⟨rfl, hne, hm4⟩
      · rw [lvl_cons_ne _ _ (fun h => hLL h.symm), hfb5]
        simp only [hLL, if_false]
        apply Chain_congr _ (hS.chain L' h0' h1')
        intro b hb
        have hb' : (b, L') ∈ fly0 ++ free := List.mem_append_right _ (mem_lvl.mp hb)
        apply blockNext_congr
        intro a h2 h3
        exact hother _ hb' a (by simp only; omega) (by simp only; omega)
    · intro x hx
      rw [List.cons_append] at hx
      rcases List.mem_cons.mp hx with rfl | hx
      · exact hm2
      · rcases List.mem_append.mp hx with hx | hx
        · rw [← hS.hdr x (by rw [List.cons_append]; exact List.mem_cons_of_mem _ (List.mem_append_left _ hx))]
          apply blockSize_congr
          intro a h2 h3
          exact hother x (List.mem_append_left _ hx) a h2 (by omega)
        · rcases List.mem_cons.mp hx with rfl | hx
          · exact hm3
          · rw [← hS.hdr x (by rw [List.cons_append]; exact List.mem_cons_of_mem _ (List.mem_append_right _ hx))]
            apply blockSize_congr
            intro a h2 h3
            exact hother x (List.mem_append_right _ hx) a h2 (by omega)
    · have hvL : ValidNode σ1 (p, L) := by
        refine ⟨by have := hv.lo; simp only at this ⊢; omega, hL, ?_, hv.ge, ?_⟩
        · exact dvd_trans (bsize_dvd (by omega) (by omega)) hv.al
        · have := hv.le; simp only at this ⊢; omega
      have hvR : ValidNode σ1 (p + bsize L, L) := by
        refine ⟨by have := hv.lo; simp only at this ⊢; omega, hL, ?_, ?_, ?_⟩
        · have h1 : bsize L ∣ p - σ1.g_buddyStart :=
            dvd_trans (bsize_dvd (by omega) (by omega)) hv.al
          have : p + bsize L - σ1.g_buddyStart = (p - σ1.g_buddyStart) + bsize L := by ring
          simp only
          rw [this]
          exact dvd_add h1 (dvd_refl _)
        · have := hv.ge; simp only at this ⊢; omega
        · have := hv.le; simp only at this ⊢; omega
      intro x hx
      apply ValidNode.nodeSame hsg5
      rcases List.mem_append.mp hx with hx | hx
      · exact hvalid x (List.mem_append_left _ hx)
      · rw [List.cons_append] at hx
        rcases List.mem_cons.mp hx with rfl | hx
        · exact hvL
        · rcases List.mem_append.mp hx with hx | hx
          · exact hvalid x (List.mem_append_right _ (List.mem_append_left _ hx))
          · rcases List.mem_cons.mp hx with rfl | hx
            · exact hvR
            · exact hvalid x (List.mem_append_right _ (List.mem_append_right _ hx))
    · have hperm2 : List.Perm ((p, L) :: (p + bsize L, L) :: (res ++ (fly0 ++ free)))
          (res ++ (((p, L) :: fly0) ++ ((p + bsize L, L) :: free))) := by
        apply List.perm_iff_count.mpr
        intro a
        simp only [List.count_append, List.count_cons]
        omega
      apply pw_perm hperm2
      refine List.pairwise_cons.mpr ⟨?_, List.pairwise_cons.mpr ⟨?_, hrest⟩⟩
      · intro x hx
        rcases List.mem_cons.mp hx with rfl | hx
        · left; simp only; omega
        · have hd := hdP x hx
          unfold Disj at hd ⊢
          simp only at hd ⊢
          omega
      · intro x hx
        have hd := hdP x hx
        unfold Disj at hd ⊢
        simp only at hd ⊢
        omega
  · intro a ha hsb
    rw [hm1 a (by unfold InBlk at ha; simp only at ha; omega)]
    exact hfr2 a hsb
  · intro g hg0 hgs
    have h1 : IsSplit (MarkSplit σ1 (gidx σ1 p (L - 1))) g = true := by
      rw [IsSplit_MarkSplit, hgs]; rfl
    rw [← h1]
    exact hbits g hg0
  · intro h0
    rw [hbits _ hidx.1, IsSplit_MarkSplit]
    simp [h0, hidx.2]
  · intro a h1 h2
    rw [hmem5, readU8_setBlockNext _ _ _ _ (by omega), readU8_setBlockSize _ _ _ _ (by omega),
      readU8_setBlockSize _ _ _ _ (by omega)]
    exact hfr2 a (hS.not_meta hmemP (by unfold InBlk; simp only; omega)).1
  · intro g hg0 hgs
    rw [hbits g hg0, IsSplit_MarkSplit] at hgs
    simp only [Bool.or_eq_true, Bool.and_eq_true, decide_eq_true_eq] at hgs
    rcases hgs with h | ⟨⟨h, _⟩, _⟩
    · left; exact h
    · right; exact h

theorem IsSplit_setFree (σ : State) (f : Int → Int) (g : Int) :
    IsSplit { σ with g_freeBlocks := f } g = IsSplit σ g := rfl

theorem second_oddAligned {σ : State} {p L : Int} (hL : L ≤ 31)
    (hal : bsize (L - 1) ∣ p - σ.g_buddyStart) : OddAligned σ (p + bsize L, L) := by
  intro L' h1 h2 hd
  simp only at h2 hd
  have h3 : bsize (L - 1) ∣ bsize L' := bsize_dvd (by omega) (by omega)
  have h4 : bsize (L - 1) ∣ p + bsize L - σ.g_buddyStart := dvd_trans h3 hd
  have h5 : p + bsize L - σ.g_buddyStart = (p - σ.g_buddyStart) + bsize L := by ring
  rw [h5] at h4
  have h6 : bsize (L - 1) ∣ bsize L := (dvd_add_right hal).mp h4
  have h7 := Int.le_of_dvd (bsize_pos L) h6
  have h8 := bsize_pred L (by omega)
  have := bsize_pos L
  omega

theorem gidx_nonneg {σ : State} {p L : Int} (h : σ.g_buddyStart ≤ p) : 0 ≤ gidx σ p L := by
  unfold gidx lvlBase
  have h1 : (1 : Int) ≤ 2 ^ (L - 32 + σ.g_levelsNum).toNat := one_le_pow₀ (by norm_num)
  have h2 : 0 ≤ (p - σ.g_buddyStart) / bsize L :=
    Int.ediv_nonneg (by omega) (le_of_lt (bsize_pos L))
  omega

theorem AllocOnLevelAux_spec (fuel : Nat) : ∀ (σ : State) (L : Int) (res fly free : List Blk),
    Struct σ res fly free → 0 ≤ L → L ≤ 31 →
    1 ≤ fuel → L - (MAX_LEVELS - σ.g_levelsNum) + 2 ≤ (fuel : Int) →
    ∃ σ' p, AllocOnLevelAux fuel σ L = some (σ', p) ∧ SameGlobals σ σ' ∧
      ((p = 0 ∧ σ' = σ ∧ ∀ x ∈ free, L < x.2) ∨
       (p ≠ 0 ∧ ∃ free' L0, Struct σ' res ((p, L) :: fly) free' ∧ (p, L0) ∈ free ∧ L0 ≤ L ∧
          (∀ x ∈ free', x ∈ free ∨ (OddAligned σ x ∧ L0 < x.2 ∧ x.2 ≤ L)) ∧
          (∀ a, ¬ InBlk (p, L0) a → ¬ SplitByte σ a → readU8 σ'.mem a = readU8 σ.mem a) ∧
          (∀ g, 0 ≤ g → IsSplit σ g = true → IsSplit σ' g = true) ∧
          (σ.g_metaSplitStart ≠ 0 → ∀ L', L0 ≤ L' → L' < L →
            IsSplit σ' (gidx σ p L') = true) ∧
          (∀ x ∈ free', x ∈ free ∨
            (p ≤ x.1 ∧ x.1 + bsize x.2 ≤ p + bsize L0 ∧ p + bsize L ≤ x.1)) ∧
          (∀ a, p + 4 ≤ a → a < p + bsize L → readU8 σ'.mem a = readU8 σ.mem a) ∧
          (∀ g, 0 ≤ g → IsSplit σ' g = true →
            IsSplit σ g = true ∨ ∃ L', L0 ≤ L' ∧ L' < L ∧ g = gidx σ p L'))) := by
  induction fuel with
  | zero => intro σ L res fly free _ _ _ hf; omega
  | succ f ih =>
    intro σ L res fly free hS h0 h31 _ hf
    have hML : MAX_LEVELS = 32 := rfl
    have hn27 := hS.geom.n_hi
    rw [AllocOnLevelAux_succ]
    by_cases hlow : L < MAX_LEVELS - σ.g_levelsNum
    · simp only [hlow, if_true]
      refine ⟨σ, 0, rfl, SameGlobals.refl _, Or.inl ⟨rfl, rfl, ?_⟩⟩
      intro x hx
      have := (hS.valid x (List.mem_append_right _ (List.mem_append_right _ hx))).lo
      omega
    · simp only [hlow, if_false]
      rw [getFree_eq σ h0 (by omega)]
      by_cases hb : σ.g_freeBlocks L ≠ 0
      · simp only [if_pos hb]
        obtain ⟨σ1, h1, hmem1, hsg1, hin, hS1⟩ := pop_step hS h0 (by omega) rfl (by simpa using hb)
        rw [h1]
        simp only
        refine ⟨σ1, _, rfl, hsg1, Or.inr ⟨by simpa using hb, rmBlk (σ.g_freeBlocks L, L) free, L,
          hS1, hin, le_refl _, ?_, ?_, ?_, ?_, ?_, ?_, ?_⟩⟩
        · intro x hx; exact Or.inl (mem_of_mem_rmBlk hx)
        · intro a _ _; rw [hmem1]
        · intro g _ hg
          rw [← hg]
          apply IsSplit_congr hsg1
          rw [hmem1]
        · intro _ L' h2 h3; omega
        · intro x hx; exact Or.inl (mem_of_mem_rmBlk hx)
        · intro a _ _; rw [hmem1]
        · intro g _ hg
          left
          rw [← hg]
          symm
          apply IsSplit_congr hsg1
          rw [hmem1]
      · simp only [if_neg hb]
        have hb0 : σ.g_freeBlocks L = 0 := by simpa using hb
        obtain ⟨σ1, p, hr, hsg1, hcase⟩ := ih σ (L - 1) res fly free hS
          (by omega) (by omega) (by omega) (by push_cast at hf ⊢; omega)
        rw [hr]
        simp only
        rcases hcase with ⟨hp0, hσ, hall⟩ |
          ⟨hp0, free1, L0, hS1, hin, hL0, hP3, hfr, hmono, hnew, hinI, hfrI, hupI⟩
        · subst hp0
          simp only [if_true]
          refine ⟨σ1, 0, rfl, hsg1, Or.inl ⟨rfl, hσ, ?_⟩⟩
          intro x hx
          have h1 := hall x hx
          have hnil : lvl L free = [] := by
            have := hS.chain L h0 (by omega)
            rw [hb0] at this
            exact Chain_zero this
          have h2 : x.2 ≠ L := by
            intro e
            have : x.1 ∈ lvl L free := mem_lvl.mpr (by rw [← e]; exact hx)
            rw [hnil] at this
            simp at this
          omega
        · simp only [hp0, if_false]
          have hvP : ValidNode σ1 (p, L - 1) :=
            hS1.valid _ (List.mem_append_right _ (List.mem_append_left _ (List.mem_cons_self _ _)))
          rw [IndexGlobal_eq σ1 p hS1.geom hvP.lo (by omega)]
          simp only
          have hempty1 : σ1.g_freeBlocks L = 0 := by
            have hc := hS1.chain L h0 (by omega)
            have hnil : lvl L free1 = [] := by
              have hnil0 : lvl L free = [] := by
                have := hS.chain L h0 (by omega)
                rw [hb0] at this
                exact Chain_zero this
              by_contra hne
              obtain ⟨b, hbm⟩ := List.exists_mem_of_ne_nil _ hne
              have hbm' := mem_lvl.mp hbm
              rcases hP3 _ hbm' with h | ⟨_, _, h⟩
              · have : b ∈ lvl L free := mem_lvl.mpr h
                rw [hnil0] at this
                simp at this
              · simp only at h; omega
            rw [hnil] at hc
            exact hc
          obtain ⟨σ5, h5, hsg5, hS5, hfr5, hmono5, hself5, hfrS, hupS⟩ :=
            splitStep_spec hS1 h31 hempty1
          rw [h5]
          have hsz : bsize (L - 1) = 2 * bsize L := bsize_pred L (by omega)
          have hszpos := bsize_pos L
          refine ⟨σ5, p, rfl, hsg1.trans hsg5, Or.inr ⟨hp0, (p + bsize L, L) :: free1, L0, hS5, hin,
            by omega, ?_, ?_, ?_, ?_, ?_, ?_, ?_⟩⟩
          · intro x hx
            rcases List.mem_cons.mp hx with rfl | hx
            · right
              refine ⟨?_, by simp only; omega, le_refl _⟩
              apply OddAligned.oddSame (σ := σ1)
              · exact ⟨hsg1.levelsNum.symm, hsg1.memStart.symm, hsg1.gend.symm,
                  hsg1.buddyStart.symm, hsg1.metaStart.symm, hsg1.metaSplitStart.symm,
                  hsg1.memSize.symm, hsg1.buddySize.symm, hsg1.metaSize.symm,
                  hsg1.blocksPending.symm⟩
              · exact second_oddAligned h31 hvP.al
            · rcases hP3 x hx with h | ⟨h1, h2, h3⟩
              · exact Or.inl h
              · exact Or.inr ⟨h1, h2, by omega⟩
          · intro a ha hsb
            have hsub : ¬ InBlk (p, L - 1) a := by
              intro hc
              apply ha
              have := bsize_mono (show L0 ≤ L - 1 by omega)
              unfold InBlk at hc ⊢
              simp only at hc ⊢
              omega
            have hsb1 : ¬ SplitByte σ1 a := by
              unfold SplitByte at hsb ⊢
              rw [hsg1.metaSplitStart, hsg1.metaSize]
              exact hsb
            rw [hfr5 a hsub hsb1, hfr a ha hsb]
          · intro g hg0 hgs
            exact hmono5 g hg0 (hmono g hg0 hgs)
          · intro hne L' h1 h2
            by_cases hL' : L' = L - 1
            · subst hL'
              rw [← gidx_of_same hsg1]
              exact hself5 (by rw [hsg1.metaSplitStart]; exact hne)
            · have h3 := hnew hne L' h1 (by omega)
              apply hmono5 _ _ h3
              apply gidx_nonneg
              have := hvP.ge
              have := hS1.geom.ms_le
              rw [hsg1.buddyStart] at this
              simp only at *
              omega
          · intro x hx
            have hmo := @bsize_mono L0 (L - 1) (by omega)
            rcases List.mem_cons.mp hx with rfl | hx
            · right
              simp only
              omega
            · rcases hinI x hx with h | ⟨h1, h2, h3⟩
              · exact Or.inl h
              · exact Or.inr ⟨h1, h2, by omega⟩
          · intro a h1 h2
            rw [hfrS a h1 h2, hfrI a h1 (by omega)]
          · intro g hg0 hgs
            rcases hupS g hg0 hgs with h | h
            · rcases hupI g hg0 h with h' | ⟨L', h1, h2, h3⟩
              · exact Or.inl h'
              · exact Or.inr ⟨L', h1, by omega, h3⟩
            · right
              refine ⟨L - 1, by omega, by omega, ?_⟩
              rw [h, gidx_of_same hsg1]

/-! ## Initialisation establishes the structure -/

theorem bsize_succ (L : Int) (h : L ≤ 34) : bsize (L + 1) = bsize L / 2 := by
  have := bsize_pred (L + 1) (by omega)
  have e : L + 1 - 1 = L := by ring
  rw [e] at this
  omega

theorem not_dvd_half {L : Int} (hL : L ≤ 35) {X : Int} (h1 : bsize (L - 1) ∣ X) :
    ¬ bsize (L - 1) ∣ X - bsize L := by
  intro h2
  have h3 : bsize (L - 1) ∣ bsize L := by
    have := dvd_sub h1 h2
    have e : X - (X - bsize L) = bsize L := by ring
    rw [e] at this
    exact this
  have h7 := Int.le_of_dvd (bsize_pos L) h3
  have h8 := bsize_pred L hL
  have := bsize_pos L
  omega

theorem InitBuddySystemLoop_succ (fuel : Nat) (σ : State) (blockSz memLeft level : Int) :
    InitBuddySystemLoop (fuel + 1) σ blockSz memLeft level =
      if blockSz ≥ MIN_SIZE then
        if blockSz ≤ memLeft then
          match seedPlace σ level (σ.g_memStart + (memLeft - blockSz)) blockSz with
          | none => none
          | some σ3 => InitBuddySystemLoop fuel σ3 (blockSz / 2) (memLeft - blockSz) (level + 1)
        else InitBuddySystemLoop fuel σ (blockSz / 2) memLeft (level + 1)
      else some σ := by
  rw [InitBuddySystemLoop]
  unfold seedPlace
  split
  · split
    · cases h : setFree σ level (σ.g_memStart + (memLeft - blockSz)) <;> simp only [h]
    · rfl
  · rfl

theorem seed_place {σ : State} {free : List Blk} {memLeft level : Int}
    (hI : SeedInv σ free memLeft level) (h31 : level ≤ 31) (hfit : bsize level ≤ memLeft) :
    ∃ σ3, seedPlace σ level (σ.g_memStart + (memLeft - bsize level)) (bsize level) = some σ3 ∧
      SameGlobals σ σ3 ∧
      SeedInv σ3 ((σ.g_memStart + (memLeft - bsize level), level) :: free)
        (memLeft - bsize level) (level + 1) := by
  have hS := hI.struct
  have hg := hS.geom
  have hML : MAX_LEVELS = 32 := rfl
  have hn := hg.n_hi
  have hlo := hI.lvl_lo
  have h0 : 0 ≤ level := by omega
  have hs16 := bsize_ge16 h31
  have hs30 := bsize_le_2_30 (show 5 ≤ level by omega)
  have hmp := hg.m_pos
  obtain ⟨σ3, hσ3, hmem3, hfb3, hsg⟩ : ∃ σ3,
      seedPlace σ level (σ.g_memStart + (memLeft - bsize level)) (bsize level) = some σ3 ∧
      σ3.mem = setBlockNext (setBlockSize σ.mem (σ.g_memStart + (memLeft - bsize level))
        (bsize level)) (σ.g_memStart + (memLeft - bsize level)) 0 ∧
      σ3.g_freeBlocks = (fun l => if l = level then σ.g_memStart + (memLeft - bsize level)
        else σ.g_freeBlocks l) ∧ SameGlobals σ σ3 := by
    unfold seedPlace
    rw [setFree_eq σ _ h0 (by omega)]
    exact ⟨_, rfl, rfl, rfl, ⟨rfl, rfl, rfl, rfl, rfl, rfl, rfl, rfl, rfl, rfl⟩⟩
  refine ⟨σ3, hσ3, hsg, ?_⟩
  have hvN : ValidNode σ (σ.g_memStart + (memLeft - bsize level), level) := by
    refine ⟨hlo, h31, ?_, by simp only; omega, by have := hI.mlE; simp only; omega⟩
    have e : σ.g_memStart + (memLeft - bsize level) - σ.g_buddyStart =
        (σ.g_memStart + memLeft - σ.g_buddyStart) - bsize level := by ring
    simp only
    rw [e]
    exact dvd_sub hI.al (dvd_refl _)
  have hother : ∀ x ∈ free, ∀ a, x.1 ≤ a → readU8 σ3.mem a = readU8 σ.mem a := by
    intro x hx a h1
    have := (hI.below x hx).2
    rw [hmem3, readU8_setBlockNext _ _ _ _ (by omega), readU8_setBlockSize _ _ _ _ (by omega)]
  have hnil : lvl level free = [] := by
    by_contra hne
    obtain ⟨b, hbm⟩ := List.exists_mem_of_ne_nil _ hne
    have := (hI.below _ (mem_lvl.mp hbm)).1
    simp only at this
    omega
  have hm0 : σ3.g_metaStart = 0 ∧ σ3.g_metaSplitStart = 0 := by
    rw [hsg.metaStart, hsg.metaSplitStart]; exact hI.meta0
  have hodd : ∀ x, OddAligned σ x → OddAligned σ3 x := fun x h => h.oddSame hsg
  have e : σ.g_memStart + (memLeft - bsize level) - σ.g_buddyStart =
      (σ.g_memStart + memLeft - σ.g_buddyStart) - bsize level := by ring
  constructor
  · -- struct
    refine ⟨hg.geomSame hsg, Or.inl hm0, ?_, ?_, ?_, ?_⟩
    · intro L' h0' h1'
      by_cases hLL : L' = level
      · subst hLL
        rw [lvl_cons_same, hnil, hfb3, hmem3]
        simp only [if_true]
        refine ⟨rfl, by omega, ?_⟩
        exact blockNext_setBlockNext _ _ _ (le_refl _) (by norm_num)
      · rw [lvl_cons_ne _ _ (fun h => hLL h.symm), hfb3]
        simp only [hLL, if_false]
        apply Chain_congr _ (hS.chain L' h0' h1')
        intro b hb
        apply blockNext_congr
        intro a h2 h3
        exact hother _ (mem_lvl.mp hb) a (by simp only; omega)
    · intro x hx
      simp only [List.nil_append] at hx
      rcases List.mem_cons.mp hx with rfl | hx
      · simp only
        rw [hmem3]
        have : blockSize (setBlockNext (setBlockSize σ.mem (σ.g_memStart + (memLeft - bsize level))
            (bsize level)) (σ.g_memStart + (memLeft - bsize level)) 0)
            (σ.g_memStart + (memLeft - bsize level)) =
            blockSize (setBlockSize σ.mem (σ.g_memStart + (memLeft - bsize level)) (bsize level))
              (σ.g_memStart + (memLeft - bsize level)) := by
          apply blockSize_congr
          intro a h2 h3
          rw [readU8_setBlockNext _ _ _ _ (by omega)]
        rw [this, blockSize_setBlockSize _ _ _ (by omega) (by omega)]
      · rw [← hS.hdr x (by simpa using hx)]
        apply blockSize_congr
        intro a h2 h3
        exact hother x hx a h2
    · intro x hx
      simp only [List.nil_append] at hx
      rcases List.mem_cons.mp hx with rfl | hx
      · exact hvN.nodeSame hsg
      · exact (hS.valid x (by simpa using hx)).nodeSame hsg
    · simp only [List.nil_append]
      refine List.pairwise_cons.mpr ⟨?_, by simpa using hS.pw⟩
      intro x hx
      have := (hI.below x hx).2
      left
      simp only
      omega
  · exact hm0
  · rw [hsg.levelsNum]; omega
  · omega
  · omega
  · have := hI.mlE; rw [hsg.memStart, hsg.gend]; omega
  · rw [hsg.memStart, hsg.buddyStart]
    have e3 : σ.g_memStart + (memLeft - bsize level) - σ.g_buddyStart =
        (σ.g_memStart + memLeft - σ.g_buddyStart) - bsize level := by ring
    rw [e3, bsize_succ level (by omega)]
    have h2 : bsize level / 2 ∣ bsize level := by
      rw [← bsize_succ level (by omega)]
      exact bsize_dvd (by omega) (by omega)
    exact dvd_sub (dvd_trans h2 hI.al) h2
  · right
    rw [hsg.memStart, hsg.buddyStart]
    have e2 : level + 1 - 1 = level := by ring
    rw [e, e2]
    exact dvd_sub hI.al (dvd_refl _)
  · intro x hx
    apply hodd
    rcases List.mem_cons.mp hx with rfl | hx
    · intro L' h1 h2 hd
      simp only at h2 hd
      rcases hI.al2 with h | h
      · omega
      · rw [e] at hd
        have h3 : bsize (level - 1) ∣ bsize L' := bsize_dvd (by omega) (by omega)
        exact not_dvd_half (by omega) h (dvd_trans h3 hd)
    · exact hI.odd x hx
  · intro x hx
    rw [hsg.memStart]
    rcases List.mem_cons.mp hx with rfl | hx
    · simp only
      constructor <;> omega
    · have := hI.below x hx
      constructor <;> omega
  · rw [hsg.levelsNum, hsg.memStart, hsg.gend]; exact hI.big
  · right
    rw [hsg.levelsNum]
    rcases hI.wit with ⟨h1, _⟩ | ⟨x, hx, h2⟩
    · exact ⟨_, List.mem_cons_self _ _, h1⟩
    · exact ⟨x, List.mem_cons_of_mem _ hx, h2⟩
  · rw [hsg.levelsNum, hsg.memStart, hsg.gend, hsg.buddyStart]
    intro hMB
    right
    rcases hI.pow2 hMB with ⟨h1, h2, h3⟩ | ⟨h1, h2⟩
    · have hbs := buddySize_eq hg hlo (by omega)
      have hbe := hg.be
      rw [h1] at hbs
      have e4 : (MAX_LEVELS - σ.g_levelsNum - 32 + σ.g_levelsNum).toNat = 0 := by omega
      rw [e4] at hbs
      simp only [pow_zero, mul_one] at hbs
      subst h2
      rw [h1]
      refine ⟨by omega, ?_⟩
      intro x hx
      rcases List.mem_cons.mp hx with rfl | hx
      · simp only; omega
      · simp at hx
    · omega

theorem seed_skip {σ : State} {free : List Blk} {memLeft level : Int}
    (hI : SeedInv σ free memLeft level) (h31 : level ≤ 31) (hfit : ¬ bsize level ≤ memLeft) :
    SeedInv σ free memLeft (level + 1) := by
  have hS := hI.struct
  have hg := hS.geom
  have hML : MAX_LEVELS = 32 := rfl
  have hn := hg.n_hi
  have hlo := hI.lvl_lo
  refine ⟨hS, hI.meta0, by omega, by omega, hI.ml0, hI.mlE, ?_, ?_, hI.odd, ?_, hI.big, ?_, ?_⟩
  · exact dvd_trans (bsize_dvd (by omega) (by omega)) hI.al
  · right
    have e2 : level + 1 - 1 = level := by ring
    rw [e2]; exact hI.al
  · intro x hx
    have := hI.below x hx
    constructor <;> omega
  · rcases hI.wit with ⟨h1, h2⟩ | h
    · left
      refine ⟨?_, h2⟩
      by_contra hc
      have h3 : level = 33 - σ.g_levelsNum := by omega
      have := hI.big
      rw [← h3] at this
      omega
    · exact Or.inr h
  · intro hMB
    rcases hI.pow2 hMB with ⟨h1, h2, h3⟩ | h
    · exfalso
      have hbs := buddySize_eq hg hlo (by omega)
      have hbe := hg.be
      rw [h1] at hbs
      have e4 : (MAX_LEVELS - σ.g_levelsNum - 32 + σ.g_levelsNum).toNat = 0 := by omega
      rw [e4] at hbs
      simp only [pow_zero, mul_one] at hbs
      rw [h1] at hfit
      omega
    · exact Or.inr h

theorem InitBuddySystemLoop_spec (fuel : Nat) : ∀ (σ : State) (free : List Blk)
    (memLeft level : Int), SeedInv σ free memLeft level → 33 - level + 1 ≤ (fuel : Int) →
    ∃ σ' free', InitBuddySystemLoop fuel σ (bsize level) memLeft level = some σ' ∧
      SameGlobals σ σ' ∧ Struct σ' [] [] free' ∧ (∀ x ∈ free', OddAligned σ' x) ∧
      (7 ≤ σ.g_levelsNum → ∃ x ∈ free', x.2 ≤ 33 - σ.g_levelsNum) ∧
      (σ.g_memStart = σ.g_buddyStart → ∀ x ∈ free', x.1 = σ.g_buddyStart) := by
  induction fuel with
  | zero =>
    intro σ free memLeft level hI hf
    have := hI.lvl_hi
    omega
  | succ f ih =>
    intro σ free memLeft level hI hf
    have hML : MAX_LEVELS = 32 := rfl
    have hn := hI.struct.geom.n_hi
    have hn7 := hI.struct.geom.n_lo
    rw [InitBuddySystemLoop_succ]
    by_cases h31 : level ≤ 31
    · have h16 : bsize level ≥ MIN_SIZE := bsize_ge16 h31
      simp only [h16, if_true]
      have hhalf : bsize level / 2 = bsize (level + 1) := (bsize_succ level (by omega)).symm
      rw [hhalf]
      by_cases hfit : bsize level ≤ memLeft
      · simp only [hfit, if_true]
        obtain ⟨σ3, h3, hsg3, hI3⟩ := seed_place hI h31 hfit
        rw [h3]
        simp only
        obtain ⟨σ', free', h1, h2, h4, h5, h6, h7⟩ := ih σ3 _ _ _ hI3 (by push_cast at hf ⊢; omega)
        rw [hsg3.levelsNum] at h6
        rw [hsg3.memStart, hsg3.buddyStart] at h7
        exact ⟨σ', free', h1, hsg3.trans h2, h4, h5, h6, h7⟩
      · simp only [hfit, if_false]
        exact ih σ free memLeft (level + 1) (seed_skip hI h31 hfit) (by push_cast at hf ⊢; omega)
    · have h32 : level = 32 := by have := hI.lvl_hi; omega
      subst h32
      have h8 : ¬ bsize 32 ≥ MIN_SIZE := by decide
      simp only [h8, if_false]
      refine ⟨σ, free, rfl, SameGlobals.refl _, hI.struct, hI.odd, ?_, ?_⟩
      · intro h7
        rcases hI.wit with ⟨h1, _⟩ | h
        · omega
        · exact h
      · intro hMB
        rcases hI.pow2 hMB with ⟨h1, _⟩ | ⟨_, h⟩
        · omega
        · exact h

theorem LevelsNeeded_spec {memSize : Int} (h1 : 16 ≤ memSize) (h2 : memSize ≤ 1073741824) :
    ∃ n : Int, LevelsNeeded memSize = some n ∧ 1 ≤ n ∧ n ≤ 27 ∧ (528 ≤ memSize → 7 ≤ n) ∧
      bsize (33 - n) < memSize / 16 * 16 ∧ memSize / 16 * 16 ≤ bsize (32 - n) := by
  obtain ⟨k, hk1, hk2, hk3, hk4⟩ := Log2Int_spec (N := memSize / 16) (by omega) (by omega)
  have hk6 : 528 ≤ memSize → 6 ≤ k := by
    intro h528
    by_contra hc
    have : (2:Int) ^ k ≤ 2 ^ 5 := pow_le_pow_right₀ (by norm_num) (by omega)
    omega
  have hk26 : k ≤ 26 := by
    by_contra hc
    rcases hk3 with h | h
    · omega
    · have : (2:Int) ^ 26 ≤ 2 ^ (k - 1) := pow_le_pow_right₀ (by norm_num) (by omega)
      omega
  refine ⟨k + 1, ?_, by omega, by omega, fun h => by have := hk6 h; omega, ?_, ?_⟩
  · unfold LevelsNeeded MIN_SIZE
    rw [hk1]
  · rcases hk3 with h | h
    · subst h
      have : bsize (33 - (((0 : Nat) : Int) + 1)) = 8 := by decide
      rw [this]
      omega
    · have hk1' : 1 ≤ k := by
        by_contra hc
        have hk0 : k = 0 := by omega
        subst hk0
        simp at h hk2
        omega
      unfold bsize
      have e : (35 - (33 - ((k : Int) + 1))).toNat = (k - 1) + 4 := by omega
      rw [e, pow_add]
      norm_num
      omega
  · unfold bsize
    have e : (35 - (32 - ((k : Int) + 1))).toNat = k + 4 := by omega
    rw [e, pow_add]
    norm_num
    omega

theorem InitBuddySystem_start (σ4 : State) (hn7 : 1 ≤ σ4.g_levelsNum) (hn27 : σ4.g_levelsNum ≤ 27)
    (hfb : ∀ L, σ4.g_freeBlocks L = 0)
    (hm0 : σ4.g_metaStart = 0 ∧ σ4.g_metaSplitStart = 0) (hpos : 0 < σ4.g_memStart)
    (hE : σ4.g_end < 18446744073709551616) (hsz : σ4.g_end = σ4.g_memStart + σ4.g_memSize)
    (h16 : (16 : Int) ∣ σ4.g_memSize) (hbig : bsize (33 - σ4.g_levelsNum) < σ4.g_memSize)
    (hle : σ4.g_memSize ≤ bsize (32 - σ4.g_levelsNum)) :
    ∃ σ2, InitBuddySystem σ4 =
      InitBuddySystemLoop 40 σ2 (bsize (32 - σ4.g_levelsNum)) σ4.g_memSize
        (32 - σ4.g_levelsNum) ∧
      (SeedInv σ2 [] σ4.g_memSize (32 - σ4.g_levelsNum) ∧ σ2.g_levelsNum = σ4.g_levelsNum ∧
        σ2.g_memStart = σ4.g_memStart ∧ σ2.g_end = σ4.g_end ∧
        σ2.g_metaStart = 0 ∧ σ2.g_metaSplitStart = 0 ∧ σ2.g_metaSize = σ4.g_metaSize ∧
        σ2.g_blocksPending = σ4.g_blocksPending ∧ σ2.g_memSize = σ4.g_memSize) := by
  have hML : MAX_LEVELS = 32 := rfl
  have hexp : ExpToLevel (σ4.g_levelsNum + MIN_SIZE_LOG - 1) = 32 - σ4.g_levelsNum := by
    unfold ExpToLevel MAX_LEVELS MIN_SIZE_LOG; ring
  have hb : (2 : Int) ^ (σ4.g_levelsNum + MIN_SIZE_LOG - 1).toNat = bsize (32 - σ4.g_levelsNum) := by
    unfold bsize MIN_SIZE_LOG; congr 1; omega
  have hb2 : bsize (32 - σ4.g_levelsNum) = 2 ^ (σ4.g_levelsNum + 3).toNat := by
    unfold bsize; congr 1; omega
  unfold InitBuddySystem
  dsimp only
  rw [Pow2Int_eq (by unfold MIN_SIZE_LOG; omega) (by unfold MIN_SIZE_LOG; omega)]
  simp only [hexp, hb]
  refine ⟨_, rfl, ?_, rfl, rfl, rfl, hm0.1, hm0.2, rfl, rfl, rfl⟩
  have h16b : (16 : Int) ∣ bsize (32 - σ4.g_levelsNum) := by
    have : (16 : Int) = bsize 31 := by decide
    rw [this]
    exact bsize_dvd (by omega) (by omega)
  have hge : Geom { σ4 with g_buddySize := bsize (32 - σ4.g_levelsNum),
                            g_buddyStart := σ4.g_end - bsize (32 - σ4.g_levelsNum) } := by
    refine ⟨hn7, hn27, hb2, ?_, ?_, ?_, hpos, hE⟩
    · simp only; ring
    · simp only; omega
    · simp only
      have e : σ4.g_memStart - (σ4.g_end - bsize (32 - σ4.g_levelsNum)) =
          bsize (32 - σ4.g_levelsNum) - σ4.g_memSize := by rw [hsz]; ring
      rw [e]
      exact dvd_sub h16b h16
  refine ⟨⟨hge, Or.inl hm0, ?_, ?_, ?_, ?_⟩, hm0, ?_, ?_, ?_, ?_, ?_, ?_, ?_, ?_, ?_, ?_, ?_⟩
  · intro L _ _
    show Chain _ (σ4.g_freeBlocks L) _
    rw [hfb]
    rfl
  · intro x hx; simp at hx
  · intro x hx; simp at hx
  · simp
  · simp only; omega
  · omega
  · have := bsize_pos (33 - σ4.g_levelsNum); omega
  · (try simp only); omega
  · simp only
    have e : σ4.g_memStart + σ4.g_memSize - (σ4.g_end - bsize (32 - σ4.g_levelsNum)) =
        bsize (32 - σ4.g_levelsNum) := by rw [hsz]; ring
    rw [e]
  · left; (try simp only); omega
  · intro x hx; simp at hx
  · intro x hx; simp at hx
  · (try simp only); omega
  · left; (try simp only); omega
  · intro _
    left
    exact ⟨by (try simp only); omega, by simp, by (try simp only); omega⟩

theorem InitBuddySystem_spec (σ4 : State) (hn7 : 1 ≤ σ4.g_levelsNum) (hn27 : σ4.g_levelsNum ≤ 27)
    (hfb : ∀ L, σ4.g_freeBlocks L = 0)
    (hm0 : σ4.g_metaStart = 0 ∧ σ4.g_metaSplitStart = 0) (hpos : 0 < σ4.g_memStart)
    (hE : σ4.g_end < 18446744073709551616) (hsz : σ4.g_end = σ4.g_memStart + σ4.g_memSize)
    (h16 : (16 : Int) ∣ σ4.g_memSize) (hbig : bsize (33 - σ4.g_levelsNum) < σ4.g_memSize)
    (hle : σ4.g_memSize ≤ bsize (32 - σ4.g_levelsNum)) :
    ∃ σ5 free, InitBuddySystem σ4 = some σ5 ∧ Struct σ5 [] [] free ∧
      (∀ x ∈ free, OddAligned σ5 x) ∧
      (7 ≤ σ4.g_levelsNum → ∃ x ∈ free, x.2 ≤ 33 - σ4.g_levelsNum) ∧
      (σ5.g_memStart = σ5.g_buddyStart → ∀ x ∈ free, x.1 = σ5.g_buddyStart) ∧
      σ5.g_levelsNum = σ4.g_levelsNum ∧ σ5.g_memStart = σ4.g_memStart ∧ σ5.g_end = σ4.g_end ∧
      σ5.g_metaStart = 0 ∧ σ5.g_metaSplitStart = 0 ∧ σ5.g_metaSize = σ4.g_metaSize ∧
      σ5.g_blocksPending = σ4.g_blocksPending ∧ σ5.g_memSize = σ4.g_memSize := by
  obtain ⟨σ2, hσ2, hI⟩ := InitBuddySystem_start σ4 hn7 hn27 hfb hm0 hpos hE hsz h16 hbig hle
  obtain ⟨hI, e1, e2, e3, e4, e5, e6, e7, e8⟩ := hI
  obtain ⟨σ5, free, h1, hsg, hS, hodd, hwit, hpow⟩ :=
    InitBuddySystemLoop_spec 40 σ2 [] _ _ hI (by push_cast; omega)
  rw [hσ2]
  refine ⟨σ5, free, h1, hS, hodd, ?_, ?_, ?_, ?_, ?_, ?_, ?_, ?_, ?_, ?_⟩
  · rw [← e1]; exact hwit
  · rw [hsg.memStart, hsg.buddyStart]; exact hpow
  · rw [hsg.levelsNum, e1]
  · rw [hsg.memStart, e2]
  · rw [hsg.gend, e3]
  · rw [hsg.metaStart, e4]
  · rw [hsg.metaSplitStart, e5]
  · rw [hsg.metaSize, e6]
  · rw [hsg.blocksPending, e7]
  · rw [hsg.memSize, e8]

theorem floorLog2_le (fuel : Nat) : ∀ k : Nat, 1 ≤ k → 2 ^ floorLog2 fuel k ≤ k := by
  induction fuel with
  | zero => intro k hk; simpa [floorLog2] using hk
  | succ f ih =>
    intro k hk
    unfold floorLog2
    split
    · simpa using hk
    · have := ih (k / 2) (by omega)
      rw [pow_succ]
      omega

theorem floorLog2_eq (fuel : Nat) : ∀ (e x : Nat), 2 ^ e ≤ x → x < 2 ^ (e + 1) → e < fuel →
    floorLog2 fuel x = e := by
  induction fuel with
  | zero => intro e x _ _ h; omega
  | succ f ih =>
    intro e x h1 h2 h3
    unfold floorLog2
    cases e with
    | zero =>
      simp at h1 h2
      rw [if_pos (by omega)]
    | succ e' =>
      have hp : 2 ^ (e' + 1) = 2 * 2 ^ e' := by rw [pow_succ]; ring
      have hp2 : 2 ^ (e' + 1 + 1) = 2 * 2 ^ (e' + 1) := by rw [pow_succ]; ring
      have hpos : 0 < 2 ^ e' := by positivity
      rw [if_neg (by omega)]
      rw [ih e' (x / 2) (by omega) (by omega) (by omega)]

theorem floatOfInt_bounds (n : Int) (h0 : 0 ≤ n) : 0 ≤ floatOfInt n ∧ floatOfInt n ≤ 2 * n := by
  unfold floatOfInt
  simp only
  split
  · omega
  · rename_i hbig
    have hk1 : 1 ≤ n.toNat := by omega
    have hpe : 2 ^ (floorLog2 64 n.toNat - 23) ≤ n.toNat :=
      le_trans (Nat.pow_le_pow_right (by norm_num) (Nat.sub_le _ _)) (floorLog2_le 64 _ hk1)
    have hdm := Nat.div_add_mod n.toNat (2 ^ (floorLog2 64 n.toNat - 23))
    have hmul : n.toNat / 2 ^ (floorLog2 64 n.toNat - 23) * 2 ^ (floorLog2 64 n.toNat - 23) ≤
        n.toNat := Nat.div_mul_le_self _ _
    have hn : ((n.toNat : Nat) : Int) = n := Int.toNat_of_nonneg h0
    split
    · constructor
      · exact Int.ofNat_nonneg _
      · have : (n.toNat / 2 ^ (floorLog2 64 n.toNat - 23) + 1) * 2 ^ (floorLog2 64 n.toNat - 23) ≤
            2 * n.toNat := by
          rw [Nat.add_mul]
          omega
        have h2 : (((n.toNat / 2 ^ (floorLog2 64 n.toNat - 23) + 1) *
            2 ^ (floorLog2 64 n.toNat - 23) : Nat) : Int) ≤ ((2 * n.toNat : Nat) : Int) :=
          Int.ofNat_le.mpr this
        rw [Nat.cast_mul 2, hn] at h2
        exact h2
    · constructor
      · exact Int.ofNat_nonneg _
      · have h2 : ((n.toNat / 2 ^ (floorLog2 64 n.toNat - 23) *
            2 ^ (floorLog2 64 n.toNat - 23) : Nat) : Int) ≤ ((n.toNat : Nat) : Int) :=
          Int.ofNat_le.mpr hmul
        rw [hn] at h2
        omega

theorem InitMetaLoop_frame (start total : Int) (ht : 0 < total) (ht8 : total % 8 = 0) :
    ∀ (cnt : Nat) (m : Mem) (ratioNum bitsSet numBlocks i : Int),
    0 ≤ ratioNum → ratioNum ≤ numBlocks * total → 0 ≤ bitsSet → bitsSet + 1 = numBlocks →
    numBlocks * 2 ^ cnt ≤ total →
    ∀ a, (a < start ∨ start + total / 8 ≤ a) →
      readU8 (InitMetaLoop cnt m start total ratioNum bitsSet numBlocks i) a = readU8 m a := by
  intro cnt
  induction cnt with
  | zero => intro m _ _ _ _ _ _ _ _ _ a _; rfl
  | succ c ih =>
    intro m ratioNum bitsSet numBlocks i hr0 hr1 hb0 hb1 hnb a ha
    unfold InitMetaLoop
    simp only
    have hs0 : 0 ≤ (ratioNum + total - 1) / total := Int.ediv_nonneg (by omega) (le_of_lt ht)
    have hs1 : (ratioNum + total - 1) / total ≤ numBlocks := by
      have : (ratioNum + total - 1) / total < numBlocks + 1 := by
        apply Int.ediv_lt_of_lt_mul ht
        have : (numBlocks + 1) * total = numBlocks * total + total := by ring
        omega
      omega
    have hpc : (1 : Int) ≤ 2 ^ c := one_le_pow₀ (by norm_num)
    have h2nb : numBlocks * 2 ≤ total := by
      have e : numBlocks * 2 ^ (c + 1) = (numBlocks * 2) * 2 ^ c := by rw [pow_succ]; ring
      rw [e] at hnb
      have : numBlocks * 2 ≤ (numBlocks * 2) * 2 ^ c := by
        have h := mul_le_mul_of_nonneg_left hpc (show (0:Int) ≤ numBlocks * 2 by omega)
        simpa using h
      omega
    rw [ih _ (ratioNum * 2) (bitsSet + numBlocks) (numBlocks * 2) (i + 1) (by omega)
      (by have : numBlocks * 2 * total = (numBlocks * total) * 2 := by ring
          omega) (by omega) (by omega)
      (by have e : numBlocks * 2 ^ (c + 1) = (numBlocks * 2) * 2 ^ c := by rw [pow_succ]; ring
          rw [← e]; exact hnb) a ha]
    rw [readU8_MarkBits_frame _ _ _ _ _ _ (by omega) (by omega),
      readU8_MarkBits_frame _ _ _ _ _ _ hs0 (by omega)]

theorem InitMeta_same (σ : State) : SameGlobals σ (InitMeta σ) ∧
    (InitMeta σ).g_freeBlocks = σ.g_freeBlocks := by
  unfold InitMeta
  simp only
  split
  · exact ⟨⟨rfl, rfl, rfl, rfl, rfl, rfl, rfl, rfl, rfl, rfl⟩, rfl⟩
  · exact ⟨⟨rfl, rfl, rfl, rfl, rfl, rfl, rfl, rfl, rfl, rfl⟩, rfl⟩

theorem InitMeta_frame {σ : State} (hg : Geom σ) (hm : MetaGeom σ)
    (hv : ValidNode σ (metaBlk σ)) (hhalf : 2 * (σ.g_memStart - σ.g_buddyStart) ≤ σ.g_buddySize) :
    ∀ a, ¬ InBlk (metaBlk σ) a → readU8 (InitMeta σ).mem a = readU8 σ.mem a := by
  intro a ha
  obtain ⟨hms, htot, hh2, hh8⟩ := meta_nums hg hm
  have hMS : MIN_SIZE = 16 := rfl
  rw [hMS] at htot
  have hge := hg.ms_le
  have hal := hg.ms_al
  have hvge : σ.g_memStart ≤ σ.g_metaStart := hv.ge
  have hvle : σ.g_metaStart + bsize (38 - σ.g_levelsNum) ≤ σ.g_end := hv.le
  have hbe := hg.be
  have ha' : a < σ.g_metaStart ∨ σ.g_metaStart + σ.g_metaSize ≤ a := by
    unfold InBlk metaBlk at ha
    simp only at ha
    rw [← hms] at ha
    omega
  set h := σ.g_metaSize / 2 with hh
  have hbs16 : σ.g_buddySize = 16 * (8 * h) := by
    have : (16:Int) ∣ σ.g_buddySize := by
      rw [hg.bs]
      have : (16:Int) = 2 ^ 4 := by norm_num
      rw [this]
      exact pow_dvd_pow 2 (by have := hg.n_lo; omega)
    omega
  have hlt0 : 0 ≤ (σ.g_memStart - σ.g_buddyStart) / 16 := Int.ediv_nonneg (by omega) (by norm_num)
  have hlt1 : 2 * ((σ.g_memStart - σ.g_buddyStart) / 16) ≤ 8 * h := by omega
  have hF := floatOfInt_bounds _ hlt0
  unfold InitMeta
  simp only [hMS]
  rw [InitMetaLoop_frame _ _ (by omega) (by omega) _ _ _ _ _ _ hF.1 (by omega) (le_refl 0) (by norm_num)
    (by
      have e : σ.g_buddySize / 16 = 2 ^ (σ.g_levelsNum - 1).toNat := by
        rw [hg.bs]
        have e1 : (σ.g_levelsNum + 3).toNat = (σ.g_levelsNum - 1).toNat + 4 := by
          have := hg.n_lo; omega
        rw [e1, pow_add]
        norm_num
      split <;> simp [MarkTaken, MarkFree, e]) a (by
        split <;> simp only [MarkTaken, MarkFree] <;> omega)]
  simp only [MarkTaken]
  rw [readU8_MarkBits_frame _ _ _ _ _ _ (by
      split <;> simp only [MarkTaken, MarkFree] <;> omega) (by
      split <;> simp only [MarkTaken, MarkFree] <;> omega)]
  split
  · simp only [MarkTaken, MarkFree]
    rw [readU8_MarkBits_frame _ _ _ _ _ _ hlt0 (by omega),
      readU8_MarkBits_frame _ _ _ _ _ _ (by omega) (by omega)]
  · simp only [MarkFree]
    rw [readU8_MarkBits_frame _ _ _ _ _ _ (by omega) (by omega)]

/-! ## Upper bounds on the bits set by `MarkBits` and `InitMeta` -/

theorem getBit_MarkBits_le (m : Mem) (base start n j : Int) (v : Bool)
    (hn : 0 ≤ n) (h : getBit (MarkBits m base start n v) base j = true) :
    getBit m base j = true ∨ (v = true ∧ start ≤ j ∧ j < start + n) := by
  obtain ⟨fb, hfb⟩ : ∃ k : Nat, start % 8 = k := ⟨(start % 8).toNat, by omega⟩
  obtain ⟨l, hl⟩ : ∃ l : Nat, j % 8 = l := ⟨(j % 8).toNat, by omega⟩
  unfold getBit at h ⊢
  by_cases hlt : start % 8 + n < 8
  · obtain ⟨nn, hnn⟩ : ∃ k : Nat, n = k := ⟨n.toNat, by omega⟩
    rw [MarkBits_single _ _ _ _ _ hlt] at h
    by_cases hb : j / 8 = start / 8
    · have e : base + j / 8 = base + start / 8 := by omega
      have hiff : (fb ≤ l ∧ l < fb + nn) → (start ≤ j ∧ j < start + n) := by omega
      rw [e, hl] at h
      rw [e, hl]
      cases v
      · simp only [Bool.false_eq_true, if_false, readU8_writeU8, if_true] at h
        rw [hfb, hnn, byte_zeros1 _ (readU8_lt _ _) fb (by omega) nn (by omega) (by omega) l
          (by omega)] at h
        left
        simp only [Bool.and_eq_true] at h
        exact h.2
      · simp only [if_true, readU8_writeU8] at h
        rw [hfb, hnn, byte_ones1 _ (readU8_lt _ _) fb (by omega) nn (by omega) (by omega) l
          (by omega)] at h
        simp only [Bool.or_eq_true, decide_eq_true_eq] at h
        rcases h with h | h
        · right; exact ⟨rfl, hiff h⟩
        · left; exact h
    · have e : base + j / 8 ≠ base + start / 8 := by omega
      left
      cases v <;> simpa [readU8_writeU8, e] using h
  · rw [readU8_MarkBits_multi _ _ _ _ _ _ hlt] at h
    rw [hl] at h ⊢
    by_cases h1 : base + j / 8 = base + start / 8 + 1 ∧ ¬ 0 < (n - (8 - start % 8)) / 8
    · rw [if_pos h1] at h
      obtain ⟨nn, hnn⟩ : ∃ k : Nat, (n - (8 - start % 8)) % 8 = k :=
        ⟨((n - (8 - start % 8)) % 8).toNat, by omega⟩
      have h8 : (8 : Int) - (nn : Int) = 8 - (((0 : Nat) : Int) + (nn : Nat)) := by simp
      have hnn' : (nn : Int) = (((0 : Nat) + nn : Nat) : Int) := by simp
      cases v
      · simp only [Bool.false_eq_true, if_false] at h
        rw [hnn, h8, byte_zeros1 _ (readU8_lt _ _) 0 (by omega) nn (by omega) (by omega) l
          (by omega)] at h
        left
        simp only [Bool.and_eq_true] at h
        exact h.2
      · simp only [if_true] at h
        rw [hnn, h8, byte_ones1 _ (readU8_lt _ _) 0 (by omega) nn (by omega) (by omega) l
          (by omega)] at h
        simp only [Bool.or_eq_true, decide_eq_true_eq] at h
        rcases h with h | h
        · right
          refine ⟨rfl, by omega, by omega⟩
        · left; exact h
    · rw [if_neg h1] at h
      by_cases h2 : base + start / 8 + 1 ≤ base + j / 8 ∧
          base + j / 8 < base + start / 8 + 1 + (n - (8 - start % 8)) / 8
      · rw [if_pos h2] at h
        cases v
        · simp at h
        · right
          exact ⟨rfl, by omega, by omega⟩
      · rw [if_neg h2] at h
        by_cases h3 : base + j / 8 = base + start / 8
        · rw [if_pos h3] at h
          have h8 : (8 : Int) - start % 8 = 8 - (fb : Nat) := by omega
          rw [h8] at h
          cases v
          · simp only [Bool.false_eq_true, if_false] at h
            rw [byte_zeros2 _ (readU8_lt _ _) fb (by omega) l (by omega)] at h
            left
            simp only [Bool.and_eq_true] at h
            exact h.2
          · simp only [if_true] at h
            rw [byte_ones2 _ (readU8_lt _ _) fb (by omega) l (by omega)] at h
            simp only [Bool.or_eq_true, decide_eq_true_eq] at h
            rcases h with h | h
            · right
              exact ⟨rfl, by omega, by omega⟩
            · left; exact h
        · rw [if_neg h3] at h
          left; exact h

theorem floatOfInt_even (k : Int) (h0 : 0 ≤ k) (h1 : k < 33554432) (f : Int) (hf : f % 2 = 0)
    (hlt : f < floatOfInt k) : f < k := by
  unfold floatOfInt at hlt
  simp only at hlt
  split at hlt
  · exact hlt
  · rename_i hbig
    have hk : ((k.toNat : Nat) : Int) = k := Int.toNat_of_nonneg h0
    have hlog : floorLog2 64 k.toNat = 24 := by
      apply floorLog2_eq
      · norm_num; omega
      · norm_num; omega
      · norm_num
    rw [hlog] at hlt
    norm_num at hlt
    split at hlt
    · omega
    · omega

theorem InitMetaLoop_le (start total : Int) (ht : 0 < total) :
    ∀ (cnt : Nat) (m : Mem) (ratioNum bitsSet numBlocks i : Int),
    0 ≤ ratioNum → ratioNum ≤ numBlocks * total → 0 ≤ bitsSet → bitsSet + 1 = numBlocks →
    ∀ g, getBit (InitMetaLoop cnt m start total ratioNum bitsSet numBlocks i) start g = true →
      getBit m start g = true ∨
        ∃ c : Nat, c < cnt ∧ numBlocks * 2 ^ c - 1 ≤ g ∧
          (g - (numBlocks * 2 ^ c - 1)) * total < ratioNum * 2 ^ c := by
  intro cnt
  induction cnt with
  | zero =>
    intro m _ _ _ _ _ _ _ _ g h
    left
    exact h
  | succ c ih =>
    intro m ratioNum bitsSet numBlocks i hr0 hr1 hb0 hb1 g h
    unfold InitMetaLoop at h
    simp only at h
    have hs0 : 0 ≤ (ratioNum + total - 1) / total := Int.ediv_nonneg (by omega) (le_of_lt ht)
    have hs1 : (ratioNum + total - 1) / total ≤ numBlocks := by
      have : (ratioNum + total - 1) / total < numBlocks + 1 := by
        apply Int.ediv_lt_of_lt_mul ht
        have : (numBlocks + 1) * total = numBlocks * total + total := by ring
        omega
      omega
    rcases ih _ (ratioNum * 2) (bitsSet + numBlocks) (numBlocks * 2) (i + 1) (by omega)
      (by have : numBlocks * 2 * total = (numBlocks * total) * 2 := by ring
          omega) (by omega) (by omega) g h with h2 | ⟨c', hc', h3, h4⟩
    · rcases getBit_MarkBits_le _ _ _ _ _ _ (by omega) h2 with h5 | ⟨h5, _, _⟩
      · rcases getBit_MarkBits_le _ _ _ _ _ _ hs0 h5 with h6 | ⟨_, h7, h8⟩
        · left; exact h6
        · right
          refine ⟨0, by omega, by simp only [pow_zero, mul_one]; omega, ?_⟩
          simp only [pow_zero, mul_one]
          have e : numBlocks - 1 = bitsSet := by omega
          rw [e]
          have h9 : g - bitsSet + 1 ≤ (ratioNum + total - 1) / total := by omega
          have h10 := Int.ediv_mul_le (ratioNum + total - 1) (ne_of_gt ht)
          have h11 : (g - bitsSet + 1) * total ≤ (ratioNum + total - 1) / total * total :=
            mul_le_mul_of_nonneg_right h9 (le_of_lt ht)
          have h12 : (g - bitsSet + 1) * total = (g - bitsSet) * total + total := by ring
          omega
      · exact absurd h5 (by simp)
    · right
      refine ⟨c' + 1, by omega, ?_, ?_⟩
      · have e : numBlocks * 2 ^ (c' + 1) = numBlocks * 2 * 2 ^ c' := by rw [pow_succ]; ring
        rw [e]; exact h3
      · have e : numBlocks * 2 ^ (c' + 1) = numBlocks * 2 * 2 ^ c' := by rw [pow_succ]; ring
        have e2 : ratioNum * 2 ^ (c' + 1) = ratioNum * 2 * 2 ^ c' := by rw [pow_succ]; ring
        rw [e, e2]; exact h4

theorem getBit_zero {m : Mem} {base g : Int} (h : readU8 m (base + g / 8) = 0) :
    getBit m base g = false := by
  unfold getBit
  rw [h]
  simp

theorem InitMeta_split_le {σ : State} (hg : Geom σ) (hm : MetaGeom σ)
    (hv : ValidNode σ (metaBlk σ)) (hhalf : 2 * (σ.g_memStart - σ.g_buddyStart) < σ.g_buddySize)
    (hz : ∀ a, SplitByte σ a → readU8 σ.mem a = 0) :
    ∀ q L', MAX_LEVELS - σ.g_levelsNum ≤ L' → L' ≤ 30 → bsize L' ∣ q - σ.g_buddyStart →
      σ.g_memStart ≤ q → q < σ.g_end → IsSplit (InitMeta σ) (gidx σ q L') = false := by
  intro q L' hL1 hL2 hdv hq1 hq2
  obtain ⟨hms, htot, hh2, hh8⟩ := meta_nums hg hm
  have hMS : MIN_SIZE = 16 := rfl
  have hML : MAX_LEVELS = 32 := rfl
  rw [hMS] at htot
  have hge := hg.ms_le
  have hal := hg.ms_al
  have hvge : σ.g_memStart ≤ σ.g_metaStart := hv.ge
  have hvle : σ.g_metaStart + σ.g_metaSize ≤ σ.g_end := by
    have := hv.le
    unfold metaBlk at this
    simp only at this
    rw [hms]
    exact this
  have hbe := hg.be
  have hn27 := hg.n_hi
  have hn7 := hm.n7
  set h := σ.g_metaSize / 2 with hh
  have hbs16 : σ.g_buddySize = 16 * (8 * h) := by
    have : (16:Int) ∣ σ.g_buddySize := by
      rw [hg.bs]
      have : (16:Int) = 2 ^ 4 := by norm_num
      rw [this]
      exact pow_dvd_pow 2 (by omega)
    omega
  have hk0 : 0 ≤ (σ.g_memStart - σ.g_buddyStart) / 16 := Int.ediv_nonneg (by omega) (by norm_num)
  have hk1 : 2 * ((σ.g_memStart - σ.g_buddyStart) / 16) < 8 * h := by omega
  have hb30 : σ.g_buddySize ≤ 1073741824 := by
    rw [hg.bs]
    have : (2:Int) ^ (σ.g_levelsNum + 3).toNat ≤ 2 ^ 30 :=
      pow_le_pow_right₀ (by norm_num) (by omega)
    norm_num at this
    exact this
  have hk25 : (σ.g_memStart - σ.g_buddyStart) / 16 < 33554432 := by omega
  have hF := floatOfInt_bounds _ hk0
  have htotE : σ.g_buddySize / 16 = 2 ^ (σ.g_levelsNum - 1).toNat := by
    rw [hg.bs]
    have e1 : (σ.g_levelsNum + 3).toNat = (σ.g_levelsNum - 1).toNat + 4 := by omega
    rw [e1, pow_add]
    norm_num
  have heven : (σ.g_buddySize / 16) % 2 = 0 := by omega
  have hFle : floatOfInt ((σ.g_memStart - σ.g_buddyStart) / 16) ≤ σ.g_buddySize / 16 := by
    by_contra hc
    have := floatOfInt_even _ hk0 hk25 (σ.g_buddySize / 16) heven (by omega)
    omega
  have hvq : σ.g_buddyStart ≤ q ∧ q < σ.g_end := ⟨by omega, hq2⟩
  have hgb := gidx_level hg hvq.1 hvq.2 hL1 (by omega) 
  have hlb1 : lvlBase σ (L' + 1) = 2 * lvlBase σ L' + 1 := lvlBase_succ hL1
  by_contra hcon
  have hcon2 : IsSplit (InitMeta σ) (gidx σ q L') = true := by
    cases hx : IsSplit (InitMeta σ) (gidx σ q L') with
    | true => rfl
    | false => exact absurd hx hcon
  rw [IsSplit_eq_getBit] at hcon2
  simp only [Bool.and_eq_true, decide_eq_true_eq] at hcon2
  obtain ⟨⟨hlt, hne0⟩, hbit⟩ := hcon2
  obtain ⟨hsame, _⟩ := InitMeta_same σ
  rw [hsame.buddySize, hMS] at hlt
  rw [hsame.metaSplitStart] at hne0 hbit
  have hspl := hm.split
  rw [hspl] at hbit
  unfold InitMeta at hbit
  simp only [hMS] at hbit
  have hpre : ∀ m' : Mem, (∀ a, SplitByte σ a → readU8 m' a = 0) →
      getBit (InitMetaLoop (σ.g_levelsNum - 1).toNat m' (σ.g_metaStart + h) (σ.g_buddySize / 16)
        (floatOfInt ((σ.g_memStart - σ.g_buddyStart) / 16)) 0 1 0) (σ.g_metaStart + h)
        (gidx σ q L') = true → False := by
    intro m' hz' hb
    rcases InitMetaLoop_le _ (σ.g_buddySize / 16) (by omega) _ m' _ 0 1 0 hF.1 (by omega)
      (le_refl 0) (by norm_num) (gidx σ q L') hb with h2 | ⟨c, hc, h3, h4⟩
    · rw [getBit_zero (hz' _ ⟨hne0, by omega, by omega⟩)] at h2
      exact absurd h2 (by simp)
    · have hA : (0 : Int) < 2 ^ (L' - 32 + σ.g_levelsNum).toNat := pow_n_pos _
      have hgx : gidx σ q L' = 2 ^ (L' - 32 + σ.g_levelsNum).toNat - 1 +
          (q - σ.g_buddyStart) / bsize L' := rfl
      have hlbx : lvlBase σ L' = 2 ^ (L' - 32 + σ.g_levelsNum).toNat - 1 := rfl
      have hc2 : (0 : Int) < 2 ^ c := pow_n_pos _
      rw [one_mul] at h3 h4
      have hup : gidx σ q L' - (2 ^ c - 1) < 2 ^ c := by
        by_contra hcc
        have h5 : (2 : Int) ^ c * (σ.g_buddySize / 16) ≤
            (gidx σ q L' - (2 ^ c - 1)) * (σ.g_buddySize / 16) :=
          mul_le_mul_of_nonneg_right (by omega) (by omega)
        have h6 : floatOfInt ((σ.g_memStart - σ.g_buddyStart) / 16) * 2 ^ c ≤
            σ.g_buddySize / 16 * 2 ^ c := mul_le_mul_of_nonneg_right hFle (le_of_lt hc2)
        have h7 : (2 : Int) ^ c * (σ.g_buddySize / 16) = σ.g_buddySize / 16 * 2 ^ c := by ring
        omega
      have hceq : c = (L' - 32 + σ.g_levelsNum).toNat := by
        rcases lt_trichotomy c (L' - 32 + σ.g_levelsNum).toNat with hlt3 | heq | hgt3
        · exfalso
          have h5 : (2 : Int) ^ (c + 1) ≤ 2 ^ (L' - 32 + σ.g_levelsNum).toNat :=
            pow_le_pow_right₀ (by norm_num) (by omega)
          rw [pow_succ] at h5
          omega
        · exact heq
        · exfalso
          have h5 : (2 : Int) ^ ((L' - 32 + σ.g_levelsNum).toNat + 1) ≤ 2 ^ c :=
            pow_le_pow_right₀ (by norm_num) (by omega)
          rw [pow_succ] at h5
          omega
      rw [hceq] at h4
      set A : Int := 2 ^ (L' - 32 + σ.g_levelsNum).toNat with hAdef
      set j : Int := (q - σ.g_buddyStart) / bsize L' with hjdef
      have hw : (0 : Int) < 2 ^ (30 - L').toNat := pow_n_pos _
      set w : Int := 2 ^ (30 - L').toNat with hwdef
      have htw : σ.g_buddySize / 16 = A * (2 * w) := by
        rw [htotE, hAdef, hwdef]
        have e : (σ.g_levelsNum - 1).toNat = (L' - 32 + σ.g_levelsNum).toNat + ((30 - L').toNat + 1) := by
          omega
        rw [e, pow_add, pow_succ]
        ring
      have hbw : bsize L' = 16 * (2 * w) := by
        unfold bsize
        have e : (35 - L').toNat = (30 - L').toNat + 5 := by omega
        rw [e, pow_add, hwdef]
        norm_num
        ring
      have hj : gidx σ q L' - (A - 1) = j := by rw [hgx]; ring
      rw [hj, htw] at h4
      have h8 : j * (2 * w) < floatOfInt ((σ.g_memStart - σ.g_buddyStart) / 16) := by
        have e : j * (A * (2 * w)) = (j * (2 * w)) * A := by ring
        rw [e] at h4
        exact lt_of_mul_lt_mul_right h4 (le_of_lt hA)
      have h9 := floatOfInt_even _ hk0 hk25 (j * (2 * w)) (by
        have e : j * (2 * w) = 2 * (j * w) := by ring
        rw [e]
        omega) h8
      have h10 : q - σ.g_buddyStart = bsize L' * j := (Int.mul_ediv_cancel' hdv).symm
      rw [hbw] at h10
      have h11 : 16 * (2 * w) * j = 16 * (j * (2 * w)) := by ring
      omega
  by_cases hpos : (σ.g_memStart - σ.g_buddyStart) / 16 > 0
  · simp only [hpos, if_true, MarkTaken, MarkFree] at hbit
    refine hpre _ ?_ hbit
    intro a ha
    obtain ⟨_, ha1, ha2⟩ := ha
    rw [readU8_MarkBits_frame _ _ _ _ _ _ (by omega) (by omega),
      readU8_MarkBits_frame _ _ _ _ _ _ hk0 (by omega),
      readU8_MarkBits_frame _ _ _ _ _ _ (by omega) (by omega)]
    exact hz a ⟨hne0, ha1, ha2⟩
  · simp only [hpos, if_false, MarkTaken, MarkFree] at hbit
    refine hpre _ ?_ hbit
    intro a ha
    obtain ⟨_, ha1, ha2⟩ := ha
    rw [readU8_MarkBits_frame _ _ _ _ _ _ (by omega) (by omega),
      readU8_MarkBits_frame _ _ _ _ _ _ (by omega) (by omega)]
    exact hz a ⟨hne0, ha1, ha2⟩

theorem readU8_setBlockNext_zero (m : Mem) (b x : Int) :
    readU8 (setBlockNext m b 0) x = if b + 8 ≤ x ∧ x < b + 16 then 0 else readU8 m x := by
  unfold setBlockNext
  rw [readU8_writeU64]
  have e : b + 8 + 8 = b + 16 := by ring
  rw [e]
  split
  · simp
  · rfl

theorem seedPlace_zero {σ σ3 : State} {lv block bs : Int}
    (h : seedPlace σ lv block bs = some σ3) :
    0 ≤ lv ∧ lv < 32 ∧ σ3.g_freeBlocks lv = block ∧
      (∀ L, L ≠ lv → σ3.g_freeBlocks L = σ.g_freeBlocks L) ∧
      (∀ a, readU8 σ3.mem a ≠ 0 → readU8 σ.mem a ≠ 0 ∨ (block ≤ a ∧ a < block + 4)) := by
  unfold seedPlace at h
  unfold setFree at h
  have hML : MAX_LEVELS = 32 := rfl
  split at h
  · simp at h
  · rename_i σ1 h1
    split at h1
    · rename_i hr
      simp only [Option.some.injEq] at h1 h
      subst h1
      subst h
      refine ⟨hr.1, by omega, by simp, ?_, ?_⟩
      · intro L hL
        simp [hL]
      · intro a ha
        simp only at ha
        rw [readU8_setBlockNext_zero] at ha
        split at ha
        · exact absurd rfl ha
        · by_cases hin : block ≤ a ∧ a < block + 4
          · right; exact hin
          · left
            rw [readU8_setBlockSize _ _ _ _ (by omega)] at ha
            exact ha
    · simp at h1

theorem InitBuddySystemLoop_zero (fuel : Nat) : ∀ (σ : State) (bs ml lv : Int) (σ' : State),
    InitBuddySystemLoop fuel σ bs ml lv = some σ' →
    (∀ L, L < lv → σ'.g_freeBlocks L = σ.g_freeBlocks L) ∧
    (∀ a, readU8 σ'.mem a ≠ 0 → readU8 σ.mem a ≠ 0 ∨
      ∃ L, 0 ≤ L ∧ L < 32 ∧ σ'.g_freeBlocks L ≤ a ∧ a < σ'.g_freeBlocks L + 4) := by
  induction fuel with
  | zero => intro σ bs ml lv σ' h; simp [InitBuddySystemLoop] at h
  | succ f ih =>
    intro σ bs ml lv σ' h
    rw [InitBuddySystemLoop_succ] at h
    split at h
    · split at h
      · split at h
        · simp at h
        · rename_i σ3 h3
          obtain ⟨i1, i2⟩ := ih _ _ _ _ _ h
          obtain ⟨s1, s2, s3, s4, s5⟩ := seedPlace_zero h3
          constructor
          · intro L hL
            rw [i1 L (by omega), s4 L (by omega)]
          · intro a ha
            rcases i2 a ha with h5 | ⟨L, h6, h7, h8, h9⟩
            · rcases s5 a h5 with h10 | h10
              · left; exact h10
              · right
                refine ⟨lv, s1, s2, ?_, ?_⟩
                · rw [i1 lv (by omega), s3]; exact h10.1
                · rw [i1 lv (by omega), s3]; exact h10.2
            · right
              exact ⟨L, h6, h7, h8, h9⟩
      · obtain ⟨i1, i2⟩ := ih _ _ _ _ _ h
        constructor
        · intro L hL
          exact i1 L (by omega)
        · intro a ha
          rcases i2 a ha with h5 | ⟨L, h6, h7, h8, h9⟩
          · left; exact h5
          · right
            exact ⟨L, h6, h7, h8, h9⟩
    · simp only [Option.some.injEq] at h
      subst h
      exact ⟨fun _ _ => rfl, fun a ha => Or.inl ha⟩

theorem InitBuddySystem_zero {σ σ' : State} (h : InitBuddySystem σ = some σ') (a : Int)
    (ha : readU8 σ'.mem a ≠ 0) :
    readU8 σ.mem a ≠ 0 ∨ ∃ L, 0 ≤ L ∧ L < 32 ∧ σ'.g_freeBlocks L ≤ a ∧
      a < σ'.g_freeBlocks L + 4 := by
  unfold InitBuddySystem at h
  simp only at h
  split at h
  · simp at h
  · exact (InitBuddySystemLoop_zero _ _ _ _ _ _ h).2 a ha

theorem Struct.congr {σ σ' : State} {res fly free : List Blk} (hS : Struct σ res fly free)
    (h1 : σ'.g_levelsNum = σ.g_levelsNum) (h2 : σ'.g_memStart = σ.g_memStart)
    (h3 : σ'.g_end = σ.g_end) (h4 : σ'.g_buddyStart = σ.g_buddyStart)
    (h5 : σ'.g_buddySize = σ.g_buddySize) (h6 : σ'.mem = σ.mem)
    (h7 : σ'.g_freeBlocks = σ.g_freeBlocks) (hm : MetaOK σ' res) :
    Struct σ' res fly free := by
  have hg := hS.geom
  refine ⟨⟨?_, ?_, ?_, ?_, ?_, ?_, ?_, ?_⟩, hm, ?_, ?_, ?_, hS.pw⟩
  · rw [h1]; exact hg.n_lo
  · rw [h1]; exact hg.n_hi
  · rw [h1, h5]; exact hg.bs
  · rw [h3, h4, h5]; exact hg.be
  · rw [h2, h4]; exact hg.ms_le
  · rw [h2, h4]; exact hg.ms_al
  · rw [h2]; exact hg.m_pos
  · rw [h3]; exact hg.e_lt
  · intro L h0 h1'
    rw [h6, h7]
    exact hS.chain L h0 h1'
  · intro x hx
    rw [h6]
    exact hS.hdr x hx
  · intro x hx
    have hv := hS.valid x hx
    refine ⟨?_, hv.hi, ?_, ?_, ?_⟩
    · rw [h1]; exact hv.lo
    · rw [h4]; exact hv.al
    · rw [h2]; exact hv.ge
    · rw [h3]; exact hv.le

theorem Struct.promote {σ : State} {res fly free : List Blk} {x : Blk}
    (hS : Struct σ res (x :: fly) free) : Struct σ (x :: res) fly free := by
  have hperm : List.Perm (res ++ ((x :: fly) ++ free)) ((x :: res) ++ (fly ++ free)) := by
    apply List.perm_iff_count.mpr
    intro a
    simp only [List.count_append, List.count_cons, List.cons_append]
    omega
  refine ⟨hS.geom, ?_, hS.chain, ?_, ?_, pw_perm hperm hS.pw⟩
  · rcases hS.metaOK with h | ⟨h1, h2⟩
    · exact Or.inl h
    · exact Or.inr ⟨h1, List.mem_cons_of_mem _ h2⟩
  · intro y hy
    exact hS.hdr y (by
      simp only [List.cons_append, List.mem_cons, List.mem_append] at hy ⊢
      tauto)
  · intro y hy
    exact hS.valid y (hperm.mem_iff.mpr hy)

theorem AllocOnLevel_spec (σ : State) (L : Int) (res fly free : List Blk)
    (hS : Struct σ res fly free) (h0 : 0 ≤ L) (h1 : L ≤ 31) :
    ∃ σ' p, AllocOnLevel σ L = some (σ', p) ∧ SameGlobals σ σ' ∧
      ((p = 0 ∧ σ' = σ ∧ ∀ x ∈ free, L < x.2) ∨
       (p ≠ 0 ∧ ∃ free' L0, Struct σ' res ((p, L) :: fly) free' ∧ (p, L0) ∈ free ∧ L0 ≤ L ∧
          (∀ x ∈ free', x ∈ free ∨ (OddAligned σ x ∧ L0 < x.2 ∧ x.2 ≤ L)) ∧
          (∀ a, ¬ InBlk (p, L0) a → ¬ SplitByte σ a → readU8 σ'.mem a = readU8 σ.mem a) ∧
          (∀ g, 0 ≤ g → IsSplit σ g = true → IsSplit σ' g = true) ∧
          (σ.g_metaSplitStart ≠ 0 → ∀ L', L0 ≤ L' → L' < L →
            IsSplit σ' (gidx σ p L') = true) ∧
          (∀ x ∈ free', x ∈ free ∨
            (p ≤ x.1 ∧ x.1 + bsize x.2 ≤ p + bsize L0 ∧ p + bsize L ≤ x.1)) ∧
          (∀ a, p + 4 ≤ a → a < p + bsize L → readU8 σ'.mem a = readU8 σ.mem a) ∧
          (∀ g, 0 ≤ g → IsSplit σ' g = true →
            IsSplit σ g = true ∨ ∃ L', L0 ≤ L' ∧ L' < L ∧ g = gidx σ p L'))) := by
  unfold AllocOnLevel
  exact AllocOnLevelAux_spec _ σ L res fly free hS h0 h1 (by omega) (by omega)

theorem HeapInit_full (σ0 : State) (pool memSize : Int) (h1 : 528 ≤ memSize)
    (h2 : memSize ≤ 1073741824) (hp : 0 < pool)
    (hE : pool + memSize < 18446744073709551616) :
    ∃ σ free, HeapInit σ0 pool memSize = some σ ∧ Inv σ [] free ∧ σ.g_blocksPending = 0 ∧
      σ.g_memStart = pool ∧ σ.g_end = pool + memSize / 16 * 16 ∧
      σ.g_memSize = memSize / 16 * 16 ∧ LevelsNeeded memSize = some σ.g_levelsNum ∧
      ((∀ a, pool ≤ a → a < pool + memSize → readU8 σ0.mem a = 0) →
        ∀ x ∈ free, ClearIn σ x) := by
  obtain ⟨n, hn, hn1, hn27, hn7', hbig, hle⟩ := LevelsNeeded_spec (by omega : 16 ≤ memSize) h2
  have hn7 := hn7' h1
  unfold HeapInit
  simp only [hn]
  obtain ⟨σ5, free, h5, hS5, hodd, hwit, hpow, e1, e2, e3, e4, e5, e6, e7, e8⟩ :=
    InitBuddySystem_spec
      { g_freeBlocks := (ResetAllocator σ0).g_freeBlocks, g_levelsNum := n,
        g_memStart := pool, g_end := pool + memSize / 16 * 16,
        g_buddyStart := (ResetAllocator σ0).g_buddyStart,
        g_metaStart := (ResetAllocator σ0).g_metaStart,
        g_metaSplitStart := (ResetAllocator σ0).g_metaSplitStart,
        g_memSize := memSize / 16 * 16,
        g_buddySize := (ResetAllocator σ0).g_buddySize,
        g_metaSize := (ResetAllocator σ0).g_metaSize,
        g_blocksPending := (ResetAllocator σ0).g_blocksPending,
        mem := (ResetAllocator σ0).mem } hn1 hn27 (fun _ => rfl) ⟨rfl, rfl⟩ hp
      (by simp only; omega) rfl (Dvd.intro_left _ rfl) hbig hle
  obtain ⟨w, hw, hwl⟩ := hwit hn7
  simp only at e1 e2 e3 e4 e5 e6 e7 e8 hwl
  rw [h5]
  simp only
  have hbsz : (2:Int) ^ (n - 3).toNat = bsize (38 - n) := by
    unfold bsize
    congr 1
    omega
  have hP : Pow2Int (σ5.g_levelsNum - 3) = some (bsize (38 - n)) := by
    rw [e1, Pow2Int_eq (by omega) (by omega), hbsz]
  rw [hP]
  simp only
  rw [SizeToLevel_bsize (by omega) (by omega)]
  simp only
  have hS6 : Struct { σ5 with g_metaSize := bsize (38 - n) } [] [] free :=
    hS5.congr rfl rfl rfl rfl rfl rfl rfl (Or.inl ⟨e4, e5⟩)
  have hML : MAX_LEVELS = 32 := rfl
  unfold BuddyAlloc
  obtain ⟨σ7, p, hA, hsg, hcase⟩ := AllocOnLevel_spec
    { σ5 with g_metaSize := bsize (38 - n) } (38 - n) [] [] free hS6 (by omega) (by omega)
  rw [hA]
  simp only
  rcases hcase with ⟨_, _, hall⟩ |
    ⟨hp0, free', L0, hS7, hin, hL0, hfree', hfr, _, _, hin7, hfr7, hup7⟩
  · have := hall w hw
    omega
  · rw [if_pos hp0]
    have hms7 : σ7.g_metaStart = 0 := by rw [hsg.metaStart]; exact e4
    have hMA : MarkAlloc σ7 p (38 - n) = σ7 := by
      unfold MarkAlloc
      rw [if_neg (by rw [hms7]; simp)]
    rw [hMA]
    simp only
    have hln7 : σ7.g_levelsNum = n := by rw [hsg.levelsNum]; exact e1
    have hmsz7 : σ7.g_metaSize = bsize (38 - n) := hsg.metaSize
    set σ9 : State :=
      { σ7 with g_metaStart := p, g_metaSplitStart := p + σ7.g_metaSize / 2 } with hσ9
    have hg7 := hS7.geom
    have hmb : metaBlk σ9 = (p, 38 - n) := by
      unfold metaBlk
      rw [hσ9]
      simp only [hln7]
    have hMG : MetaGeom σ9 := by
      refine ⟨?_, ?_, rfl, ?_⟩
      · show 7 ≤ σ7.g_levelsNum
        rw [hln7]; exact hn7
      · show σ7.g_metaSize = 2 ^ (σ7.g_levelsNum - 3).toNat
        rw [hmsz7, hln7, hbsz]
      · show σ7.g_buddyStart < σ7.g_memStart ∨ p = σ7.g_buddyStart
        rcases lt_or_eq_of_le hg7.ms_le with h | h
        · exact Or.inl h
        · right
          have := hpow (by
            have a1 := hsg.memStart
            have a2 := hsg.buddyStart
            simp only at a1 a2
            rw [← a1, ← a2]
            exact h.symm) (p, L0) hin
          simp only at this
          rw [this]
          exact hsg.buddyStart.symm
    have hS9 : Struct σ9 [metaBlk σ9] [] free' := by
      have h := hS7.promote
      rw [hmb]
      exact h.congr rfl rfl rfl rfl rfl rfl rfl (Or.inr ⟨hMG, by rw [hmb]; simp⟩)
    have hv9 : ValidNode σ9 (metaBlk σ9) := hS9.valid _ (by simp)
    have hhalf : 2 * (σ9.g_memStart - σ9.g_buddyStart) < σ9.g_buddySize := by
      have hg9 := hS9.geom
      have a1 : σ9.g_memStart = pool := by
        show σ7.g_memStart = pool
        rw [hsg.memStart]; exact e2
      have a2 : σ9.g_end = pool + memSize / 16 * 16 := by
        show σ7.g_end = _
        rw [hsg.gend]; exact e3
      have a3 : σ9.g_levelsNum = n := hln7
      have a4 := buddySize_eq hg9 (L := 32 - σ9.g_levelsNum) (by omega) (by omega)
      have a5 : (32 - σ9.g_levelsNum - 32 + σ9.g_levelsNum).toNat = 0 := by omega
      rw [a5, pow_zero, mul_one, a3] at a4
      have a6 := bsize_pred (33 - n) (by omega)
      have a7 : 33 - n - 1 = 32 - n := by ring
      rw [a7] at a6
      have a8 := hg9.be
      omega
    obtain ⟨hsame, hfbI⟩ := InitMeta_same σ9
    have hframe := InitMeta_frame hS9.geom hMG hv9 (le_of_lt hhalf)
    have hSI : Struct (InitMeta σ9) [metaBlk σ9] [] free' := by
      apply hS9.frame hsame hfbI
      intro x hx a ha1 ha2
      apply hframe
      have hd := hS9.meta_disj hx (by simp)
      have := (hS9.valid x (by simp at hx ⊢; exact Or.inr hx)).size_ge
      unfold InBlk
      unfold Disj at hd
      omega
    refine ⟨InitMeta σ9, free', rfl, ⟨?_, hMG.metaSame hsame, ?_, ?_⟩, ?_, ?_, ?_, ?_, ?_, ?_⟩
    · rw [metaBlk_of_same hsame]
      exact hSI
    · intro x hx; simp at hx
    · intro x hx L hL1 hL2 hdv
      exfalso
      simp only [List.nil_append] at hx
      have hbs : (InitMeta σ9).g_buddyStart = σ5.g_buddyStart := by
        rw [hsame.buddyStart]
        show σ7.g_buddyStart = _
        rw [hsg.buddyStart]
      have hlnI : (InitMeta σ9).g_levelsNum = n := by
        rw [hsame.levelsNum]; exact hln7
      rw [hbs] at hdv
      rw [hlnI] at hL1
      rcases hfree' x hx with h | ⟨h, _, _⟩
      · exact hodd x h L (by rw [e1]; exact hL1) hL2 hdv
      · exact h L (by simp only [e1]; exact hL1) hL2 hdv
    · rw [hsame.blocksPending]
      show σ7.g_blocksPending = 0
      rw [hsg.blocksPending]
      exact e7
    · rw [hsame.memStart]
      show σ7.g_memStart = pool
      rw [hsg.memStart]; exact e2
    · rw [hsame.gend]
      show σ7.g_end = _
      rw [hsg.gend]; exact e3
    · rw [hsame.memSize]
      show σ7.g_memSize = _
      rw [hsg.memSize]; exact e8
    · have hlnI : (InitMeta σ9).g_levelsNum = n := by
        rw [hsame.levelsNum]; exact hln7
      rw [hlnI]
    · intro hz x hx q L' hxL hL30 hdv hq1 hq2
      have hvx : ValidNode σ9 x := hS9.valid x (by simp [hx])
      have hg9 := hS9.geom
      rw [hsame.buddyStart] at hdv
      rw [gidx_of_same hsame]
      obtain ⟨hms9, _, hh2, hh8⟩ := meta_nums hg9 hMG
      have hp9 : σ9.g_metaStart = p := rfl
      have hpge : σ9.g_memStart ≤ p := hv9.ge
      have hple : p + bsize (38 - σ9.g_levelsNum) ≤ σ9.g_end := hv9.le
      have hm9 : σ9.g_memStart = pool := by
        show σ7.g_memStart = pool
        rw [hsg.memStart]; exact e2
      have he9 : σ9.g_end = pool + memSize / 16 * 16 := by
        show σ7.g_end = _
        rw [hsg.gend]; exact e3
      have hl9 : σ9.g_levelsNum = n := hln7
      refine InitMeta_split_le hg9 hMG hv9 hhalf ?_ q L' (by have := hvx.lo; omega) hL30 hdv
        (by have := hvx.ge; omega) (by have := hvx.le; have := bsize_pos L'; omega)
      intro a ha
      obtain ⟨_, ha1, ha2⟩ := ha
      have hs9 : σ9.g_metaSplitStart = p + σ9.g_metaSize / 2 := rfl
      show readU8 σ7.mem a = 0
      rw [hl9] at hple hms9
      rw [hfr7 a (by omega) (by omega)]
      by_contra hne
      rcases InitBuddySystem_zero h5 a hne with h0 | ⟨L, hL0', hL32, hb1, hb2⟩
      · exact h0 (hz a (by omega) (by omega))
      · have hhd : σ5.g_freeBlocks L ≠ 0 := by
          have := hg9.m_pos
          omega
        obtain ⟨rest, hrest, _⟩ := Chain_head (hS5.chain L hL0' hL32) hhd
        have hmem : (σ5.g_freeBlocks L, L) ∈ free := mem_lvl.mp (by rw [hrest]; simp)
        have hpw : free.Pairwise Disj := by
          have := hS5.pw
          simpa using this
        have hvh : ValidNode σ5 (σ5.g_freeBlocks L, L) := hS5.valid _ (by simp [hmem])
        have hsz := hvh.size_ge
        simp only at hsz
        have hmo := @bsize_mono L0 (38 - n) hL0
        by_cases heq : (σ5.g_freeBlocks L, L) = (p, L0)
        · have := congrArg Prod.fst heq
          simp only at this
          omega
        · have hd := pw_disj hpw hmem hin heq
          unfold Disj at hd
          simp only at hd
          omega

theorem HeapInit_spec (σ0 : State) (pool memSize : Int) (h1 : 528 ≤ memSize)
    (h2 : memSize ≤ 1073741824) (hp : 0 < pool)
    (hE : pool + memSize < 18446744073709551616) :
    ∃ σ free, HeapInit σ0 pool memSize = some σ ∧ Inv σ [] free ∧ σ.g_blocksPending = 0 ∧
      σ.g_memStart = pool ∧ σ.g_end = pool + memSize / 16 * 16 ∧
      σ.g_memSize = memSize / 16 * 16 := by
  obtain ⟨σ, free, a1, a2, a3, a4, a5, a6, _⟩ := HeapInit_full σ0 pool memSize h1 h2 hp hE
  exact ⟨σ, free, a1, a2, a3, a4, a5, a6⟩

theorem Struct.res_perm {σ : State} {res res' fly free : List Blk}
    (hS : Struct σ res fly free) (hp : List.Perm res res') : Struct σ res' fly free := by
  have hperm : List.Perm (res ++ (fly ++ free)) (res' ++ (fly ++ free)) :=
    List.Perm.append_right _ hp
  refine ⟨hS.geom, ?_, hS.chain, hS.hdr, ?_, pw_perm hperm hS.pw⟩
  · rcases hS.metaOK with h | ⟨h1, h2⟩
    · exact Or.inl h
    · exact Or.inr ⟨h1, hp.mem_iff.mp h2⟩
  · intro y hy
    exact hS.valid y (hperm.mem_iff.mpr hy)

theorem Inv.pending {σ : State} {live free : List Blk} (hI : Inv σ live free) (k : Int) :
    Inv { σ with g_blocksPending := k } live free := by
  have hmg : MetaGeom { σ with g_blocksPending := k } :=
    ⟨hI.mgeom.n7, hI.mgeom.msz, hI.mgeom.split, hI.mgeom.origin⟩
  refine ⟨?_, hmg, ?_, ?_⟩
  · have h := hI.struct
    exact h.congr rfl rfl rfl rfl rfl rfl rfl (Or.inr ⟨hmg, by
      show metaBlk σ ∈ metaBlk σ :: live
      simp⟩)
  · intro x hx
    exact hI.taken x hx
  · intro x hx L h1 h2 h3
    exact hI.split x hx L h1 h2 h3

theorem bsize_div16 {L : Int} (h : L ≤ 31) : bsize L / 16 = 2 ^ (31 - L).toNat := by
  unfold bsize
  have e : (35 - L).toNat = (31 - L).toNat + 4 := by omega
  rw [e, pow_add]
  norm_num

theorem getBit_MarkBits_block (m : Mem) (base start j : Int) (v : Bool) {L : Int}
    (h31 : L ≤ 31) (hal : start % (bsize L / 16) = 0) :
    getBit (MarkBits m base start (bsize L / 16) v) base j =
      if start ≤ j ∧ j < start + bsize L / 16 then v else getBit m base j := by
  rw [bsize_div16 h31] at hal ⊢
  by_cases h28 : L ≤ 28
  · have e : (31 - L).toNat = (28 - L).toNat + 3 := by omega
    rw [e, pow_add] at hal ⊢
    have hp := pow_n_pos (28 - L).toNat
    have h8 : ((2:Int) ^ (28 - L).toNat * 2 ^ 3) % 8 = 0 := by norm_num
    have hd : ((2:Int) ^ (28 - L).toNat * 2 ^ 3) ∣ start := Int.dvd_of_emod_eq_zero hal
    have hd8 : (8:Int) ∣ start := dvd_trans ⟨2 ^ (28 - L).toNat, by ring⟩ hd
    exact getBit_MarkBits_big m base start ((2:Int) ^ (28 - L).toNat * 2 ^ 3) j v
      (by positivity) h8 (by omega)
  · have hc : L = 29 ∨ L = 30 ∨ L = 31 := by omega
    rcases hc with rfl | rfl | rfl
    · exact getBit_MarkBits_small _ _ _ _ _ _ (Or.inr (Or.inr (by decide))) hal
    · exact getBit_MarkBits_small _ _ _ _ _ _ (Or.inr (Or.inl (by decide))) hal
    · exact getBit_MarkBits_small _ _ _ _ _ _ (Or.inl (by decide)) hal

theorem leaf_align {σ : State} {x : Blk} (hg : Geom σ) (hv : ValidNode σ x) :
    ((x.1 - σ.g_buddyStart) / 16) % (bsize x.2 / 16) = 0 ∧
    0 ≤ (x.1 - σ.g_buddyStart) / 16 ∧
    (x.1 - σ.g_buddyStart) / 16 + bsize x.2 / 16 ≤ σ.g_buddySize / 16 ∧
    (x.1 - σ.g_buddyStart) / 16 * 16 = x.1 - σ.g_buddyStart ∧
    bsize x.2 / 16 * 16 = bsize x.2 := by
  obtain ⟨c, hc⟩ := hv.al
  have h16 : (16:Int) ∣ bsize x.2 := by
    have := @bsize_dvd x.2 31 hv.hi (by norm_num)
    rwa [bsize_31] at this
  obtain ⟨d, hd⟩ := h16
  have hpos := bsize_pos x.2
  have hdpos : 0 < d := by omega
  have e1 : (x.1 - σ.g_buddyStart) / 16 = d * c := by
    rw [hc, hd, mul_assoc]
    exact Int.mul_ediv_cancel_left _ (by norm_num)
  have e2 : bsize x.2 / 16 = d := by
    rw [hd]; exact Int.mul_ediv_cancel_left _ (by norm_num)
  have hge := hv.ge
  have hle := hv.le
  have hbe := hg.be
  have hms := hg.ms_le
  have h16b : (16:Int) ∣ σ.g_buddySize := by
    rw [hg.bs]
    have : (16:Int) = 2 ^ 4 := by norm_num
    rw [this]
    exact pow_dvd_pow 2 (by have := hg.n_lo; omega)
  rw [e1, e2]
  refine ⟨Int.mul_emod_right _ _, ?_, ?_, ?_, ?_⟩
  · have : 0 ≤ x.1 - σ.g_buddyStart := by omega
    rw [← e1]
    exact Int.ediv_nonneg this (by norm_num)
  · have : 16 * (d * c) = x.1 - σ.g_buddyStart := by rw [hc, hd]; ring
    omega
  · rw [hc, hd]; ring
  · omega

theorem MarkAlloc_spec {σ1 : State} {res fly free : List Blk} {p L : Int}
    (hS : Struct σ1 res ((p, L) :: fly) free) (hm : MetaGeom σ1) (hmr : metaBlk σ1 ∈ res) :
    SameGlobals σ1 (MarkAlloc σ1 p L) ∧ (MarkAlloc σ1 p L).g_freeBlocks = σ1.g_freeBlocks ∧
    (∀ a, ¬ LeafByte σ1 a → readU8 (MarkAlloc σ1 p L).mem a = readU8 σ1.mem a) ∧
    (∀ j, IsLeafTaken (MarkAlloc σ1 p L) j =
      (decide ((p - σ1.g_buddyStart) / 16 ≤ j ∧
        j < (p - σ1.g_buddyStart) / 16 + bsize L / 16) || IsLeafTaken σ1 j)) := by
  have hg := hS.geom
  have hvm : ValidNode σ1 (metaBlk σ1) := hS.valid _ (List.mem_append_left _ hmr)
  have hms0 : σ1.g_metaStart ≠ 0 := by
    have := hvm.pos hg
    unfold metaBlk at this
    simp only at this
    omega
  have hvp : ValidNode σ1 (p, L) := hS.valid _ (by simp)
  have hhdr : blockSize σ1.mem p = bsize L := hS.hdr (p, L) (by simp)
  obtain ⟨hal, hs0, hs1, _, _⟩ := leaf_align hg hvp
  simp only at hal hs0 hs1
  obtain ⟨hmsz, htot, hh2, hh8⟩ := meta_nums hg hm
  have hMS : MIN_SIZE = 16 := rfl
  rw [hMS] at htot
  have hMA : MarkAlloc σ1 p L =
      MarkTaken σ1 ((p - σ1.g_buddyStart) / 16) (bsize L / 16) := by
    unfold MarkAlloc
    rw [if_pos hms0]
    simp only [hhdr, hMS]
  rw [hMA]
  refine ⟨MarkTaken_same _ _ _, rfl, ?_, ?_⟩
  · intro a ha
    simp only [MarkTaken]
    have hn0 : 0 ≤ bsize L / 16 := Int.ediv_nonneg (le_of_lt (bsize_pos L)) (by norm_num)
    apply readU8_MarkBits_frame _ _ _ _ _ _ hn0
    unfold LeafByte at ha
    have ha' : a < σ1.g_metaStart ∨ σ1.g_metaStart + σ1.g_metaSize / 2 ≤ a := by
      by_contra hc
      apply ha
      refine ⟨hms0, ?_, ?_⟩ <;> omega
    omega
  · intro j
    rw [IsLeafTaken_eq_getBit, IsLeafTaken_eq_getBit]
    simp only [MarkTaken]
    rw [getBit_MarkBits_block _ _ _ _ _ hvp.hi hal]
    by_cases hc : (p - σ1.g_buddyStart) / 16 ≤ j ∧ j < (p - σ1.g_buddyStart) / 16 + bsize L / 16
    · rw [if_pos hc]
      simp [hms0, hc]
    · rw [if_neg hc]
      simp [hc]

theorem splitByte_not_leaf {σ : State} (_hg : Geom σ) (hm : MetaGeom σ) {a : Int}
    (h : SplitByte σ a) : ¬ LeafByte σ a := by
  intro h2
  have := hm.split
  unfold SplitByte at h
  unfold LeafByte at h2
  omega

theorem HeapAlloc_full {σ : State} {live free : List Blk} (hI : Inv σ live free) {s : Int}
    (hs : 16 ≤ s) (hs2 : s < 2147483648) :
    ∃ σ' p, HeapAlloc σ s = some (σ', p) ∧
      ((p = 0 ∧ σ' = σ) ∨
       (p ≠ 0 ∧ ∃ L free', SizeToLevel s = some L ∧ Inv σ' ((p, L) :: live) free' ∧
          s ≤ bsize L ∧ (∀ j : Nat, s ≤ 2 ^ j → bsize L ≤ 2 ^ j) ∧
          σ.g_memStart ≤ p ∧ p + bsize L ≤ σ.g_end ∧ SameGlobals σ
            { σ' with g_blocksPending := σ.g_blocksPending } ∧
          ((∀ x ∈ live ++ free, ClearIn σ x) →
            ∀ x ∈ (p, L) :: (live ++ free'), ClearIn σ' x))) := by
  obtain ⟨k, hk, hk1, hk2, hk3⟩ := Log2Int_spec (N := s) (by omega) (by norm_num; omega)
  have hk4 : 4 ≤ k := by
    by_contra hc
    have : (2:Int) ^ k ≤ 2 ^ 3 := pow_le_pow_right₀ (by norm_num) (by omega)
    norm_num at this
    omega
  have hSL : SizeToLevel s = some (35 - (k : Int)) := by
    unfold SizeToLevel
    rw [hk]
    simp only [MAX_LEVELS, MIN_SIZE_LOG]
    congr 1
    omega
  have hbk : bsize (35 - (k : Int)) = 2 ^ k := by
    unfold bsize
    congr 1
    omega
  have hS := hI.struct
  have hg := hS.geom
  have hm := hI.mgeom
  obtain ⟨σ1, p, hA, hsg, hcase⟩ := AllocOnLevel_spec σ (35 - (k : Int)) (metaBlk σ :: live) []
    free hS (by omega) (by omega)
  unfold HeapAlloc BuddyAlloc
  rw [hSL]
  simp only
  rw [hA]
  simp only
  rcases hcase with ⟨hp0, hσ, _⟩ |
    ⟨hp0, free', L0, hS1, hin, hL0, hfree', hfr, hmono, hnew, hinN, _, hup⟩
  · subst hp0
    subst hσ
    exact ⟨_, _, rfl, Or.inl ⟨rfl, rfl⟩⟩
  · rw [if_pos hp0]
    simp only
    rw [if_neg hp0]
    have hm1 : MetaGeom σ1 := hm.metaSame hsg
    have hmb1 : metaBlk σ1 = metaBlk σ := metaBlk_of_same hsg
    have hmr : metaBlk σ1 ∈ metaBlk σ :: live := by rw [hmb1]; simp
    obtain ⟨hsg2, hfb2, hfr2, hlt2⟩ := MarkAlloc_spec hS1 hm1 hmr
    have hsg12 := hsg.trans hsg2
    have hS2 : Struct (MarkAlloc σ1 p (35 - (k : Int))) (metaBlk σ :: live)
        [(p, 35 - (k : Int))] free' := by
      apply hS1.frame hsg2 hfb2
      intro x hx a ha1 ha2
      apply hfr2
      have := (hS1.not_meta hx (a := a) (by
        have := (hS1.valid x (List.mem_append_right _ hx)).size_ge
        unfold InBlk
        omega)).2
      exact this
    have hS3 := hS2.promote
    have hS4 : Struct (MarkAlloc σ1 p (35 - (k : Int)))
        (metaBlk (MarkAlloc σ1 p (35 - (k : Int))) :: (p, 35 - (k : Int)) :: live) [] free' := by
      rw [metaBlk_of_same hsg12]
      exact hS3.res_perm (List.Perm.swap _ _ _)
    have hsplit_eq : ∀ g, 0 ≤ g → IsSplit (MarkAlloc σ1 p (35 - (k : Int))) g = IsSplit σ1 g := by
      intro g hg0
      by_cases hlt : g < σ1.g_buddySize / MIN_SIZE - 1
      · apply IsSplit_congr hsg2
        apply hfr2
        have hne : σ1.g_metaSplitStart ≠ 0 := by
          have := hm1.split
          have := (hS1.valid (metaBlk σ1) (List.mem_append_left _ hmr)).pos hS1.geom
          obtain ⟨_, _, _, h8⟩ := meta_nums hS1.geom hm1
          unfold metaBlk at this
          simp only at this
          omega
        exact splitByte_not_leaf hS1.geom hm1
          (splitByte_of_gidx hS1.geom hS1.metaOK hg0 hlt hne)
      · rw [IsSplit_eq_getBit, IsSplit_eq_getBit, hsg2.buddySize]
        simp [hlt]
    refine ⟨_, _, rfl, Or.inr ⟨hp0, 35 - (k : Int), free', rfl, ?_, ?_, ?_, ?_, ?_, ?_, ?_⟩⟩
    · apply Inv.pending
      refine ⟨hS4, hm.metaSame hsg12, ?_, ?_⟩
      · intro x hx
        rw [hsg12.buddyStart, hlt2]
        rcases List.mem_cons.mp hx with rfl | hx
        · have hv := hS1.valid (p, 35 - (k : Int)) (by simp)
          obtain ⟨_, _, _, _, e5⟩ := leaf_align hS1.geom hv
          simp only at e5 ⊢
          have hpos := bsize_pos (35 - (k : Int))
          rw [hsg.buddyStart]
          have : 0 < bsize (35 - (k : Int)) / 16 := by omega
          simp [this]
        · have h0 := hI.taken x hx
          have : IsLeafTaken σ1 ((x.1 - σ.g_buddyStart) / 16) = true := by
            rw [← h0]
            apply IsLeafTaken_congr hsg
            apply hfr
            · have hd : Disj (p, L0) x := by
                have hpw := hS.pw
                have hne : (p, L0) ≠ x := by
                  intro e
                  have hnd := pw_nodup hpw
                  rw [← e] at hx
                  have : (p, L0) ∈ metaBlk σ :: live := List.mem_cons_of_mem _ hx
                  have hdj := List.disjoint_of_nodup_append hnd this
                    (by simpa using hin)
                  exact hdj
                exact pw_disj hpw (by simp [hin]) (by simp [hx]) hne
              have hlb : LeafByte σ (σ.g_metaStart + (x.1 - σ.g_buddyStart) / 16 / 8) := by
                have hvx := hS.valid x (by simp [hx])
                obtain ⟨_, a0, a1, _, _⟩ := leaf_align hg hvx
                obtain ⟨_, htot, _, _⟩ := meta_nums hg hm
                have hMS : MIN_SIZE = 16 := rfl
                rw [hMS] at htot
                have hbp := bsize_pos x.2
                have hvm := (hS.valid (metaBlk σ) (by simp)).pos hg
                unfold metaBlk at hvm
                simp only at hvm
                refine ⟨by omega, by omega, ?_⟩
                have : 0 < bsize x.2 / 16 := by
                  have := (hS.valid x (by simp [hx])).size_ge
                  omega
                omega
              intro hin2
              have := (hS.not_meta (x := (p, L0)) (by simpa using hin) hin2).2
              exact this hlb
            · intro hsb
              have hlb : LeafByte σ (σ.g_metaStart + (x.1 - σ.g_buddyStart) / 16 / 8) := by
                have hvx := hS.valid x (by simp [hx])
                obtain ⟨_, a0, a1, _, _⟩ := leaf_align hg hvx
                obtain ⟨_, htot, _, _⟩ := meta_nums hg hm
                have hMS : MIN_SIZE = 16 := rfl
                rw [hMS] at htot
                have hvm := (hS.valid (metaBlk σ) (by simp)).pos hg
                unfold metaBlk at hvm
                simp only at hvm
                refine ⟨by omega, by omega, ?_⟩
                have : 0 < bsize x.2 / 16 := by
                  have := (hS.valid x (by simp [hx])).size_ge
                  omega
                omega
              exact splitByte_not_leaf hg hm hsb hlb
          rw [this]
          simp
      · intro x hx L' hL1 hL2 hdv
        rw [hsg12.levelsNum] at hL1
        rw [hsg12.buddyStart] at hdv
        rw [gidx_of_same hsg12]
        have hxge : σ.g_buddyStart ≤ x.1 := by
          have hv : ValidNode σ1 x := hS4.valid x (by
            simp only [List.cons_append, List.nil_append, List.mem_cons, List.mem_append] at hx ⊢
            tauto) |>.nodeSame (by
              exact ⟨hsg2.levelsNum.symm ▸ rfl, hsg2.memStart.symm ▸ rfl, hsg2.gend.symm ▸ rfl,
                hsg2.buddyStart.symm ▸ rfl, hsg2.metaStart.symm ▸ rfl,
                hsg2.metaSplitStart.symm ▸ rfl, hsg2.memSize.symm ▸ rfl,
                hsg2.buddySize.symm ▸ rfl, hsg2.metaSize.symm ▸ rfl,
                hsg2.blocksPending.symm ▸ rfl⟩)
          have := hv.ge
          have := hS1.geom.ms_le
          rw [hsg.buddyStart] at this
          omega
        rw [hsplit_eq _ (gidx_nonneg hxge)]
        have hold : ∀ y ∈ live ++ free, y.1 = x.1 → L' < y.2 → IsSplit σ1 (gidx σ x.1 L') = true := by
          intro y hy e1 e2
          apply hmono _ (gidx_nonneg hxge)
          rw [← e1]
          exact hI.split y hy L' hL1 e2 (by rw [e1]; exact hdv)
        have hne : σ.g_metaSplitStart ≠ 0 := by
          have := hm.split
          have := (hS.valid (metaBlk σ) (by simp)).pos hg
          obtain ⟨_, _, _, h8⟩ := meta_nums hg hm
          unfold metaBlk at this
          simp only at this
          omega
        simp only [List.cons_append, List.mem_cons, List.mem_append] at hx
        rcases hx with rfl | hx | hx
        · simp only at hL2 hdv ⊢
          by_cases hc : L' < L0
          · exact hold (p, L0) (List.mem_append_right _ hin) rfl hc
          · exact hnew hne L' (by omega) hL2
        · exact hold x (List.mem_append_left _ hx) rfl hL2
        · rcases hfree' x hx with h | ⟨h, _, _⟩
          · exact hold x (List.mem_append_right _ h) rfl hL2
          · exact absurd hdv (h L' hL1 hL2)
    · rw [hbk]; exact hk1
    · intro j hj
      rw [hbk]
      rcases hk2 with h | h
      · omega
      · by_contra hc
        have hjk : j ≤ k - 1 := by
          by_contra hc2
          exact hc (pow_le_pow_right₀ (by norm_num) (by omega))
        have : (2:Int) ^ j ≤ 2 ^ (k - 1) := pow_le_pow_right₀ (by norm_num) hjk
        omega
    · have hv := hS1.valid (p, 35 - (k : Int)) (by simp)
      have := hv.ge
      rw [hsg.memStart] at this
      exact this
    · have hv := hS1.valid (p, 35 - (k : Int)) (by simp)
      have := hv.le
      rw [hsg.gend] at this
      exact this
    · have hsg2 := MarkAlloc_same σ1 p (35 - (k : Int))
      have h := hsg.trans hsg2
      exact ⟨h.levelsNum, h.memStart, h.gend, h.buddyStart, h.metaStart, h.metaSplitStart,
        h.memSize, h.buddySize, h.metaSize, rfl⟩
    · intro hC x hx q L' hxL hL30 hdv hq1 hq2
      show IsSplit (MarkAlloc σ1 p (35 - (k : Int))) (gidx (MarkAlloc σ1 p (35 - (k : Int))) q L') =
        false
      have hdv' : bsize L' ∣ q - σ.g_buddyStart := by
        have e : σ.g_buddyStart = (MarkAlloc σ1 p (35 - (k : Int))).g_buddyStart :=
          hsg12.buddyStart.symm
        rw [e]
        exact hdv
      have hvx : ValidNode σ x := by
        have hv4 : ValidNode (MarkAlloc σ1 p (35 - (k : Int))) x := hS4.valid x (by
          simp only [List.cons_append, List.nil_append, List.mem_cons, List.mem_append] at hx ⊢
          tauto)
        exact hv4.nodeSame ⟨hsg12.levelsNum.symm, hsg12.memStart.symm, hsg12.gend.symm,
          hsg12.buddyStart.symm, hsg12.metaStart.symm, hsg12.metaSplitStart.symm,
          hsg12.memSize.symm, hsg12.buddySize.symm, hsg12.metaSize.symm,
          hsg12.blocksPending.symm⟩
      have hML : MAX_LEVELS = 32 := rfl
      have hbL' := bsize_pos L'
      have hqr : σ.g_buddyStart ≤ q ∧ q < σ.g_end := by
        have := hvx.ge
        have := hvx.le
        have := hg.ms_le
        omega
      rw [gidx_of_same hsg12, hsplit_eq _ (gidx_nonneg hqr.1)]
      have hvp0 : ValidNode σ (p, L0) := hS.valid _ (by simp [hin])
      have hvpL : ValidNode σ1 (p, 35 - (k : Int)) := hS1.valid _ (by simp)
      have hpw1 : ∀ y ∈ free', Disj (p, 35 - (k : Int)) y := by
        intro y hy
        have hne : (p, 35 - (k : Int)) ≠ y := by
          intro e
          have hnd := pw_nodup hS1.pw
          have h1 := (List.nodup_append.mp hnd).2.1
          have h2 := List.disjoint_of_nodup_append h1 (List.mem_cons_self _ _) (by rw [e]; exact hy)
          exact h2
        exact pw_disj hS1.pw (by simp) (by simp [hy]) hne
      have hmo := @bsize_mono L0 (35 - (k : Int)) hL0
      by_contra hcon
      have hcon2 : IsSplit σ1 (gidx σ q L') = true := by
        cases hb : IsSplit σ1 (gidx σ q L') with
        | true => rfl
        | false => exact absurd hb hcon
      have hold : ∀ y ∈ live ++ free, y.2 ≤ L' → y.1 ≤ q → q + bsize L' ≤ y.1 + bsize y.2 →
          IsSplit σ (gidx σ q L') = true → False := by
        intro y hy h1 h2 h3 h4
        rw [hC y hy q L' h1 hL30 hdv' h2 h3] at h4
        exact absurd h4 (by simp)
      rcases hup _ (gidx_nonneg hqr.1) hcon2 with hA | ⟨L'', hB1, hB2, hB3⟩
      · rcases List.mem_cons.mp hx with rfl | hx
        · exact hold (p, L0) (List.mem_append_right _ hin) (by simp only at hxL ⊢; omega)
            hq1 (by simp only at hq2 ⊢; omega) hA
        · rcases List.mem_append.mp hx with hx | hx
          · exact hold x (List.mem_append_left _ hx) hxL hq1 hq2 hA
          · rcases hinN x hx with h | ⟨h1, h2, h3⟩
            · exact hold x (List.mem_append_right _ h) hxL hq1 hq2 hA
            · rcases hfree' x hx with h | ⟨_, h4, _⟩
              · exact hold x (List.mem_append_right _ h) hxL hq1 hq2 hA
              · exact hold (p, L0) (List.mem_append_right _ hin) (by simp only; omega)
                  (by simp only; omega) (by simp only; omega) hA
      · have hpr : σ.g_buddyStart ≤ p ∧ p < σ.g_end := by
          have := hvp0.ge
          have := hvp0.le
          have := hg.ms_le
          have := bsize_pos L0
          simp only at *
          omega
        have hin2 := gidx_inj hg hqr.1 hqr.2 hpr.1 hpr.2 (by have := hvx.lo; omega) (by omega)
          (by have := hvp0.lo; simp only at this; omega) (by omega) hdv'
          (dvd_trans (bsize_dvd hB1 (by omega)) hvp0.al) hB3
        obtain ⟨e1, e2⟩ := hin2
        subst e1
        subst e2
        rcases List.mem_cons.mp hx with rfl | hx
        · simp only at hxL
          omega
        · rcases List.mem_append.mp hx with hx | hx
          · have hne : x ≠ (q, L0) := by
              intro e
              have hnd := pw_nodup hS.pw
              have : x ∈ metaBlk σ :: live := List.mem_cons_of_mem _ hx
              rw [e] at this
              exact List.disjoint_of_nodup_append hnd this (by simpa using hin)
            have hd := pw_disj hS.pw (by simp [hx]) (by simp [hin]) hne
            have := bsize_pos L0
            unfold Disj at hd
            simp only at hd
            omega
          · have hd := hpw1 x hx
            have := bsize_pos (35 - (k : Int))
            unfold Disj at hd
            simp only at hd
            omega

theorem HeapAlloc_spec {σ : State} {live free : List Blk} (hI : Inv σ live free) {s : Int}
    (hs : 16 ≤ s) (hs2 : s < 2147483648) :
    ∃ σ' p, HeapAlloc σ s = some (σ', p) ∧
      ((p = 0 ∧ σ' = σ) ∨
       (p ≠ 0 ∧ ∃ L free', SizeToLevel s = some L ∧ Inv σ' ((p, L) :: live) free' ∧
          s ≤ bsize L ∧ (∀ j : Nat, s ≤ 2 ^ j → bsize L ≤ 2 ^ j) ∧
          σ.g_memStart ≤ p ∧ p + bsize L ≤ σ.g_end ∧ SameGlobals σ
            { σ' with g_blocksPending := σ.g_blocksPending })) := by
  obtain ⟨σ', p, h1, h2⟩ := HeapAlloc_full hI hs hs2
  refine ⟨σ', p, h1, ?_⟩
  rcases h2 with h | ⟨hp, L, free', a1, a2, a3, a4, a5, a6, a7, _⟩
  · exact Or.inl h
  · exact Or.inr ⟨hp, L, free', a1, a2, a3, a4, a5, a6, a7⟩

/-! ## Nodes inside blocks are not marked split -/

theorem ClearIn.mono {σ σ' : State} {x : Blk} (hsg : SameGlobals σ σ')
    (hle : ∀ g, 0 ≤ g → IsSplit σ' g = true → IsSplit σ g = true)
    (hx : σ.g_buddyStart ≤ x.1) (hC : ClearIn σ x) : ClearIn σ' x := by
  intro q L' h1 h2 hdv h3 h4
  rw [hsg.buddyStart] at hdv
  rw [gidx_of_same hsg]
  have h0 := hC q L' h1 h2 hdv h3 h4
  cases hb : IsSplit σ' (gidx σ q L') with
  | false => rfl
  | true =>
    have := hle _ (gidx_nonneg (by omega)) hb
    rw [h0] at this
    exact absurd this (by simp)

theorem node_half {Lb L' q q' B : Int} (hL : Lb ≤ L') (hL35 : L' ≤ 35)
    (hq : bsize (Lb - 1) ∣ q - B) (hq' : bsize L' ∣ q' - B) :
    q' + bsize L' ≤ q + bsize Lb ∨ q + bsize Lb ≤ q' := by
  by_cases hc : q + bsize Lb ≤ q'
  · right; exact hc
  · left
    have h3 : bsize L' ∣ bsize Lb := bsize_dvd hL hL35
    have h4 : bsize L' ∣ q - B := dvd_trans (bsize_dvd (by omega) hL35) hq
    have h5 : bsize L' ∣ q + bsize Lb - q' := by
      have e : q + bsize Lb - q' = (q - B) + bsize Lb - (q' - B) := by ring
      rw [e]
      exact dvd_sub (dvd_add h4 h3) hq'
    have := Int.le_of_dvd (by omega) h5
    omega

theorem Struct.sep16 {σ : State} {res fly free : List Blk} (hS : Struct σ res fly free)
    {x y : Blk} (hx : x ∈ res ++ (fly ++ free)) (hy : y ∈ res ++ (fly ++ free)) (hne : x ≠ y) :
    x.1 + 16 ≤ y.1 ∨ y.1 + 16 ≤ x.1 := by
  have hd := pw_disj hS.pw hx hy hne
  have h1 := (hS.valid x hx).size_ge
  have h2 := (hS.valid y hy).size_ge
  unfold Disj at hd
  omega

theorem head_range {σ : State} {res fly free : List Blk} (hS : Struct σ res fly free)
    {L : Int} (h0 : 0 ≤ L) (h1 : L < 32) :
    0 ≤ σ.g_freeBlocks L ∧ σ.g_freeBlocks L < 18446744073709551616 := by
  have hc := hS.chain L h0 h1
  by_cases hz : σ.g_freeBlocks L = 0
  · rw [hz]; constructor <;> norm_num
  · obtain ⟨rest, hl, _⟩ := Chain_head hc hz
    have hmem : (σ.g_freeBlocks L, L) ∈ free :=
      mem_lvl.mp (by rw [hl]; exact List.mem_cons_self _ _)
    have hv := hS.valid _ (List.mem_append_right _ (List.mem_append_right _ hmem))
    have := hv.pos hS.geom
    have := hv.lt hS.geom
    simp only at *
    omega

theorem addFree_fly {σ : State} {res fly free : List Blk} {q Lq : Int}
    (hS : Struct σ res ((q, Lq) :: fly) free) :
    ∃ σ3, AddFree σ q Lq = some σ3 ∧ SameGlobals σ σ3 ∧
      Struct σ3 res fly ((q, Lq) :: free) ∧
      (∀ a, ¬ InBlk (q, Lq) a → readU8 σ3.mem a = readU8 σ.mem a) := by
  have hg := hS.geom
  have hqm : (q, Lq) ∈ res ++ (((q, Lq) :: fly) ++ free) := by simp
  have hv : ValidNode σ (q, Lq) := hS.valid _ hqm
  have hq0 : q ≠ 0 := by have := hv.pos hg; simp only at this; omega
  have hL5 := hv.lvl_ge hg
  have hL31 := hv.hi
  simp only at hL5 hL31
  have hsz := hv.size_ge
  simp only at hsz
  obtain ⟨hh0, hh1⟩ := head_range hS (L := Lq) (by omega) (by omega)
  obtain ⟨σ3, hEq, hmem, hfb, hsg⟩ : ∃ σ3, AddFree σ q Lq = some σ3 ∧
      σ3.mem = setBlockNext σ.mem q (σ.g_freeBlocks Lq) ∧
      σ3.g_freeBlocks = (fun l => if l = Lq then q else σ.g_freeBlocks l) ∧
      SameGlobals σ σ3 := by
    unfold AddFree
    rw [if_neg hq0, getFree_eq σ (by omega) (by omega), setFree_eq σ _ (by omega) (by omega)]
    exact ⟨_, rfl, rfl, rfl, ⟨rfl, rfl, rfl, rfl, rfl, rfl, rfl, rfl, rfl, rfl⟩⟩
  have hperm : List.Perm (res ++ (((q, Lq) :: fly) ++ free)) (res ++ (fly ++ (q, Lq) :: free)) := by
    apply List.perm_iff_count.mpr
    intro a
    simp only [List.count_append, List.count_cons]
    omega
  have hframe : ∀ a, ¬ InBlk (q, Lq) a → readU8 σ3.mem a = readU8 σ.mem a := by
    intro a ha
    rw [hmem]
    apply readU8_setBlockNext
    unfold InBlk at ha
    simp only at ha
    omega
  have hother : ∀ x ∈ fly ++ free, ∀ a, x.1 ≤ a → a < x.1 + 16 →
      readU8 σ3.mem a = readU8 σ.mem a := by
    intro x hx a ha1 ha2
    apply hframe
    have hxm : x ∈ res ++ (((q, Lq) :: fly) ++ free) := by
      simp only [List.cons_append, List.mem_append, List.mem_cons] at hx ⊢
      tauto
    have hne : x ≠ (q, Lq) := by
      intro e
      have hnd := pw_nodup (pw_perm hperm hS.pw)
      have hnd2 : ((q, Lq) :: (fly ++ free)).Nodup := by
        have h2 : List.Perm (res ++ (fly ++ (q, Lq) :: free)) (((q, Lq) :: (fly ++ free)) ++ res) := by
          apply List.perm_iff_count.mpr
          intro a
          simp only [List.count_append, List.count_cons]
          omega
        exact (List.nodup_append.mp ((h2.nodup_iff).mp hnd)).1
      rw [e] at hx
      exact (List.nodup_cons.mp hnd2).1 hx
    have hd := pw_disj hS.pw hxm hqm hne
    have := (hS.valid x hxm).size_ge
    unfold Disj at hd
    unfold InBlk
    simp only at hd ⊢
    omega
  refine ⟨σ3, hEq, hsg, ⟨hg.geomSame hsg, hS.metaOK.okSame hsg, ?_, ?_, ?_, pw_perm hperm hS.pw⟩,
    hframe⟩
  · intro L h0 h1
    rw [hfb]
    have hcong : ∀ b ∈ lvl L free, blockNext σ3.mem b = blockNext σ.mem b := by
      intro b hb
      apply blockNext_congr
      intro a ha1 ha2
      exact hother (b, L) (List.mem_append_right _ (mem_lvl.mp hb)) a (by simp only; omega)
        (by simp only; omega)
    by_cases hL : L = Lq
    · subst hL
      simp only [if_true]
      rw [lvl_cons_same]
      refine ⟨rfl, hq0, ?_⟩
      have : blockNext σ3.mem q = σ.g_freeBlocks L := by
        rw [hmem]
        exact blockNext_setBlockNext _ _ _ hh0 hh1
      rw [this]
      exact Chain_congr hcong (hS.chain L h0 h1)
    · simp only [hL, if_false]
      rw [lvl_cons_ne _ _ (fun h => hL h.symm)]
      exact Chain_congr hcong (hS.chain L h0 h1)
  · intro x hx
    have hx' : x ∈ ((q, Lq) :: fly) ++ free := by
      simp only [List.cons_append, List.mem_append, List.mem_cons] at hx ⊢
      tauto
    rw [← hS.hdr x hx']
    apply blockSize_congr
    intro a ha1 ha2
    by_cases e : x = (q, Lq)
    · rw [hmem]
      apply readU8_setBlockNext
      rw [e] at ha1 ha2
      simp only at ha1 ha2
      omega
    · have hx2 : x ∈ fly ++ free := by
        simp only [List.cons_append, List.mem_append, List.mem_cons] at hx' ⊢
        tauto
      exact hother x hx2 a ha1 (by omega)
  · intro x hx
    exact (hS.valid x (hperm.mem_iff.mpr hx)).nodeSame hsg

theorem length_le_of_inj (l : List Int) (f : Int → Nat) (N : Nat)
    (hlt : ∀ b ∈ l, f b < N) (hinj : ∀ a ∈ l, ∀ b ∈ l, a ≠ b → f a ≠ f b) (hnd : l.Nodup) :
    l.length ≤ N := by
  have hnd2 : (l.map f).Nodup := by
    apply List.Nodup.map_on _ hnd
    intro a ha b hb hab
    by_contra hne
    exact hinj a ha b hb hne hab
  have hsub : (l.map f).toFinset ⊆ Finset.range N := by
    intro x hx
    rw [List.mem_toFinset, List.mem_map] at hx
    obtain ⟨b, hb, rfl⟩ := hx
    exact Finset.mem_range.mpr (hlt b hb)
  have h1 := Finset.card_le_card hsub
  rw [List.toFinset_card_of_nodup hnd2, Finset.card_range, List.length_map] at h1
  exact h1

theorem lvl_length_le {σ : State} {res fly free : List Blk} (hS : Struct σ res fly free)
    (L : Int) : (lvl L free).length ≤ (σ.g_buddySize / MIN_SIZE).toNat := by
  have hg := hS.geom
  have hMS : MIN_SIZE = 16 := rfl
  rw [hMS]
  have hval : ∀ b ∈ lvl L free, ValidNode σ (b, L) := fun b hb =>
    hS.valid _ (List.mem_append_right _ (List.mem_append_right _ (mem_lvl.mp hb)))
  have h16b : (16:Int) ∣ σ.g_buddySize := by
    rw [hg.bs]
    have : (16:Int) = 2 ^ 4 := by norm_num
    rw [this]
    exact pow_dvd_pow 2 (by have := hg.n_lo; omega)
  apply length_le_of_inj _ (fun b => ((b - σ.g_buddyStart) / 16).toNat)
  · intro b hb
    have hv := hval b hb
    have h1 := hv.ge
    have h2 := hv.le
    have h3 := hv.size_ge
    have h4 := hg.be
    have h5 := hg.ms_le
    simp only at h1 h2 h3 ⊢
    omega
  · intro a ha b hb hab
    have hva := hval a ha
    have hvb := hval b hb
    have hsep := hS.sep16
      (List.mem_append_right _ (List.mem_append_right _ (mem_lvl.mp ha)))
      (List.mem_append_right _ (List.mem_append_right _ (mem_lvl.mp hb)))
      (fun e => hab (by have := congrArg Prod.fst e; simpa using this))
    have h1 := hva.ge
    have h2 := hvb.ge
    have h5 := hg.ms_le
    simp only at h1 h2 hsep ⊢
    omega
  · exact lvl_nodup L hS.free_nodup

theorem RemoveFree_spec {σ : State} {res fly free : List Blk} (hS : Struct σ res fly free)
    {b L : Int} (hb : b ≠ 0) (h0 : 0 ≤ L) (h1 : L < 32) :
    ((b, L) ∈ free → ∃ σ1, RemoveFree σ b L = some (σ1, true) ∧ SameGlobals σ σ1 ∧
      Struct σ1 res ((b, L) :: fly) (rmBlk (b, L) free) ∧
      (∀ a, (∀ x ∈ free, ¬ InBlk x a) → readU8 σ1.mem a = readU8 σ.mem a)) ∧
    ((b, L) ∉ free → RemoveFree σ b L = some (σ, false)) := by
  have hg := hS.geom
  have hc := hS.chain L h0 h1
  unfold RemoveFree
  rw [getFree_eq σ h0 h1]
  simp only
  by_cases ht0 : σ.g_freeBlocks L = 0
  · rw [if_pos ht0]
    rw [ht0] at hc
    have hnil := Chain_zero hc
    refine ⟨fun hin => ?_, fun _ => rfl⟩
    have := mem_lvl.mpr hin
    rw [hnil] at this
    simp at this
  · rw [if_neg ht0]
    by_cases htb : σ.g_freeBlocks L = b
    · rw [if_pos htb]
      obtain ⟨σ1, hEq, hmem, hsg, hin, hS1⟩ := pop_step hS h0 h1 htb hb
      rw [htb, hEq]
      refine ⟨fun _ => ⟨σ1, rfl, hsg, hS1, fun a _ => by rw [hmem]⟩, fun hnin => absurd hin hnin⟩
    · rw [if_neg htb]
      obtain ⟨rest, hl, hrest⟩ := Chain_head hc ht0
      have hc' : Chain σ.mem (σ.g_freeBlocks L) (σ.g_freeBlocks L :: rest) := by
        rw [← hl]; exact hc
      have hnd : (σ.g_freeBlocks L :: rest).Nodup := by
        rw [← hl]; exact lvl_nodup L hS.free_nodup
      have hinF : ∀ c ∈ lvl L free, (c, L) ∈ res ++ (fly ++ free) := fun c hc =>
        List.mem_append_right _ (List.mem_append_right _ (mem_lvl.mp hc))
      have hsep : Sep16 (σ.g_freeBlocks L :: rest) := by
        rw [← hl]
        intro a ha c hc hac
        have := hS.sep16 (hinF a ha) (hinF c hc)
          (fun e => hac (by have := congrArg Prod.fst e; simpa using this))
        simpa using this
      have hlen : rest.length + 2 ≤ (σ.g_buddySize / MIN_SIZE).toNat + 1 := by
        have := lvl_length_le hS L
        rw [hl] at this
        simp only [List.length_cons] at this
        omega
      obtain ⟨hyes, hno⟩ := RemoveFreeLoop_spec rest _ σ b (σ.g_freeBlocks L) hc' hb
        (fun e => htb e.symm) hnd hsep hlen
      constructor
      · intro hin
        have hbl : b ∈ lvl L free := mem_lvl.mpr hin
        rw [hl] at hbl
        have hbr : b ∈ rest := by
          rcases List.mem_cons.mp hbl with h | h
          · exact absurd h.symm htb
          · exact h
        obtain ⟨pred, hp1, hp2, hp3, hp4⟩ := hyes hbr
        rw [hp3]
        have hpredF : (pred, L) ∈ free := mem_lvl.mp (by rw [hl]; exact hp1)
        have hsg : SameGlobals σ
            { σ with mem := setBlockNext σ.mem pred (blockNext σ.mem b) } :=
          SameGlobals.withMem _ _
        have hperm : List.Perm (res ++ (((b, L) :: fly) ++ rmBlk (b, L) free))
            (res ++ (fly ++ free)) := by
          apply List.Perm.append_left
          have h2 : List.Perm (((b, L) :: fly) ++ rmBlk (b, L) free)
              (fly ++ ((b, L) :: rmBlk (b, L) free)) := by
            apply List.perm_iff_count.mpr
            intro a
            simp only [List.count_append, List.count_cons]
            omega
          exact h2.trans (List.Perm.append_left _ (rmBlk_perm hin).symm)
        have hfr : ∀ x ∈ res ++ (fly ++ free), ∀ a, x.1 ≤ a → a < x.1 + 8 →
            readU8 (setBlockNext σ.mem pred (blockNext σ.mem b)) a = readU8 σ.mem a := by
          intro x hx a ha1 ha2
          apply readU8_setBlockNext
          by_cases e : x = (pred, L)
          · rw [e] at ha1 ha2
            simp only at ha1 ha2
            omega
          · have := hS.sep16 hx
              (List.mem_append_right _ (List.mem_append_right _ hpredF)) e
            simp only at this
            omega
        have hnx : ∀ x ∈ res ++ (fly ++ free), x ≠ (pred, L) →
            blockNext (setBlockNext σ.mem pred (blockNext σ.mem b)) x.1 = blockNext σ.mem x.1 := by
          intro x hx e
          apply blockNext_setBlockNext_ne
          have := hS.sep16 hx
            (List.mem_append_right _ (List.mem_append_right _ hpredF)) e
          simp only at this
          omega
        refine ⟨_, rfl, hsg, ⟨hg.geomSame hsg, hS.metaOK.okSame hsg, ?_, ?_, ?_,
          pw_perm hperm.symm hS.pw⟩, ?_⟩
        · intro L' h0' h1'
          by_cases hL : L' = L
          · subst hL
            rw [lvl_rmBlk, hl, List.erase_cons_tail (by simpa using htb)]
            exact hp4
          · rw [lvl_rmBlk_ne _ (fun h => hL h.symm)]
            apply Chain_congr _ (hS.chain L' h0' h1')
            intro c hc
            exact hnx (c, L')
              (List.mem_append_right _ (List.mem_append_right _ (mem_lvl.mp hc)))
              (fun e => hL (by have := congrArg Prod.snd e; simpa using this))
        · intro x hx
          have hx' : x ∈ fly ++ free := by
            rcases List.mem_append.mp hx with h | h
            · rcases List.mem_cons.mp h with rfl | h
              · exact List.mem_append_right _ hin
              · exact List.mem_append_left _ h
            · exact List.mem_append_right _ (mem_of_mem_rmBlk h)
          rw [← hS.hdr x hx']
          apply blockSize_congr
          intro a ha1 ha2
          exact hfr x (List.mem_append_right _ hx') a ha1 (by omega)
        · intro x hx
          exact (hS.valid x (hperm.mem_iff.mp hx)).nodeSame hsg
        · intro a ha
          apply readU8_setBlockNext
          have hni := ha (pred, L) hpredF
          have hsz := (hS.valid (pred, L)
            (List.mem_append_right _ (List.mem_append_right _ hpredF))).size_ge
          unfold InBlk at hni
          simp only at hni hsz
          omega
      · intro hnin
        apply hno
        intro hbr
        apply hnin
        exact mem_lvl.mp (by rw [hl]; exact List.mem_cons_of_mem _ hbr)

theorem ChildIndex_gidx {σ : State} {a L : Int} (hL : MAX_LEVELS - σ.g_levelsNum ≤ L)
    (hL31 : L ≤ 30) (hd : bsize L ∣ a - σ.g_buddyStart) :
    ChildIndex (gidx σ a L) = gidx σ a (L + 1) := by
  unfold ChildIndex gidx
  rw [lvlBase_succ hL]
  obtain ⟨c, hc⟩ := hd
  have hs : bsize L = 2 * bsize (L + 1) := by
    have := bsize_pred (L + 1) (by omega)
    rw [← this]
    congr 1
    ring
  have hpos := bsize_pos (L + 1)
  have e1 : (a - σ.g_buddyStart) / bsize L = c := by
    rw [hc]; exact Int.mul_ediv_cancel_left _ (ne_of_gt (bsize_pos L))
  have e2 : (a - σ.g_buddyStart) / bsize (L + 1) = 2 * c := by
    rw [hc, hs]
    have : 2 * bsize (L + 1) * c = bsize (L + 1) * (2 * c) := by ring
    rw [this]
    exact Int.mul_ediv_cancel_left _ (ne_of_gt hpos)
  rw [e1, e2]
  ring

theorem FindBuddy_spec {σ : State} {b Lb : Int} (hhdr : blockSize σ.mem b = bsize Lb)
    (h5 : 5 ≤ Lb) (h31 : Lb ≤ 31) :
    FindBuddy σ b (-1) = some
      (if (b - σ.g_buddyStart) / bsize Lb % 2 = 0 then
        (if b + bsize Lb + bsize Lb > σ.g_end then 0 else b + bsize Lb)
      else (if b - bsize Lb < σ.g_memStart then 0 else b - bsize Lb)) := by
  unfold FindBuddy
  have h1 : levelOrActual σ b (-1) = some Lb := by
    unfold levelOrActual
    rw [if_pos rfl, hhdr, SizeToLevel_bsize h5 (by omega)]
  rw [h1]
  simp only
  rw [IndexWithinLevel_eq σ b (by omega) (by omega), hhdr]
  simp only
  split <;> split <;> rfl

theorem mergeStep_spec {σ1 : State} {res fly0 free : List Blk} {b buddy Lb : Int}
    (hS : Struct σ1 res ((buddy, Lb) :: (b, Lb) :: fly0) free)
    (hlo : MAX_LEVELS - σ1.g_levelsNum ≤ Lb - 1)
    (hbud : (buddy = b + bsize Lb ∧ bsize (Lb - 1) ∣ b - σ1.g_buddyStart) ∨
      (buddy = b - bsize Lb ∧ bsize (Lb - 1) ∣ buddy - σ1.g_buddyStart)) :
    ∃ σ3 q, mergeStep σ1 b buddy Lb = some (σ3, q) ∧ (q = b ∨ q = buddy) ∧ SameGlobals σ1 σ3 ∧
      σ3.g_freeBlocks = σ1.g_freeBlocks ∧
      Struct σ3 res ((q, Lb - 1) :: fly0) free ∧
      (∀ a, ¬ InBlk (q, Lb - 1) a → ¬ SplitByte σ1 a → readU8 σ3.mem a = readU8 σ1.mem a) ∧
      (∀ g, 0 ≤ g → IsSplit σ3 g = (IsSplit σ1 g && !decide (g = gidx σ1 q (Lb - 1)))) ∧
      (q ≤ b ∧ q ≤ buddy) ∧
      (b + bsize Lb ≤ q + bsize (Lb - 1) ∧ buddy + bsize Lb ≤ q + bsize (Lb - 1)) := by
  have hg := hS.geom
  have hML : MAX_LEVELS = 32 := rfl
  have hmB : (buddy, Lb) ∈ ((buddy, Lb) :: (b, Lb) :: fly0) ++ free := by simp
  have hmb : (b, Lb) ∈ ((buddy, Lb) :: (b, Lb) :: fly0) ++ free := by simp
  have hvB : ValidNode σ1 (buddy, Lb) := hS.valid _ (List.mem_append_right _ hmB)
  have hvb : ValidNode σ1 (b, Lb) := hS.valid _ (List.mem_append_right _ hmb)
  have hL31 : Lb ≤ 31 := hvb.hi
  have hs : bsize (Lb - 1) = 2 * bsize Lb := bsize_pred Lb (by omega)
  have hs16 : 16 ≤ bsize Lb := bsize_ge16 hL31
  have hn1 := hg.n_lo
  have hn2 := hg.n_hi
  have hs30 : bsize (Lb - 1) ≤ 1073741824 := bsize_le_2_30 (by omega)
  -- the merged block
  obtain ⟨q, hqdef, hqc, hqmem, hqal, hqlo, hqhi⟩ : ∃ q, (if b < buddy then b else buddy) = q ∧
      (q = b ∨ q = buddy) ∧ (q, Lb) ∈ ((buddy, Lb) :: (b, Lb) :: fly0) ++ free ∧
      bsize (Lb - 1) ∣ q - σ1.g_buddyStart ∧
      (q ≤ b ∧ q ≤ buddy) ∧ (b + bsize Lb ≤ q + bsize (Lb - 1) ∧
        buddy + bsize Lb ≤ q + bsize (Lb - 1)) := by
    rcases hbud with ⟨h1, h2⟩ | ⟨h1, h2⟩
    · refine ⟨b, by rw [if_pos (by omega)], Or.inl rfl, hmb, h2, by omega, by omega⟩
    · refine ⟨buddy, by rw [if_neg (by omega)], Or.inr rfl, hmB, h2, by omega, by omega⟩
  have hvq : ValidNode σ1 (q, Lb - 1) := by
    refine ⟨hlo, by simp only; omega, hqal, ?_, ?_⟩
    · have := hvB.ge; have := hvb.ge
      simp only at *
      rcases hqc with rfl | rfl <;> assumption
    · have := hvB.le; have := hvb.le
      simp only at *
      rcases hbud with ⟨h1, _⟩ | ⟨h1, _⟩ <;> omega
  have hidx := gidx_lt_leaf hg hvq (by simp only; omega)
  simp only at hidx
  have hhq : blockSize σ1.mem q = bsize Lb := hS.hdr (q, Lb) hqmem
  have hinQ : ∀ a, q ≤ a → a < q + 16 → InBlk (q, Lb) a := by
    intro a h1 h2; unfold InBlk; simp only; omega
  obtain ⟨σ3, hEq, hmem, hfb, hsg⟩ : ∃ σ3, mergeStep σ1 b buddy Lb = some (σ3, q) ∧
      σ3.mem = (MarkMerged { σ1 with mem := setBlockSize σ1.mem q (bsize (Lb - 1)) }
        (gidx σ1 q (Lb - 1))).mem ∧ σ3.g_freeBlocks = σ1.g_freeBlocks ∧ SameGlobals σ1 σ3 := by
    unfold mergeStep
    simp only [hqdef, hhq]
    have e : bsize Lb * 2 = bsize (Lb - 1) := by omega
    rw [e]
    rw [IndexGlobal_eq { σ1 with mem := setBlockSize σ1.mem q (bsize (Lb - 1)) } q
      (hg.geomSame (SameGlobals.withMem σ1 _)) hlo (by omega)]
    simp only
    refine ⟨_, rfl, rfl, ?_, ?_⟩
    · rw [MarkMerged_freeBlocks]
    · exact (SameGlobals.withMem σ1 _).trans (MarkMerged_same _ _)
  have hframe : ∀ a, ¬ (q ≤ a ∧ a < q + 4) → ¬ SplitByte σ1 a →
      readU8 σ3.mem a = readU8 σ1.mem a := by
    intro a ha hsb
    rw [hmem, readU8_MarkMerged _ _ _ (by
      by_cases h0 : σ1.g_metaSplitStart = 0
      · left; exact h0
      · right
        intro e
        apply hsb
        rw [e]
        exact splitByte_of_gidx hg hS.metaOK hidx.1 hidx.2 h0)]
    exact readU8_setBlockSize _ _ _ _ (by omega)
  have hhdr3 : blockSize σ3.mem q = bsize (Lb - 1) := by
    have h1 : blockSize σ3.mem q =
        blockSize (setBlockSize σ1.mem q (bsize (Lb - 1))) q := by
      apply blockSize_congr
      intro x hx1 hx2
      rw [hmem]
      apply readU8_MarkMerged
      by_cases h0 : σ1.g_metaSplitStart = 0
      · left; exact h0
      · right
        intro e
        have hsb := splitByte_of_gidx hg hS.metaOK hidx.1 hidx.2 h0
        rw [← e] at hsb
        exact (hS.not_meta hqmem (hinQ x hx1 (by omega))).1 hsb
    rw [h1, blockSize_setBlockSize _ _ _ (le_of_lt (bsize_pos _)) (by omega)]
  -- decomposition of the disjointness
  have hperm1 : List.Perm (res ++ (((buddy, Lb) :: (b, Lb) :: fly0) ++ free))
      ((buddy, Lb) :: (b, Lb) :: (res ++ (fly0 ++ free))) := by
    apply List.perm_iff_count.mpr
    intro a
    simp only [List.count_append, List.count_cons]
    omega
  obtain ⟨hdB, hrest1⟩ := List.pairwise_cons.mp (pw_perm hperm1 hS.pw)
  obtain ⟨hdb, hrest⟩ := List.pairwise_cons.mp hrest1
  have hvalid : ∀ x ∈ res ++ (fly0 ++ free), ValidNode σ1 x := by
    intro x hx
    apply hS.valid
    exact hperm1.mem_iff.mpr (List.mem_cons_of_mem _ (List.mem_cons_of_mem _ hx))
  have hdq : ∀ x ∈ res ++ (fly0 ++ free), Disj (q, Lb - 1) x := by
    intro x hx
    have h1 := hdB x (List.mem_cons_of_mem _ hx)
    have h2 := hdb x hx
    have h3 := bsize_pos x.2
    unfold Disj at *
    simp only at *
    rcases hbud with ⟨e, _⟩ | ⟨e, _⟩ <;> rcases hqc with rfl | rfl <;> omega
  have hother : ∀ x ∈ fly0 ++ free, ∀ a, x.1 ≤ a → a < x.1 + 16 →
      readU8 σ3.mem a = readU8 σ1.mem a := by
    intro x hx a h1 h2
    have hx' : x ∈ ((buddy, Lb) :: (b, Lb) :: fly0) ++ free := by
      simp only [List.cons_append, List.mem_cons, List.mem_append] at hx ⊢
      tauto
    have hd := hdq x (List.mem_append_right _ hx)
    have hvx := hvalid x (List.mem_append_right _ hx)
    have := hvx.size_ge
    apply hframe a (by unfold Disj at hd; simp only at hd; omega)
    exact (hS.not_meta hx' (by unfold InBlk; omega)).1
  have hperm2 : List.Perm ((q, Lb - 1) :: (res ++ (fly0 ++ free)))
      (res ++ (((q, Lb - 1) :: fly0) ++ free)) := by
    apply List.perm_iff_count.mpr
    intro a
    simp only [List.count_append, List.count_cons]
    omega
  refine ⟨σ3, q, hEq, hqc, hsg, hfb, ⟨hg.geomSame hsg, hS.metaOK.okSame hsg, ?_, ?_, ?_, ?_⟩,
    ?_, ?_, hqlo, hqhi⟩
  · intro L' h0' h1'
    rw [hfb]
    apply Chain_congr _ (hS.chain L' h0' h1')
    intro c hc
    have hc' : (c, L') ∈ fly0 ++ free := List.mem_append_right _ (mem_lvl.mp hc)
    apply blockNext_congr
    intro a h2 h3
    exact hother _ hc' a (by simp only; omega) (by simp only; omega)
  · intro x hx
    rw [List.cons_append] at hx
    rcases List.mem_cons.mp hx with rfl | hx
    · exact hhdr3
    · rw [← hS.hdr x (by
        simp only [List.cons_append, List.mem_cons, List.mem_append] at hx ⊢
        tauto)]
      apply blockSize_congr
      intro a h2 h3
      exact hother x hx a h2 (by omega)
  · intro x hx
    apply ValidNode.nodeSame hsg
    rcases List.mem_cons.mp (hperm2.mem_iff.mpr hx) with rfl | hx
    · exact hvq
    · exact hvalid x hx
  · exact pw_perm hperm2 (List.pairwise_cons.mpr ⟨hdq, hrest⟩)
  · intro a ha hsb
    apply hframe a _ hsb
    unfold InBlk at ha
    simp only at ha
    omega
  · intro g hg0
    have h2 : IsSplit σ3 g = IsSplit (MarkMerged
        { σ1 with mem := setBlockSize σ1.mem q (bsize (Lb - 1)) } (gidx σ1 q (Lb - 1))) g := by
      rw [IsSplit_eq_getBit, IsSplit_eq_getBit, hmem]
      have h := (SameGlobals.withMem σ1 (setBlockSize σ1.mem q (bsize (Lb - 1)))).trans
        (MarkMerged_same _ (gidx σ1 q (Lb - 1)))
      rw [hsg.buddySize, hsg.metaSplitStart, h.buddySize, h.metaSplitStart]
    rw [h2, IsSplit_MarkMerged]
    congr 1
    rw [IsSplit_eq_getBit, IsSplit_eq_getBit]
    by_cases h1 : g < σ1.g_buddySize / MIN_SIZE - 1
    · by_cases h0 : σ1.g_metaSplitStart = 0
      · simp [h0]
      · have hsb := splitByte_of_gidx hg hS.metaOK hg0 h1 h0
        congr 1
        apply getBit_congr
        apply readU8_setBlockSize
        by_contra hc
        have hc' : ¬ (σ1.g_metaSplitStart + g / 8 < q ∨ q + 4 ≤ σ1.g_metaSplitStart + g / 8) := hc
        exact (hS.not_meta hqmem (a := σ1.g_metaSplitStart + g / 8)
          (by unfold InBlk; simp only; omega)).1 hsb
    · simp [h1]

theorem metaStart_pos {σ : State} {res fly free : List Blk} (hS : Struct σ res fly free)
    (hm : MetaGeom σ) (hr : metaBlk σ ∈ res) :
    0 < σ.g_metaStart ∧ σ.g_metaSplitStart ≠ 0 := by
  have h1 := (hS.valid (metaBlk σ) (List.mem_append_left _ hr)).pos hS.geom
  obtain ⟨_, _, _, h8⟩ := meta_nums hS.geom hm
  have := hm.split
  unfold metaBlk at h1
  simp only at h1
  constructor <;> omega

theorem IsSplit_frame {σ σ' : State} {res : List Blk} (hsg : SameGlobals σ σ') (hg : Geom σ)
    (hm : MetaOK σ res)
    (hfr : ∀ a, SplitByte σ a → readU8 σ'.mem a = readU8 σ.mem a) :
    ∀ g, 0 ≤ g → IsSplit σ' g = IsSplit σ g := by
  intro g hg0
  rw [IsSplit_eq_getBit, IsSplit_eq_getBit, hsg.buddySize, hsg.metaSplitStart]
  by_cases h1 : g < σ.g_buddySize / MIN_SIZE - 1
  · by_cases h0 : σ.g_metaSplitStart = 0
    · simp [h0]
    · congr 1
      apply getBit_congr
      exact hfr _ (splitByte_of_gidx hg hm hg0 h1 h0)
  · simp [h1]

theorem leafByte_of_valid {σ : State} {res fly free : List Blk} (hS : Struct σ res fly free)
    (hm : MetaGeom σ) (hr : metaBlk σ ∈ res) {x : Blk} (hv : ValidNode σ x) :
    LeafByte σ (σ.g_metaStart + (x.1 - σ.g_buddyStart) / 16 / 8) := by
  have hg := hS.geom
  obtain ⟨_, a0, a1, _, _⟩ := leaf_align hg hv
  obtain ⟨_, htot, _, _⟩ := meta_nums hg hm
  have hMS : MIN_SIZE = 16 := rfl
  rw [hMS] at htot
  have hp := (metaStart_pos hS hm hr).1
  have : 0 < bsize x.2 / 16 := by
    have := hv.size_ge
    omega
  refine ⟨by omega, by omega, ?_⟩
  omega

theorem IsLeafTaken_frame {σ σ' : State} {res fly free : List Blk}
    (hS : Struct σ res fly free) (hm : MetaGeom σ) (hr : metaBlk σ ∈ res)
    (hsg : SameGlobals σ σ')
    (hfr : ∀ a, LeafByte σ a → readU8 σ'.mem a = readU8 σ.mem a) {x : Blk}
    (hv : ValidNode σ x) :
    IsLeafTaken σ' ((x.1 - σ.g_buddyStart) / 16) = IsLeafTaken σ ((x.1 - σ.g_buddyStart) / 16) :=
  IsLeafTaken_congr hsg _ (hfr _ (leafByte_of_valid hS hm hr hv))

theorem Struct.fly_disj {σ : State} {res free : List Blk} {b : Blk}
    (hS : Struct σ res [b] free) : ∀ x ∈ res ++ free, Disj b x := by
  have hperm : List.Perm (res ++ ([b] ++ free)) (b :: (res ++ free)) := by
    apply List.perm_iff_count.mpr
    intro a
    simp only [List.count_append, List.count_cons, List.count_nil]
    omega
  exact (List.pairwise_cons.mp (pw_perm hperm hS.pw)).1

theorem ValidNode.range {σ : State} {x : Blk} (hg : Geom σ) (hv : ValidNode σ x) :
    σ.g_buddyStart ≤ x.1 ∧ x.1 < σ.g_end := by
  have := hv.ge
  have := hv.le
  have := hg.ms_le
  have := bsize_pos x.2
  constructor <;> omega

theorem merge_once {σ : State} {live free : List Blk} {b Lb buddy : Int}
    (hM : MInv σ live (b, Lb) free) (hb0 : buddy ≠ 0)
    (hbd : (if (b - σ.g_buddyStart) / bsize Lb % 2 = 0 then
      (if b + bsize Lb + bsize Lb > σ.g_end then 0 else b + bsize Lb)
      else (if b - bsize Lb < σ.g_memStart then 0 else b - bsize Lb)) = buddy)
    (hin : (buddy, Lb) ∈ free) :
    ∃ σ1 σ3 q, RemoveFree σ buddy Lb = some (σ1, true) ∧
      mergeStep σ1 b buddy Lb = some (σ3, q) ∧ SameGlobals σ σ3 ∧
      MInv σ3 live (q, Lb - 1) (rmBlk (buddy, Lb) free) ∧
      ((∀ x ∈ live ++ (b, Lb) :: free, ClearIn σ x) →
        ∀ x ∈ live ++ (q, Lb - 1) :: rmBlk (buddy, Lb) free, ClearIn σ3 x) := by
  have hS := hM.struct
  have hg := hS.geom
  have hm := hM.mgeom
  have hML : MAX_LEVELS = 32 := rfl
  have hbm : (b, Lb) ∈ [(b, Lb)] ++ free := by simp
  have hvb : ValidNode σ (b, Lb) := hS.valid _ (List.mem_append_right _ hbm)
  have hL5 := hvb.lvl_ge hg
  have hL31 := hvb.hi
  have hLlo := hvb.lo
  simp only at hL5 hL31 hLlo
  obtain ⟨hyes, _⟩ := RemoveFree_spec hS hb0 (by omega) (by omega : Lb < 32)
  obtain ⟨σ1, hR, hsg1, hS1, hfr1⟩ := hyes hin
  have hvB : ValidNode σ (buddy, Lb) :=
    hS.valid _ (List.mem_append_right _ (List.mem_append_right _ hin))
  have hdis : Disj (b, Lb) (buddy, Lb) :=
    hS.fly_disj _ (List.mem_append_right _ hin)
  have hspos := bsize_pos Lb
  have hlo : MAX_LEVELS - σ.g_levelsNum ≤ Lb - 1 := by
    by_contra hc
    have hLe : Lb = 32 - σ.g_levelsNum := by omega
    have e := buddySize_eq hg (L := Lb) (by omega) (by omega)
    have e0 : (Lb - 32 + σ.g_levelsNum).toNat = 0 := by omega
    rw [e0, pow_zero, mul_one] at e
    have := hvb.range hg
    have := hvB.range hg
    have := hvb.le
    have := hvB.le
    have := hg.be
    unfold Disj at hdis
    simp only at *
    omega
  have hbud : (buddy = b + bsize Lb ∧ bsize (Lb - 1) ∣ b - σ.g_buddyStart) ∨
      (buddy = b - bsize Lb ∧ bsize (Lb - 1) ∣ buddy - σ.g_buddyStart) := by
    obtain ⟨c, hc⟩ := hvb.al
    simp only at hc
    have hq : (b - σ.g_buddyStart) / bsize Lb = c := by
      rw [hc]; exact Int.mul_ediv_cancel_left _ (ne_of_gt hspos)
    have hs : bsize (Lb - 1) = 2 * bsize Lb := bsize_pred Lb (by omega)
    rw [hq] at hbd
    by_cases hpar : c % 2 = 0
    · rw [if_pos hpar] at hbd
      left
      constructor
      · by_cases h2 : b + bsize Lb + bsize Lb > σ.g_end
        · rw [if_pos h2] at hbd; exact absurd hbd.symm hb0
        · rw [if_neg h2] at hbd; exact hbd.symm
      · rw [hc, hs]
        obtain ⟨d, hd⟩ : (2:Int) ∣ c := Int.dvd_of_emod_eq_zero hpar
        exact ⟨d, by rw [hd]; ring⟩
    · rw [if_neg hpar] at hbd
      right
      have hbv : buddy = b - bsize Lb := by
        by_cases h2 : b - bsize Lb < σ.g_memStart
        · rw [if_pos h2] at hbd; exact absurd hbd.symm hb0
        · rw [if_neg h2] at hbd; exact hbd.symm
      refine ⟨hbv, ?_⟩
      rw [hbv, hs]
      obtain ⟨d, hd⟩ : (2:Int) ∣ c - 1 := Int.dvd_of_emod_eq_zero (by omega)
      refine ⟨d, ?_⟩
      have : b - bsize Lb - σ.g_buddyStart = bsize Lb * (c - 1) := by rw [mul_sub, ← hc]; ring
      rw [this, hd]; ring
  have hlo1 : MAX_LEVELS - σ1.g_levelsNum ≤ Lb - 1 := by rw [hsg1.levelsNum]; exact hlo
  have hbud1 : (buddy = b + bsize Lb ∧ bsize (Lb - 1) ∣ b - σ1.g_buddyStart) ∨
      (buddy = b - bsize Lb ∧ bsize (Lb - 1) ∣ buddy - σ1.g_buddyStart) := by
    rw [hsg1.buddyStart]; exact hbud
  obtain ⟨σ3, q, hMS, hqc, hsg3, hfb3, hS3, hfr3, hsp3, hqlo, hqhi⟩ :=
    mergeStep_spec hS1 hlo1 hbud1
  have hsg13 := hsg1.trans hsg3
  have hmr : metaBlk σ ∈ metaBlk σ :: live := List.mem_cons_self _ _
  have hmb3 : metaBlk σ3 = metaBlk σ := metaBlk_of_same hsg13
  have hm3 : MetaGeom σ3 := hm.metaSame hsg13
  have hS3' : Struct σ3 (metaBlk σ3 :: live) [(q, Lb - 1)] (rmBlk (buddy, Lb) free) := by
    rw [hmb3]; exact hS3
  have hmr3 : metaBlk σ3 ∈ metaBlk σ3 :: live := List.mem_cons_self _ _
  have hmr1 : metaBlk σ1 ∈ metaBlk σ :: live := by
    rw [metaBlk_of_same hsg1]; exact hmr
  have hm1 : MetaGeom σ1 := hm.metaSame hsg1
  -- bytes of the bitmaps are outside every block but the metadata block
  have hq3 : ∀ a, InBlk (q, Lb - 1) a → ¬ SplitByte σ a ∧ ¬ LeafByte σ a := by
    intro a ha
    have := hS3'.not_meta (x := (q, Lb - 1)) (by simp) ha
    unfold SplitByte LeafByte at this ⊢
    rw [hsg13.metaStart, hsg13.metaSplitStart, hsg13.metaSize] at this
    exact this
  have hfree : ∀ a, (∃ x ∈ free, InBlk x a) → ¬ SplitByte σ a ∧ ¬ LeafByte σ a := by
    intro a ⟨x, hx, ha⟩
    exact hS.not_meta (List.mem_append_right _ hx) ha
  have hsplit1 : ∀ g, 0 ≤ g → IsSplit σ1 g = IsSplit σ g := by
    apply IsSplit_frame hsg1 hg hS.metaOK
    intro a ha
    apply hfr1
    intro x hx hin2
    exact (hfree a ⟨x, hx, hin2⟩).1 ha
  have hM3 : MInv σ3 live (q, Lb - 1) (rmBlk (buddy, Lb) free) := by
    refine ⟨hS3', hm3, ?_, ?_⟩
    · intro x hx
      have hvx : ValidNode σ x := hS.valid x (by simp [hx])
      rw [hsg13.buddyStart, ← hM.taken x hx]
      apply IsLeafTaken_frame hS hm hmr hsg13 _ hvx
      intro a ha
      have hns : ¬ SplitByte σ a := fun h => splitByte_not_leaf hg hm h ha
      rw [hfr3 a (fun h => (hq3 a h).2 ha) (by
        unfold SplitByte at hns ⊢
        rw [hsg1.metaSplitStart, hsg1.metaSize]
        exact hns)]
      apply hfr1
      intro y hy hin2
      exact (hfree a ⟨y, hy, hin2⟩).2 ha
    · intro x hx L' hL1 hL2 hdv
      rw [hsg13.levelsNum] at hL1
      rw [hsg13.buddyStart] at hdv
      rw [gidx_of_same hsg13]
      have hvx3 : ValidNode σ3 x := hS3'.valid x (by
        rcases List.mem_append.mp hx with h | h
        · exact List.mem_append_left _ (List.mem_cons_of_mem _ h)
        · exact List.mem_append_right _ (by simpa using h))
      have hrx : σ.g_buddyStart ≤ x.1 ∧ x.1 < σ.g_end := by
        have := hvx3.range (hg.geomSame hsg13)
        rw [hsg13.buddyStart, hsg13.gend] at this
        exact this
      have hx31 : x.2 ≤ 31 := hvx3.hi
      have hvq3 : ValidNode σ3 (q, Lb - 1) := hS3'.valid _ (by simp)
      have hrq : σ.g_buddyStart ≤ q ∧ q < σ.g_end := by
        have := hvq3.range (hg.geomSame hsg13)
        rw [hsg13.buddyStart, hsg13.gend] at this
        exact this
      have hqal : bsize (Lb - 1) ∣ q - σ.g_buddyStart := by
        have := hvq3.al
        rw [hsg13.buddyStart] at this
        exact this
      rw [hsp3 _ (gidx_nonneg hrx.1), hsplit1 _ (gidx_nonneg hrx.1), gidx_of_same hsg1]
      have hne : gidx σ x.1 L' = gidx σ q (Lb - 1) → L' = Lb - 1 ∧ x.1 = q :=
        gidx_inj hg hrx.1 hrx.2 hrq.1 hrq.2 hL1 (by omega) hlo (by omega) hdv hqal
      have hqchain : SplitChain σ (q, Lb) := by
        rcases hqc with rfl | rfl
        · exact hM.split _ (by simp)
        · exact hM.split _ (by simp [hin])
      simp only [List.mem_append, List.mem_cons] at hx
      have key : IsSplit σ (gidx σ x.1 L') = true ∧ gidx σ x.1 L' ≠ gidx σ q (Lb - 1) := by
        rcases hx with hx | rfl | hx
        · refine ⟨hM.split x (by simp [hx]) L' hL1 hL2 hdv, fun e => ?_⟩
          have hd := hS3'.fly_disj x (by simp [hx])
          have h1 := (hne e).2
          have := bsize_pos x.2
          have := bsize_pos (Lb - 1)
          unfold Disj at hd
          simp only at hd
          omega
        · simp only at hL2 hdv ⊢
          refine ⟨hqchain L' hL1 (by simp only; omega) hdv, fun e => ?_⟩
          have := (hne e).1
          omega
        · refine ⟨hM.split x (by simp [mem_of_mem_rmBlk hx]) L' hL1 hL2 hdv, fun e => ?_⟩
          have hd := hS3'.fly_disj x (by simp [hx])
          have h1 := (hne e).2
          have := bsize_pos x.2
          have := bsize_pos (Lb - 1)
          unfold Disj at hd
          simp only at hd
          omega
      rw [key.1]
      simp [key.2]
  refine ⟨σ1, σ3, q, hR, hMS, hsg13, hM3, ?_⟩
  intro hC x hx q' L' hxL hL30 hdv hq1 hq2
  rw [hsg13.buddyStart] at hdv
  rw [gidx_of_same hsg13]
  have hvx3 : ValidNode σ3 x := hS3'.valid x (by
    rcases List.mem_append.mp hx with h | h
    · exact List.mem_append_left _ (List.mem_cons_of_mem _ h)
    · exact List.mem_append_right _ (by simpa using h))
  have hxge : σ.g_buddyStart ≤ x.1 := by
    have := (hvx3.range (hg.geomSame hsg13)).1
    rw [hsg13.buddyStart] at this
    exact this
  have hg0 : 0 ≤ gidx σ q' L' := gidx_nonneg (by omega)
  rw [hsp3 _ hg0, hsplit1 _ hg0]
  have hold : ∀ y ∈ live ++ (b, Lb) :: free, y.2 ≤ L' → y.1 ≤ q' →
      q' + bsize L' ≤ y.1 + bsize y.2 → IsSplit σ (gidx σ q' L') = false :=
    fun y hy h1 h2 h3 => hC y hy q' L' h1 hL30 hdv h2 h3
  have hmemb : (b, Lb) ∈ live ++ (b, Lb) :: free := by simp
  have hmemB : (buddy, Lb) ∈ live ++ (b, Lb) :: free := by simp [hin]
  rcases List.mem_append.mp hx with h | h
  · rw [hold x (List.mem_append_left _ h) hxL hq1 hq2]; rfl
  · rcases List.mem_cons.mp h with rfl | h
    · simp only at hxL hq1 hq2
      by_cases hLe : L' = Lb - 1
      · subst hLe
        have e : q' = q := by omega
        subst e
        rw [gidx_of_same hsg1]
        simp
      · have hqal : bsize (Lb - 1) ∣ q - σ.g_buddyStart := by
          have := (hS3'.valid (q, Lb - 1) (by simp)).al
          rw [hsg13.buddyStart] at this
          exact this
        have hhalf := @node_half Lb L' q q' σ.g_buddyStart (by omega) (by omega) hqal hdv
        have hs2 : bsize (Lb - 1) = 2 * bsize Lb := bsize_pred Lb (by omega)
        by_cases hbq : b = q
        · have hB : buddy = q + bsize Lb := by
            rcases hbud with ⟨h1, _⟩ | ⟨h1, _⟩ <;> omega
          rcases hhalf with h1 | h1
          · rw [hold (b, Lb) hmemb (by simp only; omega) (by simp only; omega)
              (by simp only; omega)]; rfl
          · rw [hold (buddy, Lb) hmemB (by simp only; omega) (by simp only; omega)
              (by simp only; omega)]; rfl
        · have hB : buddy = q ∧ b = q + bsize Lb := by
            rcases hqc with h1 | h1
            · exact absurd h1.symm hbq
            · rcases hbud with ⟨h2, _⟩ | ⟨h2, _⟩ <;> omega
          rcases hhalf with h1 | h1
          · rw [hold (buddy, Lb) hmemB (by simp only; omega) (by simp only; omega)
              (by simp only; omega)]; rfl
          · rw [hold (b, Lb) hmemb (by simp only; omega) (by simp only; omega)
              (by simp only; omega)]; rfl
    · rw [hold x (by simp [mem_of_mem_rmBlk h]) hxL hq1 hq2]; rfl

theorem MergeAux_spec (fuel : Nat) : ∀ (σ : State) (live : List Blk) (b Lb : Int)
    (free : List Blk), MInv σ live (b, Lb) free →
    Lb - (MAX_LEVELS - σ.g_levelsNum) + 1 ≤ (fuel : Int) →
    ∃ σ' q Lq free', MergeAux fuel σ b = some (σ', q) ∧ SameGlobals σ σ' ∧
      MInv σ' live (q, Lq) free' ∧
      ((∀ x ∈ live ++ (b, Lb) :: free, ClearIn σ x) →
        ∀ x ∈ live ++ (q, Lq) :: free', ClearIn σ' x) := by
  induction fuel with
  | zero =>
    intro σ live b Lb free hM hf
    have := (hM.struct.valid (b, Lb) (by simp)).lo
    simp only at this
    simp at hf
    omega
  | succ f ih =>
    intro σ live b Lb free hM hf
    have hS := hM.struct
    have hg := hS.geom
    have hm := hM.mgeom
    have hML : MAX_LEVELS = 32 := rfl
    have hbm : (b, Lb) ∈ [(b, Lb)] ++ free := by simp
    have hvb : ValidNode σ (b, Lb) := hS.valid _ (List.mem_append_right _ hbm)
    have hL5 := hvb.lvl_ge hg
    have hL31 := hvb.hi
    have hLlo := hvb.lo
    simp only at hL5 hL31 hLlo
    have hhdr : blockSize σ.mem b = bsize Lb := hS.hdr _ hbm
    rw [MergeAux_succ, FindBuddy_spec hhdr hL5 hL31]
    generalize hbd : (if (b - σ.g_buddyStart) / bsize Lb % 2 = 0 then
      (if b + bsize Lb + bsize Lb > σ.g_end then 0 else b + bsize Lb)
      else (if b - bsize Lb < σ.g_memStart then 0 else b - bsize Lb)) = buddy
    simp only
    by_cases hb0 : buddy = 0
    · rw [if_pos hb0]
      exact ⟨σ, b, Lb, free, rfl, SameGlobals.refl σ, hM, fun h => h⟩
    · rw [if_neg hb0, hhdr, SizeToLevel_bsize hL5 (by omega)]
      simp only
      obtain ⟨hyes, hno⟩ := RemoveFree_spec hS hb0 (by omega) (by omega : Lb < 32)
      by_cases hin : (buddy, Lb) ∈ free
      · obtain ⟨σ1, σ3, q, hR, hMS, hsg13, hM3, hC3⟩ := merge_once hM hb0 hbd hin
        rw [hR]
        simp only [if_true]
        rw [hMS]
        simp only
        obtain ⟨σ', q', Lq, free', hE, hsg', hM', hC'⟩ := ih σ3 live q (Lb - 1) _ hM3 (by
          rw [hsg13.levelsNum]
          push_cast at hf
          omega)
        exact ⟨σ', q', Lq, free', hE, hsg13.trans hsg', hM', fun h => hC' (hC3 h)⟩
      · rw [hno hin]
        simp only
        exact ⟨σ, b, Lb, free, by simp, SameGlobals.refl σ, hM, fun h => h⟩

theorem leftmostLeaf_gidx {σ : State} {a : Int} : ∀ (k : Nat) (L : Int),
    L + k = 31 → MAX_LEVELS - σ.g_levelsNum ≤ L → bsize L ∣ a - σ.g_buddyStart →
    leftmostLeaf k (gidx σ a L) = gidx σ a 31 := by
  intro k
  induction k with
  | zero =>
    intro L h _ _
    have : L = 31 := by simpa using h
    subst this
    rfl
  | succ k ih =>
    intro L h hlo hd
    unfold leftmostLeaf
    rw [ChildIndex_gidx hlo (by push_cast at h; omega) hd]
    apply ih (L + 1) (by push_cast at h ⊢; omega) (by omega)
    exact dvd_trans (bsize_dvd (by omega) (by push_cast at h; omega)) hd

theorem IsTaken_gidx {σ : State} (hg : Geom σ) {a L : Int} (ha : σ.g_buddyStart ≤ a)
    (ha2 : a < σ.g_end) (hL : MAX_LEVELS - σ.g_levelsNum ≤ L) (hL31 : L ≤ 31)
    (hd : bsize L ∣ a - σ.g_buddyStart) :
    IsTaken σ (gidx σ a L) = some (IsLeafTaken σ ((a - σ.g_buddyStart) / 16)) := by
  have hML : MAX_LEVELS = 32 := rfl
  have hn1 := hg.n_lo
  have hn2 := hg.n_hi
  obtain ⟨b1, b2⟩ := gidx_level hg ha ha2 hL hL31
  have hlev : IndexGlobalToLevel σ (gidx σ a L) = L := by
    unfold IndexGlobalToLevel
    simp only
    have hb1 : lvlBase σ L = 2 ^ (L - 32 + σ.g_levelsNum).toNat - 1 := rfl
    have hb2 : lvlBase σ (L + 1) = 2 ^ (L + 1 - 32 + σ.g_levelsNum).toNat - 1 := rfl
    have e1 : (L + 1 - 32 + σ.g_levelsNum).toNat = (L - 32 + σ.g_levelsNum).toNat + 1 := by omega
    rw [e1] at hb2
    have hpos := pow_n_pos (L - 32 + σ.g_levelsNum).toNat
    have hz : (((gidx σ a L + 1).toNat : Nat) : Int) = gidx σ a L + 1 :=
      Int.toNat_of_nonneg (by omega)
    have hfl : floorLog2 64 (gidx σ a L + 1).toNat = (L - 32 + σ.g_levelsNum).toNat := by
      apply floorLog2_eq
      · have : ((2 ^ (L - 32 + σ.g_levelsNum).toNat : Nat) : Int) ≤
            (((gidx σ a L + 1).toNat : Nat) : Int) := by
          rw [hz]; push_cast; omega
        exact_mod_cast this
      · have : (((gidx σ a L + 1).toNat : Nat) : Int) <
            ((2 ^ ((L - 32 + σ.g_levelsNum).toNat + 1) : Nat) : Int) := by
          rw [hz]; push_cast; omega
        exact_mod_cast this
      · omega
    rw [hfl]
    omega
  unfold IsTaken
  simp only [hlev]
  rw [IndexOfLevel_eq σ (by omega) (by omega)]
  simp only
  rw [hML, leftmostLeaf_gidx (32 - 1 - L).toNat L (by omega) hL hd]
  have : gidx σ a 31 - lvlBase σ (32 - 1) = (a - σ.g_buddyStart) / 16 := by
    unfold gidx
    rw [bsize_31]
    have : lvlBase σ (32 - 1) = lvlBase σ 31 := rfl
    omega
  rw [this]

theorem splitDescent_spec {σ : State} {a : Int} (hg : Geom σ) (ha : σ.g_buddyStart ≤ a)
    (ha2 : a < σ.g_end) : ∀ (d : Nat) (La : Int) (fuel : Nat),
    La + d = 31 → MAX_LEVELS - σ.g_levelsNum ≤ La → bsize La ∣ a - σ.g_buddyStart →
    d + 1 ≤ fuel →
    ∃ L2, La ≤ L2 ∧ L2 ≤ 31 ∧
      splitDescent fuel σ (gidx σ a La) (bsize La) = some (gidx σ a L2, bsize L2) ∧
      (∀ L', La ≤ L' → L' < L2 → IsSplit σ (gidx σ a L') = true) ∧
      IsSplit σ (gidx σ a L2) = false := by
  intro d
  induction d with
  | zero =>
    intro La fuel h hlo hd hf
    have hLa : La = 31 := by simpa using h
    subst hLa
    obtain ⟨f, rfl⟩ : ∃ f, fuel = f + 1 := ⟨fuel - 1, by omega⟩
    have hns : IsSplit σ (gidx σ a 31) = false := by
      obtain ⟨b1, _⟩ := gidx_level hg ha ha2 hlo (le_refl _)
      rw [lvlBase_31 hg] at b1
      unfold IsSplit
      rw [if_pos (Or.inl b1)]
    refine ⟨31, le_refl _, le_refl _, ?_, fun L' h1 h2 => by omega, hns⟩
    unfold splitDescent
    rw [hns]
    simp
  | succ d ih =>
    intro La fuel h hlo hd hf
    obtain ⟨f, rfl⟩ : ∃ f, fuel = f + 1 := ⟨fuel - 1, by omega⟩
    by_cases hsp : IsSplit σ (gidx σ a La) = true
    · have hLa30 : La ≤ 30 := by push_cast at h; omega
      obtain ⟨L2, h1, h2, h3, h4, h5⟩ := ih (La + 1) f (by push_cast at h ⊢; omega) (by omega)
        (dvd_trans (bsize_dvd (by omega) (by omega)) hd) (by omega)
      refine ⟨L2, by omega, h2, ?_, ?_, h5⟩
      · unfold splitDescent
        rw [hsp]
        simp only [if_true]
        rw [ChildIndex_gidx hlo hLa30 hd, ← bsize_succ La (by omega)]
        exact h3
      · intro L' hL1 hL2
        by_cases e : L' = La
        · rw [e]; exact hsp
        · exact h4 L' (by omega) hL2
    · have hns : IsSplit σ (gidx σ a La) = false := by
        cases h : IsSplit σ (gidx σ a La)
        · rfl
        · exact absurd h hsp
      refine ⟨La, le_refl _, by push_cast at h; omega, ?_, fun L' h1 h2 => by omega, hns⟩
      unfold splitDescent
      rw [hns]
      simp

theorem MaxBlockSizeByAddr_spec {off : Int} (h0 : 0 < off) (h1 : off < 4294967296) :
    ∃ j : Nat, MaxBlockSizeByAddr off = some (2 ^ j) ∧ (2:Int) ^ j ∣ off ∧
      (off / 2 ^ j) % 2 = 1 ∧ j < 32 := by
  obtain ⟨j, h, hd, hodd, hj⟩ := MaxBlockSizeByAddrLoop_spec 32 off 1 (by omega)
    (by rw [abs_of_pos h0]; norm_num; omega)
  refine ⟨j, ?_, hd, hodd, hj⟩
  unfold MaxBlockSizeByAddr
  rw [h, one_mul]

theorem not_meta_of_disj {σ : State} (hg : Geom σ) (hm : MetaGeom σ) {x : Blk}
    (hd : Disj (metaBlk σ) x) {a : Int} (ha : InBlk x a) :
    ¬ SplitByte σ a ∧ ¬ LeafByte σ a := by
  obtain ⟨h1, _, h3, h4⟩ := meta_nums hg hm
  have := hm.split
  unfold Disj metaBlk at hd
  unfold InBlk at ha
  unfold SplitByte LeafByte
  simp only at hd
  rw [← h1] at hd
  constructor <;> intro h <;> omega

theorem Inv.live_facts {σ : State} {live free : List Blk} (hI : Inv σ live free) {p L : Int}
    (hin : (p, L) ∈ live) :
    ValidNode σ (p, L) ∧ Disj (metaBlk σ) (p, L) ∧ 0 < p - σ.g_buddyStart ∧
      p ≠ σ.g_metaStart := by
  have hS := hI.struct
  have hg := hS.geom
  have hm := hI.mgeom
  have hvp : ValidNode σ (p, L) := hS.valid _ (by simp [hin])
  have hdm : Disj (metaBlk σ) (p, L) := by
    have h := hS.pw
    rw [List.cons_append] at h
    exact (List.pairwise_cons.mp h).1 _ (by simp [hin])
  refine ⟨hvp, hdm, ?_, ?_⟩
  · have h1 := hvp.ge
    have h2 := hg.ms_le
    have h3 := bsize_pos L
    have h4 := bsize_pos (38 - σ.g_levelsNum)
    unfold Disj metaBlk at hdm
    simp only at hdm h1
    rcases hm.origin with h | h <;> omega
  · have h3 := bsize_pos L
    have h4 := bsize_pos (38 - σ.g_levelsNum)
    unfold Disj metaBlk at hdm
    simp only at hdm
    omega

theorem TryFreeBlock_eval {σ : State} {live free : List Blk} (hI : Inv σ live free) {p L : Int}
    (hin : (p, L) ∈ live) :
    ∃ L2, L ≤ L2 ∧ L2 ≤ 31 ∧
      TryFreeBlock σ p = some (MarkFree { σ with mem := setBlockSize σ.mem p (bsize L2) }
        ((p - σ.g_buddyStart) / 16) (bsize L2 / 16), true) ∧
      (∀ L', L ≤ L' → L' < L2 → IsSplit σ (gidx σ p L') = true) ∧
      (∃ sz0 L0, MaxBlockSizeByAddr (p - σ.g_buddyStart) = some sz0 ∧
        SizeToLevel sz0 = some L0 ∧ IndexGlobal σ p L0 = some (gidx σ p L0) ∧
        IndexGlobal σ p L2 = some (gidx σ p L2) ∧
        splitDescent 64 σ (gidx σ p L0) sz0 = some (gidx σ p L2, bsize L2)) := by
  have hS := hI.struct
  have hg := hS.geom
  have hm := hI.mgeom
  have hML : MAX_LEVELS = 32 := rfl
  have hMS : MIN_SIZE = 16 := rfl
  obtain ⟨hvp, hdm, hoff, hpm⟩ := hI.live_facts hin
  have hn1 := hg.n_lo
  have hn2 := hg.n_hi
  have hL31 : L ≤ 31 := hvp.hi
  have hLlo : MAX_LEVELS - σ.g_levelsNum ≤ L := hvp.lo
  have hal : bsize L ∣ p - σ.g_buddyStart := hvp.al
  obtain ⟨hr1, hr2⟩ := hvp.range hg
  simp only at hr1 hr2
  have hbs : σ.g_buddySize = 2 ^ (σ.g_levelsNum + 3).toNat := hg.bs
  have hbs30 : σ.g_buddySize ≤ 1073741824 := by
    rw [hbs]
    have : (2:Int) ^ (σ.g_levelsNum + 3).toNat ≤ 2 ^ 30 :=
      pow_le_pow_right₀ (by norm_num) (by omega)
    norm_num at this
    exact this
  have hbe := hg.be
  have h16 : (16:Int) ∣ p - σ.g_buddyStart := by
    have := @bsize_dvd L 31 hL31 (by norm_num)
    rw [bsize_31] at this
    exact dvd_trans this hal
  obtain ⟨j, hMB, hjd, hjodd, hj32⟩ := MaxBlockSizeByAddr_spec hoff (by omega)
  -- the level of the largest block that can start at the address
  have hjlo : 35 - L ≤ (j : Int) := by
    by_contra hc
    have h1 : (2:Int) ^ (j + 1) ∣ bsize L := by
      unfold bsize
      exact pow_dvd_pow 2 (by omega)
    obtain ⟨c, hc2⟩ := dvd_trans h1 hal
    have hpj := pow_n_pos j
    have : (p - σ.g_buddyStart) / 2 ^ j = 2 * c := by
      rw [hc2, pow_succ, mul_assoc]
      exact Int.mul_ediv_cancel_left _ (ne_of_gt hpj)
    rw [this] at hjodd
    omega
  have hjhi : (j : Int) ≤ σ.g_levelsNum + 2 := by
    by_contra hc
    have h1 : (2:Int) ^ (σ.g_levelsNum + 3).toNat ≤ 2 ^ j :=
      pow_le_pow_right₀ (by norm_num) (by omega)
    have h2 : (2:Int) ^ j ≤ p - σ.g_buddyStart := Int.le_of_dvd hoff hjd
    omega
  have hbj : bsize (35 - (j : Int)) = 2 ^ j := by
    unfold bsize
    congr 1
    omega
  have hLa : bsize (35 - (j : Int)) ∣ p - σ.g_buddyStart := by rw [hbj]; exact hjd
  obtain ⟨L2, hd1, hd2, hd3, hd4, hd5⟩ := splitDescent_spec hg hr1 hr2
    (31 - (35 - (j : Int))).toNat (35 - (j : Int)) 64 (by omega) (by omega) hLa (by omega)
  have hLL2 : L ≤ L2 := by
    by_contra hc
    have := hI.split (p, L) (by simp [hin]) L2 (by omega) (by simp only; omega)
      (dvd_trans (bsize_dvd hd1 (by omega)) hLa)
    simp only at this
    rw [this] at hd5
    exact absurd hd5 (by simp)
  have hal2 : bsize L2 ∣ p - σ.g_buddyStart := dvd_trans (bsize_dvd hLL2 (by omega)) hal
  refine ⟨L2, hLL2, hd2, ?_, fun L' h1 h2 => hd4 L' (by omega) h2,
    ⟨2 ^ j, 35 - (j : Int), hMB, by rw [← hbj, SizeToLevel_bsize (by omega) (by omega)],
      IndexGlobal_eq σ p hg (by omega) (by omega), IndexGlobal_eq σ p hg (by omega) hd2,
      by rw [← hbj]; exact hd3⟩⟩
  unfold TryFreeBlock
  simp only
  rw [if_neg (by rw [hMS]; simp; omega), hMB]
  simp only
  rw [← hbj, SizeToLevel_bsize (by omega) (by omega)]
  simp only
  rw [IndexGlobal_eq σ p hg (by omega) (by omega)]
  simp only
  rw [hd3]
  simp only
  rw [IsTaken_gidx hg hr1 hr2 (by omega) hd2 hal2, hI.taken (p, L) hin]
  simp only
  rw [hML, IndexWithinLevel_eq _ p (by norm_num) (by norm_num)]
  simp only [hMS]
  have e31 : bsize (32 - 1) = 16 := bsize_31
  rw [e31]
  rfl

theorem mem_rmBlk_of_ne {x y : Blk} : ∀ {l : List Blk}, y ∈ l → y ≠ x → y ∈ rmBlk x l := by
  intro l
  induction l with
  | nil => intro h; simp at h
  | cons z zs ih =>
    intro h hne
    unfold rmBlk
    by_cases e : z = x
    · rw [if_pos e]
      rcases List.mem_cons.mp h with h | h
      · exact absurd (h.trans e) hne
      · exact h
    · rw [if_neg e]
      rcases List.mem_cons.mp h with h | h
      · rw [h]; exact List.mem_cons_self _ _
      · exact List.mem_cons_of_mem _ (ih h hne)

theorem TryFreeBlock_spec {σ : State} {live free : List Blk} (hI : Inv σ live free)
    {p L : Int} (hin : (p, L) ∈ live) :
    ∃ σ1 L2, TryFreeBlock σ p = some (σ1, true) ∧ SameGlobals σ σ1 ∧ L ≤ L2 ∧
      MInv σ1 (rmBlk (p, L) live) (p, L2) free ∧
      ((∀ x ∈ live ++ free, ClearIn σ x) →
        L2 = L ∧ ∀ x ∈ rmBlk (p, L) live ++ (p, L2) :: free, ClearIn σ1 x) := by
  have hS := hI.struct
  have hg := hS.geom
  have hm := hI.mgeom
  have hMS : MIN_SIZE = 16 := rfl
  obtain ⟨hvp, hdm, hoff, hpm⟩ := hI.live_facts hin
  obtain ⟨L2, hLL2, hL231, hEq, hsplit, _⟩ := TryFreeBlock_eval hI hin
  have hL31 : L ≤ 31 := hvp.hi
  have hLlo : MAX_LEVELS - σ.g_levelsNum ≤ L := hvp.lo
  have hmr : metaBlk σ ∈ metaBlk σ :: live := List.mem_cons_self _ _
  obtain ⟨hms0, hsp0⟩ := metaStart_pos hS hm hmr
  have hvp2 : ValidNode σ (p, L2) := by
    refine ⟨by simp only; omega, hL231, dvd_trans (bsize_dvd hLL2 (by omega)) hvp.al, hvp.ge, ?_⟩
    have := hvp.le
    have := bsize_mono hLL2
    simp only at *
    omega
  obtain ⟨hal, hs0, hs1, hs2, hs3⟩ := leaf_align hg hvp2
  obtain ⟨_, _, hsL1, _, hsL3⟩ := leaf_align hg hvp
  simp only at hal hs0 hs1 hs2 hs3 hsL1 hsL3
  obtain ⟨hmsz, htot, hh2, hh8⟩ := meta_nums hg hm
  rw [hMS] at htot
  have hs16 : 16 ≤ bsize L2 := bsize_ge16 hL231
  have hs30 : bsize L2 ≤ 1073741824 := bsize_le_2_30 (hvp2.lvl_ge hg)
  obtain ⟨σ1, hσ1, hmem, hfb, hsg⟩ : ∃ σ1,
      σ1 = MarkFree { σ with mem := setBlockSize σ.mem p (bsize L2) }
        ((p - σ.g_buddyStart) / 16) (bsize L2 / 16) ∧
      σ1.mem = MarkBits (setBlockSize σ.mem p (bsize L2)) σ.g_metaStart
        ((p - σ.g_buddyStart) / 16) (bsize L2 / 16) false ∧
      σ1.g_freeBlocks = σ.g_freeBlocks ∧ SameGlobals σ σ1 :=
    ⟨_, rfl, rfl, rfl, (SameGlobals.withMem σ _).trans (MarkFree_same _ _ _)⟩
  rw [← hσ1] at hEq
  have hn0 : 0 ≤ bsize L2 / 16 := by omega
  have hframe : ∀ a, ¬ (p ≤ a ∧ a < p + 4) → ¬ LeafByte σ a →
      readU8 σ1.mem a = readU8 σ.mem a := by
    intro a ha hlb
    rw [hmem, readU8_MarkBits_frame _ _ _ _ _ _ hn0 (by
      unfold LeafByte at hlb
      have ha' : a < σ.g_metaStart ∨ σ.g_metaStart + σ.g_metaSize / 2 ≤ a := by
        by_contra hc
        apply hlb
        refine ⟨by omega, ?_, ?_⟩ <;> omega
      omega)]
    exact readU8_setBlockSize _ _ _ _ (by omega)
  have hinP : ∀ a, p ≤ a → a < p + 16 → InBlk (p, L) a := by
    intro a h1 h2
    have := bsize_ge16 hL31
    unfold InBlk; simp only; omega
  have hpnm : ∀ a, p ≤ a → a < p + 16 → ¬ SplitByte σ a ∧ ¬ LeafByte σ a :=
    fun a h1 h2 => not_meta_of_disj hg hm hdm (hinP a h1 h2)
  have hbit : ∀ j, 0 ≤ j → j < σ.g_buddySize / 16 → getBit σ1.mem σ.g_metaStart j =
      if (p - σ.g_buddyStart) / 16 ≤ j ∧ j < (p - σ.g_buddyStart) / 16 + bsize L2 / 16
      then false else getBit σ.mem σ.g_metaStart j := by
    intro j hj0 hj1
    rw [hmem, getBit_MarkBits_block _ _ _ _ _ hL231 hal]
    split
    · rfl
    · apply getBit_congr
      apply readU8_setBlockSize
      by_contra hc
      have hlb : LeafByte σ (σ.g_metaStart + j / 8) := ⟨by omega, by omega, by omega⟩
      exact (hpnm _ (by omega) (by omega)).2 hlb
  have hperm : List.Perm ((metaBlk σ :: live) ++ ([] ++ free))
      ((p, L) :: ((metaBlk σ :: rmBlk (p, L) live) ++ free)) := by
    have h1 := rmBlk_perm hin
    have h2 : List.Perm ((metaBlk σ :: live) ++ ([] ++ free))
        ((metaBlk σ :: (p, L) :: rmBlk (p, L) live) ++ free) := by
      rw [List.nil_append]
      exact List.Perm.append_right _ (List.Perm.cons _ h1)
    refine h2.trans ?_
    apply List.perm_iff_count.mpr
    intro a
    simp only [List.count_append, List.count_cons]
    omega
  obtain ⟨hdP, hrest⟩ := List.pairwise_cons.mp (pw_perm hperm hS.pw)
  have hvalid : ∀ x ∈ (metaBlk σ :: rmBlk (p, L) live) ++ free, ValidNode σ x := by
    intro x hx
    exact hS.valid x (hperm.mem_iff.mpr (List.mem_cons_of_mem _ hx))
  have hdP2 : ∀ x ∈ (metaBlk σ :: rmBlk (p, L) live) ++ free, Disj (p, L2) x := by
    intro x hx
    have := hdP x hx
    have := bsize_mono hLL2
    unfold Disj at *
    simp only at *
    omega
  have hother : ∀ x ∈ free, ∀ a, x.1 ≤ a → a < x.1 + 16 →
      readU8 σ1.mem a = readU8 σ.mem a := by
    intro x hx a h1 h2
    have hsz := (hvalid x (List.mem_append_right _ hx)).size_ge
    have hd := hdP x (List.mem_append_right _ hx)
    apply hframe
    · have := bsize_ge16 hL31
      unfold Disj at hd
      simp only at hd
      omega
    · exact (hS.not_meta (x := x) (by simpa using hx) (by unfold InBlk; omega)).2
  have hperm2 : List.Perm ((p, L2) :: ((metaBlk σ :: rmBlk (p, L) live) ++ free))
      ((metaBlk σ :: rmBlk (p, L) live) ++ ([(p, L2)] ++ free)) := by
    apply List.perm_iff_count.mpr
    intro a
    simp only [List.count_append, List.count_cons, List.count_nil]
    omega
  have hmeta : MetaOK σ (metaBlk σ :: rmBlk (p, L) live) :=
    Or.inr ⟨hm, List.mem_cons_self _ _⟩
  have hS1 : Struct σ1 (metaBlk σ :: rmBlk (p, L) live) [(p, L2)] free := by
    refine ⟨hg.geomSame hsg, hmeta.okSame hsg, ?_, ?_, ?_, ?_⟩
    · intro L' h0 h1
      rw [hfb]
      apply Chain_congr _ (hS.chain L' h0 h1)
      intro c hc
      apply blockNext_congr
      intro a h2 h3
      exact hother (c, L') (mem_lvl.mp hc) a (by simp only; omega) (by simp only; omega)
    · intro x hx
      rcases List.mem_append.mp hx with h | h
      · have e : x = (p, L2) := by simpa using h
        rw [e]
        simp only
        have h1 : blockSize σ1.mem p = blockSize (setBlockSize σ.mem p (bsize L2)) p := by
          apply blockSize_congr
          intro a h2 h3
          rw [hmem]
          apply readU8_MarkBits_frame _ _ _ _ _ _ hn0
          have hlb := (hpnm a h2 (by omega)).2
          unfold LeafByte at hlb
          have ha' : a < σ.g_metaStart ∨ σ.g_metaStart + σ.g_metaSize / 2 ≤ a := by
            by_contra hc
            apply hlb
            refine ⟨by omega, ?_, ?_⟩ <;> omega
          omega
        rw [h1, blockSize_setBlockSize _ _ _ (by omega) (by omega)]
      · rw [← hS.hdr x (by simpa using h)]
        apply blockSize_congr
        intro a h2 h3
        exact hother x h a h2 (by omega)
    · intro x hx
      apply ValidNode.nodeSame hsg
      rcases List.mem_cons.mp (hperm2.mem_iff.mpr hx) with rfl | hx
      · exact hvp2
      · exact hvalid x hx
    · exact pw_perm hperm2 (List.pairwise_cons.mpr ⟨hdP2, hrest⟩)
  have hsplit_eq : ∀ g, 0 ≤ g → IsSplit σ1 g = IsSplit σ g := by
    apply IsSplit_frame hsg hg hS.metaOK
    intro a ha
    apply hframe
    · intro hc
      exact (hpnm a hc.1 (by omega)).1 ha
    · exact splitByte_not_leaf hg hm ha
  refine ⟨σ1, L2, hEq, hsg, hLL2, ⟨?_, hm.metaSame hsg, ?_, ?_⟩, ?_⟩
  rotate_left 3
  · intro hC
    have hL2 : L2 = L := by
      by_contra hne
      have h1 := hsplit L (le_refl _) (by omega)
      have h2 := hC (p, L) (List.mem_append_left _ hin) p L (le_refl _) (by omega) hvp.al
        (le_refl _) (le_refl _)
      rw [h2] at h1
      exact absurd h1 (by simp)
    refine ⟨hL2, ?_⟩
    intro x hx
    have hxm : x ∈ live ++ free := by
      rcases List.mem_append.mp hx with h | h
      · exact List.mem_append_left _ (mem_of_mem_rmBlk h)
      · rcases List.mem_cons.mp h with h | h
        · rw [h, hL2]; exact List.mem_append_left _ hin
        · exact List.mem_append_right _ h
    have hvx : ValidNode σ x := hS.valid x (by
      simp only [List.mem_append, List.mem_cons, List.nil_append] at hxm ⊢
      tauto)
    exact ClearIn.mono hsg (fun g hg0 h => by rw [← hsplit_eq g hg0]; exact h)
      (hvx.range hg).1 (hC x hxm)
  · rw [metaBlk_of_same hsg]; exact hS1
  · intro x hx
    have hxl : x ∈ live := mem_of_mem_rmBlk hx
    have hvx : ValidNode σ x := hS.valid x (by simp [hxl])
    have hdx : Disj (p, L) x := hdP x (by simp [hx])
    obtain ⟨_, hx0, hx1, hx2, hx3⟩ := leaf_align hg hvx
    have hxs := hvx.size_ge
    rw [hsg.buddyStart, ← hI.taken x hxl, IsLeafTaken_eq_getBit, IsLeafTaken_eq_getBit,
      hsg.metaStart, hbit _ hx0 (by omega)]
    rw [if_neg (by
      have := bsize_mono hLL2
      unfold Disj at hdx
      simp only at hdx
      omega)]
  · intro x hx L' hL1 hL2 hdv
    rw [hsg.levelsNum] at hL1
    rw [hsg.buddyStart] at hdv
    rw [gidx_of_same hsg]
    have hxge : σ.g_buddyStart ≤ x.1 := by
      have hvx : ValidNode σ x := by
        rcases List.mem_append.mp hx with h | h
        · exact hS.valid x (by simp [mem_of_mem_rmBlk h])
        · rcases List.mem_cons.mp h with rfl | h
          · exact hvp2
          · exact hS.valid x (by simp [h])
      exact (hvx.range hg).1
    rw [hsplit_eq _ (gidx_nonneg hxge)]
    rcases List.mem_append.mp hx with h | h
    · exact hI.split x (by simp [mem_of_mem_rmBlk h]) L' hL1 hL2 hdv
    · rcases List.mem_cons.mp h with rfl | h
      · simp only at hL2 hdv ⊢
        by_cases hc : L' < L
        · exact hI.split (p, L) (by simp [hin]) L' hL1 hc hdv
        · exact hsplit L' (by omega) hL2
      · exact hI.split x (by simp [h]) L' hL1 hL2 hdv

theorem MInv.finish {σ : State} {live free : List Blk} {q Lq : Int}
    (hM : MInv σ live (q, Lq) free) :
    ∃ σ3, SizeToLevel (blockSize σ.mem q) = some Lq ∧ AddFree σ q Lq = some σ3 ∧
      SameGlobals σ σ3 ∧ Inv σ3 live ((q, Lq) :: free) ∧
      ((∀ x ∈ live ++ (q, Lq) :: free, ClearIn σ x) →
        ∀ x ∈ live ++ (q, Lq) :: free, ClearIn σ3 x) := by
  have hS := hM.struct
  have hg := hS.geom
  have hm := hM.mgeom
  have hqm : (q, Lq) ∈ [(q, Lq)] ++ free := by simp
  have hvq : ValidNode σ (q, Lq) := hS.valid _ (List.mem_append_right _ hqm)
  have hL5 := hvq.lvl_ge hg
  have hL31 := hvq.hi
  simp only at hL5 hL31
  have hhdr : blockSize σ.mem q = bsize Lq := hS.hdr _ hqm
  obtain ⟨σ3, hA, hsg, hS3, hfr⟩ := addFree_fly hS
  have hmr : metaBlk σ ∈ metaBlk σ :: live := List.mem_cons_self _ _
  have hnm : ∀ a, InBlk (q, Lq) a → ¬ SplitByte σ a ∧ ¬ LeafByte σ a :=
    fun a ha => hS.not_meta hqm ha
  refine ⟨σ3, by rw [hhdr, SizeToLevel_bsize hL5 (by omega)], hA, hsg,
    ⟨?_, hm.metaSame hsg, ?_, ?_⟩, ?_⟩
  rotate_left 3
  · intro hC x hx
    have hvx : ValidNode σ x := hS.valid x (by
      simp only [List.mem_append, List.mem_cons] at hx ⊢
      rcases hx with h | h | h
      · exact Or.inl (Or.inr h)
      · exact Or.inr (Or.inl (by simpa using h))
      · exact Or.inr (Or.inr h))
    apply ClearIn.mono hsg _ (hvx.range hg).1 (hC x hx)
    intro g hg0 h
    rw [← IsSplit_frame hsg hg hS.metaOK (fun a ha => hfr a (fun h => (hnm a h).1 ha)) g hg0]
    exact h
  · rw [metaBlk_of_same hsg]; exact hS3
  · intro x hx
    have hvx : ValidNode σ x := hS.valid x (by simp [hx])
    rw [hsg.buddyStart, ← hM.taken x hx]
    apply IsLeafTaken_frame hS hm hmr hsg _ hvx
    intro a ha
    exact hfr a (fun h => (hnm a h).2 ha)
  · intro x hx L' hL1 hL2 hdv
    rw [hsg.levelsNum] at hL1
    rw [hsg.buddyStart] at hdv
    rw [gidx_of_same hsg]
    have hvx : ValidNode σ x := hS.valid x (by
      simp only [List.mem_append, List.mem_cons] at hx ⊢
      rcases hx with h | h | h
      · exact Or.inl (Or.inr h)
      · exact Or.inr (Or.inl (by simpa using h))
      · exact Or.inr (Or.inr h))
    rw [IsSplit_frame hsg hg hS.metaOK (fun a ha => hfr a (fun h => (hnm a h).1 ha)) _
      (gidx_nonneg (hvx.range hg).1)]
    exact hM.split x hx L' hL1 hL2 hdv

theorem HeapFree_full {σ : State} {live free : List Blk} (hI : Inv σ live free) {p L : Int}
    (hin : (p, L) ∈ live) :
    ∃ σ' free', HeapFree σ p = some (σ', true) ∧ Inv σ' (rmBlk (p, L) live) free' ∧
      SameGlobals σ { σ' with g_blocksPending := σ.g_blocksPending } ∧
      ((∀ x ∈ live ++ free, ClearIn σ x) → ∀ x ∈ rmBlk (p, L) live ++ free', ClearIn σ' x) := by
  have hS := hI.struct
  have hg := hS.geom
  obtain ⟨hvp, hdm, hoff, hpm⟩ := hI.live_facts hin
  obtain ⟨hr1, hr2⟩ := hvp.range hg
  have hge := hvp.ge
  simp only at hr1 hr2 hge
  obtain ⟨σ1, L2, hT, hsg1, hLL2, hM1, hC1⟩ := TryFreeBlock_spec hI hin
  have hv2 : ValidNode σ1 (p, L2) := hM1.struct.valid _ (by simp)
  have hv2lo := hv2.lo
  have hv2hi := hv2.hi
  have hn1 := hM1.struct.geom.n_lo
  have hn2 := hM1.struct.geom.n_hi
  have hML : MAX_LEVELS = 32 := rfl
  simp only at hv2lo hv2hi
  obtain ⟨σ2, q, Lq, free2, hMg, hsg2, hM2, hC2⟩ := MergeAux_spec 64 σ1 _ p L2 free hM1 (by
    push_cast
    omega)
  obtain ⟨σ3, hSL, hA, hsg3, hI3, hC3⟩ := hM2.finish
  have hsg := (hsg1.trans hsg2).trans hsg3
  refine ⟨{ σ3 with g_blocksPending := σ3.g_blocksPending - 1 }, (q, Lq) :: free2, ?_,
    hI3.pending _, ?_, ?_⟩
  rotate_left 2
  · intro hC x hx
    exact hC3 (hC2 (hC1 hC).2) x hx
  · unfold HeapFree
    rw [if_neg (by omega), if_neg hpm, hT]
    simp only
    unfold Merge
    rw [hMg]
    simp only
    rw [hSL]
    simp only
    rw [hA]
    simp
  · exact ⟨hsg.levelsNum, hsg.memStart, hsg.gend, hsg.buddyStart, hsg.metaStart,
      hsg.metaSplitStart, hsg.memSize, hsg.buddySize, hsg.metaSize, rfl⟩

theorem HeapFree_spec {σ : State} {live free : List Blk} (hI : Inv σ live free) {p L : Int}
    (hin : (p, L) ∈ live) :
    ∃ σ' free', HeapFree σ p = some (σ', true) ∧ Inv σ' (rmBlk (p, L) live) free' ∧
      SameGlobals σ { σ' with g_blocksPending := σ.g_blocksPending } := by
  obtain ⟨σ', free', h1, h2, h3, _⟩ := HeapFree_full hI hin
  exact ⟨σ', free', h1, h2, h3⟩

theorem Inv.write {σ : State} {live free : List Blk} (hI : Inv σ live free) {p L a : Int}
    (hin : (p, L) ∈ live) (ha : InBlk (p, L) a) (v : Nat) :
    Inv { σ with mem := writeU8 σ.mem a v } live free := by
  have hS := hI.struct
  have hg := hS.geom
  have hm := hI.mgeom
  obtain ⟨hvp, hdm, _, _⟩ := hI.live_facts hin
  have hsg : SameGlobals σ { σ with mem := writeU8 σ.mem a v } := SameGlobals.withMem _ _
  have hnm := not_meta_of_disj hg hm hdm ha
  have hfr : ∀ x, x ≠ a → readU8 (writeU8 σ.mem a v) x = readU8 σ.mem x := by
    intro x hx
    rw [readU8_writeU8, if_neg hx]
  have hmr : metaBlk σ ∈ metaBlk σ :: live := List.mem_cons_self _ _
  refine ⟨?_, hm.metaSame hsg, ?_, ?_⟩
  · rw [metaBlk_of_same hsg]
    apply hS.frame hsg rfl
    intro x hx b hb1 hb2
    apply hfr
    intro e
    have hxf : x ∈ free := by simpa using hx
    have hd := pw_disj hS.pw (x := (p, L)) (y := x) (by simp [hin]) (by simp [hxf]) (by
      intro e2
      have hnd := pw_nodup hS.pw
      rw [List.nil_append] at hnd
      have := List.disjoint_of_nodup_append hnd (List.mem_cons_of_mem _ hin)
        (by rw [e2]; exact hxf)
      exact this)
    have hsz := (hS.valid x (by simp [hxf])).size_ge
    unfold InBlk at ha
    unfold Disj at hd
    simp only at ha hd
    omega
  · intro x hx
    have hvx : ValidNode σ x := hS.valid x (by simp [hx])
    rw [hsg.buddyStart, ← hI.taken x hx]
    apply IsLeafTaken_frame hS hm hmr hsg _ hvx
    intro b hb
    apply hfr
    intro e
    rw [e] at hb
    exact hnm.2 hb
  · intro x hx L' hL1 hL2 hdv
    rw [hsg.levelsNum] at hL1
    rw [hsg.buddyStart] at hdv
    rw [gidx_of_same hsg]
    have hvx : ValidNode σ x := hS.valid x (by
      simp only [List.mem_append, List.mem_cons, List.nil_append] at hx ⊢
      tauto)
    rw [IsSplit_frame hsg hg hS.metaOK (fun b hb => hfr b (fun e => hnm.1 (e ▸ hb))) _
      (gidx_nonneg (hvx.range hg).1)]
    exact hI.split x hx L' hL1 hL2 hdv

theorem Reachable.inv {σ : State} {live : List Blk} (h : Reachable σ live) :
    ∃ free, Inv σ live free ∧ σ.g_end = σ.g_memStart + σ.g_memSize := by
  induction h with
  | init σ0 σ pool memSize h1 h2 h3 h4 h5 =>
    obtain ⟨σ1, free, e, hI, _, e1, e2, e3⟩ := HeapInit_spec σ0 pool memSize h1 h2 h3 h4
    rw [h5] at e
    have : σ = σ1 := by simpa using e
    subst this
    exact ⟨free, hI, by rw [e1, e2, e3]⟩
  | alloc σ σ' live size p L _ h1 h2 h3 h4 h5 ih =>
    obtain ⟨free, hI, hE⟩ := ih
    obtain ⟨σ1, p1, e, hc⟩ := HeapAlloc_spec hI h1 h2
    rw [h3] at e
    have e' : σ' = σ1 ∧ p = p1 := by simpa using e
    obtain ⟨rfl, rfl⟩ := e'
    rcases hc with ⟨h0, _⟩ | ⟨_, L1, free', e2, hI', _, _, _, _, hsg⟩
    · exact absurd h0 h4
    · rw [h5] at e2
      have : L = L1 := by simpa using e2
      subst this
      refine ⟨free', hI', ?_⟩
      have a1 := hsg.gend
      have a2 := hsg.memStart
      have a3 := hsg.memSize
      simp only at a1 a2 a3
      rw [a1, a2, a3]
      exact hE
  | allocNull σ σ' live size _ h1 h2 h3 ih =>
    have := HeapAlloc_null σ σ' size h3
    subst this
    exact ih
  | free σ σ' live p L _ h1 h2 ih =>
    obtain ⟨free, hI, hE⟩ := ih
    obtain ⟨σ1, free', e, hI', hsg⟩ := HeapFree_spec hI h1
    rw [h2] at e
    have : σ' = σ1 := by simpa using e
    subst this
    refine ⟨free', hI', ?_⟩
    have a1 := hsg.gend
    have a2 := hsg.memStart
    have a3 := hsg.memSize
    simp only at a1 a2 a3
    rw [a1, a2, a3]
    exact hE
  | write σ live p L sz a v _ h1 h2 h3 h4 ih =>
    obtain ⟨free, hI, hE⟩ := ih
    refine ⟨free, hI.write h1 ?_ v, hE⟩
    have hv : ValidNode σ (p, L) := (hI.live_facts h1).1
    have h5 := hv.lvl_ge hI.struct.geom
    have h31 := hv.hi
    simp only at h5 h31
    rw [LevelToSize_eq (by omega) (by omega)] at h2
    have : bsize L = sz := by simpa using h2
    unfold InBlk
    simp only
    omega

theorem getD_of_isSome {α : Type} {o : Option α} (d : α) (h : o.isSome = true) :
    o = some (o.getD d) := by
  cases o with
  | none => simp at h
  | some x => rfl

theorem some_of_map_snd {α β : Type} {o : Option (α × β)} {b : β} (d : α × β)
    (h : o.map Prod.snd = some b) : o = some ((o.getD d).1, b) := by
  cases o with
  | none => simp at h
  | some x =>
    obtain ⟨x1, x2⟩ := x
    simp at h
    simp [h]

theorem seedPlace_pending {σ σ' : State} {l b s : Int} (h : seedPlace σ l b s = some σ') :
    σ'.g_blocksPending = σ.g_blocksPending := by
  unfold seedPlace at h
  split at h
  · simp at h
  · rename_i σ1 h1
    simp only [Option.some.injEq] at h
    rw [← h]
    exact (setFree_same h1).blocksPending

theorem InitBuddySystemLoop_pending (fuel : Nat) : ∀ (σ : State) (bs ml lv : Int) (σ' : State),
    InitBuddySystemLoop fuel σ bs ml lv = some σ' → σ'.g_blocksPending = σ.g_blocksPending := by
  induction fuel with
  | zero => intro σ bs ml lv σ' h; simp [InitBuddySystemLoop] at h
  | succ f ih =>
    intro σ bs ml lv σ' h
    rw [InitBuddySystemLoop_succ] at h
    split at h
    · split at h
      · split at h
        · simp at h
        · rename_i σ3 h3
          rw [ih _ _ _ _ _ h, seedPlace_pending h3]
      · exact ih _ _ _ _ _ h
    · simp only [Option.some.injEq] at h
      rw [h]

theorem HeapInit_pending {σ0 σ : State} {pool memSize : Int}
    (h : HeapInit σ0 pool memSize = some σ) : σ.g_blocksPending = 0 := by
  unfold HeapInit at h
  simp only at h
  split at h
  · simp at h
  · split at h
    · simp at h
    · rename_i σ5 h5
      split at h
      · simp at h
      · split at h
        · simp at h
        · split at h
          · simp at h
          · rename_i σ7 block h7
            simp only [Option.some.injEq] at h
            rw [← h, (InitMeta_same _).1.blocksPending]
            simp only
            rw [(BuddyAlloc_same h7).blocksPending]
            simp only
            unfold InitBuddySystem at h5
            simp only at h5
            split at h5
            · simp at h5
            · rw [InitBuddySystemLoop_pending _ _ _ _ _ _ h5]
              rfl

theorem runCalls_pending : ∀ (cs : List Call) (σ σ' : State) (na nf : Int),
    runCalls σ cs = some (σ', na, nf) →
    σ'.g_blocksPending = σ.g_blocksPending + na - nf := by
  intro cs
  induction cs with
  | nil =>
    intro σ σ' na nf h
    simp only [runCalls, Option.some.injEq, Prod.mk.injEq] at h
    obtain ⟨rfl, rfl, rfl⟩ := h
    simp
  | cons c cs ih =>
    intro σ σ' na nf h
    cases c with
    | alloc size =>
      simp only [runCalls] at h
      split at h
      · simp at h
      · rename_i σ1 p h1
        split at h
        · simp at h
        · rename_i σ2 a f h2
          simp only [Option.some.injEq, Prod.mk.injEq] at h
          obtain ⟨rfl, rfl, rfl⟩ := h
          rw [ih _ _ _ _ h2, HeapAlloc_pending h1]
          split <;> omega
    | free ptr =>
      simp only [runCalls] at h
      split at h
      · simp at h
      · rename_i σ1 ok h1
        split at h
        · simp at h
        · rename_i σ2 a f h2
          simp only [Option.some.injEq, Prod.mk.injEq] at h
          obtain ⟨rfl, rfl, rfl⟩ := h
          rw [ih _ _ _ _ h2, HeapFree_pending h1]
          split <;> omega

set_option maxRecDepth 100000 in
theorem demo_init : HeapInit (blankState zeroMem) 4096 2048 = some heap0 :=
  getD_of_isSome (blankState zeroMem) (by decide!)

theorem demo_reach0 : Reachable heap0 [] :=
  Reachable.init _ _ 4096 2048 (by decide) (by decide) (by decide) (by decide) demo_init

set_option maxRecDepth 100000 in
theorem demo_alloc1 : HeapAlloc heap0 512 = some (heap1.1, heap1.2) :=
  getD_of_isSome (heap0, 0) (by decide!)

set_option maxRecDepth 100000 in
theorem demo_reach1 : Reachable heap1.1 [(heap1.2, 26)] :=
  Reachable.alloc _ _ _ 512 _ 26 demo_reach0 (by decide) (by decide) demo_alloc1 (by decide!)
    (by decide!)

set_option maxRecDepth 100000 in
theorem demo_alloc2 : HeapAlloc heap1.1 256 = some (heap2.1, heap2.2) :=
  getD_of_isSome (heap1.1, 0) (by decide!)

set_option maxRecDepth 100000 in
theorem demo_reach2 : Reachable heap2.1 [(heap2.2, 27), (heap1.2, 26)] :=
  Reachable.alloc _ _ _ 256 _ 27 demo_reach1 (by decide) (by decide) demo_alloc2 (by decide!)
    (by decide!)

set_option maxRecDepth 100000 in
theorem demo_alloc3 : HeapAlloc heap2.1 128 = some (heap3.1, heap3.2) :=
  getD_of_isSome (heap2.1, 0) (by decide!)

set_option maxRecDepth 100000 in
theorem demo_ptrs : heap1.2 = 4608 ∧ heap2.2 = 4352 ∧ heap3.2 = 4224 := by decide!

set_option maxRecDepth 100000 in
theorem demo_run : runCalls heap0 demoCalls = some (demoFinal, 2, 1) :=
  some_of_map_snd (heap0, 0, 0) (by decide!)

theorem ldiff_pred (j c : Nat) (hc : c % 2 = 1) :
    (2 ^ j * c).ldiff (2 ^ j * c - 1) = 2 ^ j := by
  apply Nat.eq_of_testBit_eq
  intro i
  have hpos : 0 < 2 ^ j := by positivity
  have e1 : 2 ^ j * c = 2 ^ j * c + 0 := by omega
  have e2 : 2 ^ j * c - 1 = 2 ^ j * (c - 1) + (2 ^ j - 1) := by
    have : 2 ^ j * c = 2 ^ j * (c - 1) + 2 ^ j := by
      have hc1 : c = (c - 1) + 1 := by omega
      conv_lhs => rw [hc1]
      ring
    omega
  rw [Nat.testBit_ldiff, e2, Nat.testBit_mul_pow_two_add (c - 1) (by omega : 2 ^ j - 1 < 2 ^ j)]
  conv_lhs => rw [e1]
  rw [Nat.testBit_mul_pow_two_add c hpos, Nat.testBit_two_pow]
  by_cases h1 : i < j
  · simp [h1]
    omega
  · rw [if_neg h1, if_neg h1]
    by_cases h2 : i = j
    · subst h2
      simp only [Nat.sub_self, Nat.testBit_zero]
      have : (c - 1) % 2 = 0 := by omega
      simp [hc, this]
    · obtain ⟨k, hk⟩ : ∃ k, i - j = k + 1 := ⟨i - j - 1, by omega⟩
      rw [hk, Nat.testBit_succ, Nat.testBit_succ]
      have : (c - 1) / 2 = c / 2 := by omega
      rw [this]
      have hne : ¬ j = i := fun h => h2 h.symm
      simp [hne]

theorem InitBuddySystemLoop_levelsNum (fuel : Nat) : ∀ (σ : State) (bs ml lv : Int)
    (σ' : State), InitBuddySystemLoop fuel σ bs ml lv = some σ' →
    σ'.g_levelsNum = σ.g_levelsNum := by
  induction fuel with
  | zero => intro σ bs ml lv σ' h; simp [InitBuddySystemLoop] at h
  | succ f ih =>
    intro σ bs ml lv σ' h
    rw [InitBuddySystemLoop_succ] at h
    split at h
    · split at h
      · split at h
        · simp at h
        · rename_i σ3 h3
          rw [ih _ _ _ _ _ h]
          unfold seedPlace at h3
          split at h3
          · simp at h3
          · rename_i σ1 h1
            simp only [Option.some.injEq] at h3
            rw [← h3]
            exact (setFree_same h1).levelsNum
      · exact ih _ _ _ _ _ h
    · simp only [Option.some.injEq] at h
      rw [h]

theorem InitBuddySystem_levelsNum {σ σ' : State} (h : InitBuddySystem σ = some σ') :
    σ'.g_levelsNum = σ.g_levelsNum := by
  unfold InitBuddySystem at h
  simp only at h
  split at h
  · simp at h
  · rw [InitBuddySystemLoop_levelsNum _ _ _ _ _ _ h]

theorem listBlocks_of_chain (m : Mem) : ∀ (l : List Int) (fuel : Nat) (h : Int),
    Chain m h l → l.length ≤ fuel → listBlocks m fuel h = some l := by
  intro l
  induction l with
  | nil =>
    intro fuel h hc _
    have : h = 0 := hc
    subst this
    cases fuel <;> simp [listBlocks]
  | cons b bs ih =>
    intro fuel h hc hlen
    obtain ⟨rfl, hb0, hrest⟩ := hc
    obtain ⟨f, rfl⟩ : ∃ f, fuel = f + 1 := ⟨fuel - 1, by simp at hlen; omega⟩
    unfold listBlocks
    rw [if_neg hb0, ih f _ hrest (by simp at hlen; omega)]

theorem emod_half (G s r : Int) (hs : 0 < s) (hr : r = G % (2 * s)) :
    (s ≤ r → G % s = r - s ∧ G / s % 2 = 1) ∧ (r < s → G % s = r ∧ G / s % 2 = 0) := by
  have h2s : 0 < 2 * s := by omega
  have h1 := Int.emod_nonneg G (ne_of_gt h2s)
  have h2 := Int.emod_lt_of_pos G h2s
  have h3 := Int.emod_add_ediv G (2 * s)
  rw [← hr] at h1 h2 h3
  generalize G / (2 * s) = q at h3
  constructor
  · intro hle
    have h4 : r - s + s * (2 * q + 1) = G := by rw [← h3]; ring
    have := (@Int.ediv_emod_unique G s (r - s) (2 * q + 1) hs).mpr
      ⟨h4, by omega, by omega⟩
    rw [this.1, this.2]
    constructor
    · rfl
    · omega
  · intro hlt
    have h4 : r + s * (2 * q) = G := by rw [← h3]; ring
    have := (@Int.ediv_emod_unique G s r (2 * q) hs).mpr
      ⟨h4, by omega, by omega⟩
    rw [this.1, this.2]
    constructor
    · rfl
    · omega

theorem totalSize_cons (x : Blk) (l : List Blk) : totalSize (x :: l) = bsize x.2 + totalSize l := by
  unfold totalSize
  simp

theorem seedSum_place {σ σ3 : State} {free : List Blk} {memLeft level : Int}
    (hI : SeedInv σ free memLeft level) (hQ : SeedSum σ free memLeft level) (h31 : level ≤ 31)
    (hfit : bsize level ≤ memLeft) (hsg : SameGlobals σ σ3) :
    SeedSum σ3 ((σ.g_memStart + (memLeft - bsize level), level) :: free)
      (memLeft - bsize level) (level + 1) := by
  have hs := bsize_pos level
  have hp : 2 * bsize (level + 1) = bsize level := by
    have := bsize_pred (level + 1) (by omega)
    have e : level + 1 - 1 = level := by ring
    rw [e] at this
    omega
  obtain ⟨hy, _⟩ := emod_half _ _ _ hs hQ.rest
  obtain ⟨hy1, hy2⟩ := hy hfit
  refine ⟨?_, ?_, ?_, ?_⟩
  · rw [totalSize_cons, hQ.total, hsg.gend, hsg.memStart]
    simp only
    ring
  · rw [hsg.gend, hsg.memStart, hp, hy1]
  · intro L hL
    rw [hsg.gend, hsg.memStart, hsg.levelsNum]
    by_cases e : L = level
    · subst e
      constructor
      · intro _
        exact ⟨hI.lvl_lo, hy2⟩
      · intro _
        exact ⟨_, List.mem_cons_self _ _⟩
    · rw [← hQ.bits L (by omega)]
      constructor
      · rintro ⟨b, hb⟩
        rcases List.mem_cons.mp hb with h | h
        · exact absurd (congrArg Prod.snd h) e
        · exact ⟨b, h⟩
      · rintro ⟨b, hb⟩
        exact ⟨b, List.mem_cons_of_mem _ hb⟩
  · intro b b' L hb hb'
    rcases List.mem_cons.mp hb with h | h
    · rcases List.mem_cons.mp hb' with h' | h'
      · have e1 := congrArg Prod.fst h
        have e2 := congrArg Prod.fst h'
        simp only at e1 e2
        rw [e1, e2]
      · have e1 := congrArg Prod.snd h
        simp only at e1
        have := (hI.below _ h').1
        simp only at this
        omega
    · rcases List.mem_cons.mp hb' with h' | h'
      · have e1 := congrArg Prod.snd h'
        simp only at e1
        have := (hI.below _ h).1
        simp only at this
        omega
      · exact hQ.one b b' L h h'

theorem seedSum_skip {σ : State} {free : List Blk} {memLeft level : Int}
    (hI : SeedInv σ free memLeft level) (hQ : SeedSum σ free memLeft level) (h31 : level ≤ 31)
    (hfit : ¬ bsize level ≤ memLeft) : SeedSum σ free memLeft (level + 1) := by
  have hs := bsize_pos level
  have hp : 2 * bsize (level + 1) = bsize level := by
    have := bsize_pred (level + 1) (by omega)
    have e : level + 1 - 1 = level := by ring
    rw [e] at this
    omega
  obtain ⟨_, hy⟩ := emod_half _ _ _ hs hQ.rest
  obtain ⟨hy1, hy2⟩ := hy (by omega)
  refine ⟨hQ.total, ?_, ?_, hQ.one⟩
  · rw [hp, hy1]
  · intro L hL
    by_cases e : L = level
    · subst e
      constructor
      · rintro ⟨b, hb⟩
        have := (hI.below _ hb).1
        simp only at this
        omega
      · rintro ⟨_, h⟩
        omega
    · exact hQ.bits L (by omega)

theorem InitBuddySystemLoop_seed (fuel : Nat) : ∀ (σ : State) (free : List Blk)
    (memLeft level : Int), SeedInv σ free memLeft level → SeedSum σ free memLeft level →
    33 - level + 1 ≤ (fuel : Int) →
    ∃ σ' free', InitBuddySystemLoop fuel σ (bsize level) memLeft level = some σ' ∧
      SameGlobals σ σ' ∧ Struct σ' [] [] free' ∧ SeedSum σ' free' 0 32 := by
  induction fuel with
  | zero =>
    intro σ free memLeft level hI _ hf
    have := hI.lvl_hi
    omega
  | succ f ih =>
    intro σ free memLeft level hI hQ hf
    rw [InitBuddySystemLoop_succ]
    by_cases h31 : level ≤ 31
    · have h16 : bsize level ≥ MIN_SIZE := bsize_ge16 h31
      simp only [h16, if_true]
      have hhalf : bsize level / 2 = bsize (level + 1) := (bsize_succ level (by omega)).symm
      rw [hhalf]
      by_cases hfit : bsize level ≤ memLeft
      · simp only [hfit, if_true]
        obtain ⟨σ3, h3, hsg3, hI3⟩ := seed_place hI h31 hfit
        rw [h3]
        simp only
        obtain ⟨σ', free', h1, h2, h4, h5⟩ := ih σ3 _ _ _ hI3
          (seedSum_place hI hQ h31 hfit hsg3) (by push_cast at hf ⊢; omega)
        exact ⟨σ', free', h1, hsg3.trans h2, h4, h5⟩
      · simp only [hfit, if_false]
        exact ih σ free memLeft (level + 1) (seed_skip hI h31 hfit)
          (seedSum_skip hI hQ h31 hfit) (by push_cast at hf ⊢; omega)
    · have h32 : level = 32 := by have := hI.lvl_hi; omega
      subst h32
      have h8 : ¬ bsize 32 ≥ MIN_SIZE := by decide
      simp only [h8, if_false]
      refine ⟨σ, free, rfl, SameGlobals.refl _, hI.struct, ?_⟩
      have hg := hI.struct.geom
      have h16g : (16 : Int) ∣ σ.g_end - σ.g_memStart := by
        have h16b : (16:Int) ∣ σ.g_buddySize := by
          rw [hg.bs]
          have : (16:Int) = 2 ^ 4 := by norm_num
          rw [this]
          exact pow_dvd_pow 2 (by have := hg.n_lo; omega)
        have e : σ.g_end - σ.g_memStart = σ.g_buddySize - (σ.g_memStart - σ.g_buddyStart) := by
          rw [hg.be]; ring
        rw [e]
        exact dvd_sub h16b hg.ms_al
      have hb32 : bsize 32 = 8 := by decide
      have hm0 : memLeft = 0 := by
        have := hQ.rest
        rw [hb32] at this
        omega
      subst hm0
      exact hQ

theorem seedHeap_spec (σ0 : State) (pool memSize : Int) (h1 : 16 ≤ memSize)
    (h2 : memSize ≤ 1073741824) (hp : 0 < pool)
    (hE : pool + memSize < 18446744073709551616) :
    ∃ σ free n, LevelsNeeded memSize = some n ∧ seedHeap σ0 pool memSize = some σ ∧
      Struct σ [] [] free ∧ SeedSum σ free 0 32 ∧ σ.g_levelsNum = n ∧ σ.g_memStart = pool ∧
      σ.g_end = pool + memSize / 16 * 16 ∧ σ.g_memSize = memSize / 16 * 16 ∧
      bsize (33 - n) < memSize / 16 * 16 ∧ memSize / 16 * 16 ≤ bsize (32 - n) := by
  obtain ⟨n, hn, hn1, hn27, _, hbig, hle⟩ := LevelsNeeded_spec h1 h2
  unfold seedHeap
  simp only [hn]
  obtain ⟨σ2, hσ2, hI, e1, e2, e3, e4, e5, e6, e7, e8⟩ :=
    InitBuddySystem_start
      { g_freeBlocks := (ResetAllocator σ0).g_freeBlocks, g_levelsNum := n,
        g_memStart := pool, g_end := pool + memSize / 16 * 16,
        g_buddyStart := (ResetAllocator σ0).g_buddyStart,
        g_metaStart := (ResetAllocator σ0).g_metaStart,
        g_metaSplitStart := (ResetAllocator σ0).g_metaSplitStart,
        g_memSize := memSize / 16 * 16,
        g_buddySize := (ResetAllocator σ0).g_buddySize,
        g_metaSize := (ResetAllocator σ0).g_metaSize,
        g_blocksPending := (ResetAllocator σ0).g_blocksPending,
        mem := (ResetAllocator σ0).mem } hn1 hn27 (fun _ => rfl) ⟨rfl, rfl⟩ hp
      (by simp only; omega) rfl (Dvd.intro_left _ rfl) hbig hle
  simp only at e1 e2 e3 e4 e5 e6 e7 e8 hI hσ2
  have hQ : SeedSum σ2 [] (memSize / 16 * 16) (32 - n) := by
    have hd : σ2.g_end - σ2.g_memStart = memSize / 16 * 16 := by rw [e2, e3]; ring
    refine ⟨?_, ?_, ?_, ?_⟩
    · rw [hd]; unfold totalSize; simp
    · rw [hd]
      have := bsize_pos (32 - n)
      exact (Int.emod_eq_of_lt (by omega) (by omega)).symm
    · intro L hL
      rw [e1]
      unfold MAX_LEVELS
      constructor
      · rintro ⟨b, hb⟩; simp at hb
      · rintro ⟨h, _⟩; omega
    · intro b b' L hb; simp at hb
  obtain ⟨σ5, free, h5, hsg, hS, hQ5⟩ :=
    InitBuddySystemLoop_seed 40 σ2 [] _ _ hI hQ (by push_cast; omega)
  refine ⟨σ5, free, n, rfl, ?_, hS, hQ5, ?_, ?_, ?_, ?_, hbig, hle⟩
  · rw [← h5]; exact hσ2
  · rw [hsg.levelsNum, e1]
  · rw [hsg.memStart, e2]
  · rw [hsg.gend, e3]
  · rw [hsg.memSize, e8]

theorem chainBytes_of_chain (m : Mem) : ∀ (l : List Int) (fuel : Nat) (h : Int),
    Chain m h l → l.length ≤ fuel → chainBytes m fuel h = (l.map (blockSize m)).sum := by
  intro l
  induction l with
  | nil =>
    intro fuel h hc _
    have h0 : h = 0 := hc
    subst h0
    cases fuel <;> simp [chainBytes]
  | cons b bs ih =>
    intro fuel h hc hl
    obtain ⟨e, hb0, hc2⟩ := hc
    subst e
    cases fuel with
    | zero => simp at hl
    | succ f =>
      unfold chainBytes
      rw [if_neg hb0, ih f _ hc2 (by simpa using hl)]
      simp

theorem lvl_bytes {σ : State} {res fly free : List Blk} (hS : Struct σ res fly free) (L : Int) :
    ((lvl L free).map (blockSize σ.mem)).sum =
      totalSize (free.filter (fun x => decide (x.2 = L))) := by
  unfold lvl totalSize
  rw [List.map_map]
  congr 1
  apply List.map_congr_left
  intro x hx
  have hx2 := (List.mem_filter.mp hx).1
  exact hS.hdr x (List.mem_append_right _ hx2)

theorem totalSize_filter_split (p q r : Blk → Bool)
    (h : ∀ x, (p x = true ↔ (q x = true ∨ r x = true)) ∧ ¬ (q x = true ∧ r x = true)) :
    ∀ l : List Blk, totalSize (l.filter p) = totalSize (l.filter q) + totalSize (l.filter r) := by
  intro l
  induction l with
  | nil => simp [totalSize]
  | cons x xs ih =>
    have hx := h x
    simp only [List.filter_cons]
    cases hp : p x <;> cases hq : q x <;> cases hr : r x <;>
      simp only [hp, hq, hr, Bool.false_eq_true, if_true, if_false, totalSize_cons, ih,
        or_self, or_true, true_or, and_self, not_true_eq_false, and_false, iff_false, false_iff,
        not_false_eq_true, true_iff, iff_true, and_true, true_and] at hx ⊢
    all_goals ring

theorem totalSize_split (L : Int) (k : Nat) (l : List Blk) :
    totalSize (l.filter (fun x => decide (L ≤ x.2 ∧ x.2 < L + (k + 1 : Nat)))) =
      totalSize (l.filter (fun x => decide (x.2 = L))) +
        totalSize (l.filter (fun x => decide (L + 1 ≤ x.2 ∧ x.2 < L + 1 + (k : Nat)))) := by
  apply totalSize_filter_split
  intro x
  simp only [decide_eq_true_eq]
  push_cast
  constructor
  · constructor
    · intro h; omega
    · intro h; omega
  · intro h; omega

theorem freeBytesFrom_eq {σ : State} {res fly free : List Blk} (hS : Struct σ res fly free)
    (h64 : ∀ L, (lvl L free).length ≤ 64) : ∀ (k : Nat) (L : Int), 0 ≤ L → L + k ≤ 32 →
    freeBytesFrom σ k L =
      totalSize (free.filter (fun x => decide (L ≤ x.2 ∧ x.2 < L + (k : Nat)))) := by
  intro k
  induction k with
  | zero =>
    intro L _ _
    unfold freeBytesFrom
    have : free.filter (fun x => decide (L ≤ x.2 ∧ x.2 < L + ((0 : Nat) : Int))) = [] := by
      apply List.filter_eq_nil_iff.mpr
      intro x _
      simp only [decide_eq_true_eq]
      push_cast
      omega
    rw [this]
    rfl
  | succ k ih =>
    intro L h0 hk
    unfold freeBytesFrom
    rw [totalSize_split, ih (L + 1) (by omega) (by push_cast at hk; omega),
      chainBytes_of_chain _ _ _ _ (hS.chain L h0 (by omega)) (h64 L), lvl_bytes hS]

theorem freeBytes_eq {σ : State} {res fly free : List Blk} (hS : Struct σ res fly free)
    (h64 : ∀ L, (lvl L free).length ≤ 64) : freeBytes σ = totalSize free := by
  unfold freeBytes
  rw [freeBytesFrom_eq hS h64 32 0 (by omega) (by norm_num)]
  congr 1
  apply List.filter_eq_self.mpr
  intro x hx
  have hv := hS.valid x (List.mem_append_right _ (List.mem_append_right _ hx))
  have := hv.lvl_ge hS.geom
  have := hv.hi
  simp only [decide_eq_true_eq]
  push_cast
  omega

theorem length_le_one_of_eq {α : Type} : ∀ {l : List α}, l.Nodup → (∀ a ∈ l, ∀ b ∈ l, a = b) →
    l.length ≤ 1 := by
  intro l hn hall
  match l, hn, hall with
  | [], _, _ => simp
  | [_], _, _ => simp
  | a :: b :: t, hn, hall =>
    have := hall a (by simp) b (by simp)
    subst this
    simp at hn

theorem LevelsNeeded_round {memSize : Int} (h1 : 16 ≤ memSize) (h2 : memSize ≤ 1073741824) :
    LevelsNeeded (memSize / 16 * 16) = LevelsNeeded memSize := by
  obtain ⟨n, hn, hn1, hn27, _, hbig, hle⟩ := LevelsNeeded_spec h1 h2
  obtain ⟨n', hn', hn1', hn27', _, hbig', hle'⟩ :=
    @LevelsNeeded_spec (memSize / 16 * 16) (by omega) (by omega)
  have e : memSize / 16 * 16 / 16 * 16 = memSize / 16 * 16 := by omega
  rw [e] at hbig' hle'
  rw [hn, hn']
  congr 1
  rcases lt_trichotomy n n' with h | h | h
  · have := @bsize_mono (33 - n') (32 - n) (by omega)
    omega
  · exact h.symm
  · have := @bsize_mono (33 - n) (32 - n') (by omega)
    omega

/-- The geometry that `HeapInit` computes (by its statements up to and including the
call of `InitBuddySystem`, and, for pools of at least 528 bytes, by the whole call):
`g_memSize` is `memSize` rounded down to a multiple of 16, `g_buddySize` is the smallest
power of two that is at least `g_memSize`, `g_end = g_memStart + g_memSize`,
`g_buddyStart = g_end - g_buddySize ≤ g_memStart`, and the number of levels computed
from the unrounded `memSize` is the one computed from `g_memSize`. -/
theorem seed_geometry (σ0 : State) (pool memSize : Int) (h1 : 16 ≤ memSize)
    (h2 : memSize ≤ 1073741824) (hp : 0 < pool)
    (hE : pool + memSize < 18446744073709551616) :
    ∃ σ, seedHeap σ0 pool memSize = some σ ∧
      σ.g_memSize = memSize / 16 * 16 ∧ σ.g_memSize ≤ memSize ∧ memSize < σ.g_memSize + 16 ∧
      (∃ k : Nat, σ.g_buddySize = 2 ^ k) ∧ σ.g_memSize ≤ σ.g_buddySize ∧
      σ.g_buddySize / 2 < σ.g_memSize ∧
      σ.g_memStart = pool ∧ σ.g_end = σ.g_memStart + σ.g_memSize ∧
      σ.g_buddyStart = σ.g_end - σ.g_buddySize ∧ σ.g_buddyStart ≤ σ.g_memStart ∧
      LevelsNeeded memSize = some σ.g_levelsNum ∧
      LevelsNeeded σ.g_memSize = some σ.g_levelsNum ∧
      (528 ≤ memSize → ∃ σ', HeapInit σ0 pool memSize = some σ' ∧
        σ'.g_memSize = σ.g_memSize ∧ σ'.g_buddySize = σ.g_buddySize ∧
        σ'.g_memStart = σ.g_memStart ∧ σ'.g_end = σ.g_end ∧
        σ'.g_buddyStart = σ.g_buddyStart ∧ σ'.g_levelsNum = σ.g_levelsNum) := by
  obtain ⟨σ, free, n, hn, hσ, hS, _, eL, eM, eE, eS, hbig, hle⟩ :=
    seedHeap_spec σ0 pool memSize h1 h2 hp hE
  have hg := hS.geom
  have hn1 : 1 ≤ n := by rw [← eL]; exact hg.n_lo
  have hn27 : n ≤ 27 := by rw [← eL]; exact hg.n_hi
  have hbs : σ.g_buddySize = bsize (32 - n) := by
    rw [hg.bs, eL]
    unfold bsize
    congr 1
    omega
  have hhalf : bsize (32 - n) = 2 * bsize (33 - n) := by
    have := bsize_pred (33 - n) (by omega)
    have e : 33 - n - 1 = 32 - n := by ring
    rw [e] at this
    exact this
  refine ⟨σ, hσ, eS, by omega, by omega, ⟨_, hg.bs⟩, by omega, by omega, eM, by omega,
    by have := hg.be; omega, hg.ms_le, by rw [eL]; exact hn,
    by rw [eS, LevelsNeeded_round h1 h2, eL]; exact hn, ?_⟩
  intro h528
  obtain ⟨σ', free', a1, a2, _, a4, a5, a6, a7, _⟩ := HeapInit_full σ0 pool memSize h528 h2 hp hE
  have hg' := a2.struct.geom
  have eL' : σ'.g_levelsNum = σ.g_levelsNum := by
    rw [hn] at a7
    rw [eL]
    exact (Option.some.inj a7).symm
  have eB : σ'.g_buddySize = σ.g_buddySize := by rw [hg.bs, hg'.bs, eL']
  refine ⟨σ', a1, by omega, eB, by omega, by omega, ?_, eL'⟩
  have := hg.be
  have := hg'.be
  omega

/-! ## Heaps over a zero-filled pool -/

theorem ZeroReachable.reachable {σ : State} {live : List Blk} (h : ZeroReachable σ live) :
    Reachable σ live := by
  induction h with
  | init σ0 σ pool memSize h1 h2 h3 h4 _ h5 => exact Reachable.init σ0 σ pool memSize h1 h2 h3 h4 h5
  | alloc σ σ' live size p L _ h1 h2 h3 h4 h5 ih =>
    exact Reachable.alloc σ σ' live size p L ih h1 h2 h3 h4 h5
  | allocNull σ σ' live size _ h1 h2 h3 ih => exact Reachable.allocNull σ σ' live size ih h1 h2 h3
  | free σ σ' live p L _ h1 h2 ih => exact Reachable.free σ σ' live p L ih h1 h2
  | write σ live p L sz a v _ h1 h2 h3 h4 ih => exact Reachable.write σ live p L sz a v ih h1 h2 h3 h4

theorem BuddyAlloc_bad_level (σ : State) (L : Int) (hn : 1 ≤ σ.g_levelsNum) (hL : 32 ≤ L) :
    BuddyAlloc σ L = none := by
  have hML : MAX_LEVELS = 32 := rfl
  unfold BuddyAlloc AllocOnLevel
  rw [AllocOnLevelAux_succ]
  have hg : getFree σ L = none := by
    unfold getFree
    rw [if_neg (by rw [hML]; omega)]
  rw [if_neg (by rw [hML]; omega), hg]

/-! ## Termination of `HeapFree` -/

/-- A free list whose head points to itself is walked for ever by `RemoveFree` when the
block looked for is another one: the loop returns for no amount of fuel. -/
theorem RemoveFreeLoop_cycle (σ : State) (block tmp : Int) (h0 : tmp ≠ 0)
    (h1 : blockNext σ.mem tmp = tmp) (h2 : block ≠ tmp) :
    ∀ fuel : Nat, RemoveFreeLoop fuel σ block tmp = none := by
  intro fuel
  induction fuel with
  | zero => rfl
  | succ n ih =>
    unfold RemoveFreeLoop
    rw [if_neg h0, h1, if_neg h2]
    exact ih

/-- In a state that satisfies the invariant, a pointer that passes the two checks of
`HeapFree` is at a positive offset from `g_buddyStart`, `MaxBlockSizeByAddr` returns on
that offset, the descent over the split bits ends and `TryFreeBlock` returns. -/
theorem TryFreeBlock_total {σ : State} {live free : List Blk} (hI : Inv σ live free) {p : Int}
    (h1 : σ.g_memStart ≤ p) (h2 : p < σ.g_end) (h3 : p ≠ σ.g_metaStart) :
    0 < p - σ.g_buddyStart ∧ (∃ sz, MaxBlockSizeByAddr (p - σ.g_buddyStart) = some sz) ∧
      ∃ r, TryFreeBlock σ p = some r := by
  have hS := hI.struct
  have hg := hS.geom
  have hm := hI.mgeom
  have hML : MAX_LEVELS = 32 := rfl
  have hMS : MIN_SIZE = 16 := rfl
  have hn1 := hg.n_lo
  have hn2 := hg.n_hi
  have hle := hg.ms_le
  have hbe := hg.be
  have hbs : σ.g_buddySize = 2 ^ (σ.g_levelsNum + 3).toNat := hg.bs
  have hbs30 : σ.g_buddySize ≤ 1073741824 := by
    rw [hbs]
    have : (2:Int) ^ (σ.g_levelsNum + 3).toNat ≤ 2 ^ 30 :=
      pow_le_pow_right₀ (by norm_num) (by omega)
    norm_num at this
    exact this
  have hoff : 0 < p - σ.g_buddyStart := by
    rcases hm.origin with h | h
    · omega
    · rw [h] at h3
      omega
  have hr1 : σ.g_buddyStart ≤ p := by omega
  obtain ⟨j, hMB, hjd, hjodd, hj32⟩ := MaxBlockSizeByAddr_spec hoff (by omega)
  refine ⟨hoff, ⟨_, hMB⟩, ?_⟩
  unfold TryFreeBlock
  simp only
  by_cases h16 : (p - σ.g_buddyStart) % MIN_SIZE ≠ 0
  · rw [if_pos h16]
    exact ⟨_, rfl⟩
  rw [if_neg h16, hMB]
  simp only
  rw [hMS] at h16
  have h16b : (p - σ.g_buddyStart) % 16 = 0 := by omega
  have hjlo : 4 ≤ j := by
    by_contra hc
    have hj4 : j < 4 := by omega
    interval_cases j <;> norm_num at hjodd <;> omega
  have hjhi : (j : Int) ≤ σ.g_levelsNum + 2 := by
    by_contra hc
    have h1 : (2:Int) ^ (σ.g_levelsNum + 3).toNat ≤ 2 ^ j :=
      pow_le_pow_right₀ (by norm_num) (by omega)
    have h2 : (2:Int) ^ j ≤ p - σ.g_buddyStart := Int.le_of_dvd hoff hjd
    omega
  have hbj : bsize (35 - (j : Int)) = 2 ^ j := by
    unfold bsize
    congr 1
    omega
  have hLa : bsize (35 - (j : Int)) ∣ p - σ.g_buddyStart := by rw [hbj]; exact hjd
  obtain ⟨L2, hd1, hd2, hd3, _, _⟩ := splitDescent_spec hg hr1 h2
    (31 - (35 - (j : Int))).toNat (35 - (j : Int)) 64 (by omega) (by omega) hLa (by omega)
  have hal2 : bsize L2 ∣ p - σ.g_buddyStart := dvd_trans (bsize_dvd hd1 (by omega)) hLa
  rw [← hbj, SizeToLevel_bsize (by omega) (by omega)]
  simp only
  rw [IndexGlobal_eq σ p hg (by omega) (by omega)]
  simp only
  rw [hd3]
  simp only
  rw [IsTaken_gidx hg hr1 h2 (by omega) hd2 hal2]
  simp only
  rw [hML, IndexWithinLevel_eq _ p (by norm_num) (by norm_num)]
  simp only
  cases IsLeafTaken σ ((p - σ.g_buddyStart) / 16) with
  | false => exact ⟨_, rfl⟩
  | true => exact ⟨_, rfl⟩

/-- In every reachable state, a pointer that passes the bounds check and the metadata
check of `HeapFree` is at a positive offset from `g_buddyStart`, and `MaxBlockSizeByAddr`
and `TryFreeBlock` return on it. -/
theorem Reachable.tryFree_total {σ : State} {live : List Blk} (h : Reachable σ live) {p : Int}
    (h1 : σ.g_memStart ≤ p) (h2 : p < σ.g_end) (h3 : p ≠ σ.g_metaStart) :
    0 < p - σ.g_buddyStart ∧ (∃ sz, MaxBlockSizeByAddr (p - σ.g_buddyStart) = some sz) ∧
      ∃ r, TryFreeBlock σ p = some r := by
  obtain ⟨free, hI, _⟩ := h.inv
  exact TryFreeBlock_total hI h1 h2 h3

theorem some_of_map_fst {α β : Type} {o : Option (α × β)} {b : β} (d : α)
    (h : o.map Prod.snd = some b) : o = some ((o.map Prod.fst).getD d, b) := by
  cases o with
  | none => simp at h
  | some x =>
    obtain ⟨x1, x2⟩ := x
    simp at h
    simp [h]

/-! ## The claims -/

set_option maxRecDepth 100000 in
/-- Claim C1, evaluated on the code: in the last scenario of `TestRef` the call
`HeapFree(p0 + 1000)` returns false and leaves one pending block, but `HeapFree(p0 + 16)`
and `HeapFree(p0 + 1024)`, interior pointers of the live block `p0`, return true and
the pending count drops to 0. -/
theorem free_of_interior_pointer :
    testRef4 1000 = some (17039360, false, 1) ∧ testRef4 16 = some (17039360, true, 0) ∧
      testRef4 1024 = some (17039360, true, 0) := by
  decide!

set_option maxRecDepth 100000 in
/-- Claim C2, evaluated on the code: after `HeapInit(pool, 2032)` the metadata is at
`pool + 16`, the block at `pool` is the head of the free list of level 31, no block
has been allocated, and still `HeapFree(pool)` returns true and the pending count
becomes -1. -/
theorem free_after_init_of_free_block :
    freeAfterInit zeroMem 2032 4096 = some (4112, 32, 4096, true, -1, 4096) := by
  decide!

/-- Claim C3: in every reachable state the backing blocks of any two live allocations
are disjoint, and none of them intersects the metadata block. -/
theorem live_blocks_disjoint (σ : State) (live : List Blk) (h : Reachable σ live) :
    live.Pairwise (fun x y => apart x y = true) ∧ ∀ x ∈ live, offMeta σ x = true := by
  obtain ⟨free, hI, _⟩ := h.inv
  have hS := hI.struct
  have hg := hS.geom
  have hlts : ∀ x ∈ live, LevelToSize x.2 = some (bsize x.2) := by
    intro x hx
    have hv : ValidNode σ x := hS.valid x (by simp [hx])
    have := hv.lvl_ge hg
    have := hv.hi
    exact LevelToSize_eq (by omega) (by omega)
  obtain ⟨hm, hl⟩ := List.pairwise_cons.mp (List.pairwise_append.mp hS.pw).1
  constructor
  · apply List.Pairwise.imp_of_mem _ hl
    intro x y hx hy hd
    unfold apart
    rw [hlts x hx, hlts y hy]
    simpa using hd
  · intro x hx
    have hd := hm x hx
    obtain ⟨hmsz, _, _, _⟩ := meta_nums hg hI.mgeom
    unfold offMeta
    rw [hlts x hx]
    unfold Disj metaBlk at hd
    simp only at hd
    rw [← hmsz] at hd
    simp only [decide_eq_true_eq]
    omega

/-- Witness of C3: the heap after `HeapInit(pool, 2048)`, `HeapAlloc(512)` and
`HeapAlloc(256)` is reachable with the two live blocks `4352` and `4608`. -/
theorem live_blocks_disjoint_witness :
    Reachable heap2.1 [(heap2.2, 27), (heap1.2, 26)] ∧ heap2.2 = 4352 ∧ heap1.2 = 4608 ∧
      (([(heap2.2, 27), (heap1.2, 26)] : List Blk).Pairwise (fun x y => apart x y = true) ∧
        ∀ x ∈ ([(heap2.2, 27), (heap1.2, 26)] : List Blk), offMeta heap2.1 x = true) :=
  ⟨demo_reach2, demo_ptrs.2.1, demo_ptrs.1, live_blocks_disjoint _ _ demo_reach2⟩

/-- Claim C4: in every reachable state `HeapAlloc(size)` with `16 ≤ size` returns, and
a non-null result `p` satisfies `g_memStart ≤ p` and `p + 2 ^ k ≤ g_end`, where
`2 ^ k` is the least power of two that is at least `size`; `g_end` is the end
`g_memStart + g_memSize` of the pool. -/
theorem alloc_within_pool (σ : State) (live : List Blk) (h : Reachable σ live) (size : Int)
    (h16 : 16 ≤ size) (hmax : size < 2147483648) :
    ∃ σ' p, HeapAlloc σ size = some (σ', p) ∧
      (p ≠ 0 → ∃ k : Nat, size ≤ 2 ^ k ∧ (∀ j : Nat, size ≤ 2 ^ j → (2 : Int) ^ k ≤ 2 ^ j) ∧
        σ.g_memStart ≤ p ∧ p + 2 ^ k ≤ σ.g_end ∧ σ.g_end = σ.g_memStart + σ.g_memSize) := by
  obtain ⟨free, hI, hE⟩ := h.inv
  obtain ⟨σ', p, hA, hc⟩ := HeapAlloc_spec hI h16 hmax
  refine ⟨σ', p, hA, fun hp => ?_⟩
  rcases hc with ⟨h0, _⟩ | ⟨_, L, free', _, hI', h1, h2, h3, h4, _⟩
  · exact absurd h0 hp
  · have hv : ValidNode σ' (p, L) := hI'.struct.valid _ (by simp)
    have h31 := hv.hi
    simp only at h31
    have hb : bsize L = 2 ^ (35 - L).toNat := rfl
    exact ⟨(35 - L).toNat, by rw [← hb]; exact h1, fun j hj => by rw [← hb]; exact h2 j hj, h3,
      by rw [← hb]; exact h4, hE⟩

/-- Witness of C4: on the reachable heap with two live blocks, `HeapAlloc(128)` returns
the pointer 4224. -/
theorem alloc_within_pool_witness :
    Reachable heap2.1 [(heap2.2, 27), (heap1.2, 26)] ∧ (16 : Int) ≤ 128 ∧
      (128 : Int) < 2147483648 ∧ HeapAlloc heap2.1 128 = some (heap3.1, heap3.2) ∧
      heap3.2 = 4224 ∧
      ∃ σ' p, HeapAlloc heap2.1 128 = some (σ', p) ∧
        (p ≠ 0 → ∃ k : Nat, (128 : Int) ≤ 2 ^ k ∧
          (∀ j : Nat, (128 : Int) ≤ 2 ^ j → (2 : Int) ^ k ≤ 2 ^ j) ∧
          heap2.1.g_memStart ≤ p ∧ p + 2 ^ k ≤ heap2.1.g_end ∧
          heap2.1.g_end = heap2.1.g_memStart + heap2.1.g_memSize) :=
  ⟨demo_reach2, by decide, by decide, demo_alloc3, demo_ptrs.2.2,
    alloc_within_pool _ _ demo_reach2 128 (by decide) (by decide)⟩

/-- Claim C5: in every reachable state, when `HeapAlloc(size)` returns a non-null
pointer `p`, the immediately following `HeapFree(p)` returns true. -/
theorem alloc_free_roundtrip (σ : State) (live : List Blk) (h : Reachable σ live)
    (size : Int) (h16 : 16 ≤ size) (hmax : size < 2147483648) (σ' : State) (p : Int)
    (hA : HeapAlloc σ size = some (σ', p)) (hp : p ≠ 0) :
    ∃ σ'', HeapFree σ' p = some (σ'', true) := by
  obtain ⟨free, hI, _⟩ := h.inv
  obtain ⟨σ1, p1, e, hc⟩ := HeapAlloc_spec hI h16 hmax
  rw [hA] at e
  have e' : σ' = σ1 ∧ p = p1 := by simpa using e
  obtain ⟨rfl, rfl⟩ := e'
  rcases hc with ⟨h0, _⟩ | ⟨_, L, free', _, hI', _⟩
  · exact absurd h0 hp
  · obtain ⟨σ2, _, hF, _⟩ := HeapFree_spec hI' (List.mem_cons_self (p, L) live)
    exact ⟨σ2, hF⟩

/-- Witness of C5: on the reachable heap with two live blocks, `HeapAlloc(128)` returns
a non-null pointer, and `HeapFree` of it returns true. -/
theorem alloc_free_roundtrip_witness :
    Reachable heap2.1 [(heap2.2, 27), (heap1.2, 26)] ∧ (16 : Int) ≤ 128 ∧
      (128 : Int) < 2147483648 ∧ HeapAlloc heap2.1 128 = some (heap3.1, heap3.2) ∧
      heap3.2 ≠ 0 ∧ ∃ σ'', HeapFree heap3.1 heap3.2 = some (σ'', true) :=
  ⟨demo_reach2, by decide, by decide, demo_alloc3, by rw [demo_ptrs.2.2]; decide,
    alloc_free_roundtrip _ _ demo_reach2 128 (by decide) (by decide) _ _ demo_alloc3
      (by rw [demo_ptrs.2.2]; decide)⟩

set_option maxRecDepth 100000 in
/-- Claim C6, evaluated on the code: on the pool of 2048 bytes five blocks are
allocated and all of them are freed. With a zeroed pool the free lists hold 2016
bytes (`g_memSize - g_metaSize`) before and after, and `HeapAlloc(1024)` succeeds;
with a pool whose byte 19 held `0xFF` before `HeapInit` every call returns the same
results, but the free lists hold only 1952 bytes afterwards and `HeapAlloc(1024)`
returns null. -/
theorem free_bytes_after_roundtrip :
    roundTrip zeroMem = some ([4608, 4352, 4224, 5120, 5248],
      [true, true, true, true, true], 2016, 2016, 5120) ∧
    roundTrip dirtyMem = some ([4608, 4352, 4224, 5120, 5248],
      [true, true, true, true, true], 2016, 1952, 0) := by
  decide!

/-- Claim C7: when `HeapAlloc` returns null the state after the call is the state
before it, and when `HeapFree` returns false the state after the call is the state
before it, so that the same `HeapFree` call returns false again. -/
theorem failure_atomic (σ σ' : State) (arg : Int) :
    (HeapAlloc σ arg = some (σ', 0) → σ' = σ) ∧
    (HeapFree σ arg = some (σ', false) → σ' = σ ∧ HeapFree σ' arg = some (σ', false)) := by
  constructor
  · exact HeapAlloc_null σ σ' arg
  · intro h
    have e := HeapFree_false σ σ' arg h
    subst e
    exact ⟨rfl, h⟩

set_option maxRecDepth 100000 in
/-- Witness of C7: on the fresh heap of 2048 bytes `HeapAlloc(4096)` returns null and
`HeapFree(pool + 513)` returns false, both with the state unchanged. -/
theorem failure_atomic_witness :
    HeapAlloc heap0 4096 = some (heap0, 0) ∧ HeapFree heap0 4609 = some (heap0, false) := by
  have hA := some_of_map_snd (heap0, 1)
    (show (HeapAlloc heap0 4096).map Prod.snd = some 0 by decide!)
  have hF := some_of_map_snd (heap0, true)
    (show (HeapFree heap0 4609).map Prod.snd = some false by decide!)
  have eA := (failure_atomic heap0 _ 4096).1 hA
  have eF := ((failure_atomic heap0 _ 4609).2 hF).1
  rw [eA] at hA
  rw [eF] at hF
  exact ⟨hA, hF⟩

/-- Claim C8: `g_blocksPending` is 0 right after `HeapInit`; after any sequence of
`HeapAlloc` and `HeapFree` calls it is the number of `HeapAlloc` calls that returned
non-null minus the number of `HeapFree` calls that returned true; `HeapDone` returns
this value and leaves the state unchanged. -/
theorem pending_counts (σ0 σ σ' : State) (pool memSize : Int) (cs : List Call) (na nf : Int)
    (hI : HeapInit σ0 pool memSize = some σ) (hR : runCalls σ cs = some (σ', na, nf)) :
    σ.g_blocksPending = 0 ∧ σ'.g_blocksPending = na - nf ∧ HeapDone σ' = (σ', na - nf) := by
  have h0 := HeapInit_pending hI
  have h1 := runCalls_pending cs σ σ' na nf hR
  rw [h0] at h1
  have h2 : σ'.g_blocksPending = na - nf := by omega
  refine ⟨h0, h2, ?_⟩
  unfold HeapDone
  rw [h2]

/-- Witness of C8: on the fresh heap of 2048 bytes the calls `demoCalls` run to the
end; two allocations succeed and one release succeeds. -/
theorem pending_counts_witness :
    HeapInit (blankState zeroMem) 4096 2048 = some heap0 ∧
      runCalls heap0 demoCalls = some (demoFinal, 2, 1) ∧
      (heap0.g_blocksPending = 0 ∧ demoFinal.g_blocksPending = 2 - 1 ∧
        HeapDone demoFinal = (demoFinal, 2 - 1)) :=
  ⟨demo_init, demo_run, pending_counts _ _ _ 4096 2048 demoCalls 2 1 demo_init demo_run⟩

set_option maxRecDepth 100000 in
/-- Claim C9, evaluated on the code: after `HeapInit(pool, 2048)` the metadata block
is `[pool, pool + 32)`, and `HeapFree(pool + 16)` returns true: the pending count
becomes -1 and `pool + 16`, an address of the split bitmap, becomes the head of the
free list of level 31. -/
theorem free_inside_metadata :
    freeAfterInit zeroMem 2048 4112 = some (4096, 32, 0, true, -1, 4112) := by
  decide!

set_option maxRecDepth 100000 in
/-- Claim C10, evaluated on the code: right after `HeapInit(pool, 2048)` the split
bit of the non-leaf node 24 is clear when the pool was zeroed and set when byte 19 of
the pool held `0xFF` before the call. -/
theorem init_depends_on_pool_bytes :
    splitBitAfterInit zeroMem 24 = some false ∧ splitBitAfterInit dirtyMem 24 = some true := by
  decide!

/-- Claim C20: for `1 ≤ offset < 2 ^ 31` the function `MaxBlockSizeByAddr` returns, and
its result is the largest power of two that divides `offset`; it is equal to
`offset & -offset`. -/
theorem max_block_size_by_addr (off : Int) (h1 : 1 ≤ off) (h2 : off < 2147483648) :
    ∃ j : Nat, MaxBlockSizeByAddr off = some (2 ^ j) ∧ (2 : Int) ^ j ∣ off ∧
      (∀ i : Nat, (2 : Int) ^ i ∣ off → i ≤ j) ∧ Int.land off (-off) = 2 ^ j := by
  obtain ⟨j, hM, hd, hodd, _⟩ := MaxBlockSizeByAddr_spec (by omega : 0 < off) (by omega)
  have hpj := pow_n_pos j
  refine ⟨j, hM, hd, ?_, ?_⟩
  · intro i hi
    by_contra hc
    have h3 : (2 : Int) ^ (j + 1) ∣ off := dvd_trans (pow_dvd_pow 2 (by omega)) hi
    obtain ⟨c, hc2⟩ := h3
    have : off / 2 ^ j = 2 * c := by
      rw [hc2, pow_succ, mul_assoc]
      exact Int.mul_ediv_cancel_left _ (ne_of_gt hpj)
    rw [this] at hodd
    omega
  · obtain ⟨c, hc⟩ := hd
    have hq : off / 2 ^ j = c := by
      rw [hc]; exact Int.mul_ediv_cancel_left _ (ne_of_gt hpj)
    rw [hq] at hodd
    have hc0 : 0 ≤ c := by
      by_contra hneg
      have : (2 : Int) ^ j * c < 0 := mul_neg_of_pos_of_neg hpj (by omega)
      omega
    obtain ⟨m, hm⟩ := Int.eq_ofNat_of_zero_le hc0
    have hoff : off = ((2 ^ j * m : Nat) : Int) := by
      rw [hc, hm]; push_cast; ring
    have hmodd : m % 2 = 1 := by omega
    have hpos : 0 < 2 ^ j * m := by
      have : 0 < 2 ^ j := by positivity
      have : 0 < m := by omega
      positivity
    have hneg : -off = Int.negSucc (2 ^ j * m - 1) := by
      rw [hoff, Int.negSucc_eq]
      have : (((2 ^ j * m - 1 : Nat)) : Int) = ((2 ^ j * m : Nat) : Int) - 1 := by
        rw [Nat.cast_sub (by omega)]; simp
      rw [this]; ring
    rw [hneg, hoff]
    show ((((2 ^ j * m).ldiff (2 ^ j * m - 1) : Nat)) : Int) = 2 ^ j
    rw [ldiff_pred j m hmodd]
    push_cast
    rfl

/-- Witness of C20: the offset 48 gives the block size 16. -/
theorem max_block_size_by_addr_witness :
    (1 : Int) ≤ 48 ∧ (48 : Int) < 2147483648 ∧ MaxBlockSizeByAddr 48 = some 16 ∧
      ∃ j : Nat, MaxBlockSizeByAddr 48 = some (2 ^ j) ∧ (2 : Int) ^ j ∣ 48 ∧
        (∀ i : Nat, (2 : Int) ^ i ∣ 48 → i ≤ j) ∧ Int.land 48 (-48) = 2 ^ j :=
  ⟨by decide, by decide, by decide, max_block_size_by_addr 48 (by decide) (by decide)⟩

/-- Claim C19, as amended: for `1 ≤ n < 2 ^ 31` the function `Log2Int` returns the least
`k` with `n ≤ 2 ^ k`, and for `n ≤ 2 ^ 30` the size `LevelToSize(SizeToLevel(n))` is
`2 ^ k`, the least power of two that is at least `n`. -/
theorem log2_ceiling (n : Int) (h1 : 1 ≤ n) (h2 : n < 2147483648) :
    ∃ k : Nat, Log2Int n = some (k : Int) ∧ n ≤ 2 ^ k ∧ (∀ j : Nat, n ≤ 2 ^ j → k ≤ j) ∧
      (n ≤ 1073741824 → ∃ L, SizeToLevel n = some L ∧ LevelToSize L = some (2 ^ k)) := by
  obtain ⟨k, hk, hk1, hk2, hk3⟩ := Log2Int_spec h1 (by norm_num; omega)
  refine ⟨k, hk, hk1, ?_, ?_⟩
  · intro j hj
    rcases hk2 with h | h
    · omega
    · by_contra hc
      have : (2 : Int) ^ j ≤ 2 ^ (k - 1) := pow_le_pow_right₀ (by norm_num) (by omega)
      omega
  · intro hn
    have hk30 : k ≤ 30 := by
      rcases hk2 with h | h
      · omega
      · by_contra hc
        have : (2 : Int) ^ 30 ≤ 2 ^ (k - 1) := pow_le_pow_right₀ (by norm_num) (by omega)
        norm_num at this
        omega
    refine ⟨35 - (k : Int), ?_, ?_⟩
    · unfold SizeToLevel
      rw [hk]
      simp only [MAX_LEVELS, MIN_SIZE_LOG]
      congr 1
      omega
    · unfold LevelToSize
      have e : MAX_LEVELS + MIN_SIZE_LOG - (35 - (k : Int)) - 1 = (k : Int) := by
        simp only [MAX_LEVELS, MIN_SIZE_LOG]; omega
      rw [e, Pow2Int_eq (by omega) (by omega)]
      simp

/-- Witness of C19: the size 1000 has logarithm 10 and is served by a block of 1024
bytes. -/
theorem log2_ceiling_witness :
    (1 : Int) ≤ 1000 ∧ (1000 : Int) < 2147483648 ∧ Log2Int 1000 = some 10 ∧
      ∃ k : Nat, Log2Int 1000 = some (k : Int) ∧ (1000 : Int) ≤ 2 ^ k ∧
        (∀ j : Nat, (1000 : Int) ≤ 2 ^ j → k ≤ j) ∧
        ((1000 : Int) ≤ 1073741824 →
          ∃ L, SizeToLevel 1000 = some L ∧ LevelToSize L = some (2 ^ k)) :=
  ⟨by decide, by decide, by decide, log2_ceiling 1000 (by decide) (by decide)⟩

/-- Counterexample to C19 as stated: the size `2 ^ 30 + 1` is at least 16, its level is
4, and `LevelToSize(4)` is the shift `1 << 31`, which gives `-2147483648`: a negative
number, not the power of two `2 ^ 31` that is the smallest one above the size. -/
theorem log2_ceiling_overflow :
    (16 : Int) ≤ 1073741825 ∧ Log2Int 1073741825 = some 31 ∧
      SizeToLevel 1073741825 = some 4 ∧ LevelToSize 4 = some (-2147483648) ∧
      (-2147483648 : Int) < 1073741825 := by
  decide

/-- Claim C11, evaluated on the code: for every `memSize` from 16 to 527 the call
`HeapInit(pool, memSize)` has no defined result. The metadata size is computed as
`1 << (levelsNum - 3)` without a lower bound: the shift count is negative for
`levelsNum < 3`, and for `levelsNum` from 3 to 6 the size is below `MIN_SIZE` and the
metadata is requested on level `38 - levelsNum ≥ 32`, outside `g_freeBlocks`. -/
theorem init_small_pool (σ0 : State) (pool memSize : Int) (h1 : 16 ≤ memSize)
    (h2 : memSize < 528) : HeapInit σ0 pool memSize = none := by
  have hML : MAX_LEVELS = 32 := rfl
  obtain ⟨k, hk, hk1, hk2, _⟩ := Log2Int_spec (N := memSize / 16) (by omega) (by norm_num; omega)
  have hk5 : k ≤ 5 := by
    rcases hk2 with h | h
    · omega
    · by_contra hc
      have : (2 : Int) ^ 5 ≤ 2 ^ (k - 1) := pow_le_pow_right₀ (by norm_num) (by omega)
      norm_num at this
      omega
  have hn : LevelsNeeded memSize = some ((k : Int) + 1) := by
    unfold LevelsNeeded
    have : MIN_SIZE = 16 := rfl
    rw [this, hk]
  unfold HeapInit
  simp only [hn]
  split
  · rfl
  · rename_i σ5 h5
    have hl := InitBuddySystem_levelsNum h5
    simp only at hl
    by_cases h3 : (k : Int) + 1 < 3
    · have : Pow2Int (σ5.g_levelsNum - 3) = none := by
        unfold Pow2Int
        rw [if_neg (by rw [hl]; omega), if_neg (by rw [hl]; omega)]
      rw [this]
    · rw [hl, Pow2Int_eq (by omega) (by omega)]
      simp only
      have e : (2 : Int) ^ ((k : Int) + 1 - 3).toNat = 2 ^ (k - 2) := by
        congr 1
        omega
      have hS : SizeToLevel ((2 : Int) ^ (k - 2)) = some (37 - (k : Int)) := by
        unfold SizeToLevel
        rw [Log2Int_pow2 (by omega)]
        simp only [MAX_LEVELS, MIN_SIZE_LOG]
        congr 1
        omega
      rw [e, hS]
      simp only
      have hB : ∀ σ : State, σ.g_levelsNum = (k : Int) + 1 →
          BuddyAlloc σ (37 - (k : Int)) = none := by
        intro σ hσ
        unfold BuddyAlloc AllocOnLevel
        rw [AllocOnLevelAux_succ]
        have hg : getFree σ (37 - (k : Int)) = none := by
          unfold getFree
          rw [if_neg (by rw [hML]; omega)]
        rw [if_neg (by rw [hML, hσ]; omega), hg]
      rw [hB _ rfl]

/-- Witness of C11: `HeapInit(pool, 32)` has no defined result. -/
theorem init_small_pool_witness :
    (16 : Int) ≤ 32 ∧ (32 : Int) < 528 ∧ HeapInit (blankState zeroMem) 4096 32 = none :=
  ⟨by decide, by decide, init_small_pool _ 4096 32 (by decide) (by decide)⟩

/-- Claim C12, evaluated on the code: on a zeroed buffer `MarkBits(base, 0, 20, true)`
sets the bits 0 to 15 and leaves the bits 16 to 19 clear; the third byte stays `0x00`
where the claim requires `0xF0`. The last mask is applied to the byte that `memset`
has just filled, because `currentByte` is not advanced past the whole middle bytes. -/
theorem mark_bits_tail :
    readU8 (MarkBits zeroMem 100 0 20 true) 100 = 255 ∧
    readU8 (MarkBits zeroMem 100 0 20 true) 101 = 255 ∧
    readU8 (MarkBits zeroMem 100 0 20 true) 102 = 0 ∧
    getBit (MarkBits zeroMem 100 0 20 true) 100 15 = true ∧
    getBit (MarkBits zeroMem 100 0 20 true) 100 16 = false ∧
    getBit (MarkBits zeroMem 100 0 20 true) 100 19 = false := by
  decide

/-- Claim C18: in every reachable state every free list ends (it has no cycle) and holds
no block twice, and every block `b` on the list of level `L` has
`b.size = LevelToSize(L)`, has an offset from `g_buddyStart` that is a multiple of its
size, and lies inside `[g_memStart, g_end)`. -/
theorem free_lists_well_formed (σ : State) (live : List Blk) (h : Reachable σ live)
    (L : Int) (h0 : 0 ≤ L) (h1 : L < MAX_LEVELS) :
    ∃ l, freeList σ L = some l ∧ l.Nodup ∧
      ∀ b ∈ l, LevelToSize L = some (blockSize σ.mem b) ∧
        (b - σ.g_buddyStart) % blockSize σ.mem b = 0 ∧
        σ.g_memStart ≤ b ∧ b + blockSize σ.mem b ≤ σ.g_end := by
  obtain ⟨free, hI, _⟩ := h.inv
  have hS := hI.struct
  have hg := hS.geom
  have hML : MAX_LEVELS = 32 := rfl
  refine ⟨lvl L free, ?_, lvl_nodup L hS.free_nodup, ?_⟩
  · unfold freeList
    apply listBlocks_of_chain _ _ _ _ (hS.chain L h0 (by omega))
    have := lvl_length_le hS L
    omega
  · intro b hb
    have hmem : (b, L) ∈ free := mem_lvl.mp hb
    have hv : ValidNode σ (b, L) := hS.valid _ (by simp [hmem])
    have hh : blockSize σ.mem b = bsize L := hS.hdr (b, L) (by simp [hmem])
    have h5 := hv.lvl_ge hg
    have h31 := hv.hi
    simp only at h5 h31
    rw [hh]
    refine ⟨LevelToSize_eq (by omega) (by omega), Int.emod_eq_zero_of_dvd hv.al, hv.ge, hv.le⟩

set_option maxRecDepth 100000 in
/-- Witness of C18: on the reachable heap with two live blocks the free list of level
28 holds the one block at address 4224, of 128 bytes. -/
theorem free_lists_well_formed_witness :
    Reachable heap2.1 [(heap2.2, 27), (heap1.2, 26)] ∧ (0 : Int) ≤ 28 ∧ (28 : Int) < MAX_LEVELS ∧
      freeList heap2.1 28 = some [4224] ∧
      ∃ l, freeList heap2.1 28 = some l ∧ l.Nodup ∧
        ∀ b ∈ l, LevelToSize 28 = some (blockSize heap2.1.mem b) ∧
          (b - heap2.1.g_buddyStart) % blockSize heap2.1.mem b = 0 ∧
          heap2.1.g_memStart ≤ b ∧ b + blockSize heap2.1.mem b ≤ heap2.1.g_end :=
  ⟨demo_reach2, by decide, by decide, by decide!,
    free_lists_well_formed _ _ demo_reach2 28 (by decide) (by decide)⟩

set_option maxRecDepth 100000 in
/-- Claim C14, evaluated on the code: after `HeapInit(pool, 2032)` the buddy region
starts 16 bytes below the pool, so leaf 0 is the phantom prefix, leaf 1 is the free
block at `pool` and the leaves 2 and 3 are the metadata block `[pool + 16, pool + 48)`.
The leaf-taken bits of the leaves 0 to 3 are 1, 1, 0, 0: the free leaf is marked taken
and the leaves of the metadata are not. -/
theorem leaf_bits_after_init :
    leafBitsAfterInit zeroMem 2032 [0, 1, 2, 3] =
      some ([4080, 2048, 4096, 4112, 32], [true, true, false, false]) := by
  decide!

set_option maxRecDepth 100000 in
/-- Claim C15, evaluated on the code: after `HeapInit(pool, 2048)` the metadata block is
`[pool, pool + 32)`, the node 63; its ancestors are the nodes 31, 15, 7, 3, 1 and 0, and
the split bit of every one of them is clear. -/
theorem split_bits_after_init :
    splitBitsAfterInit zeroMem 2048 [31, 15, 7, 3, 1, 0] =
      some ([4096, 2048, 4096, 32], [false, false, false, false, false, false]) := by
  decide!

/-- Claim C17 (greedy seeding), for every pool size `memSize` from 16 to `2^30`, in the
state after the call of `InitBuddySystem` in `HeapInit` (before the metadata is
allocated): the sizes of the blocks on the free lists sum to `g_memSize`; every free
list holds at most one block, and the list of level `L` holds one exactly when the bit
of weight `2^(35 - L)` (the block size of the level) of `g_memSize` is set; the block
has the size `LevelToSize(L)` in its header, its offset from `g_buddyStart` is a
multiple of its size, and it lies inside `[g_memStart, g_end)`, so no byte of the
phantom prefix `[g_buddyStart, g_memStart)` belongs to it; blocks of different levels
do not overlap. -/
theorem greedy_seeding (σ0 : State) (pool memSize : Int) (h1 : 16 ≤ memSize)
    (h2 : memSize ≤ 1073741824) (hp : 0 < pool)
    (hE : pool + memSize < 18446744073709551616) :
    ∃ σ, seedHeap σ0 pool memSize = some σ ∧ σ.g_memSize = memSize / 16 * 16 ∧
      freeBytes σ = σ.g_memSize ∧
      (∀ L, 0 ≤ L → L < MAX_LEVELS → ∃ l, freeList σ L = some l ∧ l.length ≤ 1 ∧
        (l ≠ [] ↔ σ.g_memSize / bsize L % 2 = 1) ∧
        ∀ b ∈ l, LevelToSize L = some (blockSize σ.mem b) ∧
          (b - σ.g_buddyStart) % blockSize σ.mem b = 0 ∧
          σ.g_memStart ≤ b ∧ b + blockSize σ.mem b ≤ σ.g_end) ∧
      (∀ L L' l l' b b', 0 ≤ L → L < MAX_LEVELS → 0 ≤ L' → L' < MAX_LEVELS → L ≠ L' →
        freeList σ L = some l → freeList σ L' = some l' → b ∈ l → b' ∈ l' →
        b + blockSize σ.mem b ≤ b' ∨ b' + blockSize σ.mem b' ≤ b) := by
  obtain ⟨σ, free, n, hn, hσ, hS, hQ, eL, eM, eE, eS, hbig, hle⟩ :=
    seedHeap_spec σ0 pool memSize h1 h2 hp hE
  have hg := hS.geom
  have hML : MAX_LEVELS = 32 := rfl
  have hn1 : 1 ≤ n := by rw [← eL]; exact hg.n_lo
  have hn27 : n ≤ 27 := by rw [← eL]; exact hg.n_hi
  have hd : σ.g_end - σ.g_memStart = σ.g_memSize := by rw [eE, eM, eS]; ring
  have hone : ∀ L, (lvl L free).length ≤ 1 := by
    intro L
    apply length_le_one_of_eq (lvl_nodup L hS.free_nodup)
    intro a ha b hb
    exact hQ.one a b L (mem_lvl.mp ha) (mem_lvl.mp hb)
  have hfl : ∀ L, 0 ≤ L → L < MAX_LEVELS → freeList σ L = some (lvl L free) := by
    intro L h0 h31
    unfold freeList
    apply listBlocks_of_chain _ _ _ _ (hS.chain L h0 (by omega))
    have := hone L
    omega
  have hblk : ∀ L b, b ∈ lvl L free → ValidNode σ (b, L) ∧ blockSize σ.mem b = bsize L := by
    intro L b hb
    have hmem : (b, L) ∈ free := mem_lvl.mp hb
    exact ⟨hS.valid _ (by simp [hmem]), hS.hdr (b, L) (by simp [hmem])⟩
  refine ⟨σ, hσ, eS, ?_, ?_, ?_⟩
  · rw [freeBytes_eq hS (fun L => by have := hone L; omega), hQ.total, hd]
    ring
  · intro L h0 h31
    refine ⟨lvl L free, hfl L h0 h31, hone L, ?_, ?_⟩
    · have hne : lvl L free ≠ [] ↔ ∃ b, (b, L) ∈ free := by
        constructor
        · intro h
          obtain ⟨b, hb⟩ := List.exists_mem_of_ne_nil _ h
          exact ⟨b, mem_lvl.mp hb⟩
        · rintro ⟨b, hb⟩ h
          have := mem_lvl.mpr hb
          rw [h] at this
          simp at this
      rw [hne, hQ.bits L (by omega), hd, eL]
      constructor
      · exact fun h => h.2
      · intro h
        refine ⟨?_, h⟩
        by_contra hc
        have hlt : σ.g_memSize < bsize L := by
          have a1 := @bsize_mono L (31 - n) (by omega)
          have a2 := bsize_pred (32 - n) (by omega)
          have e : 32 - n - 1 = 31 - n := by ring
          rw [e] at a2
          have := bsize_pos (32 - n)
          omega
        rw [Int.ediv_eq_zero_of_lt (by omega) hlt] at h
        simp at h
    · intro b hb
      obtain ⟨hv, hh⟩ := hblk L b hb
      have h5 := hv.lvl_ge hg
      have h31 := hv.hi
      simp only at h5 h31
      rw [hh]
      exact ⟨LevelToSize_eq (by omega) (by omega), Int.emod_eq_zero_of_dvd hv.al, hv.ge, hv.le⟩
  · intro L L' l l' b b' h0 h31 h0' h31' hne hl hl' hb hb'
    rw [hfl L h0 h31] at hl
    rw [hfl L' h0' h31'] at hl'
    have el := Option.some.inj hl
    have el' := Option.some.inj hl'
    subst el
    subst el'
    rw [(hblk L b hb).2, (hblk L' b' hb').2]
    have hfp : free.Pairwise Disj := by
      have := hS.pw
      simpa using this
    exact pw_disj hfp (mem_lvl.mp hb) (mem_lvl.mp hb') (by
      intro e
      exact hne (congrArg Prod.snd e))

set_option maxRecDepth 100000 in
/-- Witness of C17: a pool of 48 bytes at address 4096 is seeded with the 32-byte block
at 4112 on level 30 and the 16-byte block at 4096 on level 31. -/
theorem greedy_seeding_witness :
    (16 : Int) ≤ 48 ∧ (48 : Int) ≤ 1073741824 ∧ (0 : Int) < 4096 ∧
      (seedHeap (blankState zeroMem) 4096 48).map
        (fun σ => (freeList σ 29, freeList σ 30, freeList σ 31, freeBytes σ)) =
        some (some [], some [4112], some [4096], 48) ∧
      ∃ σ, seedHeap (blankState zeroMem) 4096 48 = some σ ∧ σ.g_memSize = 48 / 16 * 16 ∧
        freeBytes σ = σ.g_memSize ∧
        (∀ L, 0 ≤ L → L < MAX_LEVELS → ∃ l, freeList σ L = some l ∧ l.length ≤ 1 ∧
          (l ≠ [] ↔ σ.g_memSize / bsize L % 2 = 1) ∧
          ∀ b ∈ l, LevelToSize L = some (blockSize σ.mem b) ∧
            (b - σ.g_buddyStart) % blockSize σ.mem b = 0 ∧
            σ.g_memStart ≤ b ∧ b + blockSize σ.mem b ≤ σ.g_end) ∧
        (∀ L L' l l' b b', 0 ≤ L → L < MAX_LEVELS → 0 ≤ L' → L' < MAX_LEVELS → L ≠ L' →
          freeList σ L = some l → freeList σ L' = some l' → b ∈ l → b' ∈ l' →
          b + blockSize σ.mem b ≤ b' ∨ b' + blockSize σ.mem b' ≤ b) :=
  ⟨by decide, by decide, by decide, by decide!,
    greedy_seeding (blankState zeroMem) 4096 48 (by decide) (by decide) (by decide) (by decide)⟩

set_option maxRecDepth 100000 in
/-- Counterexample to C17 as stated: for the usable size `2^30 + 16`, a positive multiple
of 16, 28 levels are needed and the size of the buddy region, `1 << 31`, comes out as
`-2147483648`. `g_buddyStart` is then `2^31` bytes above `g_end`, the loop
`while (blockSize >= MIN_SIZE)` of `InitBuddySystem` is not entered, and all free lists
stay empty: the sizes of the seeded blocks sum to 0, not to `g_memSize`, and no list
holds a block although the bits 4 and 30 of `g_memSize` are set. -/
theorem greedy_seeding_overflow :
    (1073741840 : Int) % 16 = 0 ∧ LevelsNeeded 1073741840 = some 28 ∧
      Pow2Int (28 + MIN_SIZE_LOG - 1) = some (-2147483648) ∧
      (seedHeap (blankState zeroMem) 4096 1073741840).map (fun σ =>
          ([σ.g_memSize, σ.g_levelsNum, σ.g_buddySize, σ.g_memStart, σ.g_end, σ.g_buddyStart],
            (List.range 32).map (fun L => σ.g_freeBlocks (L : Int)),
            freeList σ 5, freeList σ 31, freeBytes σ)) =
        some ([1073741840, 28, -2147483648, 4096, 1073745936, 3221229584],
          List.replicate 32 0, some [], some [], 0) ∧
      (1073741840 : Int) / bsize 5 % 2 = 1 ∧ (1073741840 : Int) / bsize 31 % 2 = 1 := by
  decide!

set_option maxRecDepth 100000 in
/-- Claim C16, evaluated on the code: `HeapInit(pool, 16)` has no defined result (the
metadata size `1 << (levelsNum - 3)` is a shift by `-2`), although the geometry that the
statements before it compute for the 16-byte pool is the one the claim describes:
`g_memSize = 16`, `g_buddySize = 16`, `g_buddyStart = g_memStart = pool`,
`g_end = pool + 16`, one level. -/
theorem init_geometry_small :
    HeapInit (blankState zeroMem) 4096 16 = none ∧
      (seedHeap (blankState zeroMem) 4096 16).map (fun σ =>
          [σ.g_memSize, σ.g_buddySize, σ.g_buddyStart, σ.g_memStart, σ.g_end, σ.g_levelsNum]) =
        some [16, 16, 4096, 4096, 4112, 1] :=
  ⟨Option.isNone_iff_eq_none.mp (by decide!), by decide!⟩

/-- Claim C21, on the code: for every size `s` from 1 to 8, `SizeToLevel(s)` is
`35 - Log2Int(s)`, a level from 32 to 35 and not the leaf level 31, and on every
initialised heap `HeapAlloc(s)` has no defined result: `AllocOnLevel` reads
`g_freeBlocks[level]` outside the array of `MAX_LEVELS` heads. Only the sizes 9 to 15
map to the leaf level. -/
theorem small_request_level (s : Int) (h1 : 1 ≤ s) (h2 : s ≤ 8) :
    ∃ L, SizeToLevel s = some L ∧ 32 ≤ L ∧ L ≤ 35 ∧
      ∀ σ : State, 1 ≤ σ.g_levelsNum → HeapAlloc σ s = none := by
  have hL : ∃ L, SizeToLevel s = some L ∧ 32 ≤ L ∧ L ≤ 35 := by
    interval_cases s <;> decide
  obtain ⟨L, e, a, b⟩ := hL
  refine ⟨L, e, a, b, ?_⟩
  intro σ hn
  unfold HeapAlloc
  rw [e]
  simp only
  rw [BuddyAlloc_bad_level σ L hn a]

set_option maxRecDepth 100000 in
/-- Witness of C21: `SizeToLevel(8) = 32`, the sizes 9 and 15 map to level 31, and on
the heap of 2048 bytes `HeapAlloc(8)` has no defined result while `HeapAlloc(16)`
returns a block. -/
theorem small_request_level_witness :
    (1 : Int) ≤ 8 ∧ (8 : Int) ≤ 8 ∧ SizeToLevel 8 = some 32 ∧ SizeToLevel 1 = some 35 ∧
      SizeToLevel 9 = some 31 ∧ SizeToLevel 15 = some 31 ∧ SizeToLevel 16 = some 31 ∧
      (HeapAlloc heap0 8).isNone = true ∧ (HeapAlloc heap0 16).map Prod.snd = some 4128 ∧
      ∃ L, SizeToLevel 8 = some L ∧ 32 ≤ L ∧ L ≤ 35 ∧
        ∀ σ : State, 1 ≤ σ.g_levelsNum → HeapAlloc σ 8 = none :=
  ⟨by decide, by decide, by decide, by decide, by decide, by decide, by decide, by decide!,
    by decide!, small_request_level 8 (by decide) (by decide)⟩

set_option maxRecDepth 100000 in
/-- Claim C22, evaluated on the code. First sequence: `HeapInit(pool, 258048)` on a
zero-filled pool (15 levels, `g_buddyStart = pool - 4096`, metadata block
`[pool, pool + 4096)`), a reachable state, then `HeapFree(pool + 32)`. The pointer passes
both checks, its offset 4128 is not 0, `MaxBlockSizeByAddr` returns 32 and
`TryFreeBlock` returns true; but the header it writes at `pool + 32` lies in the leaf
bitmap and `MarkFree` clears its bits, so `block->size` reads 0, `SizeToLevel(0)` is 35,
`FindBuddy` returns the block itself and `Merge` calls `RemoveFree(buddy, 35)`, which
reads `g_freeBlocks[35]` outside the array: the call has no defined result.
Second sequence: `HeapInit(pool, 2032)`, `HeapFree(pool)` (true), `p = HeapAlloc(64)`,
`HeapFree(p + 16)`. The first `HeapFree` puts the head of `g_freeBlocks[31]` on the list
again, so that its `next` points to itself; in the second one `Merge` looks for the
buddy `p` on that list and the loop of `RemoveFree` returns for no amount of fuel. -/
theorem heap_free_undefined :
    (HeapInit (blankState zeroMem) 4096 258048 = some heapWide ∧ Reachable heapWide [] ∧
      [heapWide.g_memStart, heapWide.g_end, heapWide.g_buddyStart, heapWide.g_metaStart,
        heapWide.g_metaSize, heapWide.g_levelsNum] = [4096, 262144, 0, 4096, 4096, 15] ∧
      MaxBlockSizeByAddr (4128 - heapWide.g_buddyStart) = some 32 ∧
      (TryFreeBlock heapWide 4128).map (fun r => (r.2, blockSize r.1.mem 4128)) =
        some (true, 0) ∧
      SizeToLevel 0 = some 35 ∧
      (TryFreeBlock heapWide 4128).bind (fun r => FindBuddy r.1 4128 (-1)) = some 4128 ∧
      (TryFreeBlock heapWide 4128).bind (fun r => getFree r.1 35) = none ∧
      (TryFreeBlock heapWide 4128).bind (fun r => Merge r.1 4128) = none ∧
      HeapFree heapWide 4128 = none) ∧
    (HeapInit (blankState zeroMem) 4096 2032 = some heapOdd ∧
      [heapOdd.g_memStart, heapOdd.g_end, heapOdd.g_buddyStart, heapOdd.g_metaStart] =
        [4096, 6128, 4080, 4112] ∧
      HeapFree heapOdd 4096 = some (heapOdd1, true) ∧
      getFree heapOdd1 31 = some 4096 ∧ blockNext heapOdd1.mem 4096 = 4096 ∧
      HeapAlloc heapOdd1 64 = some (heapOdd2.1, 4144) ∧
      TryFreeBlock heapOdd2.1 4160 = some (heapOdd3, true) ∧
      FindBuddy heapOdd3 4160 (-1) = some 4144 ∧
      SizeToLevel (blockSize heapOdd3.mem 4160) = some 31 ∧
      getFree heapOdd3 31 = some 4096 ∧ blockNext heapOdd3.mem 4096 = 4096 ∧
      (∀ fuel : Nat, RemoveFreeLoop fuel heapOdd3 4144 4096 = none) ∧
      Merge heapOdd3 4160 = none ∧
      HeapFree heapOdd2.1 4160 = none) := by
  have hW : HeapInit (blankState zeroMem) 4096 258048 = some heapWide :=
    getD_of_isSome (blankState zeroMem) (by decide!)
  have h2 : heapOdd2.2 = 4144 := by decide!
  refine ⟨⟨hW, Reachable.init _ _ 4096 258048 (by decide) (by decide) (by decide) (by decide) hW,
    by decide!, by decide!, by decide!, by decide, by decide!, by decide!,
    Option.isNone_iff_eq_none.mp (by decide!), Option.isNone_iff_eq_none.mp (by decide!)⟩,
    getD_of_isSome (blankState zeroMem) (by decide!), by decide!, ?_, by decide!, by decide!,
    ?_, ?_, by decide!, by decide!, by decide!, by decide!,
    RemoveFreeLoop_cycle heapOdd3 4144 4096 (by decide) (by decide!) (by decide),
    Option.isNone_iff_eq_none.mp (by decide!), Option.isNone_iff_eq_none.mp (by decide!)⟩
  · exact some_of_map_fst heapOdd (by decide!)
  · exact some_of_map_snd (heapOdd1, 0) (by decide!)
  · have e : heapOdd3 = ((TryFreeBlock heapOdd2.1 4160).map Prod.fst).getD heapOdd2.1 := by
      unfold heapOdd3
      rw [h2]
      rfl
    rw [e]
    exact some_of_map_fst heapOdd2.1 (by decide!)

end Buddy
